import Mathlib

/-!
The server registry of dpmaster (`tools/dpmaster/dpmw2/servers.c`).

A shallow embedding of the server list of the master server: the slot array
`servers`, the two hash tables, the slot bookkeeping variables and the
iteration cursors, with the functions of `servers.c` as state transformers.

Conventions of the embedding.

* A chain of a hash table (the records linked through `next` / `prev_ptr`,
  starting at `hash_table[hash]`) is the list of the slot indices met when the
  chain is followed from its head.  `Sv_AddToHashTable` pushes in front of that
  list, `Sv_RemoveFromHashTable` unlinks the record from the chain it is in.
* `int` variables (`last_used_slot`, `first_free_slot`, the cursors) are `Int`,
  `unsigned int nb_servers` is a `Nat` with explicit wrap-around at `2 ^ 32`.
* `assert` lines are not executed (they are the documentation of the code).
* `crt_time` and the timeouts are natural numbers (seconds).
* Addresses hold the raw values the code reads: `s_addr` and the ports are the
  32/16-bit values as stored (network byte order read by a little-endian
  host), the IPv6 address is its four 32-bit words in memory order.
-/

namespace Dpmaster

/-! ## Data model -/

/-- The enumeration `server_state_t`; `sv_state_unused_slot` is the zero value. -/
inductive ServerState
  | sv_state_unused_slot
  | sv_state_uninitialized
  | sv_state_empty
  | sv_state_occupied
  | sv_state_full
  deriving DecidableEq, Repr

/-- A socket address (`struct sockaddr_storage` read as `sockaddr_in` or
`sockaddr_in6` according to `ss_family`). -/
inductive Address
  | ipv4 (s_addr : Nat) (sin_port : Nat)
  | ipv6 (w0 w1 w2 w3 : Nat) (sin6_port : Nat) (sin6_scope_id : Nat)
  deriving DecidableEq, Repr

/-- Is the address of family `AF_INET6`? -/
def Address.isIPv6 : Address → Bool
  | Address.ipv4 _ _ => false
  | Address.ipv6 _ _ _ _ _ _ => true

/-- An address mapping `addrmap_t` once resolved: the `from` and `to` IPv4
endpoints (raw stored values), the two strings being kept for messages only. -/
structure Addrmap where
  from_addr : Nat
  from_port : Nat
  to_addr : Nat
  to_port : Nat
  deriving DecidableEq, Repr

/-- Modelled from the spec: the record type `server_t` of `servers.h` (the
header is not part of the sources at hand).  The fields are those `servers.c`
reads and writes; the chain links `next` and `prev_ptr` are carried by the
hash tables of the registry. -/
structure Server where
  address : Address
  addrlen : Nat
  state : ServerState
  timeout : Nat
  gamename : List Nat
  protocol : Int
  gametype : Int
  mapname : List Nat
  hostname : List Nat
  challenge : List Nat
  challenge_timeout : Nat
  addrmap : Option Addrmap
  deriving DecidableEq, Repr

/-- The all-zero record left by `memset (sv, 0, sizeof (*sv))`.  The zeroed
address is the one the `sockaddr_in` view reads from zeroed storage. -/
def Server.zero : Server :=
  { address := Address.ipv4 0 0, addrlen := 0,
    state := ServerState.sv_state_unused_slot, timeout := 0,
    gamename := [], protocol := 0, gametype := 0, mapname := [], hostname := [],
    challenge := [], challenge_timeout := 0, addrmap := none }

/-- The settings frozen by `Sv_Init` together with the public switches
`allow_loopback`, `hash_ports` and the resolved, sorted mapping list `addrmaps`. -/
structure Config where
  max_nb_servers : Nat
  hash_size : Nat
  max_per_address : Nat
  allow_loopback : Bool
  hash_ports : Bool
  addrmaps : List Addrmap
  deriving DecidableEq, Repr

/-- The private variables of `servers.c` and the clock `crt_time`. -/
structure Registry where
  servers : List Server
  nb_servers : Nat
  hash_table_ipv4 : List (List Nat)
  hash_table_ipv6 : List (List Nat)
  last_used_slot : Int
  first_free_slot : Int
  crt_server_ind : Int
  last_server_ind : Int
  crt_time : Nat
  deriving DecidableEq, Repr

/-- The constant `TIMEOUT_HEARTBEAT`: timeout for a newly added server. -/
def TIMEOUT_HEARTBEAT : Nat := 2

/-- The record `servers[i]`. -/
def Registry.slot (r : Registry) (i : Nat) : Server := r.servers.getD i Server.zero

/-- The chain `hash_table[h]` of the table of one family, head first. -/
def Registry.chain (r : Registry) (v6 : Bool) (h : Nat) : List Nat :=
  if v6 then r.hash_table_ipv6.getD h [] else r.hash_table_ipv4.getD h []

/-- Is the record registered (state other than `sv_state_unused_slot`)? -/
def Server.used (sv : Server) : Bool :=
  decide (sv.state ≠ ServerState.sv_state_unused_slot)

/-- Is slot `i` used (state other than `sv_state_unused_slot`)? -/
def usedSlot (s : List Server) (i : Nat) : Bool := (s.getD i Server.zero).used

/-- Is slot `i` active: used, and not timed out (`timeout >= crt_time`)? -/
def Registry.active (r : Registry) (i : Nat) : Bool :=
  usedSlot r.servers i && decide (r.crt_time ≤ (r.slot i).timeout)

/-! ## Private functions -/

/-- The function `Sv_AddressHash`. -/
def Sv_AddressHash (c : Config) (address : Address) : Nat :=
  let hash0 : Nat :=
    match address with
    | Address.ipv6 w0 w1 _ _ port _ =>
        if c.hash_ports then (w0 ^^^ w1) ^^^ port else w0 ^^^ w1
    | Address.ipv4 a port =>
        if c.hash_ports then a ^^^ port else a
  let hash1 : Nat := (hash0 &&& 0xFFFF) ^^^ (hash0 >>> 16)
  (hash1 ^^^ (hash1 >>> c.hash_size)) &&& ((1 <<< c.hash_size) - 1)

/-- The function `Sv_AddToHashTable`: link slot `sv` in front of chain `hash`
of the table of family `v6`. -/
def Sv_AddToHashTable (r : Registry) (sv : Nat) (hash : Nat) (v6 : Bool) : Registry :=
  if v6 then
    { r with hash_table_ipv6 := r.hash_table_ipv6.set hash (sv :: r.hash_table_ipv6.getD hash []) }
  else
    { r with hash_table_ipv4 := r.hash_table_ipv4.set hash (sv :: r.hash_table_ipv4.getD hash []) }

/-- The function `Sv_RemoveFromHashTable`: unlink slot `sv` from the chain it is
in (the code finds the place through `prev_ptr`, without knowing the table). -/
def Sv_RemoveFromHashTable (r : Registry) (sv : Nat) : Registry :=
  { r with
    hash_table_ipv4 := r.hash_table_ipv4.map (fun b => b.filter (fun j => j != sv)),
    hash_table_ipv6 := r.hash_table_ipv6.map (fun b => b.filter (fun j => j != sv)) }

/-- The loop `do last_used_slot--; while (last_used_slot >= 0 && servers[last_used_slot].state
== sv_state_unused_slot)` of `Sv_Remove`, started with `last_used_slot = n`. -/
def prevUsedSlot (s : List Server) : Nat → Int
  | 0 => -1
  | n + 1 => if usedSlot s n then (n : Int) else prevUsedSlot s n

/-- The function `Sv_Remove` applied to `&servers[sv_ind]`. -/
def Sv_Remove (r : Registry) (sv_ind : Nat) : Registry :=
  let r1 := Sv_RemoveFromHashTable r sv_ind
  let servers1 := r1.servers.set sv_ind
    ({ r1.slot sv_ind with state := ServerState.sv_state_unused_slot })
  let first_free1 : Int :=
    if r1.first_free_slot = -1 ∨ (sv_ind : Int) < r1.first_free_slot then (sv_ind : Int)
    else r1.first_free_slot
  let last_used1 : Int :=
    if r1.last_used_slot = (sv_ind : Int) then prevUsedSlot servers1 sv_ind
    else r1.last_used_slot
  { r1 with
    servers := servers1,
    first_free_slot := first_free1,
    last_used_slot := last_used1,
    last_server_ind := if r1.last_server_ind > last_used1 then last_used1 else r1.last_server_ind,
    crt_server_ind := if r1.crt_server_ind > last_used1 then last_used1 else r1.crt_server_ind,
    nb_servers := (r1.nb_servers + (2 ^ 32 - 1)) % 2 ^ 32 }

/-- The function `Sv_IsActive`: the answer and the state it leaves. -/
def Sv_IsActive (r : Registry) (sv_ind : Nat) : Bool × Registry :=
  if (r.slot sv_ind).state = ServerState.sv_state_unused_slot then (false, r)
  else if (r.slot sv_ind).timeout < r.crt_time then (false, Sv_Remove r sv_ind)
  else (true, r)

/-- The function `Sv_SameIPv4Addr`: the pair (return value, `*same_public_address`).
Storage of the other family is never compared (a record sits in the table of
its family); the model answers `(false, false)` there. -/
def Sv_SameIPv4Addr : Address → Address → Bool × Bool
  | Address.ipv4 a1 p1, Address.ipv4 a2 p2 =>
      if a1 = a2 then (decide (p1 = p2), true) else (false, false)
  | _, _ => (false, false)

/-- The function `Sv_SameIPv6Addr`: the pair (return value, `*same_public_address`).
The two `memcmp` over 8 bytes compare the first two and the last two words. -/
def Sv_SameIPv6Addr : Address → Address → Bool × Bool
  | Address.ipv6 a0 a1 a2 a3 p1 s1, Address.ipv6 b0 b1 b2 b3 p2 s2 =>
      if a0 = b0 ∧ a1 = b1 then
        (decide (s1 = s2 ∧ p1 = p2 ∧ a2 = b2 ∧ a3 = b3), true)
      else (false, false)
  | _, _ => (false, false)

/-- The comparison selected by `Sv_GetByAddr_Internal` from the family of the
address searched for; the first argument is the address of the record. -/
def IsSameAddress (addr1 address : Address) : Bool × Bool :=
  if address.isIPv6 then Sv_SameIPv6Addr addr1 address else Sv_SameIPv4Addr addr1 address

/-- The loop of `Sv_GetByAddr_Internal` over the records of the chain (`next_sv`
is read before the activity check, so the walk follows the chain as it was at
the start).  Result: the record found, `*same_address_found`, the new state. -/
def walkChain (address : Address) (hash : Nat) :
    List Nat → Registry → Nat → Option Nat × Nat × Registry
  | [], r, n => (none, n, r)
  | sv_ind :: rest, r, n =>
      let act := Sv_IsActive r sv_ind
      if act.1 then
        let cmp := IsSameAddress (act.2.slot sv_ind).address address
        let n1 := if cmp.2 then n + 1 else n
        if cmp.1 then
          (some sv_ind, n1,
            Sv_AddToHashTable (Sv_RemoveFromHashTable act.2 sv_ind) sv_ind hash address.isIPv6)
        else walkChain address hash rest act.2 n1
      else walkChain address hash rest act.2 n

/-- The function `Sv_GetByAddr_Internal`. -/
def Sv_GetByAddr_Internal (c : Config) (r : Registry) (address : Address) :
    Option Nat × Nat × Registry :=
  let hash := Sv_AddressHash c address
  walkChain address hash (r.chain address.isIPv6 hash) r 0

/-- The loop `for (ind = ...; ind <= last_used_slot; ind++) Sv_IsActive (ind)`;
`last_used_slot` never grows in the loop, so `last_used_slot + 1 - ind`
rounds are all it can make. -/
def checkLoop : Nat → Nat → Registry → Registry
  | 0, _, r => r
  | fuel + 1, ind, r =>
      if (ind : Int) ≤ r.last_used_slot then checkLoop fuel (ind + 1) (Sv_IsActive r ind).2
      else r

/-- The function `Sv_CheckTimeouts`. -/
def Sv_CheckTimeouts (r : Registry) : Registry :=
  checkLoop (r.last_used_slot + 1).toNat 0 r

/-- The function `Sv_GetAddrmap`, as a loop over the list with the variable `found`. -/
def getAddrmapLoop (s_addr sin_port : Nat) : List Addrmap → Option Addrmap → Option Addrmap
  | [], found => found
  | m :: rest, found =>
      if m.from_addr ≤ s_addr then
        if m.from_addr = s_addr then
          if m.from_port > sin_port then found
          else if m.from_port = sin_port then some m
          else if m.from_port = 0 then getAddrmapLoop s_addr sin_port rest (some m)
          else getAddrmapLoop s_addr sin_port rest found
        else getAddrmapLoop s_addr sin_port rest found
      else found

/-- The function `Sv_GetAddrmap` on the list `addrmaps`. -/
def Sv_GetAddrmap (addrmaps : List Addrmap) (s_addr sin_port : Nat) : Option Addrmap :=
  getAddrmapLoop s_addr sin_port addrmaps none

/-- The conversion `ntohl` on a little-endian host: the four bytes swapped. -/
def ntohl (x : Nat) : Nat :=
  ((x &&& 0xFF) <<< 24) ||| (((x >>> 8) &&& 0xFF) <<< 16) |||
    (((x >>> 16) &&& 0xFF) <<< 8) ||| ((x >>> 24) &&& 0xFF)

/-! ## Public functions -/

/-- The function `Sv_Init`: zeroed slot array and empty hash tables (both
families listened on); the other variables keep their initialisers. -/
def Sv_Init (c : Config) : Registry :=
  { servers := List.replicate c.max_nb_servers Server.zero,
    nb_servers := 0,
    hash_table_ipv4 := List.replicate (1 <<< c.hash_size) [],
    hash_table_ipv6 := List.replicate (1 <<< c.hash_size) [],
    last_used_slot := -1,
    first_free_slot := 0,
    crt_server_ind := -1,
    last_server_ind := -1,
    crt_time := 0 }

/-- The quota test of `Sv_GetByAddr`:
`nb_same_address >= max_per_address && max_per_address != 0`. -/
def quotaReached (c : Config) (nb_same_address : Nat) : Bool :=
  decide (nb_same_address ≥ c.max_per_address ∧ c.max_per_address ≠ 0)

/-- The value of the local `addrmap` of `Sv_GetByAddr` after the loopback block:
it is looked up only inside `if (! allow_loopback)` and only for `AF_INET`. -/
def addrmapLocal (c : Config) (address : Address) : Option Addrmap :=
  if c.allow_loopback then none
  else
    match address with
    | Address.ipv4 a p => Sv_GetAddrmap c.addrmaps a p
    | Address.ipv6 _ _ _ _ _ _ => none

/-- The words of `in6addr_loopback` (`::1`) as read by the host. -/
def in6addr_loopback : Nat × Nat × Nat × Nat := (0, 0, 0, 0x01000000)

/-- The loopback block of `Sv_GetByAddr`: does it return `NULL`? -/
def loopbackRefused (c : Config) (address : Address) : Bool :=
  if c.allow_loopback then false
  else
    match address with
    | Address.ipv4 a p =>
        decide (ntohl a >>> 24 = 127 ∧ Sv_GetAddrmap c.addrmaps a p = none)
    | Address.ipv6 w0 w1 w2 w3 _ _ => decide ((w0, w1, w2, w3) = in6addr_loopback)

/-- The block "if the list is full, check the entries to see if we can free a
slot" of `Sv_GetByAddr`: the state it leaves (the sweep is run only when
`nb_servers == max_nb_servers`). -/
def sweepIfFull (c : Config) (r : Registry) : Registry :=
  if r.nb_servers = c.max_nb_servers then Sv_CheckTimeouts r else r

/-- The loop "look for the next free entry" of `Sv_GetByAddr`, started at `ind`
with `first_free_slot = -1`; `fuel` is `max_nb_servers - ind`. -/
def scanFree (c : Config) : Nat → Nat → Registry → Registry
  | 0, _, r => r
  | fuel + 1, ind, r =>
      if ind < c.max_nb_servers then
        let act := Sv_IsActive r ind
        if act.1 then scanFree c fuel (ind + 1) act.2
        else { act.2 with first_free_slot := (ind : Int) }
      else r

/-- The record `Sv_GetByAddr` leaves in the slot it takes: zeroed, then the
address, `addrlen`, `addrmap`, the state and the timeout written. -/
def newServer (address : Address) (addrlen : Nat) (addrmap : Option Addrmap) (now : Nat) :
    Server :=
  { Server.zero with
    address := address, addrlen := addrlen, addrmap := addrmap,
    state := ServerState.sv_state_uninitialized, timeout := now + TIMEOUT_HEARTBEAT }

/-- The state in which `Sv_GetByAddr` runs the loop looking for the next free
entry: `last_used_slot` raised to the slot taken, `first_free_slot` set to `-1`. -/
def beforeScan (r : Registry) : Registry :=
  { (if r.last_used_slot < r.first_free_slot then { r with last_used_slot := r.first_free_slot }
      else r) with first_free_slot := -1 }

/-- The lines "initialize the structure" of `Sv_GetByAddr`: `memset`, the copy of
the address, `addrlen` and `addrmap`. -/
def initStructure (r : Registry) (sv : Nat) (address : Address) (addrlen : Nat)
    (addrmap : Option Addrmap) : Registry :=
  let sv0 : Server :=
    { Server.zero with address := address, addrlen := addrlen, addrmap := addrmap }
  { r with servers := r.servers.set sv sv0 }

/-- The last lines of `Sv_GetByAddr`: the state and the timeout of the new
record, and `nb_servers++`. -/
def finishServer (r : Registry) (sv : Nat) : Registry :=
  let sv1 : Server :=
    { r.slot sv with
      state := ServerState.sv_state_uninitialized,
      timeout := r.crt_time + TIMEOUT_HEARTBEAT }
  { r with servers := r.servers.set sv sv1, nb_servers := (r.nb_servers + 1) % 2 ^ 32 }

/-- The allocation part of `Sv_GetByAddr` (from "use the first free entry" to
the end): the slot taken and the state left. -/
def allocServer (c : Config) (r : Registry) (address : Address) (addrlen : Nat)
    (addrmap : Option Addrmap) : Nat × Registry :=
  let sv := r.first_free_slot.toNat
  let ind := sv + 1
  let r2 := scanFree c (c.max_nb_servers - ind) ind (beforeScan r)
  let r3 := initStructure r2 sv address addrlen addrmap
  let r4 := Sv_AddToHashTable r3 sv (Sv_AddressHash c address) address.isIPv6
  (sv, finishServer r4 sv)

/-- The function `Sv_GetByAddr`: the record returned (its slot index, `none`
for `NULL`) and the state left. -/
def Sv_GetByAddr (c : Config) (r : Registry) (address : Address) (addrlen : Nat)
    (add_it : Bool) : Option Nat × Registry :=
  let found := Sv_GetByAddr_Internal c r address
  match found.1 with
  | some sv => (some sv, found.2.2)
  | none =>
      if !add_it then (none, found.2.2)
      else if quotaReached c found.2.1 then (none, found.2.2)
      else if loopbackRefused c address then (none, found.2.2)
      else
        let r1 := sweepIfFull c found.2.2
        if r1.nb_servers = c.max_nb_servers then (none, r1)
        else
          let res := allocServer c r1 address addrlen (addrmapLocal c address)
          (some res.1, res.2)

/-- The loop of `Sv_GetNext`.  A round with `last_used_slot + 1 = 0` divides by
zero: no state is left (`none`), as when the rounds allowed are used up. -/
def getNextLoop : Nat → Registry → Option (Option Nat × Registry)
  | 0, r => if r.crt_server_ind ≠ r.last_server_ind then none else some (none, r)
  | fuel + 1, r =>
      if r.crt_server_ind ≠ r.last_server_ind then
        if r.last_used_slot + 1 = 0 then none
        else
          let crt := (r.crt_server_ind + 1) % (r.last_used_slot + 1)
          let act := Sv_IsActive { r with crt_server_ind := crt } crt.toNat
          if act.1 then some (some act.2.crt_server_ind.toNat, act.2)
          else getNextLoop fuel act.2
      else some (none, r)

/-- The function `Sv_GetNext`; the loop gets nearer to `last_server_ind` at
each round, `max_nb_servers + 1` rounds are allowed. -/
def Sv_GetNext (c : Config) (r : Registry) : Option (Option Nat × Registry) :=
  getNextLoop (c.max_nb_servers + 1) r

/-- The function `Sv_GetFirst`, `rnd` being the value drawn by `rand ()`.
With `nb_servers > 0` and `last_used_slot + 1 = 0` the draw divides by zero:
no state is left (`none`). -/
def Sv_GetFirst (c : Config) (r : Registry) (rnd : Nat) : Option (Option Nat × Registry) :=
  if r.nb_servers = 0 then some (none, r)
  else if r.last_used_slot + 1 = 0 then none
  else
    let crt : Int := (rnd : Int) % (r.last_used_slot + 1)
    let last : Int := if crt = 0 then r.last_used_slot else crt - 1
    let act := Sv_IsActive { r with crt_server_ind := crt, last_server_ind := last } crt.toNat
    if act.1 then some (some act.2.crt_server_ind.toNat, act.2)
    else Sv_GetNext c act.2

/-- The loop of `Sv_WriteInfo`: the slots printed (in order) and the state left. -/
def writeInfoLoop : Nat → Nat → Registry → List Nat × Registry
  | 0, _, r => ([], r)
  | fuel + 1, ind, r =>
      if (ind : Int) ≤ r.last_used_slot then
        let act := Sv_IsActive r ind
        let tl := writeInfoLoop fuel (ind + 1) act.2
        if act.1 then (ind :: tl.1, tl.2) else tl
      else ([], r)

/-- The function `Sv_WriteInfo`: one line per slot found active, and the state left. -/
def Sv_WriteInfo (r : Registry) : List Nat × Registry :=
  writeInfoLoop (r.last_used_slot + 1).toNat 0 r

/-! ## Operations on the registry -/

/-- Modelled from the spec: the caller's update of the timeout of a record it
holds (`update_server_fields`, the message handlers are not part of the
sources at hand); a slot that is not used is left alone. -/
def setTimeout (r : Registry) (i : Nat) (t : Nat) : Registry :=
  if usedSlot r.servers i then
    { r with servers := r.servers.set i ({ r.slot i with timeout := t }) }
  else r

/-- The operations the outer loop runs on the registry. -/
inductive Op
  | getByAddr (address : Address) (addrlen : Nat) (add_it : Bool)
  | advanceClock (dt : Nat)
  | setTimeout (i : Nat) (t : Nat)
  | getFirst (rnd : Nat)
  | getNext
  | writeInfo
  deriving DecidableEq, Repr

/-- One operation; `none` when the call leaves no state (see `Sv_GetFirst`). -/
def step (c : Config) (r : Registry) : Op → Option Registry
  | Op.getByAddr address addrlen add_it => some (Sv_GetByAddr c r address addrlen add_it).2
  | Op.advanceClock dt => some { r with crt_time := r.crt_time + dt }
  | Op.setTimeout i t => some (setTimeout r i t)
  | Op.getFirst rnd => (Sv_GetFirst c r rnd).map (fun p => p.2)
  | Op.getNext => (Sv_GetNext c r).map (fun p => p.2)
  | Op.writeInfo => some (Sv_WriteInfo r).2

/-- A sequence of operations run from a state. -/
def run (c : Config) : List Op → Registry → Option Registry
  | [], r => some r
  | op :: ops, r => (step c r op).bind (run c ops)

/-! ## Properties of states -/

/-- Settings the code can run with: `Sv_SetMaxNbServers` refuses `0`, and the
slot indices are held in `int` variables. -/
def Config.ok (c : Config) : Prop := 0 < c.max_nb_servers ∧ c.max_nb_servers < 2 ^ 31

/-- The number of slots whose state is not `sv_state_unused_slot`. -/
def countUsed (s : List Server) : Nat := s.countP Server.used

/-- The value `ff` is the smallest index of an unused slot of `s`, or `-1` when
every slot is used. -/
def FirstFreeOK (s : List Server) (ff : Int) : Prop :=
  (ff = -1 ∧ ∀ i, i < s.length → usedSlot s i = true) ∨
  (∃ k : Nat, ff = (k : Int) ∧ k < s.length ∧ usedSlot s k = false ∧
    ∀ j, j < k → usedSlot s j = true)

/-- The value `lu` is the largest index of a used slot of `s`, or `-1` when no
slot is used. -/
def LastUsedOK (s : List Server) (lu : Int) : Prop :=
  (lu = -1 ∧ ∀ i, i < s.length → usedSlot s i = false) ∨
  (∃ k : Nat, lu = (k : Int) ∧ k < s.length ∧ usedSlot s k = true ∧
    ∀ j, k < j → j < s.length → usedSlot s j = false)

/-- The chains hold exactly the used slots, each once, in the chain its address
hashes to in the table of its family. -/
def ChainsOK (c : Config) (r : Registry) : Prop :=
  r.hash_table_ipv4.length = 2 ^ c.hash_size ∧
  r.hash_table_ipv6.length = 2 ^ c.hash_size ∧
  (∀ v6 h i, i ∈ r.chain v6 h →
    usedSlot r.servers i = true ∧ (r.slot i).address.isIPv6 = v6 ∧
      Sv_AddressHash c (r.slot i).address = h) ∧
  (∀ v6 h, (r.chain v6 h).Nodup) ∧
  (∀ i, usedSlot r.servers i = true →
    i ∈ r.chain (r.slot i).address.isIPv6 (Sv_AddressHash c (r.slot i).address))

/-- The part of the state invariant that holds at every point of the code. -/
def Core (c : Config) (r : Registry) : Prop :=
  r.servers.length = c.max_nb_servers ∧
  r.nb_servers = countUsed r.servers ∧
  ChainsOK c r

/-- No two used slots hold the same address. -/
def UniqueAddr (r : Registry) : Prop :=
  ∀ i j, usedSlot r.servers i = true → usedSlot r.servers j = true →
    (r.slot i).address = (r.slot j).address → i = j

/-- The records of `s` that are registered and have the same public host as `a`
(`timeout >= now` being asked for as well when `unexpiredOnly` is set). -/
def samePublicRecords (s : List Server) (now : Nat) (unexpiredOnly : Bool) (a : Address) :
    List Server :=
  s.filter (fun sv =>
    sv.used && ((!unexpiredOnly || decide (now ≤ sv.timeout)) && (IsSameAddress sv.address a).2))

/-- With ports left out of the hash and a quota set, no public host has more
registered records than the quota. -/
def QuotaOK (c : Config) (r : Registry) : Prop :=
  c.hash_ports = false → c.max_per_address ≠ 0 →
    ∀ a, (samePublicRecords r.servers r.crt_time false a).length ≤ c.max_per_address

/-- From `r` to `q` records were only evicted: every slot of `q` is as in `r`
or unused, and the clock is the same. -/
def Shrinks (r q : Registry) : Prop :=
  q.servers.length = r.servers.length ∧ q.crt_time = r.crt_time ∧
    ∀ j, q.slot j = r.slot j ∨ usedSlot q.servers j = false

/-- The effect of a piece of code that only looks up and evicts: the core
invariant is kept, records are only evicted, and the first free slot stays right. -/
def Evolves (c : Config) (r q : Registry) : Prop :=
  Core c q ∧ Shrinks r q ∧
    (FirstFreeOK r.servers r.first_free_slot → FirstFreeOK q.servers q.first_free_slot)

/-- Does slot `k` stay in its chain when a walk passes the slots `pre` and moves
slot `i` to the head: it is not `i`, and not a timed-out record among `pre`. -/
def keptByWalk (r : Registry) (pre : List Nat) (i k : Nat) : Bool :=
  (k != i) && !(decide (k ∈ pre) && (usedSlot r.servers k &&
    decide ((r.slot k).timeout < r.crt_time)))

/-- The invariant of the states between two calls. -/
def Inv (c : Config) (r : Registry) : Prop :=
  Core c r ∧ FirstFreeOK r.servers r.first_free_slot ∧ UniqueAddr r ∧ QuotaOK c r

/-! ## Concrete settings, addresses and runs -/

/-- The endpoint 10.0.0.1:100. -/
def hostA100 : Address := Address.ipv4 0x0100000A 0x6400

/-- The endpoint 10.0.0.1:200. -/
def hostA200 : Address := Address.ipv4 0x0100000A 0xC800

/-- The endpoint 10.0.0.1:300. -/
def hostA300 : Address := Address.ipv4 0x0100000A 0x2C01

/-- The endpoint 11.0.0.1:100. -/
def hostB100 : Address := Address.ipv4 0x0100000B 0x6400

/-- The endpoint 12.0.0.1:100. -/
def hostC100 : Address := Address.ipv4 0x0100000C 0x6400

/-- The endpoint 1.2.3.4:27950. -/
def mapped27950 : Address := Address.ipv4 0x04030201 0x2E6D

/-- The endpoint 127.0.0.1:27950. -/
def loopback27950 : Address := Address.ipv4 0x0100007F 0x2E6D

/-- The mapping `1.2.3.4=9.9.9.9:9000` (no port on the left: a wildcard). -/
def wildcardMapping : Addrmap :=
  { from_addr := 0x04030201, from_port := 0, to_addr := 0x09090909, to_port := 0x2823 }

/-- The mapping `127.0.0.1=9.9.9.9` (a wildcard for the loopback address). -/
def loopbackMapping : Addrmap :=
  { from_addr := 0x0100007F, from_port := 0, to_addr := 0x09090909, to_port := 0 }

/-- Four slots, sixteen chains, two servers per address, loopback allowed. -/
def baseConfig : Config :=
  { max_nb_servers := 4, hash_size := 4, max_per_address := 2, allow_loopback := true,
    hash_ports := false, addrmaps := [] }

/-- One server per address, with the ports taken into the hash. -/
def portsConfig : Config :=
  { max_nb_servers := 4, hash_size := 4, max_per_address := 1, allow_loopback := true,
    hash_ports := true, addrmaps := [] }

/-- Loopback refused, with the wildcard mapping of 1.2.3.4. -/
def mappingConfig : Config :=
  { max_nb_servers := 4, hash_size := 4, max_per_address := 2, allow_loopback := false,
    hash_ports := false, addrmaps := [wildcardMapping] }

/-- Loopback allowed (the initial value of `allow_loopback`), with the wildcard
mapping of 1.2.3.4. -/
def mappingLoopbackConfig : Config :=
  { max_nb_servers := 4, hash_size := 4, max_per_address := 2, allow_loopback := true,
    hash_ports := false, addrmaps := [wildcardMapping] }

/-- Loopback refused, with the wildcard mapping of 127.0.0.1. -/
def loopbackMappingConfig : Config :=
  { max_nb_servers := 4, hash_size := 4, max_per_address := 2, allow_loopback := false,
    hash_ports := false, addrmaps := [loopbackMapping] }

/-- A single slot, loopback refused. -/
def oneSlotConfig : Config :=
  { max_nb_servers := 1, hash_size := 4, max_per_address := 2, allow_loopback := false,
    hash_ports := false, addrmaps := [] }

/-- Two servers are added one second apart; the first one times out and is
evicted by a lookup; the second one times out; a third server of another chain
is added. -/
def lostSlotOps : List Op :=
  [Op.getByAddr hostA100 16 true, Op.advanceClock 1, Op.getByAddr hostB100 16 true,
    Op.advanceClock 2, Op.getByAddr hostA100 16 false, Op.advanceClock 1,
    Op.getByAddr hostC100 16 true]

/-- The state `lostSlotOps` leads to. -/
def lostSlotState : Registry :=
  (run baseConfig lostSlotOps (Sv_Init baseConfig)).getD (Sv_Init baseConfig)

/-- Two servers of the host 10.0.0.1 are added in the same second. -/
def twoOnHostOps : List Op :=
  [Op.getByAddr hostA100 16 true, Op.getByAddr hostA200 16 true]

/-- The state `twoOnHostOps` leads to. -/
def twoOnHostState : Registry :=
  (run baseConfig twoOnHostOps (Sv_Init baseConfig)).getD (Sv_Init baseConfig)

/-- Two servers of the host 10.0.0.1 are added one second apart, and the clock
goes on until the first one has timed out. -/
def oneExpiredOps : List Op :=
  [Op.getByAddr hostA100 16 true, Op.advanceClock 1, Op.getByAddr hostA200 16 true,
    Op.advanceClock 2]

/-- The state `oneExpiredOps` leads to. -/
def oneExpiredState : Registry :=
  (run baseConfig oneExpiredOps (Sv_Init baseConfig)).getD (Sv_Init baseConfig)

/-- With the ports in the hash: two servers of the host 10.0.0.1 are added. -/
def portsOps : List Op :=
  [Op.getByAddr hostA100 16 true, Op.getByAddr hostA300 16 true]

/-- The single slot is taken by a server. -/
def oneSlotState : Registry :=
  (run oneSlotConfig [Op.getByAddr hostA100 16 true] (Sv_Init oneSlotConfig)).getD
    (Sv_Init oneSlotConfig)

/-! ## The address mapping list -/

/-- The order of the list `addrmaps`: by `from` address, then by `from` port
(the raw stored values, as the code compares them). -/
def keyLt (m1 m2 : Addrmap) : Prop :=
  m1.from_addr < m2.from_addr ∨ (m1.from_addr = m2.from_addr ∧ m1.from_port < m2.from_port)

instance keyLtDecidable : DecidableRel keyLt := fun m1 m2 =>
  inferInstanceAs (Decidable
    (m1.from_addr < m2.from_addr ∨ (m1.from_addr = m2.from_addr ∧ m1.from_port < m2.from_port)))

/-- The order `keyLt` or the same key. -/
def keyLe (m1 m2 : Addrmap) : Prop :=
  m1.from_addr < m2.from_addr ∨ (m1.from_addr = m2.from_addr ∧ m1.from_port ≤ m2.from_port)

instance keyLeDecidable : DecidableRel keyLe := fun m1 m2 =>
  inferInstanceAs (Decidable
    (m1.from_addr < m2.from_addr ∨ (m1.from_addr = m2.from_addr ∧ m1.from_port ≤ m2.from_port)))

/-- Two mappings with the same `from` address and port. -/
def sameKey (m1 m2 : Addrmap) : Prop :=
  m1.from_addr = m2.from_addr ∧ m1.from_port = m2.from_port

instance sameKeyDecidable : DecidableRel sameKey := fun m1 m2 =>
  inferInstanceAs (Decidable (m1.from_addr = m2.from_addr ∧ m1.from_port = m2.from_port))

/-- The mappings of the list have pairwise distinct keys. -/
def distinctKeys (l : List Addrmap) : Prop :=
  l.Pairwise (fun m1 m2 => ¬ sameKey m1 m2)

/-- The loop of `Sv_InsertAddrmapIntoList` with the insertion at `*prev`: the new
list, or `none` when the function returns `false` (a mapping is already
recorded for the address). -/
def insertAddrmapLoop (new_map : Addrmap) : List Addrmap → Option (List Addrmap)
  | [] => some [new_map]
  | addrmap :: rest =>
      if addrmap.from_addr ≤ new_map.from_addr then
        if addrmap.from_addr = new_map.from_addr ∧ addrmap.from_port ≥ new_map.from_port then
          if addrmap.from_port = new_map.from_port then none
          else some (new_map :: addrmap :: rest)
        else (insertAddrmapLoop new_map rest).map (fun l => addrmap :: l)
      else some (new_map :: addrmap :: rest)

/-- The function `Sv_InsertAddrmapIntoList`: its return value and the list
`addrmaps` it leaves. -/
def Sv_InsertAddrmapIntoList (new_map : Addrmap) (addrmaps : List Addrmap) :
    Bool × List Addrmap :=
  match insertAddrmapLoop new_map addrmaps with
  | none => (false, addrmaps)
  | some l => (true, l)

/-- The loop "build the sorted list" of `Sv_ResolveAddressMappings`: the
mappings `pending` are inserted one by one, in their order, into the list
`addrmaps` (empty at the start); the return value and the list left. -/
def buildSortedList : List Addrmap → List Addrmap → Bool × List Addrmap
  | [], addrmaps => (true, addrmaps)
  | addrmap :: next_addrmap, addrmaps =>
      if (Sv_InsertAddrmapIntoList addrmap addrmaps).1 then
        buildSortedList next_addrmap (Sv_InsertAddrmapIntoList addrmap addrmaps).2
      else (false, (Sv_InsertAddrmapIntoList addrmap addrmaps).2)

/-- The mapping `1.2.3.4:27950=8.8.8.8:8000`. -/
def exactMapping : Addrmap :=
  { from_addr := 0x04030201, from_port := 0x2E6D, to_addr := 0x08080808, to_port := 0x401F }

/-- The mapping `1.2.3.4:100=8.8.8.8:8000`. -/
def port100Mapping : Addrmap :=
  { from_addr := 0x04030201, from_port := 0x6400, to_addr := 0x08080808, to_port := 0x401F }

/-- The mapping `5.6.7.8=9.9.9.9`. -/
def otherMapping : Addrmap :=
  { from_addr := 0x08070605, from_port := 0, to_addr := 0x09090909, to_port := 0 }

/-! ## Evictions and iteration -/

/-- The record once `Sv_Remove` has marked it free. -/
def Server.evicted (sv : Server) : Server :=
  { sv with state := ServerState.sv_state_unused_slot }

/-- Is slot `i` used and timed out (`timeout < crt_time`)? -/
def Registry.expired (r : Registry) (i : Nat) : Bool :=
  usedSlot r.servers i && decide ((r.slot i).timeout < r.crt_time)

/-- From `r` to `q` the clock has not moved and every slot is as it was, or held
a timed-out record and holds it marked free. -/
def EvictedSlots (r q : Registry) : Prop :=
  q.crt_time = r.crt_time ∧ q.servers.length = r.servers.length ∧
  ∀ j, q.slot j = r.slot j ∨ (r.expired j = true ∧ q.slot j = (r.slot j).evicted)

/-- From `r` to `q` timed-out records were evicted and nothing else happened to
the records and to the chains: every chain is the old one without the slots
that are now free. -/
def EvictedOnly (r q : Registry) : Prop :=
  EvictedSlots r q ∧
  ∀ v6 h, q.chain v6 h = (r.chain v6 h).filter (fun j => usedSlot q.servers j)

/-- While the last slot of the array is used, `last_used_slot` is its index
(what `assert (last_used_slot == (int)max_nb_servers - 1)` says of a full list). -/
def LastSlotOK (c : Config) (r : Registry) : Prop :=
  r.last_used_slot < (c.max_nb_servers : Int) ∧
  (usedSlot r.servers (c.max_nb_servers - 1) = true →
    r.last_used_slot = (c.max_nb_servers : Int) - 1)

/-- The calls of `Sv_GetNext` that follow a `Sv_GetFirst`, up to the first
`NULL`: the slots returned, `none` when `calls` calls have not reached `NULL`
or a call leaves no state. -/
def collectNext (c : Config) : Nat → Registry → Option (List Nat)
  | 0, _ => none
  | calls + 1, r =>
      match Sv_GetNext c r with
      | none => none
      | some (none, _) => some []
      | some (some k, q) => (collectNext c calls q).map (fun l => k :: l)

/-- The iteration `Sv_GetFirst`, `Sv_GetNext`, ... up to the first `NULL`: the
slots returned, in order. -/
def iterateAll (c : Config) (r : Registry) (rnd : Nat) (calls : Nat) : Option (List Nat) :=
  match Sv_GetFirst c r rnd with
  | none => none
  | some (none, _) => some []
  | some (some k, q) => (collectNext c calls q).map (fun l => k :: l)

/-- What the caller does between `Sv_GetFirst` and the end of an iteration: a
call of `Sv_GetNext`, or a call of `Sv_Remove` on a record. -/
inductive IterAction
  | next
  | remove (i : Nat)
  deriving DecidableEq, Repr

/-- The results of the `Sv_GetNext` calls of a sequence of actions, and the
state left; `none` when a call leaves no state. -/
def iterCalls (c : Config) : List IterAction → Registry → Option (List (Option Nat) × Registry)
  | [], r => some ([], r)
  | IterAction.next :: rest, r =>
      match Sv_GetNext c r with
      | none => none
      | some res => (iterCalls c rest res.2).map (fun p => (res.1 :: p.1, p.2))
  | IterAction.remove i :: rest, r => iterCalls c rest (Sv_Remove r i)

/-- The number of `Sv_GetNext` calls in a sequence of actions. -/
def countNext (acts : List IterAction) : Nat :=
  acts.countP (fun a => decide (a = IterAction.next))

/-- Three servers are added and time out; the first one is evicted by a lookup; a
fourth server is added, which takes slot 0 while the scan of `Sv_GetByAddr`
evicts slot 1; a fifth server is added, which takes slot 1 while the scan
evicts slot 2. -/
def shortIterationOps : List Op :=
  [Op.getByAddr hostA100 16 true, Op.getByAddr hostB100 16 true,
    Op.getByAddr hostC100 16 true, Op.advanceClock 3, Op.getByAddr hostA100 16 false,
    Op.getByAddr (Address.ipv4 0x0100000D 0x6400) 16 true,
    Op.getByAddr (Address.ipv4 0x0100000E 0x6400) 16 true]

/-- The state `shortIterationOps` leads to. -/
def shortIterationState : Registry :=
  (run baseConfig shortIterationOps (Sv_Init baseConfig)).getD (Sv_Init baseConfig)

/-- Two slots, loopback allowed. -/
def twoSlotConfig : Config :=
  { max_nb_servers := 2, hash_size := 4, max_per_address := 2, allow_loopback := true,
    hash_ports := false, addrmaps := [] }

/-- Two servers fill the list, their timeouts are set to `crt_time + 1`, and the
clock goes on by two seconds. -/
def fullExpiredOps : List Op :=
  [Op.getByAddr hostA100 16 true, Op.getByAddr hostB100 16 true, Op.setTimeout 0 1,
    Op.setTimeout 1 1, Op.advanceClock 2]

/-- The state `fullExpiredOps` leads to. -/
def fullExpiredState : Registry :=
  (run twoSlotConfig fullExpiredOps (Sv_Init twoSlotConfig)).getD (Sv_Init twoSlotConfig)

/-- Two servers fill the list and have not timed out. -/
def fullFreshState : Registry :=
  (run twoSlotConfig [Op.getByAddr hostA100 16 true, Op.getByAddr hostB100 16 true]
    (Sv_Init twoSlotConfig)).getD (Sv_Init twoSlotConfig)

/-- Does the action leave the odd slots alone: a call of `Sv_GetNext`, or the
removal of an even slot below 10? -/
def IterAction.evictsEven : IterAction → Bool
  | IterAction.next => true
  | IterAction.remove i => decide (i % 2 = 0 ∧ i < 10)

/-- An iteration with the caller's actions: the result of `Sv_GetFirst`, then
the results of the `Sv_GetNext` calls among the actions. -/
def iterateWith (c : Config) (r : Registry) (rnd : Nat) (acts : List IterAction) :
    Option (List (Option Nat)) :=
  match Sv_GetFirst c r rnd with
  | none => none
  | some first => (iterCalls c acts first.2).map (fun p => first.1 :: p.1)

/-- The endpoint `(10 + i).0.0.1:100`. -/
def tenHost (i : Nat) : Address := Address.ipv4 (0x0100000A + i) 0x6400

/-- Eleven slots, chains of their own for the endpoints `tenHost 0` to
`tenHost 21`, no quota, loopback allowed. -/
def elevenSlotConfig : Config :=
  { max_nb_servers := 11, hash_size := 5, max_per_address := 0, allow_loopback := true,
    hash_ports := false, addrmaps := [] }

/-- Eleven servers fill the slots 0 to 10 and time out; the first one is evicted
by a lookup; ten new servers are added one after the other: each takes the
lowest free slot while the scan of `Sv_GetByAddr` evicts the timed-out record
of the slot after it, the last one taking slot 9 while the scan evicts slot 10. -/
def oddMissedOps : List Op :=
  (List.range 11).map (fun i => Op.getByAddr (tenHost i) 16 true) ++
    [Op.advanceClock 3, Op.getByAddr (tenHost 0) 16 false] ++
    (List.range 10).map (fun i => Op.getByAddr (tenHost (11 + i)) 16 true)

/-- The state `oddMissedOps` leads to. -/
def oddMissedState : Registry :=
  (run elevenSlotConfig oddMissedOps (Sv_Init elevenSlotConfig)).getD (Sv_Init elevenSlotConfig)

/-- The caller removes the even slots right after `Sv_GetFirst`, then calls
`Sv_GetNext` twelve times. -/
def evenEvictions : List IterAction :=
  [IterAction.remove 0, IterAction.remove 2, IterAction.remove 4, IterAction.remove 6,
    IterAction.remove 8] ++ List.replicate 12 IterAction.next

/-- An iteration over the slots `0 .. 9` that started at slot `s` and has gone
`p` slots further: `last_used_slot` is 9, the cursors are `(s + p) % 10` and
`(s + 9) % 10`, the odd slots are active and no slot below 10 holds a
timed-out record. -/
def IterInv (s p : Nat) (r : Registry) : Prop :=
  r.last_used_slot = 9 ∧ r.crt_server_ind = (((s + p) % 10 : Nat) : Int) ∧
  r.last_server_ind = (((s + 9) % 10 : Nat) : Int) ∧ p ≤ 9 ∧ s < 10 ∧
  (∀ i, i < 10 → i % 2 = 1 → r.active i = true) ∧ (∀ i, i < 10 → r.expired i = false)

/-- The list `l` holds once each odd slot that is at most `p` slots after `s`
(going round the slots `0 .. 9`), and no other odd slot. -/
def OddOnce (s p : Nat) (l : List Nat) : Prop :=
  ∀ i, i < 10 → i % 2 = 1 → l.count i = if (i + 10 - s) % 10 ≤ p then 1 else 0

/-- Ten slots, no quota, loopback allowed. -/
def tenSlotConfig : Config :=
  { max_nb_servers := 10, hash_size := 4, max_per_address := 0, allow_loopback := true,
    hash_ports := false, addrmaps := [] }

/-- Ten servers fill the slots 0 to 9. -/
def tenServersOps : List Op :=
  (List.range 10).map (fun i => Op.getByAddr (tenHost i) 16 true)

/-- The state `tenServersOps` leads to. -/
def tenServersState : Registry :=
  (run tenSlotConfig tenServersOps (Sv_Init tenSlotConfig)).getD (Sv_Init tenSlotConfig)

/-! ## The hash as the specification words it -/

/-- The first step of the hash in the specification's words: the 32-bit IPv4
address, or the XOR of the first two 32-bit words of the IPv6 address. -/
def referenceStart : Address → Nat
  | Address.ipv4 s_addr _ => s_addr
  | Address.ipv6 w0 w1 _ _ _ _ => w0 ^^^ w1

/-- The 16-bit port of an address. -/
def Address.port : Address → Nat
  | Address.ipv4 _ sin_port => sin_port
  | Address.ipv6 _ _ _ _ sin6_port _ => sin6_port

/-- The hash in the specification's words: `h0` is `referenceStart`, XORed
with the port when `hash_ports` is on; `h1 = (h0 & 0xFFFF) ^ (h0 >> 16)`; the
result is `(h1 ^ (h1 >> hash_size)) & ((1 << hash_size) - 1)`. -/
def referenceHash (hash_size : Nat) (hash_ports : Bool) (address : Address) : Nat :=
  let h0 := if hash_ports then referenceStart address ^^^ address.port else referenceStart address
  let h1 := (h0 &&& 0xFFFF) ^^^ (h0 >>> 16)
  (h1 ^^^ (h1 >>> hash_size)) &&& ((1 <<< hash_size) - 1)

/-- The endpoint `[2001:db8::1]:100`, scope 0 (words as read by the host). -/
def hostV6 : Address := Address.ipv6 0xB80D0120 0 0 0x01000000 0x6400 0

/-! ## Games management (`games.c`) -/

/-- The library function `strcmp` on two C strings, each given by the list of
its bytes without the terminating zero: zero for equal strings, otherwise the
difference of the first bytes that differ, the end of a string counting as
smaller than any byte. -/
def strcmp : List Nat → List Nat → Int
  | [], [] => 0
  | [], _ :: _ => -1
  | _ :: _, [] => 1
  | a :: s1, b :: s2 => if a = b then strcmp s1 s2 else (a : Int) - (b : Int)

/-- The conversion of a value to `int` (32 bits, two's complement). -/
def toInt (x : Int) : Int := (x + 2147483648) % 4294967296 - 2147483648

/-- The conversion of a value to `unsigned int` (32 bits). -/
def toUnsigned (x : Int) : Nat := (x % 4294967296).toNat

/-- The private variables of `games.c`: the array `game_names` (`none` for
`NULL`; `nb_game_names` is its length) and the flag `reject_when_known`. -/
structure Games where
  game_names : Option (List (List Nat))
  reject_when_known : Bool
  deriving DecidableEq, Repr

/-- The initial values of the private variables. -/
def Games.initial : Games := { game_names := none, reject_when_known := true }

/-- The game names stored, in the order of the array. -/
def Games.names (s : Games) : List (List Nat) := s.game_names.getD []

/-- The variable `nb_game_names`. -/
def Games.nb_game_names (s : Games) : Nat := s.names.length

/-- The values of `cmdline_status_t` that `Game_DeclarePolicy` returns. -/
inductive cmdline_status_t
  | CMDLINE_STATUS_OK
  | CMDLINE_STATUS_INVALID_OPT_PARAMS
  | CMDLINE_STATUS_NOT_ENOUGH_MEMORY
  deriving DecidableEq, Repr

/-- The loop `while (left <= right)` of `Game_Find` on the array `game_names`:
the answer and the index in `int`; `none` when the rounds allowed are used up.
The sum `left + right` is taken in `int`, the division is the one of C. -/
def findLoop (game_names : List (List Nat)) (game_name : List Nat) :
    Nat → Int → Int → Option (Bool × Int)
  | 0, left, right => if left ≤ right then none else some (false, left)
  | fuel + 1, left, right =>
      if left ≤ right then
        let middle := Int.tdiv (toInt (left + right)) 2
        let diff := strcmp (game_names.getD middle.toNat []) game_name
        if diff = 0 then some (true, middle)
        else if diff > 0 then findLoop game_names game_name fuel left (toInt (middle - 1))
        else findLoop game_names game_name fuel (toInt (middle + 1)) right
      else some (false, left)

/-- The function `Game_Find`: the answer and `*index_ptr`.  Each round of the
loop makes `right - left` smaller, so `nb_game_names` rounds are allowed. -/
def Game_Find (s : Games) (game_name : List Nat) : Option (Bool × Nat) :=
  match s.game_names with
  | none => some (false, 0)
  | some names =>
      (findLoop names game_name names.length 0
        (toInt (toUnsigned ((names.length : Int) - 1)))).map (fun p => (p.1, toUnsigned p.2))

/-- The string `"accept"`. -/
def acceptWord : List Nat := [97, 99, 99, 101, 112, 116]

/-- The string `"reject"`. -/
def rejectWord : List Nat := [114, 101, 106, 101, 99, 116]

/-- The loop `for (i = 0; i < nb_games; i++)` of `Game_DeclarePolicy` from
index `i` on, `games` being the names left; `mem j` tells whether the
`realloc` of round `j` succeeds.  The new array has the game at `index` and
the entries from `index` on moved one place up. -/
def insertLoop (mem : Nat → Bool) : Nat → List (List Nat) → Games →
    Option (cmdline_status_t × Games)
  | _, [], s => some (cmdline_status_t.CMDLINE_STATUS_OK, s)
  | i, game :: rest, s =>
      match Game_Find s game with
      | none => none
      | some (true, _) => insertLoop mem (i + 1) rest s
      | some (false, index) =>
          if mem i then
            insertLoop mem (i + 1) rest
              { s with game_names := some (s.names.take index ++ game :: s.names.drop index) }
          else some (cmdline_status_t.CMDLINE_STATUS_NOT_ENOUGH_MEMORY, s)

/-- The part of `Game_DeclarePolicy` after the policy word is read. -/
def declareWith (s : Games) (new_reject_when_known : Bool) (games : List (List Nat))
    (mem : Nat → Bool) : Option (cmdline_status_t × Games) :=
  match s.game_names with
  | none => insertLoop mem 0 games { s with reject_when_known := new_reject_when_known }
  | some _ =>
      if new_reject_when_known ≠ s.reject_when_known then
        some (cmdline_status_t.CMDLINE_STATUS_INVALID_OPT_PARAMS, s)
      else insertLoop mem 0 games s

/-- The function `Game_DeclarePolicy`: the status returned and the state left
(`none` when `Game_Find` gives no answer). -/
def Game_DeclarePolicy (s : Games) (policy : List Nat) (games : List (List Nat))
    (mem : Nat → Bool) : Option (cmdline_status_t × Games) :=
  if strcmp policy acceptWord = 0 then declareWith s false games mem
  else if strcmp policy rejectWord = 0 then declareWith s true games mem
  else some (cmdline_status_t.CMDLINE_STATUS_INVALID_OPT_PARAMS, s)

/-- The function `Game_IsAccepted`. -/
def Game_IsAccepted (s : Games) (game_name : List Nat) : Option Bool :=
  (Game_Find s game_name).map (fun p => xor p.1 s.reject_when_known)

/-- A call of `Game_DeclarePolicy`: its arguments and the answers of `realloc`. -/
structure DeclareCall where
  policy : List Nat
  games : List (List Nat)
  mem : Nat → Bool

/-- A sequence of calls of `Game_DeclarePolicy`: the statuses returned and the
state left. -/
def declareRun : List DeclareCall → Games → Option (List cmdline_status_t × Games)
  | [], s => some ([], s)
  | call :: rest, s =>
      match Game_DeclarePolicy s call.policy call.games call.mem with
      | none => none
      | some res => (declareRun rest res.2).map (fun p => (res.1 :: p.1, p.2))

/-- The number of names a sequence of calls carries. -/
def totalGames (calls : List DeclareCall) : Nat :=
  (calls.map (fun call => call.games.length)).sum

/-- The order of the array `game_names`: `strcmp` is negative. -/
def nameLt (a b : List Nat) : Prop := strcmp a b < 0

instance nameLtDecidable : DecidableRel nameLt := fun a b =>
  inferInstanceAs (Decidable (strcmp a b < 0))

/-- The invariant of the private variables: the array is strictly increasing,
and it is `NULL` as long as it has no entry. -/
def GamesOK (s : Games) : Prop :=
  s.names.Pairwise nameLt ∧ s.game_names ≠ some []

/-- The mode of the last call with a valid policy word (`true` for `"reject"`),
`start` when there is none. -/
def lastWord (start : Bool) : List DeclareCall → Bool
  | [] => start
  | call :: rest =>
      lastWord (if strcmp call.policy acceptWord = 0 then false
        else if strcmp call.policy rejectWord = 0 then true else start) rest

/-- The mode of a policy word: `some false` for `"accept"`, `some true` for
`"reject"`, `none` for any other word. -/
def wordMode (policy : List Nat) : Option Bool :=
  if strcmp policy acceptWord = 0 then some false
  else if strcmp policy rejectWord = 0 then some true
  else none

/-- The name `quake3`. -/
def quake3 : List Nat := [113, 117, 97, 107, 101, 51]

/-- The name `doom`. -/
def doom : List Nat := [100, 111, 111, 109]

/-- The name `quake`. -/
def quake : List Nat := [113, 117, 97, 107, 101]

/-- An allocator that never fails. -/
def memOK : Nat → Bool := fun _ => true

/-- A call `accept` with the names given, the allocations succeeding. -/
def acceptCall (games : List (List Nat)) : DeclareCall :=
  { policy := acceptWord, games := games, mem := memOK }

/-- A call `reject` with the names given, the allocations succeeding. -/
def rejectCall (games : List (List Nat)) : DeclareCall :=
  { policy := rejectWord, games := games, mem := memOK }

/-- The state after `accept quake3`. -/
def quakeOnlyState : Games := { game_names := some [quake3], reject_when_known := false }

/-- The state after `accept` without names. -/
def acceptNothingState : Games := { game_names := none, reject_when_known := false }

/-! ## The resolution of the address mappings -/

/-- What the C library answers to `Sv_ResolveIPv4Addr`: `gethostbyname` (for a
host name: `none` for `NULL`, else `h_addrtype` and the four bytes of `h_addr`
as `s_addr` holds them), and `strtol` with base 0 (the value and the number of
characters read). -/
structure Resolver where
  gethostbyname : List Nat → Option (Nat × Nat)
  strtol : List Nat → Int × Nat

/-- The constant `AF_INET`. -/
def AF_INET : Nat := 2

/-- The conversion `htons` on a little-endian host: the two bytes swapped. -/
def htons (x : Nat) : Nat := ((x &&& 0xFF) <<< 8) ||| ((x >>> 8) &&& 0xFF)

/-- The function `Sv_ResolveIPv4Addr` on the string `name` (its bytes) and the
structure `*addr` (the pair `s_addr`, `sin_port`): the return value and `*addr`
as the call leaves it.  The work copy of the name is taken to be allocated;
58 is the character `:`. -/
def Sv_ResolveIPv4Addr (lib : Resolver) (name : List Nat) (addr : Nat × Nat) :
    Bool × (Nat × Nat) :=
  let namecpy := name.takeWhile (fun ch => ch != 58)
  let port : Option (List Nat) :=
    match name.dropWhile (fun ch => ch != 58) with
    | [] => none
    | _ :: rest => some rest
  match lib.gethostbyname namecpy with
  | none => (false, addr)
  | some host =>
      if host.1 ≠ AF_INET then (false, addr)
      else
        match port with
        | none => (true, (host.2, 0))
        | some port =>
            let conv := lib.strtol port
            let port_num := (conv.1 % 65536).toNat
            if conv.2 = 0 ∨ conv.2 ≠ port.length ∨ port_num = 0 then (false, (host.2, 0))
            else (true, (host.2, htons port_num))

/-- An `addrmap_t` of the list `addrmaps` as `Sv_AddAddressMapping` links it:
its two strings, and its fields `from` and `to`. -/
structure AddrmapNode where
  from_string : List Nat
  to_string : List Nat
  addrmap : Addrmap
  deriving DecidableEq, Repr

/-- The function `Sv_AddAddressMapping` (the allocations taken to succeed): the
return value and the list `addrmaps` left; 61 is the character `=`. -/
def Sv_AddAddressMapping (mapping : List Nat) (addrmaps : List AddrmapNode) :
    Bool × List AddrmapNode :=
  match mapping.dropWhile (fun ch => ch != 61) with
  | [] => (false, addrmaps)
  | _ :: to_ip =>
      (true,
        { from_string := mapping.takeWhile (fun ch => ch != 61), to_string := to_ip,
          addrmap := { from_addr := 0, from_port := 0, to_addr := 0, to_port := 0 } } ::
          addrmaps)

/-- The function `Sv_ResolveAddrmap`: the return value and the structure left. -/
def Sv_ResolveAddrmap (lib : Resolver) (addrmap : AddrmapNode) : Bool × AddrmapNode :=
  let r1 := Sv_ResolveIPv4Addr lib addrmap.from_string
    (addrmap.addrmap.from_addr, addrmap.addrmap.from_port)
  let n1 : AddrmapNode :=
    { addrmap with addrmap := { addrmap.addrmap with from_addr := r1.2.1, from_port := r1.2.2 } }
  if !r1.1 then (false, n1)
  else
    let r2 := Sv_ResolveIPv4Addr lib addrmap.to_string
      (addrmap.addrmap.to_addr, addrmap.addrmap.to_port)
    let n2 : AddrmapNode :=
      { n1 with addrmap := { n1.addrmap with to_addr := r2.2.1, to_port := r2.2.2 } }
    if !r2.1 then (false, n2)
    else if n2.addrmap.from_addr = 0 ∨ n2.addrmap.to_addr = 0 then (false, n2)
    else if ntohl n2.addrmap.to_addr >>> 24 = 127 then (false, n2)
    else (true, n2)

/-- The loop "resolve all addresses" of `Sv_ResolveAddressMappings`: whether it
goes to its end, and the list left. -/
def resolveLoop (lib : Resolver) : List AddrmapNode → Bool × List AddrmapNode
  | [] => (true, [])
  | addrmap :: next =>
      if (Sv_ResolveAddrmap lib addrmap).1 then
        ((resolveLoop lib next).1, (Sv_ResolveAddrmap lib addrmap).2 :: (resolveLoop lib next).2)
      else (false, (Sv_ResolveAddrmap lib addrmap).2 :: next)

/-- The function `Sv_ResolveAddressMappings`: the return value and the list
`addrmaps` left, given by the fields `from` and `to` of its entries. -/
def Sv_ResolveAddressMappings (lib : Resolver) (addrmaps : List AddrmapNode) :
    Bool × List Addrmap :=
  if (resolveLoop lib addrmaps).1 then
    buildSortedList ((resolveLoop lib addrmaps).2.map (fun n => n.addrmap)) []
  else (false, (resolveLoop lib addrmaps).2.map (fun n => n.addrmap))

/-- The bytes of a literal in ASCII. -/
def cstr (s : String) : List Nat := s.toList.map Char.toNat

/-- A `strtol` that reads decimal digits only. -/
def decimalStrtol : List Nat → Int × Nat
  | [] => (0, 0)
  | ch :: rest =>
      if 48 ≤ ch ∧ ch ≤ 57 then
        let digits := (ch :: rest).takeWhile (fun d => decide (48 ≤ d ∧ d ≤ 57))
        ((digits.foldl (fun acc d => acc * 10 + (d - 48)) 0 : Nat), digits.length)
      else (0, 0)

/-- A library that knows four hosts: `gate` is 1.2.3.4, `inner` is 10.0.0.5,
`self` is 127.0.0.1, `any` is 0.0.0.0. -/
def sampleResolver : Resolver :=
  { gethostbyname := fun name =>
      if name = cstr ("gate") then some (AF_INET, 0x04030201)
      else if name = cstr ("inner") then some (AF_INET, 0x0500000A)
      else if name = cstr ("self") then some (AF_INET, 0x0100007F)
      else if name = cstr ("any") then some (AF_INET, 0)
      else none,
    strtol := decimalStrtol }

/-- The list `addrmaps` after `Sv_AddAddressMapping` of the strings given,
the first one first. -/
def addAll (mappings : List (List Nat)) : List AddrmapNode :=
  mappings.foldl (fun l m => (Sv_AddAddressMapping m l).2) []

/-! ## The settings before `Sv_Init` -/

/-- Modelled from the spec: the constant `MAX_HASH_SIZE` of `servers.h` (the
header is not part of the sources at hand; the specification gives 12). -/
def MAX_HASH_SIZE : Nat := 12

/-- Modelled from the spec: the constant `DEFAULT_HASH_SIZE` of `servers.h`
(the specification gives 4). -/
def DEFAULT_HASH_SIZE : Nat := 4

/-- Modelled from the spec: the constant `DEFAULT_MAX_NB_SERVERS` of
`servers.h` (the specification gives 4096). -/
def DEFAULT_MAX_NB_SERVERS : Nat := 4096

/-- Modelled from the spec: the constant `DEFAULT_MAX_NB_SERVERS_PER_ADDRESS`
of `servers.h` (the specification gives 8 as the common value). -/
def DEFAULT_MAX_NB_SERVERS_PER_ADDRESS : Nat := 8

/-- The private variables of `servers.c` that `Sv_Init` and the three setters
read and write: the settings, and the arrays `servers`, `hash_table_ipv4` and
`hash_table_ipv6` (`none` for `NULL`). -/
structure Startup where
  hash_size : Nat
  max_nb_servers : Nat
  max_per_address : Nat
  servers : Option (List Server)
  hash_table_ipv4 : Option (List (List Nat))
  hash_table_ipv6 : Option (List (List Nat))
  deriving DecidableEq, Repr

/-- The initial values of these variables. -/
def Startup.initial : Startup :=
  { hash_size := DEFAULT_HASH_SIZE, max_nb_servers := DEFAULT_MAX_NB_SERVERS,
    max_per_address := DEFAULT_MAX_NB_SERVERS_PER_ADDRESS, servers := none,
    hash_table_ipv4 := none, hash_table_ipv6 := none }

/-- The function `Sv_SetHashSize`: the return value and the state left. -/
def Sv_SetHashSize (s : Startup) (size : Nat) : Bool × Startup :=
  if s.hash_table_ipv4 ≠ none ∨ s.hash_table_ipv6 ≠ none ∨ size > MAX_HASH_SIZE then (false, s)
  else (true, { s with hash_size := size })

/-- The function `Sv_SetMaxNbServers`: the return value and the state left. -/
def Sv_SetMaxNbServers (s : Startup) (nb : Nat) : Bool × Startup :=
  if s.servers ≠ none ∨ nb ≤ 0 then (false, s)
  else (true, { s with max_nb_servers := nb })

/-- The function `Sv_SetMaxNbServersPerAddress`: the return value and the state
left. -/
def Sv_SetMaxNbServersPerAddress (s : Startup) (nb : Nat) : Bool × Startup :=
  if s.servers ≠ none then (false, s)
  else (true, { s with max_per_address := nb })

/-- What the system answers to `Sv_Init`: whether `malloc` gives the array
`servers`, what `Sys_IsListeningOn` says of `AF_INET` and of `AF_INET6`, and
whether `malloc` gives each hash table. -/
structure InitEnv where
  malloc_servers : Bool
  listen_ipv4 : Bool
  listen_ipv6 : Bool
  malloc_ipv4 : Bool
  malloc_ipv6 : Bool
  deriving DecidableEq, Repr

/-- The function `Sv_AllocateHashTable`: `NULL`, or the table cleared. -/
def Sv_AllocateHashTable (table_size : Nat) (malloc_ok : Bool) : Option (List (List Nat)) :=
  if malloc_ok then some (List.replicate table_size []) else none

/-- The function `Sv_Init` on the variables of `Startup`: the return value and
the state left. -/
def Startup.Sv_Init (s : Startup) (env : InitEnv) : Bool × Startup :=
  if !env.malloc_servers then (false, { s with servers := none })
  else
    let s1 : Startup := { s with servers := some (List.replicate s.max_nb_servers Server.zero) }
    let s2 : Startup :=
      if env.listen_ipv4 then
        { s1 with hash_table_ipv4 := Sv_AllocateHashTable (1 <<< s.hash_size) env.malloc_ipv4 }
      else s1
    if env.listen_ipv4 ∧ s2.hash_table_ipv4 = none then (false, s2)
    else
      let s3 : Startup :=
        if env.listen_ipv6 then
          { s2 with hash_table_ipv6 := Sv_AllocateHashTable (1 <<< s.hash_size) env.malloc_ipv6 }
        else s2
      if env.listen_ipv6 ∧ s3.hash_table_ipv6 = none then (false, s3)
      else (true, s3)

/-- A call of one of the three setters. -/
inductive SetterCall
  | setHashSize (size : Nat)
  | setMaxNbServers (nb : Nat)
  | setMaxNbServersPerAddress (nb : Nat)
  deriving DecidableEq, Repr

/-- The call made: the return value and the state left. -/
def SetterCall.apply (s : Startup) : SetterCall → Bool × Startup
  | SetterCall.setHashSize size => Sv_SetHashSize s size
  | SetterCall.setMaxNbServers nb => Sv_SetMaxNbServers s nb
  | SetterCall.setMaxNbServersPerAddress nb => Sv_SetMaxNbServersPerAddress s nb

/-- A sequence of calls of the setters: the state left. -/
def applySetters : List SetterCall → Startup → Startup
  | [], s => s
  | call :: rest, s => applySetters rest (call.apply s).2

/-- Memory is given, no address family is listened on. -/
def noFamilyEnv : InitEnv :=
  { malloc_servers := true, listen_ipv4 := false, listen_ipv6 := false, malloc_ipv4 := true,
    malloc_ipv6 := true }

/-- IPv4 is listened on, and `malloc` gives the array of servers but not the
hash table. -/
def noTableEnv : InitEnv :=
  { malloc_servers := true, listen_ipv4 := true, listen_ipv6 := false, malloc_ipv4 := false,
    malloc_ipv6 := false }

/-- Memory is given, both address families are listened on. -/
def bothFamiliesEnv : InitEnv :=
  { malloc_servers := true, listen_ipv4 := true, listen_ipv6 := true, malloc_ipv4 := true,
    malloc_ipv6 := true }

/-! ## The cursors of the iteration -/

/-- The cursors `crt_server_ind` and `last_server_ind` lie between -1 and
`last_used_slot`, and one of them is -1 only when the other is. -/
def CursorOK (r : Registry) : Prop :=
  -1 ≤ r.last_used_slot ∧
  (-1 ≤ r.crt_server_ind ∧ r.crt_server_ind ≤ r.last_used_slot) ∧
  (-1 ≤ r.last_server_ind ∧ r.last_server_ind ≤ r.last_used_slot) ∧
  (r.crt_server_ind = -1 ↔ r.last_server_ind = -1)

/-- The number of rounds the loop of `Sv_GetNext` has left before
`crt_server_ind` meets `last_server_ind`, going round `0 .. last_used_slot`. -/
def cursorDist (r : Registry) : Int :=
  if r.crt_server_ind ≤ r.last_server_ind then r.last_server_ind - r.crt_server_ind
  else r.last_server_ind + (r.last_used_slot + 1) - r.crt_server_ind

/-- The rounds of the loop of `Sv_GetNext` (the loop of `getNextLoop`, what it
computes being written down): for each round, `last_used_slot` as the round
starts and the index given to `Sv_IsActive` (`none` when the modulus
`last_used_slot + 1` is zero, where the loop stops). -/
def getNextRounds : Nat → Registry → List (Int × Option Int)
  | 0, _ => []
  | fuel + 1, r =>
      if r.crt_server_ind ≠ r.last_server_ind then
        if r.last_used_slot + 1 = 0 then [(r.last_used_slot, none)]
        else
          let crt := (r.crt_server_ind + 1) % (r.last_used_slot + 1)
          let act := Sv_IsActive { r with crt_server_ind := crt } crt.toNat
          (r.last_used_slot, some crt) :: (if act.1 then [] else getNextRounds fuel act.2)
      else []

/-- The draw of `Sv_GetFirst` and the rounds of `Sv_GetNext` that follow it
(the steps of `Sv_GetFirst`, what they compute being written down): for each,
`last_used_slot` at that point and the index given to `Sv_IsActive` (`none`
when the modulus is zero). -/
def getFirstRounds (c : Config) (r : Registry) (rnd : Nat) : List (Int × Option Int) :=
  if r.nb_servers = 0 then []
  else if r.last_used_slot + 1 = 0 then [(r.last_used_slot, none)]
  else
    let crt : Int := (rnd : Int) % (r.last_used_slot + 1)
    let last : Int := if crt = 0 then r.last_used_slot else crt - 1
    let act := Sv_IsActive { r with crt_server_ind := crt, last_server_ind := last } crt.toNat
    (r.last_used_slot, some crt) ::
      (if act.1 then [] else getNextRounds (c.max_nb_servers + 1) act.2)

/-- Three servers are added and an iteration is started with the draw 1. -/
def cursorOps : List Op :=
  [Op.getByAddr hostA100 16 true, Op.getByAddr hostB100 16 true,
    Op.getByAddr hostC100 16 true, Op.getFirst 1]

/-- The state `cursorOps` leads to. -/
def cursorState : Registry :=
  (run baseConfig cursorOps (Sv_Init baseConfig)).getD (Sv_Init baseConfig)

/-! ## The console title (`PatchIW5ConsoleTitle.cpp`) -/

/-- The loop of `remove_colors` from the index `i`, `len` being the variable
`len`, on the bytes of `str` (`str[str.length ()]` reads as zero); `i` and `len`
are `unsigned int`; 94 is the character `^`.  `none` when the rounds allowed
are used up. -/
def removeColorsLoop : Nat → Nat → Nat → List Nat → Option (List Nat)
  | 0, i, len, str => if i < len then none else some str
  | fuel + 1, i, len, str =>
      if i < len then
        if str.getD i 0 = 94 ∧ str.getD (i + 1) 0 ≥ 0x30 ∧ str.getD (i + 1) 0 ≤ 0x39 then
          removeColorsLoop fuel ((i + 1) % 4294967296) ((len + 4294967294) % 4294967296)
            (str.take i ++ str.drop (i + 2))
        else removeColorsLoop fuel ((i + 1) % 4294967296) len str
      else some str

/-- The function `remove_colors`: the string left.  Each round makes `len - i`
smaller, so `len` rounds are allowed. -/
def remove_colors (str : List Nat) : Option (List Nat) :=
  removeColorsLoop (str.length % 4294967296) 0 (str.length % 4294967296) str

/-- Does the string hold a `^` with a decimal digit right after it? -/
def hasColorCode : List Nat → Bool
  | a :: b :: rest => (a == 94 && decide (0x30 ≤ b ∧ b ≤ 0x39)) || hasColorCode (b :: rest)
  | _ => false

/-! ## Socket addresses as stored -/

/-- The content of a `struct sockaddr_storage`, read as `sockaddr_in` or as
`sockaddr_in6` according to `ss_family`, every field kept: also `sin_zero`
and `sin6_flowinfo`, which no function of `servers.c` reads, and `padding`,
the bytes of the storage after the structure.  The 16 bytes of `sin6_addr` are
the four words `w0 .. w3`. -/
inductive Sockaddr
  | in4 (sin_port : Nat) (s_addr : Nat) (sin_zero : List Nat) (padding : List Nat)
  | in6 (sin6_port : Nat) (sin6_flowinfo : Nat) (w0 w1 w2 w3 : Nat) (sin6_scope_id : Nat)
      (padding : List Nat)
  deriving DecidableEq, Repr

/-- Is `ss_family` equal to `AF_INET6`? -/
def Sockaddr.isIPv6 : Sockaddr → Bool
  | Sockaddr.in4 _ _ _ _ => false
  | Sockaddr.in6 _ _ _ _ _ _ _ _ => true

/-- The fields of a stored address that the registry works with. -/
def Sockaddr.address : Sockaddr → Address
  | Sockaddr.in4 sin_port s_addr _ _ => Address.ipv4 s_addr sin_port
  | Sockaddr.in6 sin6_port _ w0 w1 w2 w3 sin6_scope_id _ =>
      Address.ipv6 w0 w1 w2 w3 sin6_port sin6_scope_id

/-- The function `Sv_AddressHash` on the stored address: `ipv6_ptr[0] ^
ipv6_ptr[1]` or `sin_addr.s_addr`, the port when `hash_ports` is set, and the
two folds. -/
def Sockaddr.Sv_AddressHash (c : Config) (address : Sockaddr) : Nat :=
  let hash0 : Nat :=
    match address with
    | Sockaddr.in6 sin6_port _ w0 w1 _ _ _ _ =>
        if c.hash_ports then (w0 ^^^ w1) ^^^ sin6_port else w0 ^^^ w1
    | Sockaddr.in4 sin_port s_addr _ _ =>
        if c.hash_ports then s_addr ^^^ sin_port else s_addr
  let hash1 : Nat := (hash0 &&& 0xFFFF) ^^^ (hash0 >>> 16)
  (hash1 ^^^ (hash1 >>> c.hash_size)) &&& ((1 <<< c.hash_size) - 1)

/-- The function `Sv_SameIPv4Addr` on stored addresses: the pair (return value,
`*same_public_address`); as in the model on `Address`, storage of the other
family answers `(false, false)`. -/
def Sockaddr.Sv_SameIPv4Addr : Sockaddr → Sockaddr → Bool × Bool
  | Sockaddr.in4 p1 a1 _ _, Sockaddr.in4 p2 a2 _ _ =>
      if a1 = a2 then (decide (p1 = p2), true) else (false, false)
  | _, _ => (false, false)

/-- The function `Sv_SameIPv6Addr` on stored addresses: the pair (return value,
`*same_public_address`). -/
def Sockaddr.Sv_SameIPv6Addr : Sockaddr → Sockaddr → Bool × Bool
  | Sockaddr.in6 p1 _ a0 a1 a2 a3 s1 _, Sockaddr.in6 p2 _ b0 b1 b2 b3 s2 _ =>
      if a0 = b0 ∧ a1 = b1 then
        (decide (s1 = s2 ∧ p1 = p2 ∧ a2 = b2 ∧ a3 = b3), true)
      else (false, false)
  | _, _ => (false, false)

/-- The comparison `Sv_GetByAddr_Internal` selects from `address->ss_family`,
on stored addresses; the first argument is the address of the record. -/
def Sockaddr.IsSameAddress (addr1 address : Sockaddr) : Bool × Bool :=
  if address.isIPv6 then Sockaddr.Sv_SameIPv6Addr addr1 address
  else Sockaddr.Sv_SameIPv4Addr addr1 address

/-- An IPv6 endpoint as received in a packet. -/
def storedV6 : Sockaddr := Sockaddr.in6 0x6400 0 0xB80D0120 0 0 0x01000000 0 []

/-- The same endpoint with another `sin6_flowinfo` and other bytes after the
structure. -/
def storedV6Flow : Sockaddr := Sockaddr.in6 0x6400 7 0xB80D0120 0 0 0x01000000 0 [1, 2]

/-- An IPv4 endpoint, `sin_zero` cleared. -/
def storedV4 : Sockaddr := Sockaddr.in4 0x6400 0x0100000A [0, 0, 0, 0, 0, 0, 0, 0] []

/-- The same endpoint with other bytes in `sin_zero`. -/
def storedV4Dirty : Sockaddr := Sockaddr.in4 0x6400 0x0100000A [9, 9, 9, 9, 9, 9, 9, 9] [3]

/-! ## The info file -/

/-- The slots `0 .. last_used_slot` whose record has timed out, in increasing
order. -/
def expiredSlots (r : Registry) : List Nat :=
  (List.range (r.last_used_slot + 1).toNat).filter r.expired

/-- Two servers are added one second apart; the clock goes on until both have
timed out. -/
def bothExpiredOps : List Op :=
  [Op.getByAddr hostA100 16 true, Op.advanceClock 1, Op.getByAddr hostB100 16 true,
    Op.getFirst 1, Op.advanceClock 3]

/-- The state `bothExpiredOps` leads to. -/
def bothExpiredState : Registry :=
  (run baseConfig bothExpiredOps (Sv_Init baseConfig)).getD (Sv_Init baseConfig)

/-! ## Elementary facts on slots and chains -/

theorem used_iff (sv : Server) :
    sv.used = true ↔ sv.state ≠ ServerState.sv_state_unused_slot := by
  simp [Server.used]

theorem used_false_iff (sv : Server) :
    sv.used = false ↔ sv.state = ServerState.sv_state_unused_slot := by
  simp [Server.used]

theorem used_zero : Server.zero.used = false := by
  simp [Server.used, Server.zero]

theorem usedSlot_iff (s : List Server) (i : Nat) :
    usedSlot s i = true ↔ (s.getD i Server.zero).state ≠ ServerState.sv_state_unused_slot := by
  unfold usedSlot; exact used_iff _

theorem usedSlot_false_iff (s : List Server) (i : Nat) :
    usedSlot s i = false ↔ (s.getD i Server.zero).state = ServerState.sv_state_unused_slot := by
  unfold usedSlot; exact used_false_iff _

theorem getD_of_length_le (s : List Server) (i : Nat) (h : s.length ≤ i) :
    s.getD i Server.zero = Server.zero := by
  rw [List.getD_eq_getElem?_getD, List.getElem?_eq_none h]; rfl

theorem usedSlot_lt (s : List Server) (i : Nat) (h : usedSlot s i = true) : i < s.length := by
  by_contra hn
  unfold usedSlot at h
  rw [getD_of_length_le s i (Nat.le_of_not_lt hn), used_zero] at h
  cases h

theorem getD_set_self (s : List Server) (i : Nat) (x : Server) (h : i < s.length) :
    (s.set i x).getD i Server.zero = x := by
  simp [List.getD_eq_getElem?_getD, List.getElem?_set, h]

theorem getD_set_other (s : List Server) (i j : Nat) (x : Server) (h : j ≠ i) :
    (s.set i x).getD j Server.zero = s.getD j Server.zero := by
  simp [List.getD_eq_getElem?_getD, List.getElem?_set, Ne.symm h]

theorem usedSlot_set_self (s : List Server) (i : Nat) (x : Server) (h : i < s.length) :
    usedSlot (s.set i x) i = x.used := by
  unfold usedSlot; rw [getD_set_self s i x h]

theorem usedSlot_set_other (s : List Server) (i j : Nat) (x : Server) (h : j ≠ i) :
    usedSlot (s.set i x) j = usedSlot s j := by
  unfold usedSlot; rw [getD_set_other s i j x h]

theorem getD_map_filter (t : List (List Nat)) (h i : Nat) :
    (t.map (fun b => b.filter (fun j => j != i))).getD h [] =
      (t.getD h []).filter (fun j => j != i) := by
  simp only [List.getD_eq_getElem?_getD, List.getElem?_map]
  cases t[h]? <;> simp

theorem chain_RemoveFromHashTable (r : Registry) (i : Nat) (v6 : Bool) (h : Nat) :
    (Sv_RemoveFromHashTable r i).chain v6 h = (r.chain v6 h).filter (fun j => j != i) := by
  cases v6 <;>
    simp only [Registry.chain, Sv_RemoveFromHashTable, getD_map_filter, if_true, if_false,
      Bool.false_eq_true]

theorem getD_set_cons (t : List (List Nat)) (h k : Nat) (b : List Nat) :
    (t.set h b).getD k [] = if k = h ∧ h < t.length then b else t.getD k [] := by
  simp only [List.getD_eq_getElem?_getD, List.getElem?_set]
  by_cases hk : h = k
  · subst hk
    by_cases hl : h < t.length
    · simp [hl]
    · simp [hl, List.getElem?_eq_none (Nat.le_of_not_lt hl)]
  · have hk2 : ¬ k = h := fun e => hk e.symm
    simp [hk, hk2]

theorem chain_AddToHashTable (r : Registry) (sv hash : Nat) (v6 w6 : Bool) (k : Nat) :
    (Sv_AddToHashTable r sv hash v6).chain w6 k =
      if w6 = v6 ∧ k = hash ∧
          hash < (if v6 then r.hash_table_ipv6.length else r.hash_table_ipv4.length)
      then sv :: r.chain v6 hash else r.chain w6 k := by
  cases v6 <;> cases w6 <;>
    simp only [Registry.chain, Sv_AddToHashTable, getD_set_cons, if_true, if_false,
      Bool.false_eq_true, true_and, false_and, reduceCtorEq]

theorem servers_AddToHashTable (r : Registry) (sv hash : Nat) (v6 : Bool) :
    (Sv_AddToHashTable r sv hash v6).servers = r.servers := by
  cases v6 <;> simp [Sv_AddToHashTable]

theorem servers_RemoveFromHashTable (r : Registry) (i : Nat) :
    (Sv_RemoveFromHashTable r i).servers = r.servers := rfl

theorem servers_Sv_Remove (r : Registry) (i : Nat) :
    (Sv_Remove r i).servers =
      r.servers.set i ({ r.slot i with state := ServerState.sv_state_unused_slot }) := rfl

theorem chain_Sv_Remove (r : Registry) (i : Nat) (v6 : Bool) (h : Nat) :
    (Sv_Remove r i).chain v6 h = (r.chain v6 h).filter (fun j => j != i) := by
  rw [← chain_RemoveFromHashTable]
  rfl

theorem length_Sv_Remove (r : Registry) (i : Nat) :
    (Sv_Remove r i).servers.length = r.servers.length := by
  rw [servers_Sv_Remove, List.length_set]

theorem slot_Sv_Remove_other (r : Registry) (i j : Nat) (h : j ≠ i) :
    (Sv_Remove r i).slot j = r.slot j := by
  unfold Registry.slot
  rw [servers_Sv_Remove, getD_set_other _ _ _ _ h]

theorem usedSlot_Sv_Remove_self (r : Registry) (i : Nat) :
    usedSlot (Sv_Remove r i).servers i = false := by
  by_cases hi : i < r.servers.length
  · rw [servers_Sv_Remove, usedSlot_set_self _ _ _ hi, used_false_iff]
  · by_contra hne
    have := usedSlot_lt _ _ (by simpa using hne)
    rw [length_Sv_Remove] at this
    exact hi this

theorem usedSlot_Sv_Remove_other (r : Registry) (i j : Nat) (h : j ≠ i) :
    usedSlot (Sv_Remove r i).servers j = usedSlot r.servers j := by
  rw [servers_Sv_Remove, usedSlot_set_other _ _ _ _ h]

theorem crt_time_Sv_Remove (r : Registry) (i : Nat) :
    (Sv_Remove r i).crt_time = r.crt_time := rfl

theorem tables_length_Sv_Remove (r : Registry) (i : Nat) :
    (Sv_Remove r i).hash_table_ipv4.length = r.hash_table_ipv4.length ∧
    (Sv_Remove r i).hash_table_ipv6.length = r.hash_table_ipv6.length := by
  simp [Sv_Remove, Sv_RemoveFromHashTable]

/-- The three outcomes of the activity check. -/
theorem Sv_IsActive_cases (r : Registry) (i : Nat) :
    (usedSlot r.servers i = false ∧ Sv_IsActive r i = (false, r)) ∨
    (usedSlot r.servers i = true ∧ (r.slot i).timeout < r.crt_time ∧
      Sv_IsActive r i = (false, Sv_Remove r i)) ∨
    (usedSlot r.servers i = true ∧ r.crt_time ≤ (r.slot i).timeout ∧
      Sv_IsActive r i = (true, r)) := by
  unfold Sv_IsActive
  by_cases h1 : (r.slot i).state = ServerState.sv_state_unused_slot
  · left
    refine ⟨?_, by simp [h1]⟩
    rw [usedSlot_false_iff]; exact h1
  · right
    have hu : usedSlot r.servers i = true := by rw [usedSlot_iff]; exact h1
    by_cases h2 : (r.slot i).timeout < r.crt_time
    · left; exact ⟨hu, h2, by simp [h1, h2]⟩
    · right; exact ⟨hu, Nat.le_of_not_lt h2, by simp [h1, h2]⟩

/-! ## Counting used slots -/

theorem countP_set (p : Server → Bool) (s : List Server) (i : Nat) (x : Server)
    (h : i < s.length) :
    (s.set i x).countP p + (if p (s.getD i Server.zero) = true then 1 else 0) =
      s.countP p + (if p x = true then 1 else 0) := by
  induction s generalizing i with
  | nil => simp at h
  | cons a t ih =>
    cases i with
    | zero =>
      simp only [List.set_cons_zero, List.countP_cons, List.getD_cons_zero]; omega
    | succ k =>
      have hk : k < t.length := by simpa using h
      have := ih k hk
      simp only [List.set_cons_succ, List.countP_cons, List.getD_cons_succ] at *
      omega

theorem countUsed_le (s : List Server) : countUsed s ≤ s.length := by
  unfold countUsed; exact List.countP_le_length _

theorem countUsed_remove (s : List Server) (i : Nat) (x : Server)
    (hu : usedSlot s i = true) (hx : x.used = false) :
    countUsed (s.set i x) + 1 = countUsed s := by
  have hi := usedSlot_lt s i hu
  have := countP_set Server.used s i x hi
  unfold usedSlot at hu
  rw [hu, hx] at this
  simp only [if_true, Bool.false_eq_true, if_false] at this
  unfold countUsed; omega

theorem countUsed_add (s : List Server) (i : Nat) (x : Server) (hi : i < s.length)
    (hu : usedSlot s i = false) (hx : x.used = true) :
    countUsed (s.set i x) = countUsed s + 1 := by
  have := countP_set Server.used s i x hi
  unfold usedSlot at hu
  rw [hu, hx] at this
  simp only [if_true, Bool.false_eq_true, if_false] at this
  unfold countUsed; omega

theorem countUsed_same (s : List Server) (i : Nat) (x : Server)
    (hx : x.used = (s.getD i Server.zero).used) :
    countUsed (s.set i x) = countUsed s := by
  by_cases hi : i < s.length
  · have := countP_set Server.used s i x hi
    rw [hx] at this
    unfold countUsed; omega
  · rw [List.set_eq_of_length_le (Nat.le_of_not_lt hi)]

theorem countUsed_eq_length_iff (s : List Server) :
    countUsed s = s.length ↔ ∀ i, i < s.length → usedSlot s i = true := by
  unfold countUsed
  rw [List.countP_eq_length]
  constructor
  · intro h i hi
    unfold usedSlot
    rw [List.getD_eq_getElem?_getD, List.getElem?_eq_getElem hi]
    exact h _ (List.getElem_mem hi)
  · intro h a ha
    obtain ⟨i, hi, rfl⟩ := List.getElem_of_mem ha
    have := h i hi
    unfold usedSlot at this
    rw [List.getD_eq_getElem?_getD, List.getElem?_eq_getElem hi] at this
    exact this

/-! ## The hash stays inside the table -/

theorem Sv_AddressHash_lt (c : Config) (a : Address) :
    Sv_AddressHash c a < 2 ^ c.hash_size := by
  unfold Sv_AddressHash
  simp only [Nat.shiftLeft_eq, Nat.one_mul, Nat.and_pow_two_sub_one_eq_mod]
  exact Nat.mod_lt _ (Nat.two_pow_pos _)

/-! ## The core invariant through the elementary steps -/

theorem Core_Sv_Remove (c : Config) (r : Registry) (i : Nat) (hc : c.ok) (h : Core c r)
    (hu : usedSlot r.servers i = true) : Core c (Sv_Remove r i) := by
  obtain ⟨hlen, hnb, h4, h6, ha, hb, hcc⟩ := h
  refine ⟨?_, ?_, ?_, ?_, ?_, ?_, ?_⟩
  · rw [length_Sv_Remove]; exact hlen
  · have hcount : countUsed (Sv_Remove r i).servers + 1 = countUsed r.servers :=
      countUsed_remove r.servers i
        ({ r.slot i with state := ServerState.sv_state_unused_slot }) hu
        (by rw [used_false_iff])
    have hle := countUsed_le r.servers
    have hmax := hc.2
    have key : ∀ n m : Nat, m + 1 = n → n < 2 ^ 31 → (n + (2 ^ 32 - 1)) % 2 ^ 32 = m := by
      intro n m h1 h2
      norm_num at h2 ⊢
      omega
    show (r.nb_servers + (2 ^ 32 - 1)) % 2 ^ 32 = countUsed (Sv_Remove r i).servers
    rw [hnb]
    exact key _ _ hcount (by omega)
  · rw [(tables_length_Sv_Remove r i).1]; exact h4
  · rw [(tables_length_Sv_Remove r i).2]; exact h6
  · intro v6 h j hj
    rw [chain_Sv_Remove, List.mem_filter] at hj
    have hne : j ≠ i := by simpa using hj.2
    rw [usedSlot_Sv_Remove_other r i j hne, slot_Sv_Remove_other r i j hne]
    exact ha v6 h j hj.1
  · intro v6 h
    rw [chain_Sv_Remove]
    exact (hb v6 h).filter _
  · intro j hj
    have hne : j ≠ i := by
      intro e; subst e
      rw [usedSlot_Sv_Remove_self] at hj; cases hj
    rw [usedSlot_Sv_Remove_other r i j hne] at hj
    rw [slot_Sv_Remove_other r i j hne, chain_Sv_Remove, List.mem_filter]
    exact ⟨hcc j hj, by simpa using hne⟩

theorem Core_Sv_IsActive (c : Config) (r : Registry) (i : Nat) (hc : c.ok) (h : Core c r) :
    Core c (Sv_IsActive r i).2 := by
  rcases Sv_IsActive_cases r i with ⟨_, e⟩ | ⟨hu, _, e⟩ | ⟨_, _, e⟩
  · rw [e]; exact h
  · rw [e]; exact Core_Sv_Remove c r i hc h hu
  · rw [e]; exact h

theorem Core_promote (c : Config) (r : Registry) (i : Nat) (address : Address)
    (h : Core c r) (hu : usedSlot r.servers i = true) (haddr : (r.slot i).address = address) :
    Core c (Sv_AddToHashTable (Sv_RemoveFromHashTable r i) i (Sv_AddressHash c address)
      address.isIPv6) := by
  obtain ⟨hlen, hnb, h4, h6, ha, hb, hcc⟩ := h
  have hlt := Sv_AddressHash_lt c address
  have hbound : Sv_AddressHash c address <
      (if address.isIPv6 then (Sv_RemoveFromHashTable r i).hash_table_ipv6.length
        else (Sv_RemoveFromHashTable r i).hash_table_ipv4.length) := by
    cases address.isIPv6 <;> simp [Sv_RemoveFromHashTable, h4, h6, hlt]
  have hchain : ∀ w6 k, (Sv_AddToHashTable (Sv_RemoveFromHashTable r i) i
      (Sv_AddressHash c address) address.isIPv6).chain w6 k =
      if w6 = address.isIPv6 ∧ k = Sv_AddressHash c address
      then i :: (r.chain address.isIPv6 (Sv_AddressHash c address)).filter (fun j => j != i)
      else (r.chain w6 k).filter (fun j => j != i) := by
    intro w6 k
    rw [chain_AddToHashTable]
    simp only [hbound, and_true, chain_RemoveFromHashTable]
  refine ⟨?_, ?_, ?_, ?_, ?_, ?_, ?_⟩
  · rw [servers_AddToHashTable]; exact hlen
  · rw [servers_AddToHashTable]
    cases hv : address.isIPv6 <;> simpa [Sv_AddToHashTable, Sv_RemoveFromHashTable, hv] using hnb
  · cases hv : address.isIPv6 <;> simp [Sv_AddToHashTable, Sv_RemoveFromHashTable, hv, h4]
  · cases hv : address.isIPv6 <;> simp [Sv_AddToHashTable, Sv_RemoveFromHashTable, hv, h6]
  · intro v6 h j hj
    have hsl : ∀ k, (Sv_AddToHashTable (Sv_RemoveFromHashTable r i) i
        (Sv_AddressHash c address) address.isIPv6).slot k = r.slot k := by
      intro k; unfold Registry.slot; rw [servers_AddToHashTable]; rfl
    rw [servers_AddToHashTable, hsl]
    rw [hchain] at hj
    by_cases hcase : v6 = address.isIPv6 ∧ h = Sv_AddressHash c address
    · rw [if_pos hcase] at hj
      rcases List.mem_cons.mp hj with e | hmem
      · subst e
        exact ⟨hu, by rw [haddr]; exact hcase.1.symm, by rw [haddr]; exact hcase.2.symm⟩
      · exact ha _ _ j (by rw [hcase.1, hcase.2]; exact (List.mem_filter.mp hmem).1)
    · rw [if_neg hcase] at hj
      exact ha _ _ j (List.mem_filter.mp hj).1
  · intro v6 h
    rw [hchain]
    by_cases hcase : v6 = address.isIPv6 ∧ h = Sv_AddressHash c address
    · rw [if_pos hcase]
      refine List.nodup_cons.mpr ⟨?_, (hb _ _).filter _⟩
      intro hmem
      have := (List.mem_filter.mp hmem).2
      simp at this
    · rw [if_neg hcase]; exact (hb _ _).filter _
  · intro j hj
    have hsl : (Sv_AddToHashTable (Sv_RemoveFromHashTable r i) i
        (Sv_AddressHash c address) address.isIPv6).slot j = r.slot j := by
      unfold Registry.slot; rw [servers_AddToHashTable]; rfl
    rw [servers_AddToHashTable] at hj
    rw [hsl, hchain]
    have hmem := hcc j hj
    by_cases hji : j = i
    · subst hji
      rw [haddr, if_pos ⟨rfl, rfl⟩]
      exact List.mem_cons_self _ _
    · have hf : j ∈ (r.chain (r.slot j).address.isIPv6
          (Sv_AddressHash c (r.slot j).address)).filter (fun k => k != i) :=
        List.mem_filter.mpr ⟨hmem, by simpa using hji⟩
      by_cases hcase : (r.slot j).address.isIPv6 = address.isIPv6 ∧
          Sv_AddressHash c (r.slot j).address = Sv_AddressHash c address
      · rw [if_pos hcase]
        rw [hcase.1, hcase.2] at hf
        exact List.mem_cons_of_mem _ hf
      · rw [if_neg hcase]; exact hf

/-! ## The first free slot through an eviction -/

theorem FirstFreeOK_Sv_Remove (r : Registry) (i : Nat)
    (h : FirstFreeOK r.servers r.first_free_slot) (hu : usedSlot r.servers i = true) :
    FirstFreeOK (Sv_Remove r i).servers (Sv_Remove r i).first_free_slot := by
  have hi := usedSlot_lt _ _ hu
  have hff : (Sv_Remove r i).first_free_slot =
      if r.first_free_slot = -1 ∨ (i : Int) < r.first_free_slot then (i : Int)
      else r.first_free_slot := rfl
  rw [hff]
  have hnew : ∀ (P : Prop), (∀ j, j < i → usedSlot r.servers j = true) →
      FirstFreeOK (Sv_Remove r i).servers (i : Int) := by
    intro _ hbelow
    right
    refine ⟨i, rfl, by rw [length_Sv_Remove]; exact hi, usedSlot_Sv_Remove_self r i, ?_⟩
    intro j hj
    rw [usedSlot_Sv_Remove_other r i j (Nat.ne_of_lt hj)]
    exact hbelow j hj
  rcases h with ⟨hm, hall⟩ | ⟨k, hk, hklen, hkun, hbelow⟩
  · rw [if_pos (Or.inl hm)]
    exact hnew True (fun j hj => hall j (Nat.lt_trans hj hi))
  · by_cases hik : (i : Int) < r.first_free_slot
    · rw [if_pos (Or.inr hik)]
      rw [hk] at hik
      have hik2 : i < k := by exact_mod_cast hik
      exact hnew True (fun j hj => hbelow j (Nat.lt_trans hj hik2))
    · have hne1 : ¬ r.first_free_slot = -1 := by rw [hk]; omega
      rw [if_neg (by tauto)]
      rw [hk] at hik
      have hki : k ≠ i := by
        intro e; subst e; rw [hu] at hkun; cases hkun
      have hlt : k < i := by omega
      right
      refine ⟨k, hk, by rw [length_Sv_Remove]; exact hklen, ?_, ?_⟩
      · rw [usedSlot_Sv_Remove_other r i k hki]; exact hkun
      · intro j hj
        rw [usedSlot_Sv_Remove_other r i j (by omega)]
        exact hbelow j hj

theorem FirstFreeOK_Sv_IsActive (r : Registry) (i : Nat)
    (h : FirstFreeOK r.servers r.first_free_slot) :
    FirstFreeOK (Sv_IsActive r i).2.servers (Sv_IsActive r i).2.first_free_slot := by
  rcases Sv_IsActive_cases r i with ⟨_, e⟩ | ⟨hu, _, e⟩ | ⟨_, _, e⟩
  · rw [e]; exact h
  · rw [e]; exact FirstFreeOK_Sv_Remove r i h hu
  · rw [e]; exact h

/-! ## Evictions only -/

theorem Shrinks_refl (r : Registry) : Shrinks r r :=
  ⟨rfl, rfl, fun _ => Or.inl rfl⟩

theorem Shrinks_trans {r q p : Registry} (h1 : Shrinks r q) (h2 : Shrinks q p) : Shrinks r p := by
  refine ⟨h2.1.trans h1.1, h2.2.1.trans h1.2.1, ?_⟩
  intro j
  rcases h2.2.2 j with e | e
  · rcases h1.2.2 j with e1 | e1
    · left; rw [e, e1]
    · right
      have : usedSlot p.servers j = usedSlot q.servers j := by
        unfold usedSlot; exact congrArg Server.used e
      rw [this]; exact e1
  · right; exact e

theorem Shrinks_Sv_Remove (r : Registry) (i : Nat) : Shrinks r (Sv_Remove r i) := by
  refine ⟨length_Sv_Remove r i, rfl, ?_⟩
  intro j
  by_cases h : j = i
  · right; subst h; exact usedSlot_Sv_Remove_self r j
  · left; exact slot_Sv_Remove_other r i j h

theorem Evolves_refl (c : Config) (r : Registry) (h : Core c r) : Evolves c r r :=
  ⟨h, Shrinks_refl r, fun x => x⟩

theorem Evolves_trans {c : Config} {r q p : Registry} (h1 : Evolves c r q)
    (h2 : Evolves c q p) : Evolves c r p :=
  ⟨h2.1, Shrinks_trans h1.2.1 h2.2.1, fun x => h2.2.2 (h1.2.2 x)⟩

theorem Evolves_Sv_IsActive (c : Config) (r : Registry) (i : Nat) (hc : c.ok) (h : Core c r) :
    Evolves c r (Sv_IsActive r i).2 := by
  refine ⟨Core_Sv_IsActive c r i hc h, ?_, FirstFreeOK_Sv_IsActive r i⟩
  rcases Sv_IsActive_cases r i with ⟨_, e⟩ | ⟨_, _, e⟩ | ⟨_, _, e⟩
  · rw [e]; exact Shrinks_refl r
  · rw [e]; exact Shrinks_Sv_Remove r i
  · rw [e]; exact Shrinks_refl r

/-- The move of a record to the head of its chain, written as in the code. -/
theorem promote_fields (r : Registry) (i hash : Nat) (v6 : Bool) :
    (Sv_AddToHashTable (Sv_RemoveFromHashTable r i) i hash v6).servers = r.servers ∧
    (Sv_AddToHashTable (Sv_RemoveFromHashTable r i) i hash v6).first_free_slot =
      r.first_free_slot ∧
    (Sv_AddToHashTable (Sv_RemoveFromHashTable r i) i hash v6).crt_time = r.crt_time ∧
    (Sv_AddToHashTable (Sv_RemoveFromHashTable r i) i hash v6).nb_servers = r.nb_servers ∧
    (Sv_AddToHashTable (Sv_RemoveFromHashTable r i) i hash v6).last_used_slot =
      r.last_used_slot := by
  cases v6 <;> simp [Sv_AddToHashTable, Sv_RemoveFromHashTable]

theorem Evolves_promote (c : Config) (r : Registry) (i : Nat) (address : Address)
    (h : Core c r) (hu : usedSlot r.servers i = true) (haddr : (r.slot i).address = address) :
    Evolves c r (Sv_AddToHashTable (Sv_RemoveFromHashTable r i) i (Sv_AddressHash c address)
      address.isIPv6) := by
  obtain ⟨e1, e2, e3, _, _⟩ := promote_fields r i (Sv_AddressHash c address) address.isIPv6
  refine ⟨Core_promote c r i address h hu haddr, ⟨by rw [e1], e3, ?_⟩, ?_⟩
  · intro j; left; unfold Registry.slot; rw [e1]
  · intro hf; rw [e1, e2]; exact hf

/-! ## Comparing addresses -/

theorem IsSameAddress_exact (x a : Address) (h : (IsSameAddress x a).1 = true) : x = a := by
  cases x <;> cases a <;>
    simp [IsSameAddress, Address.isIPv6, Sv_SameIPv4Addr, Sv_SameIPv6Addr] at h ⊢
  · split at h
    · next e => simp at h; exact ⟨e, h⟩
    · simp at h
  · split at h
    · next e => simp at h; exact ⟨e.1, e.2, h.2.2.1, h.2.2.2, h.2.1, h.1⟩
    · simp at h

theorem IsSameAddress_self (a : Address) : IsSameAddress a a = (true, true) := by
  cases a <;> simp [IsSameAddress, Address.isIPv6, Sv_SameIPv4Addr, Sv_SameIPv6Addr]

theorem samePublic_family (x a : Address) (h : (IsSameAddress x a).2 = true) :
    x.isIPv6 = a.isIPv6 := by
  cases x <;> cases a <;>
    simp [IsSameAddress, Address.isIPv6, Sv_SameIPv4Addr, Sv_SameIPv6Addr] at h ⊢

theorem samePublic_hash (c : Config) (x a : Address) (hp : c.hash_ports = false)
    (h : (IsSameAddress x a).2 = true) : Sv_AddressHash c x = Sv_AddressHash c a := by
  cases x <;> cases a <;>
    simp [IsSameAddress, Address.isIPv6, Sv_SameIPv4Addr, Sv_SameIPv6Addr] at h ⊢
  · split at h
    · next e => simp [Sv_AddressHash, hp, e]
    · simp at h
  · split at h
    · next e => simp [Sv_AddressHash, hp, e.1, e.2]
    · simp at h

theorem samePublic_trans (x a b : Address) (h : (IsSameAddress a b).2 = true) :
    (IsSameAddress x b).2 = (IsSameAddress x a).2 := by
  cases x <;> cases a <;> cases b <;>
    simp [IsSameAddress, Address.isIPv6, Sv_SameIPv4Addr, Sv_SameIPv6Addr] at h ⊢
  · split at h
    · next e => subst e; split <;> rfl
    · simp at h
  · split at h
    · next e => obtain ⟨e1, e2⟩ := e; subst e1; subst e2; split <;> rfl
    · simp at h

/-! ## The walk along a chain, step by step -/

theorem walkChain_unused (address : Address) (hash j : Nat) (rest : List Nat) (r : Registry)
    (n : Nat) (hu : usedSlot r.servers j = false) :
    walkChain address hash (j :: rest) r n = walkChain address hash rest r n := by
  rcases Sv_IsActive_cases r j with ⟨_, e⟩ | ⟨hu2, _, _⟩ | ⟨hu2, _, _⟩
  · simp only [walkChain, e, Bool.false_eq_true, if_false]
  · rw [hu] at hu2; cases hu2
  · rw [hu] at hu2; cases hu2

theorem walkChain_expired (address : Address) (hash j : Nat) (rest : List Nat) (r : Registry)
    (n : Nat) (hu : usedSlot r.servers j = true) (ht : (r.slot j).timeout < r.crt_time) :
    walkChain address hash (j :: rest) r n = walkChain address hash rest (Sv_Remove r j) n := by
  rcases Sv_IsActive_cases r j with ⟨hu2, _⟩ | ⟨_, _, e⟩ | ⟨_, ht2, _⟩
  · rw [hu] at hu2; cases hu2
  · simp only [walkChain, e, Bool.false_eq_true, if_false]
  · omega

theorem walkChain_active (address : Address) (hash j : Nat) (rest : List Nat) (r : Registry)
    (n : Nat) (hu : usedSlot r.servers j = true) (ht : r.crt_time ≤ (r.slot j).timeout) :
    walkChain address hash (j :: rest) r n =
      if (IsSameAddress (r.slot j).address address).1 = true then
        (some j, (if (IsSameAddress (r.slot j).address address).2 = true then n + 1 else n),
          Sv_AddToHashTable (Sv_RemoveFromHashTable r j) j hash address.isIPv6)
      else walkChain address hash rest r
        (if (IsSameAddress (r.slot j).address address).2 = true then n + 1 else n) := by
  rcases Sv_IsActive_cases r j with ⟨hu2, _⟩ | ⟨_, ht2, _⟩ | ⟨_, _, e⟩
  · rw [hu] at hu2; cases hu2
  · omega
  · simp only [walkChain, e, if_true]

theorem Evolves_walkChain (c : Config) (hc : c.ok) (address : Address) :
    ∀ (l : List Nat) (r : Registry) (n : Nat), Core c r →
      Evolves c r (walkChain address (Sv_AddressHash c address) l r n).2.2 := by
  intro l
  induction l with
  | nil => intro r n h; exact Evolves_refl c r h
  | cons j rest ih =>
    intro r n h
    rcases Sv_IsActive_cases r j with ⟨hu, _⟩ | ⟨hu, ht, e⟩ | ⟨hu, ht, _⟩
    · rw [walkChain_unused _ _ _ _ _ _ hu]; exact ih r n h
    · rw [walkChain_expired _ _ _ _ _ _ hu ht]
      have h1 : Evolves c r (Sv_Remove r j) := by
        have := Evolves_Sv_IsActive c r j hc h
        rw [e] at this; exact this
      exact Evolves_trans h1 (ih _ n h1.1)
    · rw [walkChain_active _ _ _ _ _ _ hu ht]
      by_cases hx : (IsSameAddress (r.slot j).address address).1 = true
      · rw [if_pos hx]
        exact Evolves_promote c r j address h hu (IsSameAddress_exact _ _ hx)
      · rw [if_neg hx]; exact ih r _ h

theorem Evolves_internal (c : Config) (hc : c.ok) (r : Registry) (address : Address)
    (h : Core c r) : Evolves c r (Sv_GetByAddr_Internal c r address).2.2 :=
  Evolves_walkChain c hc address _ r 0 h

/-! ## The sweeps -/

theorem Evolves_checkLoop (c : Config) (hc : c.ok) :
    ∀ (fuel ind : Nat) (r : Registry), Core c r → Evolves c r (checkLoop fuel ind r) := by
  intro fuel
  induction fuel with
  | zero => intro ind r h; exact Evolves_refl c r h
  | succ f ih =>
    intro ind r h
    unfold checkLoop
    by_cases hle : (ind : Int) ≤ r.last_used_slot
    · rw [if_pos hle]
      have h1 := Evolves_Sv_IsActive c r ind hc h
      exact Evolves_trans h1 (ih _ _ h1.1)
    · rw [if_neg hle]; exact Evolves_refl c r h

theorem Evolves_Sv_CheckTimeouts (c : Config) (hc : c.ok) (r : Registry) (h : Core c r) :
    Evolves c r (Sv_CheckTimeouts r) :=
  Evolves_checkLoop c hc _ _ r h

theorem Evolves_sweepIfFull (c : Config) (hc : c.ok) (r : Registry) (h : Core c r) :
    Evolves c r (sweepIfFull c r) := by
  unfold sweepIfFull
  split
  · exact Evolves_Sv_CheckTimeouts c hc r h
  · exact Evolves_refl c r h

theorem Evolves_writeInfoLoop (c : Config) (hc : c.ok) :
    ∀ (fuel ind : Nat) (r : Registry), Core c r →
      Evolves c r (writeInfoLoop fuel ind r).2 := by
  intro fuel
  induction fuel with
  | zero => intro ind r h; exact Evolves_refl c r h
  | succ f ih =>
    intro ind r h
    unfold writeInfoLoop
    by_cases hle : (ind : Int) ≤ r.last_used_slot
    · rw [if_pos hle]
      have h1 := Evolves_Sv_IsActive c r ind hc h
      have h2 := Evolves_trans h1 (ih (ind + 1) _ h1.1)
      by_cases ha : (Sv_IsActive r ind).1 = true
      · simp only [ha, if_true]; exact h2
      · simp only [ha, if_false]; exact h2
    · rw [if_neg hle]; exact Evolves_refl c r h

theorem Evolves_Sv_WriteInfo (c : Config) (hc : c.ok) (r : Registry) (h : Core c r) :
    Evolves c r (Sv_WriteInfo r).2 :=
  Evolves_writeInfoLoop c hc _ _ r h

/-! ## The iteration -/

theorem Evolves_cursor (c : Config) (r : Registry) (x y : Int) (h : Core c r) :
    Evolves c r { r with crt_server_ind := x, last_server_ind := y } :=
  ⟨h, ⟨rfl, rfl, fun _ => Or.inl rfl⟩, fun hf => hf⟩

theorem Evolves_getNextLoop (c : Config) (hc : c.ok) :
    ∀ (fuel : Nat) (r : Registry) (p : Option Nat × Registry), Core c r →
      getNextLoop fuel r = some p → Evolves c r p.2 := by
  intro fuel
  induction fuel with
  | zero =>
    intro r p h hp
    unfold getNextLoop at hp
    split at hp
    · cases hp
    · cases hp; exact Evolves_refl c r h
  | succ f ih =>
    intro r p h hp
    unfold getNextLoop at hp
    split at hp
    · split at hp
      · cases hp
      · have h0 := Evolves_cursor c r
          ((r.crt_server_ind + 1) % (r.last_used_slot + 1)) r.last_server_ind h
        have h1 := Evolves_Sv_IsActive c _
          ((r.crt_server_ind + 1) % (r.last_used_slot + 1)).toNat hc h0.1
        have h2 := Evolves_trans h0 h1
        dsimp only at hp
        split at hp
        · cases hp; exact h2
        · exact Evolves_trans h2 (ih _ p h2.1 hp)
    · cases hp; exact Evolves_refl c r h

theorem Evolves_Sv_GetNext (c : Config) (hc : c.ok) (r : Registry)
    (p : Option Nat × Registry) (h : Core c r) (hp : Sv_GetNext c r = some p) :
    Evolves c r p.2 :=
  Evolves_getNextLoop c hc _ r p h hp

theorem Evolves_Sv_GetFirst (c : Config) (hc : c.ok) (r : Registry) (rnd : Nat)
    (p : Option Nat × Registry) (h : Core c r) (hp : Sv_GetFirst c r rnd = some p) :
    Evolves c r p.2 := by
  unfold Sv_GetFirst at hp
  split at hp
  · cases hp; exact Evolves_refl c r h
  · split at hp
    · cases hp
    · dsimp only at hp
      generalize (if (rnd : Int) % (r.last_used_slot + 1) = 0 then r.last_used_slot
          else (rnd : Int) % (r.last_used_slot + 1) - 1) = last at hp
      have h0 := Evolves_cursor c r ((rnd : Int) % (r.last_used_slot + 1)) last h
      have h1 := Evolves_Sv_IsActive c _ ((rnd : Int) % (r.last_used_slot + 1)).toNat hc h0.1
      have h2 := Evolves_trans h0 h1
      split at hp
      · cases hp; exact h2
      · exact Evolves_trans h2 (Evolves_Sv_GetNext c hc _ p h2.1 hp)

/-! ## The allocation -/

theorem slot_Sv_IsActive_other (r : Registry) (i j : Nat) (h : j ≠ i) :
    (Sv_IsActive r i).2.slot j = r.slot j := by
  rcases Sv_IsActive_cases r i with ⟨_, e⟩ | ⟨_, _, e⟩ | ⟨_, _, e⟩
  · rw [e]
  · rw [e]; exact slot_Sv_Remove_other r i j h
  · rw [e]

theorem usedSlot_of_slot_eq (r q : Registry) (j : Nat) (h : q.slot j = r.slot j) :
    usedSlot q.servers j = usedSlot r.servers j := by
  unfold usedSlot; exact congrArg Server.used h

/-- The loop looking for the next free entry: it evicts only, leaves the slots
below its start alone and stops on the first unused slot from its start on. -/
theorem scanFree_spec (c : Config) (hc : c.ok) :
    ∀ (fuel ind : Nat) (r : Registry), Core c r → r.first_free_slot = -1 →
      r.servers.length = c.max_nb_servers → ind + fuel = c.max_nb_servers →
      Core c (scanFree c fuel ind r) ∧ Shrinks r (scanFree c fuel ind r) ∧
      (∀ j, j < ind → (scanFree c fuel ind r).slot j = r.slot j) ∧
      (((scanFree c fuel ind r).first_free_slot = -1 ∧
          ∀ j, ind ≤ j → j < c.max_nb_servers →
            usedSlot (scanFree c fuel ind r).servers j = true) ∨
        (∃ k : Nat, (scanFree c fuel ind r).first_free_slot = (k : Int) ∧ ind ≤ k ∧
          k < c.max_nb_servers ∧ usedSlot (scanFree c fuel ind r).servers k = false ∧
          ∀ j, ind ≤ j → j < k → usedSlot (scanFree c fuel ind r).servers j = true)) := by
  intro fuel
  induction fuel with
  | zero =>
    intro ind r h hff hlen hfuel
    refine ⟨h, Shrinks_refl r, fun _ _ => rfl, Or.inl ⟨hff, ?_⟩⟩
    intro j h1 h2
    omega
  | succ f ih =>
    intro ind r h hff hlen hfuel
    have hind : ind < c.max_nb_servers := by omega
    unfold scanFree
    rw [if_pos hind]
    rcases Sv_IsActive_cases r ind with ⟨hu, e⟩ | ⟨hu, _, e⟩ | ⟨hu, _, e⟩
    · simp only [e, Bool.false_eq_true, if_false]
      refine ⟨h, Shrinks_refl r, fun _ _ => rfl, Or.inr ⟨ind, rfl, Nat.le_refl _, hind, hu, ?_⟩⟩
      intro j h1 h2; omega
    · simp only [e, Bool.false_eq_true, if_false]
      have hcore : Core c (Sv_Remove r ind) := Core_Sv_Remove c r ind hc h hu
      refine ⟨hcore, Shrinks_Sv_Remove r ind,
        fun j hj => slot_Sv_Remove_other r ind j (Nat.ne_of_lt hj),
        Or.inr ⟨ind, rfl, Nat.le_refl _, hind, usedSlot_Sv_Remove_self r ind, ?_⟩⟩
      intro j h1 h2; omega
    · simp only [e, if_true]
      obtain ⟨g1, g2, g3, g4⟩ := ih (ind + 1) r h hff hlen (by omega)
      have hkeep : usedSlot (scanFree c f (ind + 1) r).servers ind = true := by
        rw [usedSlot_of_slot_eq r _ ind (g3 ind (Nat.lt_succ_self _))]; exact hu
      refine ⟨g1, g2, fun j hj => g3 j (Nat.lt_succ_of_lt hj), ?_⟩
      rcases g4 with ⟨a1, a2⟩ | ⟨k, a1, a2, a3, a4, a5⟩
      · left
        refine ⟨a1, ?_⟩
        intro j h1 h2
        by_cases hj : j = ind
        · subst hj; exact hkeep
        · exact a2 j (by omega) h2
      · right
        refine ⟨k, a1, by omega, a3, a4, ?_⟩
        intro j h1 h2
        by_cases hj : j = ind
        · subst hj; exact hkeep
        · exact a5 j (by omega) h2

theorem Core_beforeScan (c : Config) (r : Registry) (h : Core c r) : Core c (beforeScan r) := by
  unfold beforeScan
  split <;> exact h

theorem beforeScan_fields (r : Registry) :
    (beforeScan r).servers = r.servers ∧ (beforeScan r).first_free_slot = -1 ∧
    (beforeScan r).crt_time = r.crt_time ∧ (beforeScan r).nb_servers = r.nb_servers ∧
    (∀ v6 h, (beforeScan r).chain v6 h = r.chain v6 h) := by
  unfold beforeScan
  split <;> exact ⟨rfl, rfl, rfl, rfl, fun _ _ => rfl⟩

/-- The state `allocServer` leaves, field by field, from the state `q` the loop
looking for the next free entry leaves. -/
theorem allocServer_fields (c : Config) (r : Registry) (address : Address) (addrlen : Nat)
    (addrmap : Option Addrmap) (k : Nat) (q : Registry) (hk : r.first_free_slot = (k : Int))
    (hq : scanFree c (c.max_nb_servers - (k + 1)) (k + 1) (beforeScan r) = q)
    (hlen : k < q.servers.length) :
    (allocServer c r address addrlen addrmap).1 = k ∧
    (allocServer c r address addrlen addrmap).2.servers =
      q.servers.set k (newServer address addrlen addrmap q.crt_time) ∧
    (∀ w6 h, (allocServer c r address addrlen addrmap).2.chain w6 h =
      (Sv_AddToHashTable q k (Sv_AddressHash c address) address.isIPv6).chain w6 h) ∧
    (allocServer c r address addrlen addrmap).2.nb_servers = (q.nb_servers + 1) % 2 ^ 32 ∧
    (allocServer c r address addrlen addrmap).2.first_free_slot = q.first_free_slot ∧
    (allocServer c r address addrlen addrmap).2.crt_time = q.crt_time ∧
    (allocServer c r address addrlen addrmap).2.hash_table_ipv4.length =
      q.hash_table_ipv4.length ∧
    (allocServer c r address addrlen addrmap).2.hash_table_ipv6.length =
      q.hash_table_ipv6.length := by
  have htn : r.first_free_slot.toNat = k := by rw [hk]; rfl
  have hslot : ∀ x : Server, (q.servers.set k x).getD k Server.zero = x :=
    fun x => getD_set_self _ _ x hlen
  have hall : (allocServer c r address addrlen addrmap) =
      (k, finishServer (Sv_AddToHashTable (initStructure q k address addrlen addrmap) k
        (Sv_AddressHash c address) address.isIPv6) k) := by
    unfold allocServer
    simp only [htn, hq]
  rw [hall]
  refine ⟨rfl, ?_, ?_, ?_, ?_, ?_, ?_, ?_⟩
  · cases hv : address.isIPv6 <;>
      simp only [finishServer, Sv_AddToHashTable, initStructure, hv, if_true, if_false,
        Bool.false_eq_true, Registry.slot, hslot, List.set_set] <;> rfl
  · intro w6 h
    cases hv : address.isIPv6 <;> cases w6 <;> rfl
  · cases hv : address.isIPv6 <;> rfl
  · cases hv : address.isIPv6 <;> rfl
  · cases hv : address.isIPv6 <;> rfl
  · cases hv : address.isIPv6 <;>
      simp [finishServer, Sv_AddToHashTable, initStructure]
  · cases hv : address.isIPv6 <;>
      simp [finishServer, Sv_AddToHashTable, initStructure]

theorem newServer_used (address : Address) (addrlen : Nat) (addrmap : Option Addrmap)
    (now : Nat) : (newServer address addrlen addrmap now).used = true := by
  simp [newServer, Server.used]

theorem not_full_first_free (c : Config) (r : Registry) (h : Core c r)
    (hff : FirstFreeOK r.servers r.first_free_slot) (hfull : r.nb_servers ≠ c.max_nb_servers) :
    ∃ k : Nat, r.first_free_slot = (k : Int) ∧ k < c.max_nb_servers ∧
      usedSlot r.servers k = false ∧ ∀ j, j < k → usedSlot r.servers j = true := by
  rcases hff with ⟨_, hall⟩ | ⟨k, hk, hklen, hkun, hbelow⟩
  · exfalso
    apply hfull
    rw [h.2.1, (countUsed_eq_length_iff r.servers).mpr hall, h.1]
  · exact ⟨k, hk, by rw [← h.1]; exact hklen, hkun, hbelow⟩

/-- The allocation part of `Sv_GetByAddr`, run when the list is not full. -/
theorem allocServer_spec (c : Config) (hc : c.ok) (r : Registry) (address : Address)
    (addrlen : Nat) (addrmap : Option Addrmap) (h : Core c r)
    (hff : FirstFreeOK r.servers r.first_free_slot) (hfull : r.nb_servers ≠ c.max_nb_servers) :
    ∃ (k : Nat) (q : Registry), r.first_free_slot = (k : Int) ∧ k < c.max_nb_servers ∧
      usedSlot r.servers k = false ∧ (∀ j, j < k → usedSlot r.servers j = true) ∧
      Core c q ∧ Shrinks r q ∧ usedSlot q.servers k = false ∧
      (∀ j, j < k → usedSlot q.servers j = true) ∧
      (allocServer c r address addrlen addrmap).1 = k ∧
      (allocServer c r address addrlen addrmap).2.servers =
        q.servers.set k (newServer address addrlen addrmap r.crt_time) ∧
      (∀ w6 hh, (allocServer c r address addrlen addrmap).2.chain w6 hh =
        if w6 = address.isIPv6 ∧ hh = Sv_AddressHash c address
        then k :: q.chain address.isIPv6 (Sv_AddressHash c address) else q.chain w6 hh) ∧
      Core c (allocServer c r address addrlen addrmap).2 ∧
      FirstFreeOK (allocServer c r address addrlen addrmap).2.servers
        (allocServer c r address addrlen addrmap).2.first_free_slot ∧
      (allocServer c r address addrlen addrmap).2.crt_time = r.crt_time := by
  obtain ⟨k, hk, hkmax, hkun, hbelow⟩ := not_full_first_free c r h hff hfull
  obtain ⟨b1, b2, b3, b4, b5⟩ := beforeScan_fields r
  have hcb : Core c (beforeScan r) := Core_beforeScan c r h
  have hlenb : (beforeScan r).servers.length = c.max_nb_servers := by rw [b1]; exact h.1
  obtain ⟨s1, s2, s3, s4⟩ := scanFree_spec c hc (c.max_nb_servers - (k + 1)) (k + 1)
    (beforeScan r) hcb b2 hlenb (by omega)
  generalize hq : scanFree c (c.max_nb_servers - (k + 1)) (k + 1) (beforeScan r) = q at s1 s2 s3 s4
  have hqlen : q.servers.length = c.max_nb_servers := s1.1
  have hklen : k < q.servers.length := by rw [hqlen]; exact hkmax
  obtain ⟨f1, f2, f3, f4, f5, f6, f7, f8⟩ :=
    allocServer_fields c r address addrlen addrmap k q hk hq hklen
  have hslotb : ∀ j, (beforeScan r).slot j = r.slot j := by
    intro j; unfold Registry.slot; rw [b1]
  have hshr : Shrinks r q := by
    refine ⟨s2.1.trans (by rw [b1]), s2.2.1.trans b3, ?_⟩
    intro j
    rcases s2.2.2 j with e | e
    · left; rw [e, hslotb]
    · right; exact e
  have hqk : usedSlot q.servers k = false := by
    rw [usedSlot_of_slot_eq (beforeScan r) q k (s3 k (Nat.lt_succ_self _)), b1]; exact hkun
  have hqbelow : ∀ j, j < k → usedSlot q.servers j = true := by
    intro j hj
    rw [usedSlot_of_slot_eq (beforeScan r) q j (s3 j (Nat.lt_succ_of_lt hj)), b1]
    exact hbelow j hj
  have hcrt : q.crt_time = r.crt_time := hshr.2.1
  rw [hcrt] at f2
  have hbound : Sv_AddressHash c address <
      (if address.isIPv6 then q.hash_table_ipv6.length else q.hash_table_ipv4.length) := by
    have hlt := Sv_AddressHash_lt c address
    cases address.isIPv6 <;> simp [s1.2.2.1, s1.2.2.2.1, hlt]
  have hchain : ∀ w6 hh, (allocServer c r address addrlen addrmap).2.chain w6 hh =
      if w6 = address.isIPv6 ∧ hh = Sv_AddressHash c address
      then k :: q.chain address.isIPv6 (Sv_AddressHash c address) else q.chain w6 hh := by
    intro w6 hh
    rw [f3, chain_AddToHashTable]
    simp only [hbound, and_true]
  generalize (allocServer c r address addrlen addrmap).2 = p at f2 f4 f5 f6 f7 f8 hchain
  have hpk : usedSlot p.servers k = true := by
    rw [f2, usedSlot_set_self _ _ _ hklen]; exact newServer_used _ _ _ _
  have hpother : ∀ j, j ≠ k → p.slot j = q.slot j := by
    intro j hj; unfold Registry.slot; rw [f2, getD_set_other _ _ _ _ hj]
  have hpuo : ∀ j, j ≠ k → usedSlot p.servers j = usedSlot q.servers j := by
    intro j hj; rw [f2, usedSlot_set_other _ _ _ _ hj]
  have hpslotk : p.slot k = newServer address addrlen addrmap r.crt_time := by
    unfold Registry.slot; rw [f2, getD_set_self _ _ _ hklen]
  have hpaddr : (p.slot k).address = address := by rw [hpslotk]; rfl
  obtain ⟨_, qnb, q4, q6, qa, qb, qc⟩ := s1
  have hknot : ∀ v6 hh, k ∉ q.chain v6 hh := by
    intro v6 hh hmem
    have := (qa v6 hh k hmem).1
    rw [hqk] at this; cases this
  have hcorep : Core c p := by
    refine ⟨?_, ?_, ?_, ?_, ?_, ?_, ?_⟩
    · rw [f2, List.length_set]; exact hqlen
    · have hadd := countUsed_add q.servers k (newServer address addrlen addrmap r.crt_time)
        hklen hqk (newServer_used _ _ _ _)
      have hle := countUsed_le (q.servers.set k (newServer address addrlen addrmap r.crt_time))
      rw [List.length_set, hqlen] at hle
      have hmax := hc.2
      rw [f4, f2, qnb, hadd]
      rw [hadd] at hle
      have key : ∀ n : Nat, n + 1 < 2 ^ 31 → (n + 1) % 2 ^ 32 = n + 1 := by
        intro n hn; norm_num at hn ⊢; omega
      exact key _ (by omega)
    · rw [f7]; exact q4
    · rw [f8]; exact q6
    · intro v6 hh i hi
      rw [hchain] at hi
      by_cases hcase : v6 = address.isIPv6 ∧ hh = Sv_AddressHash c address
      · rw [if_pos hcase] at hi
        rcases List.mem_cons.mp hi with e | hmem
        · subst e
          exact ⟨hpk, by rw [hpaddr]; exact hcase.1.symm, by rw [hpaddr]; exact hcase.2.symm⟩
        · have hik : i ≠ k := fun e => hknot _ _ (e ▸ hmem)
          rw [hpuo i hik, hpother i hik]
          exact qa _ _ i (by rw [hcase.1, hcase.2]; exact hmem)
      · rw [if_neg hcase] at hi
        have hik : i ≠ k := fun e => hknot _ _ (e ▸ hi)
        rw [hpuo i hik, hpother i hik]
        exact qa _ _ i hi
    · intro v6 hh
      rw [hchain]
      by_cases hcase : v6 = address.isIPv6 ∧ hh = Sv_AddressHash c address
      · rw [if_pos hcase]
        exact List.nodup_cons.mpr ⟨hknot _ _, qb _ _⟩
      · rw [if_neg hcase]; exact qb _ _
    · intro i hi
      rw [hchain]
      by_cases hik : i = k
      · subst hik
        rw [hpaddr, if_pos ⟨rfl, rfl⟩]
        exact List.mem_cons_self _ _
      · rw [hpuo i hik] at hi
        rw [hpother i hik]
        have hmem := qc i hi
        by_cases hcase : (q.slot i).address.isIPv6 = address.isIPv6 ∧
            Sv_AddressHash c (q.slot i).address = Sv_AddressHash c address
        · rw [if_pos hcase]
          rw [hcase.1, hcase.2] at hmem
          exact List.mem_cons_of_mem _ hmem
        · rw [if_neg hcase]; exact hmem
  have hffp : FirstFreeOK p.servers p.first_free_slot := by
    have hplen : p.servers.length = c.max_nb_servers := hcorep.1
    rw [f5]
    rcases s4 with ⟨a1, a2⟩ | ⟨m, a1, a2, a3, a4, a5⟩
    · left
      refine ⟨a1, ?_⟩
      intro j hj
      rw [hplen] at hj
      by_cases hjk : j = k
      · subst hjk; exact hpk
      · rw [hpuo j hjk]
        by_cases hlt : j < k
        · exact hqbelow j hlt
        · exact a2 j (by omega) hj
    · right
      refine ⟨m, a1, by rw [hplen]; exact a3, ?_, ?_⟩
      · rw [hpuo m (by omega)]; exact a4
      · intro j hj
        by_cases hjk : j = k
        · subst hjk; exact hpk
        · rw [hpuo j hjk]
          by_cases hlt : j < k
          · exact hqbelow j hlt
          · exact a5 j (by omega) hj
  exact ⟨k, q, hk, hkmax, hkun, hbelow, ⟨hqlen, qnb, q4, q6, qa, qb, qc⟩, hshr, hqk, hqbelow,
    f1, f2, hchain, hcorep, hffp, f6.trans hcrt⟩

/-! ## Counting records through their indices -/

theorem filter_length_eq_index (P : Server → Bool) (s : List Server) :
    (s.filter P).length =
      ((List.range s.length).filter (fun i => P (s.getD i Server.zero))).length := by
  induction s with
  | nil => rfl
  | cons a t ih =>
    rw [List.length_cons, List.range_succ_eq_map, List.filter_cons, List.filter_cons,
      List.filter_map]
    simp only [List.getD_cons_zero]
    have hcomp : ((fun i => P ((a :: t).getD i Server.zero)) ∘ Nat.succ) =
        (fun i => P (t.getD i Server.zero)) := by
      funext i; simp only [Function.comp, List.getD_cons_succ]
    rw [hcomp]
    by_cases hp : P a = true
    · simp only [hp, if_true, List.length_cons, List.length_map, ih]
    · simp only [hp, if_false, List.length_map, ih, Bool.false_eq_true]

theorem filter_length_le_index (P : Server → Bool) (s : List Server) (l : List Nat)
    (Q : Nat → Bool)
    (h : ∀ i, i < s.length → P (s.getD i Server.zero) = true → i ∈ l ∧ Q i = true) :
    (s.filter P).length ≤ (l.filter Q).length := by
  rw [filter_length_eq_index]
  apply List.Subperm.length_le
  apply List.subperm_of_subset ((List.nodup_range _).filter _)
  intro i hi
  rw [List.mem_filter, List.mem_range] at hi
  exact List.mem_filter.mpr (h i hi.1 hi.2)

theorem index_le_filter_length (P : Server → Bool) (s : List Server) (l : List Nat)
    (Q : Nat → Bool) (hl : l.Nodup)
    (h : ∀ j, j ∈ l → Q j = true → j < s.length ∧ P (s.getD j Server.zero) = true) :
    (l.filter Q).length ≤ (s.filter P).length := by
  rw [filter_length_eq_index]
  apply List.Subperm.length_le
  apply List.subperm_of_subset (hl.filter _)
  intro j hj
  rw [List.mem_filter] at hj
  rw [List.mem_filter, List.mem_range]
  exact h j hj.1 hj.2

theorem filter_length_mono (P : Server → Bool) (s t : List Server) (hlen : t.length = s.length)
    (h : ∀ j, P (t.getD j Server.zero) = true → P (s.getD j Server.zero) = true) :
    (t.filter P).length ≤ (s.filter P).length := by
  rw [filter_length_eq_index P s]
  apply filter_length_le_index
  intro i hi hp
  rw [List.mem_range]
  exact ⟨hlen ▸ hi, h i hp⟩

/-! ## A walk that finds nothing -/

theorem Shrinks_walkChain (address : Address) (hash : Nat) :
    ∀ (l : List Nat) (r : Registry) (n : Nat),
      Shrinks r (walkChain address hash l r n).2.2 := by
  intro l
  induction l with
  | nil => intro r n; exact Shrinks_refl r
  | cons j rest ih =>
    intro r n
    rcases Sv_IsActive_cases r j with ⟨hu, _⟩ | ⟨hu, ht, _⟩ | ⟨hu, ht, _⟩
    · rw [walkChain_unused _ _ _ _ _ _ hu]; exact ih r n
    · rw [walkChain_expired _ _ _ _ _ _ hu ht]
      exact Shrinks_trans (Shrinks_Sv_Remove r j) (ih _ n)
    · rw [walkChain_active _ _ _ _ _ _ hu ht]
      split
      · obtain ⟨e1, _, e3, _, _⟩ := promote_fields r j hash address.isIPv6
        refine ⟨by rw [e1], e3, ?_⟩
        intro i; left; unfold Registry.slot; rw [e1]
      · exact ih r _

theorem used_of_Shrinks {r q : Registry} (h : Shrinks r q) (j : Nat)
    (hu : usedSlot q.servers j = true) : q.slot j = r.slot j ∧ usedSlot r.servers j = true := by
  rcases h.2.2 j with e | e
  · exact ⟨e, by rw [← usedSlot_of_slot_eq r q j e]; exact hu⟩
  · rw [hu] at e; cases e

theorem active_iff (r : Registry) (j : Nat) :
    r.active j = true ↔ usedSlot r.servers j = true ∧ r.crt_time ≤ (r.slot j).timeout := by
  simp [Registry.active]

/-- A walk that returns no record: its count and what is left of the chain. -/
theorem walkChain_none (address : Address) (hash : Nat) :
    ∀ (l : List Nat) (r : Registry) (n : Nat), l.Nodup →
      (walkChain address hash l r n).1 = none →
      (walkChain address hash l r n).2.1 =
        n + (l.filter (fun j =>
          r.active j && (IsSameAddress (r.slot j).address address).2)).length ∧
      ∀ j, j ∈ l → usedSlot (walkChain address hash l r n).2.2.servers j = true →
        r.active j = true ∧ (IsSameAddress (r.slot j).address address).1 = false := by
  intro l
  induction l with
  | nil =>
    intro r n _ _
    exact ⟨rfl, fun j hj => absurd hj (List.not_mem_nil j)⟩
  | cons j rest ih =>
    intro r n hnd hnone
    obtain ⟨hjrest, hrest⟩ := List.nodup_cons.mp hnd
    rcases Sv_IsActive_cases r j with ⟨hu, _⟩ | ⟨hu, ht, _⟩ | ⟨hu, ht, _⟩
    · rw [walkChain_unused _ _ _ _ _ _ hu] at hnone ⊢
      obtain ⟨g1, g2⟩ := ih r n hrest hnone
      have hna : r.active j = false := by simp [Registry.active, hu]
      refine ⟨?_, ?_⟩
      · rw [g1, List.filter_cons]; simp [hna]
      · intro i hi hui
        rcases List.mem_cons.mp hi with e | hmem
        · subst e
          have := (used_of_Shrinks (Shrinks_walkChain address hash rest r n) i hui).2
          rw [hu] at this; cases this
        · exact g2 i hmem hui
    · rw [walkChain_expired _ _ _ _ _ _ hu ht] at hnone ⊢
      obtain ⟨g1, g2⟩ := ih (Sv_Remove r j) n hrest hnone
      have hna : r.active j = false := by
        simp only [Registry.active, hu, Bool.true_and, decide_eq_false_iff_not]; omega
      have hsame : ∀ i, i ∈ rest → (Sv_Remove r j).active i = r.active i ∧
          (Sv_Remove r j).slot i = r.slot i := by
        intro i hi
        have hij : i ≠ j := fun e => hjrest (e ▸ hi)
        unfold Registry.active
        rw [usedSlot_Sv_Remove_other r j i hij, slot_Sv_Remove_other r j i hij,
          crt_time_Sv_Remove]
        exact ⟨rfl, rfl⟩
      refine ⟨?_, ?_⟩
      · rw [g1, List.filter_cons]
        simp only [hna, Bool.false_and, Bool.false_eq_true, if_false]
        congr 2
        apply List.filter_congr
        intro i hi
        rw [(hsame i hi).1, (hsame i hi).2]
      · intro i hi hui
        rcases List.mem_cons.mp hi with e | hmem
        · subst e
          have := (used_of_Shrinks (Shrinks_walkChain address hash rest (Sv_Remove r i) n)
            i hui).2
          rw [usedSlot_Sv_Remove_self] at this; cases this
        · have := g2 i hmem hui
          rw [(hsame i hmem).1, (hsame i hmem).2] at this
          exact this
    · rw [walkChain_active _ _ _ _ _ _ hu ht] at hnone ⊢
      have hact : r.active j = true := (active_iff r j).mpr ⟨hu, ht⟩
      by_cases hx : (IsSameAddress (r.slot j).address address).1 = true
      · rw [if_pos hx] at hnone; cases hnone
      · rw [if_neg hx] at hnone ⊢
        obtain ⟨g1, g2⟩ := ih r _ hrest hnone
        refine ⟨?_, ?_⟩
        · rw [g1, List.filter_cons]
          by_cases hsp : (IsSameAddress (r.slot j).address address).2 = true
          · simp only [hact, hsp, Bool.and_self, if_true, List.length_cons]; omega
          · simp only [hact, hsp, Bool.true_and, if_false, Bool.false_eq_true]
        · intro i hi hui
          rcases List.mem_cons.mp hi with e | hmem
          · subst e; exact ⟨hact, by simpa using hx⟩
          · exact g2 i hmem hui

/-! ## The lookup that finds nothing -/

theorem samePublicRecords_eq (s : List Server) (now : Nat) (b : Bool) (a : Address) :
    samePublicRecords s now b a = s.filter (fun sv =>
      sv.used && ((!b || decide (now ≤ sv.timeout)) && (IsSameAddress sv.address a).2)) := rfl

/-- What a lookup that returns `NULL` has established. -/
theorem internal_none (c : Config) (r : Registry) (address : Address) (h : Core c r)
    (hnone : (Sv_GetByAddr_Internal c r address).1 = none) :
    (∀ i, usedSlot (Sv_GetByAddr_Internal c r address).2.2.servers i = true →
      ((Sv_GetByAddr_Internal c r address).2.2.slot i).address ≠ address) ∧
    (c.hash_ports = false → ∀ t,
      (samePublicRecords (Sv_GetByAddr_Internal c r address).2.2.servers t false address).length
        ≤ (Sv_GetByAddr_Internal c r address).2.1) ∧
    (c.hash_ports = false →
      (samePublicRecords r.servers r.crt_time true address).length
        ≤ (Sv_GetByAddr_Internal c r address).2.1) ∧
    (Sv_GetByAddr_Internal c r address).2.1
      ≤ (samePublicRecords r.servers r.crt_time true address).length := by
  obtain ⟨hlen, hnb, h4, h6, ha, hb, hcc⟩ := h
  unfold Sv_GetByAddr_Internal at hnone ⊢
  simp only at hnone ⊢
  have hnd := hb address.isIPv6 (Sv_AddressHash c address)
  obtain ⟨g1, g2⟩ := walkChain_none address (Sv_AddressHash c address) _ r 0 hnd hnone
  have hsh := Shrinks_walkChain address (Sv_AddressHash c address)
    (r.chain address.isIPv6 (Sv_AddressHash c address)) r 0
  generalize walkChain address (Sv_AddressHash c address)
    (r.chain address.isIPv6 (Sv_AddressHash c address)) r 0 = w at hnone g1 g2 hsh
  rw [Nat.zero_add] at g1
  refine ⟨?_, ?_, ?_, ?_⟩
  · intro i hi heq
    obtain ⟨e1, e2⟩ := used_of_Shrinks hsh i hi
    rw [e1] at heq
    have hmem := hcc i e2
    rw [heq] at hmem
    have := (g2 i hmem hi).2
    rw [heq, IsSameAddress_self] at this
    cases this
  · intro hp t
    rw [g1, samePublicRecords_eq]
    apply filter_length_le_index
    intro i _ hP
    simp only [Bool.not_false, Bool.true_or, Bool.true_and, Bool.and_eq_true] at hP
    have hui : usedSlot w.2.2.servers i = true := hP.1
    obtain ⟨e1, e2⟩ := used_of_Shrinks hsh i hui
    have hsp : (IsSameAddress (r.slot i).address address).2 = true := by
      rw [← e1]; exact hP.2
    have hmem := hcc i e2
    rw [samePublic_family _ _ hsp, samePublic_hash c _ _ hp hsp] at hmem
    refine ⟨hmem, ?_⟩
    simp only [Bool.and_eq_true]
    exact ⟨(g2 i hmem hui).1, hsp⟩
  · intro hp
    rw [g1, samePublicRecords_eq]
    apply filter_length_le_index
    intro i _ hP
    simp only [Bool.not_true, Bool.false_or, Bool.and_eq_true, decide_eq_true_eq] at hP
    have hui : usedSlot r.servers i = true := hP.1
    have hsp : (IsSameAddress (r.slot i).address address).2 = true := hP.2.2
    have hmem := hcc i hui
    rw [samePublic_family _ _ hsp, samePublic_hash c _ _ hp hsp] at hmem
    refine ⟨hmem, ?_⟩
    simp only [Bool.and_eq_true]
    exact ⟨(active_iff r i).mpr ⟨hui, hP.2.1⟩, hsp⟩
  · rw [g1, samePublicRecords_eq]
    apply index_le_filter_length _ _ _ _ hnd
    intro j _ hQ
    simp only [Bool.and_eq_true] at hQ
    obtain ⟨hu, ht⟩ := (active_iff r j).mp hQ.1
    refine ⟨usedSlot_lt _ _ hu, ?_⟩
    simp only [Bool.not_true, Bool.false_or, Bool.and_eq_true, decide_eq_true_eq]
    exact ⟨hu, ht, hQ.2⟩

/-! ## The cases of `Sv_GetByAddr` -/

theorem Sv_GetByAddr_cases (c : Config) (r : Registry) (address : Address) (addrlen : Nat)
    (add_it : Bool) :
    (∃ sv, (Sv_GetByAddr_Internal c r address).1 = some sv ∧
      Sv_GetByAddr c r address addrlen add_it =
        (some sv, (Sv_GetByAddr_Internal c r address).2.2)) ∨
    ((Sv_GetByAddr_Internal c r address).1 = none ∧
      (add_it = false ∨ quotaReached c (Sv_GetByAddr_Internal c r address).2.1 = true ∨
        loopbackRefused c address = true) ∧
      Sv_GetByAddr c r address addrlen add_it =
        (none, (Sv_GetByAddr_Internal c r address).2.2)) ∨
    ((Sv_GetByAddr_Internal c r address).1 = none ∧ add_it = true ∧
      quotaReached c (Sv_GetByAddr_Internal c r address).2.1 = false ∧
      loopbackRefused c address = false ∧
      (sweepIfFull c (Sv_GetByAddr_Internal c r address).2.2).nb_servers = c.max_nb_servers ∧
      Sv_GetByAddr c r address addrlen add_it =
        (none, sweepIfFull c (Sv_GetByAddr_Internal c r address).2.2)) ∨
    ((Sv_GetByAddr_Internal c r address).1 = none ∧ add_it = true ∧
      quotaReached c (Sv_GetByAddr_Internal c r address).2.1 = false ∧
      loopbackRefused c address = false ∧
      (sweepIfFull c (Sv_GetByAddr_Internal c r address).2.2).nb_servers ≠ c.max_nb_servers ∧
      Sv_GetByAddr c r address addrlen add_it =
        (some (allocServer c (sweepIfFull c (Sv_GetByAddr_Internal c r address).2.2) address
            addrlen (addrmapLocal c address)).1,
          (allocServer c (sweepIfFull c (Sv_GetByAddr_Internal c r address).2.2) address
            addrlen (addrmapLocal c address)).2)) := by
  unfold Sv_GetByAddr
  generalize Sv_GetByAddr_Internal c r address = F
  obtain ⟨res, n, q⟩ := F
  cases res with
  | some sv => left; exact ⟨sv, rfl, rfl⟩
  | none =>
    right
    dsimp only
    cases add_it with
    | false => left; exact ⟨rfl, Or.inl rfl, rfl⟩
    | true =>
      cases hq : quotaReached c n with
      | true => left; exact ⟨rfl, Or.inr (Or.inl rfl), by simp⟩
      | false =>
        cases hl : loopbackRefused c address with
        | true => left; exact ⟨rfl, Or.inr (Or.inr rfl), by simp⟩
        | false =>
          right
          by_cases hfull : (sweepIfFull c q).nb_servers = c.max_nb_servers
          · left; exact ⟨rfl, rfl, rfl, rfl, hfull, by simp [hfull]⟩
          · right; exact ⟨rfl, rfl, rfl, rfl, hfull, by simp [hfull]⟩

/-! ## The invariant through the operations -/

theorem UniqueAddr_of_Shrinks {r q : Registry} (h : Shrinks r q) (hu : UniqueAddr r) :
    UniqueAddr q := by
  intro i j hi hj heq
  obtain ⟨e1, u1⟩ := used_of_Shrinks h i hi
  obtain ⟨e2, u2⟩ := used_of_Shrinks h j hj
  rw [e1, e2] at heq
  exact hu i j u1 u2 heq

theorem samePublic_count_of_Shrinks {r q : Registry} (h : Shrinks r q) (a : Address)
    (t1 t2 : Nat) :
    (samePublicRecords q.servers t1 false a).length ≤
      (samePublicRecords r.servers t2 false a).length := by
  rw [samePublicRecords_eq, samePublicRecords_eq]
  simp only [Bool.not_false, Bool.true_or, Bool.true_and]
  apply filter_length_mono _ _ _ h.1
  intro j hP
  simp only [Bool.and_eq_true] at hP ⊢
  have hui : usedSlot q.servers j = true := hP.1
  obtain ⟨e1, e2⟩ := used_of_Shrinks h j hui
  have e1' : q.servers.getD j Server.zero = r.servers.getD j Server.zero := e1
  rw [← e1']
  exact hP

theorem QuotaOK_of_Shrinks {c : Config} {r q : Registry} (h : Shrinks r q)
    (hq : QuotaOK c r) : QuotaOK c q := by
  intro hp hm a
  exact Nat.le_trans (samePublic_count_of_Shrinks h a _ _) (hq hp hm a)

theorem Inv_of_Evolves {c : Config} {r q : Registry} (h : Inv c r) (he : Evolves c r q) :
    Inv c q :=
  ⟨he.1, he.2.2 h.2.1, UniqueAddr_of_Shrinks he.2.1 h.2.2.1, QuotaOK_of_Shrinks he.2.1 h.2.2.2⟩

theorem filter_length_set (P : Server → Bool) (s : List Server) (i : Nat) (x : Server)
    (h : i < s.length) :
    ((s.set i x).filter P).length + (if P (s.getD i Server.zero) = true then 1 else 0) =
      (s.filter P).length + (if P x = true then 1 else 0) := by
  rw [← List.countP_eq_length_filter, ← List.countP_eq_length_filter]
  exact countP_set P s i x h

theorem samePublicRecords_false (s : List Server) (t : Nat) (a : Address) :
    samePublicRecords s t false a =
      s.filter (fun sv => sv.used && (IsSameAddress sv.address a).2) := by
  simp [samePublicRecords_eq]

theorem samePublicRecords_time (s : List Server) (t1 t2 : Nat) (a : Address) :
    samePublicRecords s t1 false a = samePublicRecords s t2 false a := by
  simp [samePublicRecords_eq]

/-- The invariant through the allocation of a record for an address that is
not registered and has room left in its quota. -/
theorem Inv_allocServer (c : Config) (hc : c.ok) (r : Registry) (address : Address)
    (addrlen : Nat) (addrmap : Option Addrmap) (h : Inv c r)
    (hfull : r.nb_servers ≠ c.max_nb_servers)
    (hno : ∀ i, usedSlot r.servers i = true → (r.slot i).address ≠ address)
    (hroom : c.hash_ports = false → c.max_per_address ≠ 0 →
      (samePublicRecords r.servers r.crt_time false address).length < c.max_per_address) :
    Inv c (allocServer c r address addrlen addrmap).2 := by
  obtain ⟨hcore, hff, huniq, hquota⟩ := h
  obtain ⟨k, q, _, hkmax, _, _, hcq, hsh, hqk, _, _, hserv, _, hcp, hffp, hcrt⟩ :=
    allocServer_spec c hc r address addrlen addrmap hcore hff hfull
  generalize (allocServer c r address addrlen addrmap).2 = p at hserv hcp hffp hcrt
  have hklen : k < q.servers.length := by rw [hcq.1]; exact hkmax
  have hpother : ∀ j, j ≠ k → p.slot j = q.slot j := by
    intro j hj; unfold Registry.slot; rw [hserv, getD_set_other _ _ _ _ hj]
  have hpuo : ∀ j, j ≠ k → usedSlot p.servers j = usedSlot q.servers j := by
    intro j hj; rw [hserv, usedSlot_set_other _ _ _ _ hj]
  have hpaddr : (p.slot k).address = address := by
    unfold Registry.slot; rw [hserv, getD_set_self _ _ _ hklen]; rfl
  have hnoq : ∀ j, j ≠ k → usedSlot p.servers j = true → (p.slot j).address ≠ address := by
    intro j hj hu
    rw [hpuo j hj] at hu
    obtain ⟨e1, e2⟩ := used_of_Shrinks hsh j hu
    rw [hpother j hj, e1]
    exact hno j e2
  refine ⟨hcp, hffp, ?_, ?_⟩
  · intro i j hi hj heq
    by_cases hik : i = k
    · by_cases hjk : j = k
      · rw [hik, hjk]
      · exfalso
        apply hnoq j hjk hj
        rw [← heq, hik]; exact hpaddr
    · by_cases hjk : j = k
      · exfalso
        apply hnoq i hik hi
        rw [heq, hjk]; exact hpaddr
      · rw [hpuo i hik] at hi
        rw [hpuo j hjk] at hj
        rw [hpother i hik, hpother j hjk] at heq
        exact UniqueAddr_of_Shrinks hsh huniq i j hi hj heq
  · intro hp hm a
    have hset := filter_length_set (fun sv => sv.used && (IsSameAddress sv.address a).2)
      q.servers k (newServer address addrlen addrmap r.crt_time) hklen
    have hold : (q.servers.getD k Server.zero).used = false := hqk
    simp only [hold, Bool.false_and, Bool.false_eq_true, if_false, Nat.add_zero] at hset
    rw [samePublicRecords_false, hserv, hset]
    have hnew : (newServer address addrlen addrmap r.crt_time).address = address := rfl
    simp only [hnew]
    by_cases hsp : (IsSameAddress address a).2 = true
    · have hpred : (fun sv : Server => sv.used && (IsSameAddress sv.address a).2) =
          (fun sv : Server => sv.used && (IsSameAddress sv.address address).2) := by
        funext sv
        rw [samePublic_trans sv.address address a hsp]
      have hqaddr : (samePublicRecords q.servers p.crt_time false address).length ≤
          (samePublicRecords r.servers r.crt_time false address).length :=
        samePublic_count_of_Shrinks hsh address _ _
      rw [samePublicRecords_false] at hqaddr
      have hr := hroom hp hm
      have e1 : (q.servers.filter (fun sv : Server =>
          sv.used && (IsSameAddress sv.address a).2)).length =
          (q.servers.filter (fun sv : Server =>
          sv.used && (IsSameAddress sv.address address).2)).length := by rw [hpred]
      rw [e1]
      split <;> omega
    · have hqa : (samePublicRecords q.servers p.crt_time false a).length ≤
          (samePublicRecords r.servers r.crt_time false a).length :=
        samePublic_count_of_Shrinks hsh a _ _
      rw [samePublicRecords_false] at hqa
      have hq := hquota hp hm a
      simp only [hsp, Bool.and_false, Bool.false_eq_true, if_false, Nat.add_zero]
      omega

theorem quota_room (c : Config) (n : Nat) (hq : quotaReached c n = false)
    (hm : c.max_per_address ≠ 0) : n < c.max_per_address := by
  unfold quotaReached at hq
  simp only [decide_eq_false_iff_not, not_and, not_not] at hq
  by_contra hge
  exact hm (hq (Nat.le_of_not_lt hge))

theorem Inv_Sv_GetByAddr (c : Config) (hc : c.ok) (r : Registry) (address : Address)
    (addrlen : Nat) (add_it : Bool) (h : Inv c r) :
    Inv c (Sv_GetByAddr c r address addrlen add_it).2 := by
  have hev := Evolves_internal c hc r address h.1
  have hinv1 := Inv_of_Evolves h hev
  rcases Sv_GetByAddr_cases c r address addrlen add_it with
    ⟨sv, _, e⟩ | ⟨_, _, e⟩ | ⟨_, _, _, _, _, e⟩ | ⟨hnone, _, hq, _, hfull, e⟩
  · rw [e]; exact hinv1
  · rw [e]; exact hinv1
  · rw [e]; exact Inv_of_Evolves hinv1 (Evolves_sweepIfFull c hc _ hev.1)
  · rw [e]
    have hev2 := Evolves_sweepIfFull c hc _ hev.1
    obtain ⟨n1, n2, _, _⟩ := internal_none c r address h.1 hnone
    apply Inv_allocServer c hc _ address addrlen _ (Inv_of_Evolves hinv1 hev2) hfull
    · intro i hi
      obtain ⟨e1, e2⟩ := used_of_Shrinks hev2.2.1 i hi
      rw [e1]; exact n1 i e2
    · intro hp hm
      have hroom := quota_room c _ hq hm
      have := samePublic_count_of_Shrinks hev2.2.1 address
        (sweepIfFull c (Sv_GetByAddr_Internal c r address).2.2).crt_time r.crt_time
      have := n2 hp r.crt_time
      omega

theorem Inv_clock (c : Config) (r : Registry) (t : Nat) (h : Inv c r) :
    Inv c { r with crt_time := t } := by
  obtain ⟨hcore, hff, huniq, hquota⟩ := h
  refine ⟨hcore, hff, huniq, ?_⟩
  intro hp hm a
  have := hquota hp hm a
  rw [samePublicRecords_time r.servers r.crt_time t a] at this
  exact this

theorem Inv_setTimeout (c : Config) (r : Registry) (i t : Nat) (h : Inv c r) :
    Inv c (setTimeout r i t) := by
  unfold setTimeout
  split
  · next hu =>
    obtain ⟨⟨hlen, hnb, h4, h6, ha, hb, hcc⟩, hff, huniq, hquota⟩ := h
    have hi := usedSlot_lt _ _ hu
    have hx : ({ r.slot i with timeout := t } : Server).used =
        (r.servers.getD i Server.zero).used := rfl
    have husame : ∀ j, usedSlot (r.servers.set i ({ r.slot i with timeout := t })) j =
        usedSlot r.servers j := by
      intro j
      by_cases hj : j = i
      · subst hj; rw [usedSlot_set_self _ _ _ hi]; rfl
      · rw [usedSlot_set_other _ _ _ _ hj]
    have haddr : ∀ j, ((r.servers.set i ({ r.slot i with timeout := t })).getD j
        Server.zero).address = (r.slot j).address := by
      intro j
      by_cases hj : j = i
      · subst hj; rw [getD_set_self _ _ _ hi]
      · rw [getD_set_other _ _ _ _ hj]; rfl
    refine ⟨⟨?_, ?_, h4, h6, ?_, hb, ?_⟩, ?_, ?_, ?_⟩
    · show (r.servers.set i _).length = _
      rw [List.length_set]; exact hlen
    · show r.nb_servers = countUsed (r.servers.set i _)
      rw [countUsed_same _ _ _ hx]; exact hnb
    · intro v6 hh j hj
      have := ha v6 hh j hj
      show usedSlot (r.servers.set i _) j = true ∧
        ((r.servers.set i _).getD j Server.zero).address.isIPv6 = v6 ∧
        Sv_AddressHash c ((r.servers.set i _).getD j Server.zero).address = hh
      rw [husame, haddr]; exact this
    · intro j hj
      have hj2 : usedSlot r.servers j = true := by rw [← husame j]; exact hj
      have := hcc j hj2
      show j ∈ r.chain ((r.servers.set i _).getD j Server.zero).address.isIPv6
        (Sv_AddressHash c ((r.servers.set i _).getD j Server.zero).address)
      rw [haddr]; exact this
    · rcases hff with ⟨a1, a2⟩ | ⟨k, a1, a2, a3, a4⟩
      · left
        refine ⟨a1, ?_⟩
        intro j hj
        show usedSlot (r.servers.set i _) j = true
        rw [husame]
        exact a2 j (by simpa [List.length_set] using hj)
      · right
        refine ⟨k, a1, ?_, ?_, ?_⟩
        · show k < (r.servers.set i _).length
          rw [List.length_set]; exact a2
        · show usedSlot (r.servers.set i _) k = false
          rw [husame]; exact a3
        · intro j hj
          show usedSlot (r.servers.set i _) j = true
          rw [husame]; exact a4 j hj
    · intro j1 j2 h1 h2 heq
      have h1' : usedSlot r.servers j1 = true := by rw [← husame j1]; exact h1
      have h2' : usedSlot r.servers j2 = true := by rw [← husame j2]; exact h2
      apply huniq j1 j2 h1' h2'
      rw [← haddr j1, ← haddr j2]; exact heq
    · intro hp hm a
      have hq := hquota hp hm a
      have hset := filter_length_set (fun sv => sv.used && (IsSameAddress sv.address a).2)
        r.servers i ({ r.slot i with timeout := t }) hi
      have hP : ((fun sv : Server => sv.used && (IsSameAddress sv.address a).2)
          ({ r.slot i with timeout := t })) =
          ((fun sv : Server => sv.used && (IsSameAddress sv.address a).2)
          (r.servers.getD i Server.zero)) := rfl
      rw [hP] at hset
      show (samePublicRecords (r.servers.set i _) r.crt_time false a).length ≤ _
      rw [samePublicRecords_false] at hq ⊢
      omega
  · exact h

theorem Inv_step (c : Config) (hc : c.ok) (r q : Registry) (op : Op) (h : Inv c r)
    (hs : step c r op = some q) : Inv c q := by
  cases op with
  | getByAddr address addrlen add_it =>
    simp only [step, Option.some.injEq] at hs
    rw [← hs]; exact Inv_Sv_GetByAddr c hc r address addrlen add_it h
  | advanceClock dt =>
    simp only [step, Option.some.injEq] at hs
    rw [← hs]; exact Inv_clock c r _ h
  | setTimeout i t =>
    simp only [step, Option.some.injEq] at hs
    rw [← hs]; exact Inv_setTimeout c r i t h
  | getFirst rnd =>
    simp only [step, Option.map_eq_some'] at hs
    obtain ⟨p, hp, e⟩ := hs
    rw [← e]; exact Inv_of_Evolves h (Evolves_Sv_GetFirst c hc r rnd p h.1 hp)
  | getNext =>
    simp only [step, Option.map_eq_some'] at hs
    obtain ⟨p, hp, e⟩ := hs
    rw [← e]; exact Inv_of_Evolves h (Evolves_Sv_GetNext c hc r p h.1 hp)
  | writeInfo =>
    simp only [step, Option.some.injEq] at hs
    rw [← hs]; exact Inv_of_Evolves h (Evolves_Sv_WriteInfo c hc r h.1)

theorem Inv_run (c : Config) (hc : c.ok) :
    ∀ (ops : List Op) (r q : Registry), Inv c r → run c ops r = some q → Inv c q := by
  intro ops
  induction ops with
  | nil =>
    intro r q h hr
    simp only [run, Option.some.injEq] at hr
    rw [← hr]; exact h
  | cons op rest ih =>
    intro r q h hr
    simp only [run, Option.bind_eq_some] at hr
    obtain ⟨m, hm, hrest⟩ := hr
    exact ih m q (Inv_step c hc r m op h hm) hrest

theorem usedSlot_replicate (n i : Nat) :
    usedSlot (List.replicate n Server.zero) i = false := by
  unfold usedSlot
  rw [List.getD_eq_getElem?_getD, List.getElem?_replicate]
  split <;> exact used_zero

theorem chain_Sv_Init (c : Config) (v6 : Bool) (h : Nat) : (Sv_Init c).chain v6 h = [] := by
  cases v6 <;>
    simp only [Registry.chain, Sv_Init, List.getD_eq_getElem?_getD, List.getElem?_replicate,
      if_true, if_false, Bool.false_eq_true] <;>
    split <;> rfl

theorem Inv_Sv_Init (c : Config) (hc : c.ok) : Inv c (Sv_Init c) := by
  have hnone : ∀ a ∈ List.replicate c.max_nb_servers Server.zero, ¬ (Server.used a = true) := by
    intro a ha
    rw [(List.mem_replicate.mp ha).2, used_zero]; simp
  refine ⟨⟨?_, ?_, ?_, ?_, ?_, ?_, ?_⟩, ?_, ?_, ?_⟩
  · simp [Sv_Init]
  · show 0 = countUsed (List.replicate c.max_nb_servers Server.zero)
    unfold countUsed
    rw [List.countP_eq_zero.mpr hnone]
  · simp [Sv_Init, Nat.shiftLeft_eq]
  · simp [Sv_Init, Nat.shiftLeft_eq]
  · intro v6 h i hi
    rw [chain_Sv_Init] at hi
    exact absurd hi (List.not_mem_nil i)
  · intro v6 h
    rw [chain_Sv_Init]; exact List.nodup_nil
  · intro i hi
    have : usedSlot (List.replicate c.max_nb_servers Server.zero) i = true := hi
    rw [usedSlot_replicate] at this; cases this
  · right
    refine ⟨0, rfl, ?_, usedSlot_replicate _ _, fun j hj => absurd hj (Nat.not_lt_zero j)⟩
    simp [Sv_Init, hc.1]
  · intro i j hi _ _
    have : usedSlot (List.replicate c.max_nb_servers Server.zero) i = true := hi
    rw [usedSlot_replicate] at this; cases this
  · intro _ _ a
    rw [samePublicRecords_eq]
    have : (List.replicate c.max_nb_servers Server.zero).filter (fun sv => sv.used &&
        ((!false || decide ((Sv_Init c).crt_time ≤ sv.timeout)) &&
          (IsSameAddress sv.address a).2)) = [] := by
      rw [List.filter_eq_nil_iff]
      intro x hx
      rw [(List.mem_replicate.mp hx).2, used_zero]; simp
    show (List.filter _ (List.replicate c.max_nb_servers Server.zero)).length ≤ _
    rw [this]; exact Nat.zero_le _

/-- Every state reached from the initial one satisfies the invariant. -/
theorem Inv_reachable (c : Config) (hc : c.ok) (ops : List Op) (r : Registry)
    (h : run c ops (Sv_Init c) = some r) : Inv c r :=
  Inv_run c hc ops (Sv_Init c) r (Inv_Sv_Init c hc) h

/-! ## A walk that finds the record -/

theorem active_promote (r : Registry) (i hash : Nat) (v6 : Bool) (j : Nat) :
    (Sv_AddToHashTable (Sv_RemoveFromHashTable r i) i hash v6).active j = r.active j ∧
    (Sv_AddToHashTable (Sv_RemoveFromHashTable r i) i hash v6).slot j = r.slot j := by
  obtain ⟨e1, _, e3, _, _⟩ := promote_fields r i hash v6
  unfold Registry.active Registry.slot
  rw [e1, e3]
  exact ⟨rfl, rfl⟩

/-- The record a walk returns is active and has the address looked up. -/
theorem walkChain_some (address : Address) (hash : Nat) :
    ∀ (l : List Nat) (r : Registry) (n sv : Nat),
      (walkChain address hash l r n).1 = some sv →
      (walkChain address hash l r n).2.2.active sv = true ∧
      ((walkChain address hash l r n).2.2.slot sv).address = address ∧ sv ∈ l := by
  intro l
  induction l with
  | nil => intro r n sv h; cases h
  | cons j rest ih =>
    intro r n sv h
    rcases Sv_IsActive_cases r j with ⟨hu, _⟩ | ⟨hu, ht, _⟩ | ⟨hu, ht, _⟩
    · rw [walkChain_unused _ _ _ _ _ _ hu] at h ⊢
      obtain ⟨g1, g2, g3⟩ := ih r n sv h
      exact ⟨g1, g2, List.mem_cons_of_mem _ g3⟩
    · rw [walkChain_expired _ _ _ _ _ _ hu ht] at h ⊢
      obtain ⟨g1, g2, g3⟩ := ih _ n sv h
      exact ⟨g1, g2, List.mem_cons_of_mem _ g3⟩
    · rw [walkChain_active _ _ _ _ _ _ hu ht] at h ⊢
      by_cases hx : (IsSameAddress (r.slot j).address address).1 = true
      · rw [if_pos hx] at h ⊢
        have hsv : j = sv := by simpa using h
        subst hsv
        obtain ⟨a1, a2⟩ := active_promote r j hash address.isIPv6 j
        refine ⟨?_, ?_, List.mem_cons_self _ _⟩
        · show (Sv_AddToHashTable (Sv_RemoveFromHashTable r j) j hash address.isIPv6).active j
            = true
          rw [a1]; exact (active_iff r j).mpr ⟨hu, ht⟩
        · show ((Sv_AddToHashTable (Sv_RemoveFromHashTable r j) j hash address.isIPv6).slot
            j).address = address
          rw [a2]; exact IsSameAddress_exact _ _ hx
      · rw [if_neg hx] at h ⊢
        obtain ⟨g1, g2, g3⟩ := ih r _ sv h
        exact ⟨g1, g2, List.mem_cons_of_mem _ g3⟩

theorem keptByWalk_nil (r : Registry) (i k : Nat) : keptByWalk r [] i k = (k != i) := by
  simp [keptByWalk]

/-- A walk that meets the record looked up after the slots `pre`: it returns the
record, and every chain is what it was without the timed-out records among
`pre`, the record found being moved to the head of the chain walked. -/
theorem walkChain_hit (address : Address) (hash i : Nat) (suf : List Nat) :
    ∀ (pre : List Nat) (r : Registry) (n : Nat),
      (∀ k, k ∈ pre → ¬ (r.active k = true ∧
        (IsSameAddress (r.slot k).address address).1 = true)) →
      i ∉ pre → r.active i = true → (IsSameAddress (r.slot i).address address).1 = true →
      hash < (if address.isIPv6 then r.hash_table_ipv6.length
        else r.hash_table_ipv4.length) →
      (walkChain address hash (pre ++ i :: suf) r n).1 = some i ∧
      ∀ w6 hh, (walkChain address hash (pre ++ i :: suf) r n).2.2.chain w6 hh =
        if w6 = address.isIPv6 ∧ hh = hash
        then i :: (r.chain address.isIPv6 hash).filter (keptByWalk r pre i)
        else (r.chain w6 hh).filter (keptByWalk r pre i) := by
  intro pre
  induction pre with
  | nil =>
    intro r n _ _ hact hx hlt
    obtain ⟨hu, ht⟩ := (active_iff r i).mp hact
    rw [List.nil_append, walkChain_active _ _ _ _ _ _ hu ht, if_pos hx]
    refine ⟨rfl, ?_⟩
    intro w6 hh
    have hk : keptByWalk r [] i = (fun k => k != i) := by
      funext k; exact keptByWalk_nil r i k
    have hlt2 : hash < (if address.isIPv6 then (Sv_RemoveFromHashTable r i).hash_table_ipv6.length
        else (Sv_RemoveFromHashTable r i).hash_table_ipv4.length) := by
      cases hv : address.isIPv6 <;> simp [Sv_RemoveFromHashTable, hv] at hlt ⊢ <;> exact hlt
    show (Sv_AddToHashTable (Sv_RemoveFromHashTable r i) i hash address.isIPv6).chain w6 hh = _
    rw [chain_AddToHashTable, hk]
    simp only [hlt2, and_true, chain_RemoveFromHashTable]
  | cons p rest ih =>
    intro r n hpre hi hact hx hlt
    have hpi : p ≠ i := fun e => hi (e ▸ List.mem_cons_self _ _)
    have hirest : i ∉ rest := fun hm => hi (List.mem_cons_of_mem _ hm)
    rw [List.cons_append]
    rcases Sv_IsActive_cases r p with ⟨hu, _⟩ | ⟨hu, ht, _⟩ | ⟨hu, ht, _⟩
    · rw [walkChain_unused _ _ _ _ _ _ hu]
      obtain ⟨g1, g2⟩ := ih r n (fun k hk => hpre k (List.mem_cons_of_mem _ hk)) hirest hact hx hlt
      refine ⟨g1, ?_⟩
      have hkeep : ∀ k, keptByWalk r (p :: rest) i k = keptByWalk r rest i k := by
        intro k
        unfold keptByWalk
        by_cases hkp : k = p
        · subst hkp; simp [hu]
        · simp [hkp]
      have hfun : keptByWalk r (p :: rest) i = keptByWalk r rest i := funext hkeep
      intro w6 hh
      rw [g2, hfun]
    · rw [walkChain_expired _ _ _ _ _ _ hu ht]
      have hother : ∀ k, k ≠ p → (Sv_Remove r p).active k = r.active k ∧
          (Sv_Remove r p).slot k = r.slot k ∧
          usedSlot (Sv_Remove r p).servers k = usedSlot r.servers k := by
        intro k hk
        unfold Registry.active
        rw [usedSlot_Sv_Remove_other r p k hk, slot_Sv_Remove_other r p k hk,
          crt_time_Sv_Remove]
        exact ⟨rfl, rfl, rfl⟩
      have hpre1 : ∀ k, k ∈ rest → ¬ ((Sv_Remove r p).active k = true ∧
          (IsSameAddress ((Sv_Remove r p).slot k).address address).1 = true) := by
        intro k hk
        by_cases hkp : k = p
        · subst hkp
          intro hcon
          have := ((active_iff _ _).mp hcon.1).1
          rw [usedSlot_Sv_Remove_self] at this; cases this
        · rw [(hother k hkp).1, (hother k hkp).2.1]
          exact hpre k (List.mem_cons_of_mem _ hk)
      have hact1 : (Sv_Remove r p).active i = true := by
        rw [(hother i (Ne.symm hpi)).1]; exact hact
      have hx1 : (IsSameAddress ((Sv_Remove r p).slot i).address address).1 = true := by
        rw [(hother i (Ne.symm hpi)).2.1]; exact hx
      have hlt1 : hash < (if address.isIPv6 then (Sv_Remove r p).hash_table_ipv6.length
          else (Sv_Remove r p).hash_table_ipv4.length) := by
        rw [(tables_length_Sv_Remove r p).1, (tables_length_Sv_Remove r p).2]; exact hlt
      obtain ⟨g1, g2⟩ := ih (Sv_Remove r p) n hpre1 hirest hact1 hx1 hlt1
      refine ⟨g1, ?_⟩
      have hfilter : ∀ (l : List Nat),
          (l.filter (fun j => j != p)).filter (keptByWalk (Sv_Remove r p) rest i) =
            l.filter (keptByWalk r (p :: rest) i) := by
        intro l
        rw [List.filter_filter]
        apply List.filter_congr
        intro k _
        unfold keptByWalk
        by_cases hkp : k = p
        · subst hkp
          have : decide ((r.slot k).timeout < r.crt_time) = true := by simpa using ht
          simp [hu, this]
        · rw [(hother k hkp).2.2, (hother k hkp).2.1, crt_time_Sv_Remove]
          simp [hkp]
      intro w6 hh
      rw [g2, chain_Sv_Remove, chain_Sv_Remove, hfilter, hfilter]
    · rw [walkChain_active _ _ _ _ _ _ hu ht]
      have hnx : ¬ (IsSameAddress (r.slot p).address address).1 = true := by
        intro hcon
        exact hpre p (List.mem_cons_self _ _) ⟨(active_iff r p).mpr ⟨hu, ht⟩, hcon⟩
      rw [if_neg hnx]
      obtain ⟨g1, g2⟩ := ih r _ (fun k hk => hpre k (List.mem_cons_of_mem _ hk)) hirest hact hx hlt
      refine ⟨g1, ?_⟩
      have hkeep : ∀ k, keptByWalk r (p :: rest) i k = keptByWalk r rest i k := by
        intro k
        unfold keptByWalk
        by_cases hkp : k = p
        · subst hkp
          have : decide ((r.slot k).timeout < r.crt_time) = false := by
            simp only [decide_eq_false_iff_not]; omega
          simp [this]
        · simp [hkp]
      have hfun : keptByWalk r (p :: rest) i = keptByWalk r rest i := funext hkeep
      intro w6 hh
      rw [g2, hfun]

/-! ## Lookups that return a record -/

/-- The record a lookup returns is active, has the address looked up, and was
registered with that address before the call. -/
theorem internal_some (c : Config) (r : Registry) (address : Address) (sv : Nat)
    (h : (Sv_GetByAddr_Internal c r address).1 = some sv) :
    (Sv_GetByAddr_Internal c r address).2.2.active sv = true ∧
    ((Sv_GetByAddr_Internal c r address).2.2.slot sv).address = address ∧
    usedSlot r.servers sv = true ∧ (r.slot sv).address = address := by
  unfold Sv_GetByAddr_Internal at h ⊢
  obtain ⟨g1, g2, _⟩ := walkChain_some address (Sv_AddressHash c address) _ r 0 sv h
  have hsh := Shrinks_walkChain address (Sv_AddressHash c address)
    (r.chain address.isIPv6 (Sv_AddressHash c address)) r 0
  obtain ⟨e1, e2⟩ := used_of_Shrinks hsh sv ((active_iff _ _).mp g1).1
  exact ⟨g1, g2, e2, by rw [← e1]; exact g2⟩

theorem internal_none_of_unregistered (c : Config) (r : Registry) (address : Address)
    (hnew : ∀ i, usedSlot r.servers i = true → (r.slot i).address ≠ address) :
    (Sv_GetByAddr_Internal c r address).1 = none := by
  cases hres : (Sv_GetByAddr_Internal c r address).1 with
  | none => rfl
  | some sv =>
    obtain ⟨_, _, g3, g4⟩ := internal_some c r address sv hres
    exact absurd g4 (hnew sv g3)

/-- The record `Sv_GetByAddr` returns is active and has the address asked for. -/
theorem Sv_GetByAddr_some (c : Config) (hc : c.ok) (r : Registry) (address : Address)
    (addrlen : Nat) (add_it : Bool) (k : Nat) (h : Inv c r)
    (hk : (Sv_GetByAddr c r address addrlen add_it).1 = some k) :
    (Sv_GetByAddr c r address addrlen add_it).2.active k = true ∧
    ((Sv_GetByAddr c r address addrlen add_it).2.slot k).address = address := by
  have hev := Evolves_internal c hc r address h.1
  have hinv1 := Inv_of_Evolves h hev
  rcases Sv_GetByAddr_cases c r address addrlen add_it with
    ⟨sv, hsv, e⟩ | ⟨_, _, e⟩ | ⟨_, _, _, _, _, e⟩ | ⟨_, _, _, _, hfull, e⟩
  · rw [e] at hk ⊢
    have : sv = k := by simpa using hk
    subst this
    obtain ⟨g1, g2, _, _⟩ := internal_some c r address sv hsv
    exact ⟨g1, g2⟩
  · rw [e] at hk; cases hk
  · rw [e] at hk; cases hk
  · rw [e] at hk ⊢
    have hinv2 := Inv_of_Evolves hinv1 (Evolves_sweepIfFull c hc _ hev.1)
    obtain ⟨k2, q, _, hkmax, _, _, hcq, _, _, _, f1, hserv, _, _, _, hcrt⟩ :=
      allocServer_spec c hc _ address addrlen (addrmapLocal c address) hinv2.1 hinv2.2.1 hfull
    have hkk : k2 = k := by
      have : some (allocServer c (sweepIfFull c (Sv_GetByAddr_Internal c r address).2.2)
        address addrlen (addrmapLocal c address)).1 = some k := hk
      rw [f1] at this
      simpa using this
    subst hkk
    have hklen : k2 < q.servers.length := by rw [hcq.1]; exact hkmax
    dsimp only
    generalize (allocServer c (sweepIfFull c (Sv_GetByAddr_Internal c r address).2.2)
      address addrlen (addrmapLocal c address)).2 = p at hserv hcrt
    have hslot : p.slot k2 = newServer address addrlen (addrmapLocal c address)
        (sweepIfFull c (Sv_GetByAddr_Internal c r address).2.2).crt_time := by
      unfold Registry.slot; rw [hserv, getD_set_self _ _ _ hklen]
    refine ⟨?_, by rw [hslot]; rfl⟩
    rw [active_iff]
    refine ⟨?_, ?_⟩
    · rw [hserv, usedSlot_set_self _ _ _ hklen]; exact newServer_used _ _ _ _
    · rw [hslot, hcrt]
      show _ ≤ _ + TIMEOUT_HEARTBEAT
      exact Nat.le_add_right _ _

/-- A lookup of the address of an active record: the record is returned and
moved to the head of its chain, the timed-out records before it being evicted. -/
theorem Sv_GetByAddr_hit (c : Config) (r : Registry) (address : Address) (addrlen : Nat)
    (add_it : Bool) (i : Nat) (h : Inv c r) (hact : r.active i = true)
    (ha : (r.slot i).address = address) :
    (Sv_GetByAddr c r address addrlen add_it).1 = some i ∧
    ∃ pre suf, r.chain address.isIPv6 (Sv_AddressHash c address) = pre ++ i :: suf ∧
      (Sv_GetByAddr c r address addrlen add_it).2.chain address.isIPv6
          (Sv_AddressHash c address) =
        i :: (pre.filter (fun j => r.active j) ++ suf) := by
  obtain ⟨⟨_, _, h4, h6, hca, hcb, hcc⟩, _, huniq, _⟩ := h
  obtain ⟨hu, ht⟩ := (active_iff r i).mp hact
  have hmem := hcc i hu
  rw [ha] at hmem
  obtain ⟨pre, suf, hl⟩ := List.append_of_mem hmem
  have hnd := hcb address.isIPv6 (Sv_AddressHash c address)
  rw [hl] at hnd
  have hipre : i ∉ pre := by
    intro hm
    have := (List.nodup_append.mp hnd).2.2
    exact this hm (List.mem_cons_self _ _)
  have hisuf : i ∉ suf := by
    have := (List.nodup_append.mp hnd).2.1
    exact (List.nodup_cons.mp this).1
  have hx : (IsSameAddress (r.slot i).address address).1 = true := by
    rw [ha, IsSameAddress_self]
  have hpre : ∀ k, k ∈ pre → ¬ (r.active k = true ∧
      (IsSameAddress (r.slot k).address address).1 = true) := by
    intro k hk hcon
    have hku := ((active_iff r k).mp hcon.1).1
    have heq := IsSameAddress_exact _ _ hcon.2
    have := huniq k i hku hu (by rw [heq, ha])
    exact hipre (this ▸ hk)
  have hlt : Sv_AddressHash c address <
      (if address.isIPv6 then r.hash_table_ipv6.length else r.hash_table_ipv4.length) := by
    have := Sv_AddressHash_lt c address
    cases address.isIPv6 <;> simp [h4, h6, this]
  obtain ⟨g1, g2⟩ := walkChain_hit address (Sv_AddressHash c address) i suf pre r 0 hpre hipre
    hact hx hlt
  have hint : Sv_GetByAddr_Internal c r address =
      walkChain address (Sv_AddressHash c address) (pre ++ i :: suf) r 0 := by
    show walkChain address (Sv_AddressHash c address)
      (r.chain address.isIPv6 (Sv_AddressHash c address)) r 0 = _
    rw [hl]
  have hres : Sv_GetByAddr c r address addrlen add_it =
      (some i, (Sv_GetByAddr_Internal c r address).2.2) := by
    rcases Sv_GetByAddr_cases c r address addrlen add_it with
      ⟨sv, hsv, e⟩ | ⟨hn, _, _⟩ | ⟨hn, _⟩ | ⟨hn, _⟩
    · rw [hint, g1] at hsv
      have : i = sv := by simpa using hsv
      rw [e, this]
    · rw [hint, g1] at hn; cases hn
    · rw [hint, g1] at hn; cases hn
    · rw [hint, g1] at hn; cases hn
  rw [hres]
  refine ⟨rfl, pre, suf, hl, ?_⟩
  show (Sv_GetByAddr_Internal c r address).2.2.chain _ _ = _
  have e1 : pre.filter (keptByWalk r pre i) = pre.filter (fun j => r.active j) := by
    apply List.filter_congr
    intro k hk
    have hkused : usedSlot r.servers k = true :=
      (hca _ _ k (by rw [hl]; exact List.mem_append_left _ hk)).1
    have hki : k ≠ i := fun e => hipre (e ▸ hk)
    unfold keptByWalk Registry.active
    have hne : (k != i) = true := by simpa using hki
    rw [hne, hkused]
    simp only [hk, decide_True, Bool.true_and]
    by_cases hto : (r.slot k).timeout < r.crt_time
    · have h2 : ¬ r.crt_time ≤ (r.slot k).timeout := by omega
      simp [hto, h2]
    · have h2 : r.crt_time ≤ (r.slot k).timeout := by omega
      simp [hto, h2]
  have e2 : suf.filter (keptByWalk r pre i) = suf := by
    rw [List.filter_eq_self]
    intro k hk
    have hki : k ≠ i := fun e => hisuf (e ▸ hk)
    have hkpre : k ∉ pre := by
      intro hm
      exact (List.nodup_append.mp hnd).2.2 hm (List.mem_cons_of_mem _ hk)
    simp [keptByWalk, hki, hkpre]
  have hki : keptByWalk r pre i i = false := by simp [keptByWalk]
  rw [hint, g2, if_pos ⟨rfl, rfl⟩, hl, List.filter_append, List.filter_cons, hki, e1, e2]
  simp only [Bool.false_eq_true, if_false]

/-- A lookup that finds nothing while a record of the same public host has
timed out: the record is evicted and the count stays below the number of
registered records of that host. -/
theorem internal_none_expired (c : Config) (r : Registry) (address : Address) (j : Nat)
    (h : Core c r) (hp : c.hash_ports = false)
    (hnone : (Sv_GetByAddr_Internal c r address).1 = none)
    (hu : usedSlot r.servers j = true)
    (hsp : (IsSameAddress (r.slot j).address address).2 = true)
    (ht : (r.slot j).timeout < r.crt_time) :
    (Sv_GetByAddr_Internal c r address).2.1 + 1 ≤
      (samePublicRecords r.servers r.crt_time false address).length ∧
    usedSlot (Sv_GetByAddr_Internal c r address).2.2.servers j = false := by
  obtain ⟨hlen, hnb, h4, h6, ha, hb, hcc⟩ := h
  unfold Sv_GetByAddr_Internal at hnone ⊢
  simp only at hnone ⊢
  have hnd := hb address.isIPv6 (Sv_AddressHash c address)
  obtain ⟨g1, g2⟩ := walkChain_none address (Sv_AddressHash c address) _ r 0 hnd hnone
  rw [Nat.zero_add] at g1
  have hmem := hcc j hu
  rw [samePublic_family _ _ hsp, samePublic_hash c _ _ hp hsp] at hmem
  have hnact : r.active j = false := by
    simp only [Registry.active, hu, Bool.true_and, decide_eq_false_iff_not]; omega
  refine ⟨?_, ?_⟩
  · rw [g1, samePublicRecords_false, filter_length_eq_index]
    have hlist : (j :: (r.chain address.isIPv6 (Sv_AddressHash c address)).filter
        (fun k => r.active k && (IsSameAddress (r.slot k).address address).2)).length =
        ((r.chain address.isIPv6 (Sv_AddressHash c address)).filter
        (fun k => r.active k && (IsSameAddress (r.slot k).address address).2)).length + 1 :=
      List.length_cons _ _
    rw [← hlist]
    apply List.Subperm.length_le
    apply List.subperm_of_subset
    · refine List.nodup_cons.mpr ⟨?_, hnd.filter _⟩
      intro hm
      have := (List.mem_filter.mp hm).2
      rw [hnact] at this
      simp at this
    · intro k hk
      rw [List.mem_filter, List.mem_range]
      rcases List.mem_cons.mp hk with e | hm
      · subst e
        refine ⟨usedSlot_lt _ _ hu, ?_⟩
        simp only [Bool.and_eq_true]
        exact ⟨hu, hsp⟩
      · obtain ⟨_, hQ⟩ := List.mem_filter.mp hm
        simp only [Bool.and_eq_true] at hQ
        obtain ⟨hku, _⟩ := (active_iff r k).mp hQ.1
        refine ⟨usedSlot_lt _ _ hku, ?_⟩
        simp only [Bool.and_eq_true]
        exact ⟨hku, hQ.2⟩
  · by_contra hcon
    have hused : usedSlot (walkChain address (Sv_AddressHash c address)
        (r.chain address.isIPv6 (Sv_AddressHash c address)) r 0).2.2.servers j = true := by
      simpa using hcon
    have := (g2 j hmem hused).1
    rw [hnact] at this; cases this

/-! ## The rounds allowed to the sweeps are enough -/

theorem prevUsedSlot_lt (s : List Server) (n : Nat) : prevUsedSlot s n < (n : Int) := by
  induction n with
  | zero => simp [prevUsedSlot]
  | succ k ih =>
    unfold prevUsedSlot
    split
    · omega
    · omega

theorem last_used_slot_Sv_Remove_le (r : Registry) (i : Nat) :
    (Sv_Remove r i).last_used_slot ≤ r.last_used_slot := by
  have hlu : (Sv_Remove r i).last_used_slot =
      if r.last_used_slot = (i : Int) then
        prevUsedSlot (Sv_Remove r i).servers i else r.last_used_slot := rfl
  rw [hlu]
  split
  · next e =>
    have := prevUsedSlot_lt (Sv_Remove r i).servers i
    omega
  · exact Int.le_refl _

theorem last_used_slot_Sv_IsActive_le (r : Registry) (i : Nat) :
    (Sv_IsActive r i).2.last_used_slot ≤ r.last_used_slot := by
  rcases Sv_IsActive_cases r i with ⟨_, e⟩ | ⟨_, _, e⟩ | ⟨_, _, e⟩
  · rw [e]
  · rw [e]; exact last_used_slot_Sv_Remove_le r i
  · rw [e]

/-- The loop of `Sv_CheckTimeouts` has stopped by itself when its rounds are
used up: one more round allowed changes nothing. -/
theorem checkLoop_fuel_enough :
    ∀ (fuel ind : Nat) (r : Registry), r.last_used_slot + 1 ≤ (ind : Int) + (fuel : Int) →
      checkLoop (fuel + 1) ind r = checkLoop fuel ind r := by
  intro fuel
  induction fuel with
  | zero =>
    intro ind r h
    have hn : ¬ ((ind : Int) ≤ r.last_used_slot) := by omega
    simp only [checkLoop, hn, if_false]
  | succ f ih =>
    intro ind r h
    rw [checkLoop]
    by_cases hle : (ind : Int) ≤ r.last_used_slot
    · have hstep := last_used_slot_Sv_IsActive_le r ind
      rw [if_pos hle, ih (ind + 1) (Sv_IsActive r ind).2 (by push_cast; omega)]
      conv_rhs => rw [checkLoop, if_pos hle]
    · rw [if_neg hle]
      conv_rhs => rw [checkLoop, if_neg hle]

/-- The loop of `Sv_WriteInfo` has stopped by itself when its rounds are used up. -/
theorem writeInfoLoop_fuel_enough :
    ∀ (fuel ind : Nat) (r : Registry), r.last_used_slot + 1 ≤ (ind : Int) + (fuel : Int) →
      writeInfoLoop (fuel + 1) ind r = writeInfoLoop fuel ind r := by
  intro fuel
  induction fuel with
  | zero =>
    intro ind r h
    have hn : ¬ ((ind : Int) ≤ r.last_used_slot) := by omega
    simp only [writeInfoLoop, hn, if_false]
  | succ f ih =>
    intro ind r h
    rw [writeInfoLoop]
    by_cases hle : (ind : Int) ≤ r.last_used_slot
    · have hstep := last_used_slot_Sv_IsActive_le r ind
      rw [if_pos hle]
      dsimp only
      rw [ih (ind + 1) (Sv_IsActive r ind).2 (by push_cast; omega)]
      conv_rhs => rw [writeInfoLoop, if_pos hle]
    · rw [if_neg hle]
      conv_rhs => rw [writeInfoLoop, if_neg hle]

/-! ## The claims on the slot bookkeeping -/

/-- C1 (defect of the code): `last_used_slot` is not always the largest used
index.  When `Sv_GetByAddr` takes a free slot below an expired last record, the
loop looking for the next free entry evicts that record while the slot taken is
still marked unused, and `Sv_Remove` steps `last_used_slot` down past it: after
`lostSlotOps` slot 0 is used, one server is counted, and `last_used_slot` is -1. -/
theorem last_used_slot_lost :
    run baseConfig lostSlotOps (Sv_Init baseConfig) = some lostSlotState ∧
    lostSlotState.servers.map Server.used = [true, false, false, false] ∧
    lostSlotState.nb_servers = 1 ∧
    lostSlotState.last_used_slot = -1 ∧
    ¬ LastUsedOK lostSlotState.servers lostSlotState.last_used_slot := by
  refine ⟨by decide, by decide, by decide, by decide, ?_⟩
  have hlast : lostSlotState.last_used_slot = -1 := by decide
  rintro (⟨_, hall⟩ | ⟨k, hk, _⟩)
  · have h0 := hall 0 (by decide)
    have h1 : usedSlot lostSlotState.servers 0 = true := by decide
    rw [h1] at h0; cases h0
  · rw [hlast] at hk; omega

/-- C2: after any sequence of registry operations, `first_free_slot` is the
smallest index of an unused slot, or -1 when each of the `max_nb_servers` slots
is used. -/
theorem first_free_slot_invariant (c : Config) (ops : List Op) (r : Registry) (hc : c.ok)
    (h : run c ops (Sv_Init c) = some r) :
    r.servers.length = c.max_nb_servers ∧ FirstFreeOK r.servers r.first_free_slot :=
  ⟨(Inv_reachable c hc ops r h).1.1, (Inv_reachable c hc ops r h).2.1⟩

theorem first_free_slot_invariant_witness :
    run baseConfig lostSlotOps (Sv_Init baseConfig) = some lostSlotState ∧
    lostSlotState.first_free_slot = 1 ∧
    lostSlotState.servers.length = baseConfig.max_nb_servers ∧
    FirstFreeOK lostSlotState.servers lostSlotState.first_free_slot :=
  ⟨by decide, by decide,
    first_free_slot_invariant baseConfig lostSlotOps lostSlotState ⟨by decide, by decide⟩
      (by decide)⟩

/-- C3: after any sequence of registry operations, `nb_servers` is the number
of slots whose state is not `sv_state_unused_slot`. -/
theorem nb_servers_invariant (c : Config) (ops : List Op) (r : Registry) (hc : c.ok)
    (h : run c ops (Sv_Init c) = some r) :
    r.nb_servers = countUsed r.servers :=
  (Inv_reachable c hc ops r h).1.2.1

theorem nb_servers_invariant_witness :
    run baseConfig twoOnHostOps (Sv_Init baseConfig) = some twoOnHostState ∧
    twoOnHostState.nb_servers = 2 ∧
    twoOnHostState.nb_servers = countUsed twoOnHostState.servers :=
  ⟨by decide, by decide,
    nb_servers_invariant baseConfig twoOnHostOps twoOnHostState ⟨by decide, by decide⟩
      (by decide)⟩

/-- C4: after any sequence of registry operations, for every slot index `i`
below the capacity: slot `i` is unused if and only if it is in no chain of
either hash table; and a used slot occurs exactly once in the chain its address
hashes to in the table of its family, and in no other chain. -/
theorem chain_membership_invariant (c : Config) (ops : List Op) (r : Registry) (hc : c.ok)
    (h : run c ops (Sv_Init c) = some r) :
    ∀ i, i < c.max_nb_servers →
      ((r.slot i).state = ServerState.sv_state_unused_slot ↔
        ∀ v6 hh, i ∉ r.chain v6 hh) ∧
      ((r.slot i).state ≠ ServerState.sv_state_unused_slot →
        (r.chain (r.slot i).address.isIPv6 (Sv_AddressHash c (r.slot i).address)).count i = 1 ∧
        ∀ v6 hh, i ∈ r.chain v6 hh →
          v6 = (r.slot i).address.isIPv6 ∧ hh = Sv_AddressHash c (r.slot i).address) := by
  obtain ⟨⟨_, _, _, _, ha, hb, hcc⟩, _, _, _⟩ := Inv_reachable c hc ops r h
  intro i _
  refine ⟨⟨?_, ?_⟩, ?_⟩
  · intro hst v6 hh hmem
    have := (ha v6 hh i hmem).1
    rw [usedSlot_iff] at this
    exact this hst
  · intro hno
    by_contra hst
    have hu : usedSlot r.servers i = true := (usedSlot_iff _ _).mpr hst
    exact hno _ _ (hcc i hu)
  · intro hst
    have hu : usedSlot r.servers i = true := (usedSlot_iff _ _).mpr hst
    refine ⟨List.count_eq_one_of_mem (hb _ _) (hcc i hu), ?_⟩
    intro v6 hh hmem
    obtain ⟨_, e1, e2⟩ := ha v6 hh i hmem
    exact ⟨e1.symm, e2.symm⟩

theorem chain_membership_invariant_witness :
    run baseConfig twoOnHostOps (Sv_Init baseConfig) = some twoOnHostState ∧
    twoOnHostState.chain false 10 = [1, 0] ∧
    ((twoOnHostState.slot 1).state ≠ ServerState.sv_state_unused_slot →
      (twoOnHostState.chain (twoOnHostState.slot 1).address.isIPv6
        (Sv_AddressHash baseConfig (twoOnHostState.slot 1).address)).count 1 = 1 ∧
      ∀ v6 hh, 1 ∈ twoOnHostState.chain v6 hh →
        v6 = (twoOnHostState.slot 1).address.isIPv6 ∧
          hh = Sv_AddressHash baseConfig (twoOnHostState.slot 1).address) :=
  ⟨by decide, by decide,
    ((chain_membership_invariant baseConfig twoOnHostOps twoOnHostState
      ⟨by decide, by decide⟩ (by decide)) 1 (by decide)).2⟩

/-! ## The claims on the quota -/

theorem unexpired_le_registered (s : List Server) (t : Nat) (a : Address) :
    (samePublicRecords s t true a).length ≤ (samePublicRecords s t false a).length := by
  rw [samePublicRecords_eq, samePublicRecords_eq, ← List.countP_eq_length_filter,
    ← List.countP_eq_length_filter]
  apply List.countP_mono_left
  intro x _ hx
  simp only [Bool.and_eq_true] at hx ⊢
  exact ⟨hx.1, by simp, hx.2.2⟩

/-- C5 as stated fails when the ports are hashed: with `hash_ports` set and one
server allowed per address, the endpoints 10.0.0.1:100 and 10.0.0.1:300 fall in
two chains and are both registered. -/
theorem quota_exceeded_with_hash_ports :
    portsConfig.hash_ports = true ∧ portsConfig.max_per_address = 1 ∧
    (run portsConfig portsOps (Sv_Init portsConfig)).map
        (fun r => (samePublicRecords r.servers r.crt_time true hostA100).length) = some 2 := by
  decide

/-- C5 (amended): after any sequence of registry operations with `hash_ports`
off and `max_per_address = m > 0`, for every address `a` the number of
registered, unexpired records with the same public host as `a` is at most `m`. -/
theorem quota_invariant (c : Config) (ops : List Op) (r : Registry) (a : Address)
    (hc : c.ok) (h : run c ops (Sv_Init c) = some r) (hp : c.hash_ports = false)
    (hm : 0 < c.max_per_address) :
    (samePublicRecords r.servers r.crt_time true a).length ≤ c.max_per_address :=
  Nat.le_trans (unexpired_le_registered _ _ _)
    ((Inv_reachable c hc ops r h).2.2.2 hp (Nat.pos_iff_ne_zero.mp hm) a)

theorem quota_invariant_witness :
    run baseConfig twoOnHostOps (Sv_Init baseConfig) = some twoOnHostState ∧
    (samePublicRecords twoOnHostState.servers twoOnHostState.crt_time true hostA300).length = 2 ∧
    (samePublicRecords twoOnHostState.servers twoOnHostState.crt_time true hostA300).length
      ≤ baseConfig.max_per_address :=
  ⟨by decide, by decide,
    quota_invariant baseConfig twoOnHostOps twoOnHostState hostA300 ⟨by decide, by decide⟩
      (by decide) (by decide) (by decide)⟩

theorem loopbackRefused_of_allowed (c : Config) (address : Address)
    (h : c.allow_loopback = true) : loopbackRefused c address = false := by
  simp [loopbackRefused, h]

/-- C6: with `hash_ports` off and `max_per_address = m > 0`, in any state
reached by registry operations, an add of an endpoint that is not registered
returns `NULL` whenever `m` unexpired records of the same public host are
registered; and (loopback allowed) it succeeds as soon as one registered record
of that public host has `timeout < crt_time`, the list being full or not. -/
theorem quota_refusal_and_release (c : Config) (ops : List Op) (r : Registry)
    (address : Address) (addrlen : Nat) (hc : c.ok) (h : run c ops (Sv_Init c) = some r)
    (hp : c.hash_ports = false) (hm : 0 < c.max_per_address)
    (hnew : ∀ sv, sv ∈ r.servers → sv.used = true → sv.address ≠ address) :
    (c.max_per_address ≤ (samePublicRecords r.servers r.crt_time true address).length →
      (Sv_GetByAddr c r address addrlen true).1 = none) ∧
    (c.allow_loopback = true →
      (∃ j, usedSlot r.servers j = true ∧
        (IsSameAddress (r.slot j).address address).2 = true ∧
        (r.slot j).timeout < r.crt_time) →
      ∃ k, (Sv_GetByAddr c r address addrlen true).1 = some k ∧
        usedSlot (Sv_GetByAddr c r address addrlen true).2.servers k = true ∧
        ((Sv_GetByAddr c r address addrlen true).2.slot k).address = address) := by
  have hinv := Inv_reachable c hc ops r h
  have hm0 : c.max_per_address ≠ 0 := Nat.pos_iff_ne_zero.mp hm
  have hnew2 : ∀ i, usedSlot r.servers i = true → (r.slot i).address ≠ address := by
    intro i hi
    have hlt := usedSlot_lt _ _ hi
    have hget : r.servers.getD i Server.zero = r.servers[i] := by
      rw [List.getD_eq_getElem?_getD, List.getElem?_eq_getElem hlt]; rfl
    have hi2 : (r.servers.getD i Server.zero).used = true := hi
    show (r.servers.getD i Server.zero).address ≠ address
    rw [hget] at hi2 ⊢
    exact hnew _ (List.getElem_mem hlt) hi2
  have hnone := internal_none_of_unregistered c r address hnew2
  obtain ⟨_, _, n3, _⟩ := internal_none c r address hinv.1 hnone
  refine ⟨?_, ?_⟩
  · intro hge
    have hq : quotaReached c (Sv_GetByAddr_Internal c r address).2.1 = true := by
      unfold quotaReached
      have := n3 hp
      simp only [decide_eq_true_eq]
      exact ⟨by omega, hm0⟩
    rcases Sv_GetByAddr_cases c r address addrlen true with
      ⟨sv, hsv, _⟩ | ⟨_, _, e⟩ | ⟨_, _, hq2, _⟩ | ⟨_, _, hq2, _⟩
    · rw [hnone] at hsv; cases hsv
    · rw [e]
    · rw [hq] at hq2; cases hq2
    · rw [hq] at hq2; cases hq2
  · intro hal ⟨j, hju, hjsp, hjt⟩
    obtain ⟨x1, x2⟩ := internal_none_expired c r address j hinv.1 hp hnone hju hjsp hjt
    have hquota := hinv.2.2.2 hp hm0 address
    have hq : quotaReached c (Sv_GetByAddr_Internal c r address).2.1 = false := by
      unfold quotaReached
      simp only [decide_eq_false_iff_not, not_and, not_not]
      intro hge
      omega
    have hl := loopbackRefused_of_allowed c address hal
    have hev := Evolves_internal c hc r address hinv.1
    have hev2 := Evolves_sweepIfFull c hc _ hev.1
    rcases Sv_GetByAddr_cases c r address addrlen true with
      ⟨sv, hsv, _⟩ | ⟨_, hor, _⟩ | ⟨_, _, _, _, hfull, _⟩ | ⟨_, _, _, _, _, e⟩
    · rw [hnone] at hsv; cases hsv
    · rcases hor with hf | hq2 | hl2
      · cases hf
      · rw [hq] at hq2; cases hq2
      · rw [hl] at hl2; cases hl2
    · exfalso
      have hall := (countUsed_eq_length_iff _).mp
        (by rw [← hev2.1.2.1, hfull, hev2.1.1] :
          countUsed (sweepIfFull c (Sv_GetByAddr_Internal c r address).2.2).servers =
            (sweepIfFull c (Sv_GetByAddr_Internal c r address).2.2).servers.length)
      have hjlt : j < (sweepIfFull c (Sv_GetByAddr_Internal c r address).2.2).servers.length := by
        rw [hev2.1.1, ← hinv.1.1]; exact usedSlot_lt _ _ hju
      have hused := hall j hjlt
      obtain ⟨_, hu1⟩ := used_of_Shrinks hev2.2.1 j hused
      rw [x2] at hu1; cases hu1
    · have hk : (Sv_GetByAddr c r address addrlen true).1 =
          some (allocServer c (sweepIfFull c (Sv_GetByAddr_Internal c r address).2.2) address
            addrlen (addrmapLocal c address)).1 := by rw [e]
      obtain ⟨g1, g2⟩ := Sv_GetByAddr_some c hc r address addrlen true _ hinv hk
      exact ⟨_, hk, ((active_iff _ _).mp g1).1, g2⟩

theorem quota_refusal_and_release_witness :
    (Sv_GetByAddr baseConfig twoOnHostState hostA300 16 true).1 = none ∧
    ∃ k, (Sv_GetByAddr baseConfig oneExpiredState hostA300 16 true).1 = some k ∧
      usedSlot (Sv_GetByAddr baseConfig oneExpiredState hostA300 16 true).2.servers k = true ∧
      ((Sv_GetByAddr baseConfig oneExpiredState hostA300 16 true).2.slot k).address = hostA300 :=
  ⟨(quota_refusal_and_release baseConfig twoOnHostOps twoOnHostState hostA300 16
      ⟨by decide, by decide⟩ (by decide) (by decide) (by decide) (by decide)).1 (by decide),
    (quota_refusal_and_release baseConfig oneExpiredOps oneExpiredState hostA300 16
      ⟨by decide, by decide⟩ (by decide) (by decide) (by decide) (by decide)).2 (by decide)
      ⟨0, by decide, by decide, by decide⟩⟩

/-! ## The claims on lookups and additions -/

/-- C7: in any state reached by registry operations, a `Sv_GetByAddr` call for
the address of a registered record `i` with `timeout >= crt_time` returns that
record, and on return `i` is the head of its chain, followed by the records that
were before it and have not timed out and by the records that were after it, in
their previous order; and a call that directly follows a call which added (or
found) a record for the same address returns that same record. -/
theorem lookup_returns_and_promotes (c : Config) (ops : List Op) (r : Registry) (hc : c.ok)
    (h : run c ops (Sv_Init c) = some r) :
    (∀ (address : Address) (addrlen : Nat) (add_it : Bool) (i : Nat),
      usedSlot r.servers i = true → (r.slot i).address = address →
      r.crt_time ≤ (r.slot i).timeout →
      (Sv_GetByAddr c r address addrlen add_it).1 = some i ∧
      ∃ pre suf, r.chain address.isIPv6 (Sv_AddressHash c address) = pre ++ i :: suf ∧
        (Sv_GetByAddr c r address addrlen add_it).2.chain address.isIPv6
            (Sv_AddressHash c address) =
          i :: (pre.filter (fun j => r.active j) ++ suf)) ∧
    (∀ (address : Address) (addrlen addrlen2 : Nat) (add_it2 : Bool) (k : Nat),
      (Sv_GetByAddr c r address addrlen true).1 = some k →
      (Sv_GetByAddr c (Sv_GetByAddr c r address addrlen true).2 address addrlen2 add_it2).1
        = some k) := by
  have hinv := Inv_reachable c hc ops r h
  refine ⟨?_, ?_⟩
  · intro address addrlen add_it i hu ha ht
    exact Sv_GetByAddr_hit c r address addrlen add_it i hinv ((active_iff r i).mpr ⟨hu, ht⟩) ha
  · intro address addrlen addrlen2 add_it2 k hk
    obtain ⟨g1, g2⟩ := Sv_GetByAddr_some c hc r address addrlen true k hinv hk
    exact (Sv_GetByAddr_hit c _ address addrlen2 add_it2 k
      (Inv_Sv_GetByAddr c hc r address addrlen true hinv) g1 g2).1

theorem lookup_returns_and_promotes_witness :
    twoOnHostState.chain false 10 = [1, 0] ∧
    (Sv_GetByAddr baseConfig twoOnHostState hostA100 16 false).1 = some 0 ∧
    (Sv_GetByAddr baseConfig twoOnHostState hostA100 16 false).2.chain false 10 = [0, 1] ∧
    (Sv_GetByAddr baseConfig
      (Sv_GetByAddr baseConfig twoOnHostState hostB100 16 true).2 hostB100 16 false).1 = some 2 :=
  ⟨by decide,
    ((lookup_returns_and_promotes baseConfig twoOnHostOps twoOnHostState ⟨by decide, by decide⟩
      (by decide)).1 hostA100 16 false 0 (by decide) (by decide) (by decide)).1,
    by decide,
    (lookup_returns_and_promotes baseConfig twoOnHostOps twoOnHostState ⟨by decide, by decide⟩
      (by decide)).2 hostB100 16 16 false 2 (by decide)⟩

/-- C8 as stated fails on the field `addrmap`: with loopback refused and a
mapping declared for 1.2.3.4, the record added for 1.2.3.4:27950 holds that
mapping, so not every other field is zero. -/
theorem new_record_addrmap_not_zero :
    (Sv_GetByAddr_Internal mappingConfig (Sv_Init mappingConfig) mapped27950).1 = none ∧
    (Sv_GetByAddr mappingConfig (Sv_Init mappingConfig) mapped27950 16 true).1 = some 0 ∧
    ((Sv_GetByAddr mappingConfig (Sv_Init mappingConfig) mapped27950 16 true).2.slot 0).addrmap
      = some wildcardMapping ∧
    Server.zero.addrmap = none := by
  decide

/-- C8 (amended): in any state reached by registry operations, a `Sv_GetByAddr`
call whose lookup finds nothing and which returns a record `k` has placed the
new record in the slot that was the lowest-index unused slot when it was
allocated (after the lookup and the sweep), with the given address and
`addrlen`, state `sv_state_uninitialized`, `timeout = crt_time + 2` (so
`timeout >= crt_time`), every other field except `addrmap` zero, and the record
at the head of the chain its address hashes to in the table of its family. -/
theorem add_fills_first_free_slot (c : Config) (ops : List Op) (r : Registry)
    (address : Address) (addrlen k : Nat) (hc : c.ok) (h : run c ops (Sv_Init c) = some r)
    (hnone : (Sv_GetByAddr_Internal c r address).1 = none)
    (hk : (Sv_GetByAddr c r address addrlen true).1 = some k) :
    (sweepIfFull c (Sv_GetByAddr_Internal c r address).2.2).first_free_slot = (k : Int) ∧
    k < c.max_nb_servers ∧
    usedSlot (sweepIfFull c (Sv_GetByAddr_Internal c r address).2.2).servers k = false ∧
    (∀ j, j < k →
      usedSlot (sweepIfFull c (Sv_GetByAddr_Internal c r address).2.2).servers j = true) ∧
    ((Sv_GetByAddr c r address addrlen true).2.slot k).address = address ∧
    ((Sv_GetByAddr c r address addrlen true).2.slot k).addrlen = addrlen ∧
    ((Sv_GetByAddr c r address addrlen true).2.slot k).state =
      ServerState.sv_state_uninitialized ∧
    ((Sv_GetByAddr c r address addrlen true).2.slot k).timeout = r.crt_time + 2 ∧
    (Sv_GetByAddr c r address addrlen true).2.crt_time ≤
      ((Sv_GetByAddr c r address addrlen true).2.slot k).timeout ∧
    ((Sv_GetByAddr c r address addrlen true).2.slot k).gamename = [] ∧
    ((Sv_GetByAddr c r address addrlen true).2.slot k).protocol = 0 ∧
    ((Sv_GetByAddr c r address addrlen true).2.slot k).gametype = 0 ∧
    ((Sv_GetByAddr c r address addrlen true).2.slot k).mapname = [] ∧
    ((Sv_GetByAddr c r address addrlen true).2.slot k).hostname = [] ∧
    ((Sv_GetByAddr c r address addrlen true).2.slot k).challenge = [] ∧
    ((Sv_GetByAddr c r address addrlen true).2.slot k).challenge_timeout = 0 ∧
    ((Sv_GetByAddr c r address addrlen true).2.chain address.isIPv6
      (Sv_AddressHash c address)).head? = some k := by
  have hinv := Inv_reachable c hc ops r h
  have hev := Evolves_internal c hc r address hinv.1
  have hev2 := Evolves_sweepIfFull c hc _ hev.1
  have hinv2 := Inv_of_Evolves (Inv_of_Evolves hinv hev) hev2
  rcases Sv_GetByAddr_cases c r address addrlen true with
    ⟨sv, hsv, _⟩ | ⟨_, _, e⟩ | ⟨_, _, _, _, _, e⟩ | ⟨_, _, _, _, hfull, e⟩
  · rw [hnone] at hsv; cases hsv
  · rw [e] at hk; cases hk
  · rw [e] at hk; cases hk
  · rw [e] at hk ⊢
    obtain ⟨k2, q, a1, a2, a3, a4, hcq, hsh, _, _, f1, hserv, hchain, _, _, hcrt⟩ :=
      allocServer_spec c hc _ address addrlen (addrmapLocal c address) hinv2.1 hinv2.2.1 hfull
    have hkk : k2 = k := by
      have : some (allocServer c (sweepIfFull c (Sv_GetByAddr_Internal c r address).2.2)
        address addrlen (addrmapLocal c address)).1 = some k := hk
      rw [f1] at this
      simpa using this
    subst hkk
    have hklen : k2 < q.servers.length := by rw [hcq.1]; exact a2
    have htime : (sweepIfFull c (Sv_GetByAddr_Internal c r address).2.2).crt_time = r.crt_time :=
      hev2.2.1.2.1.trans hev.2.1.2.1
    dsimp only
    generalize (allocServer c (sweepIfFull c (Sv_GetByAddr_Internal c r address).2.2)
      address addrlen (addrmapLocal c address)).2 = p at hserv hchain hcrt
    have hslot : p.slot k2 = newServer address addrlen (addrmapLocal c address) r.crt_time := by
      unfold Registry.slot; rw [hserv, getD_set_self _ _ _ hklen, htime]
    rw [hslot, hcrt, htime, hchain, if_pos ⟨rfl, rfl⟩]
    refine ⟨a1, a2, a3, a4, rfl, rfl, rfl, rfl, ?_, rfl, rfl, rfl, rfl, rfl, rfl, rfl, rfl⟩
    show r.crt_time ≤ r.crt_time + TIMEOUT_HEARTBEAT
    exact Nat.le_add_right _ _

theorem add_fills_first_free_slot_witness :
    (Sv_GetByAddr baseConfig lostSlotState hostA200 16 true).1 = some 1 ∧
    (sweepIfFull baseConfig
      (Sv_GetByAddr_Internal baseConfig lostSlotState hostA200).2.2).first_free_slot = 1 ∧
    ((Sv_GetByAddr baseConfig lostSlotState hostA200 16 true).2.slot 1).timeout =
      lostSlotState.crt_time + 2 ∧
    ((Sv_GetByAddr baseConfig lostSlotState hostA200 16 true).2.chain hostA200.isIPv6
      (Sv_AddressHash baseConfig hostA200)).head? = some 1 := by
  have hw := add_fills_first_free_slot baseConfig lostSlotOps lostSlotState hostA200 16 1
    ⟨by decide, by decide⟩ (by decide) (by decide) (by decide)
  exact ⟨by decide, hw.1, hw.2.2.2.2.2.2.2.1, hw.2.2.2.2.2.2.2.2.2.2.2.2.2.2.2.2⟩

/-- C9 (defect of the code): with `allow_loopback` set (its initial value) the
mapping is never looked up, since the call of `Sv_GetAddrmap` sits inside
`if (! allow_loopback)`: the record added for 1.2.3.4:27950 has no `addrmap`
although `Sv_GetAddrmap` finds the wildcard mapping of 1.2.3.4 for it. -/
theorem addrmap_lost_when_loopback_allowed :
    mappingLoopbackConfig.allow_loopback = true ∧
    (Sv_GetByAddr mappingLoopbackConfig (Sv_Init mappingLoopbackConfig) mapped27950 16 true).1
      = some 0 ∧
    ((Sv_GetByAddr mappingLoopbackConfig (Sv_Init mappingLoopbackConfig) mapped27950 16
      true).2.slot 0).addrmap = none ∧
    Sv_GetAddrmap mappingLoopbackConfig.addrmaps 0x04030201 0x2E6D = some wildcardMapping := by
  decide

theorem loopbackRefused_iff (c : Config) (address : Address) :
    loopbackRefused c address = true ↔
      (c.allow_loopback = false ∧
        ((∃ a p, address = Address.ipv4 a p ∧ ntohl a >>> 24 = 127 ∧
            Sv_GetAddrmap c.addrmaps a p = none) ∨
          (∃ port scope, address = Address.ipv6 0 0 0 0x01000000 port scope))) := by
  unfold loopbackRefused
  cases hal : c.allow_loopback with
  | true => simp
  | false =>
    cases address with
    | ipv4 a p =>
      simp only [Bool.false_eq_true, if_false, decide_eq_true_eq, reduceCtorEq, exists_false,
        or_false, true_and, Address.ipv4.injEq]
      constructor
      · intro hx
        exact ⟨a, p, ⟨rfl, rfl⟩, hx⟩
      · rintro ⟨a2, p2, ⟨e1, e2⟩, hx⟩
        subst e1; subst e2; exact hx
    | ipv6 w0 w1 w2 w3 port scope =>
      simp only [Bool.false_eq_true, if_false, decide_eq_true_eq, in6addr_loopback,
        Prod.mk.injEq, true_and, reduceCtorEq, false_and, exists_false, false_or,
        Address.ipv6.injEq]
      constructor
      · rintro ⟨e0, e1, e2, e3⟩
        exact ⟨port, scope, e0, e1, e2, e3, rfl, rfl⟩
      · rintro ⟨_, _, e0, e1, e2, e3, _, _⟩
        exact ⟨e0, e1, e2, e3⟩

/-- C10 as stated fails when the list is full: with loopback refused and a
single slot taken by an unexpired server, the add of 11.0.0.1:100 (not a
loopback address, quota not reached) returns `NULL` as well. -/
theorem full_list_refuses_non_loopback :
    oneSlotConfig.allow_loopback = false ∧
    (Sv_GetByAddr_Internal oneSlotConfig oneSlotState hostB100).1 = none ∧
    quotaReached oneSlotConfig (Sv_GetByAddr_Internal oneSlotConfig oneSlotState hostB100).2.1
      = false ∧
    ntohl 0x0100000B >>> 24 ≠ 127 ∧
    (Sv_GetByAddr oneSlotConfig oneSlotState hostB100 16 true).1 = none := by
  decide

/-- C10 (amended): an add whose lookup finds nothing and which passes the quota
check is rejected (returns `NULL`) if and only if `allow_loopback` is off and
the address is IPv4 with first octet 127 and without mapping (a wildcard
mapping counts as one) or the IPv6 loopback `::1`, or the list is still full
after the timeout sweep; a loopback rejection creates no record (the state is
the one the lookup left, where no slot has become used); with `allow_loopback`
on, only a full list rejects. -/
theorem loopback_refusal (c : Config) (r : Registry) (address : Address) (addrlen : Nat)
    (hnone : (Sv_GetByAddr_Internal c r address).1 = none)
    (hq : quotaReached c (Sv_GetByAddr_Internal c r address).2.1 = false) :
    ((Sv_GetByAddr c r address addrlen true).1 = none ↔
      (c.allow_loopback = false ∧
        ((∃ a p, address = Address.ipv4 a p ∧ ntohl a >>> 24 = 127 ∧
            Sv_GetAddrmap c.addrmaps a p = none) ∨
          (∃ port scope, address = Address.ipv6 0 0 0 0x01000000 port scope))) ∨
      (sweepIfFull c (Sv_GetByAddr_Internal c r address).2.2).nb_servers = c.max_nb_servers) ∧
    ((c.allow_loopback = false ∧
        ((∃ a p, address = Address.ipv4 a p ∧ ntohl a >>> 24 = 127 ∧
            Sv_GetAddrmap c.addrmaps a p = none) ∨
          (∃ port scope, address = Address.ipv6 0 0 0 0x01000000 port scope))) →
      Sv_GetByAddr c r address addrlen true =
          (none, (Sv_GetByAddr_Internal c r address).2.2) ∧
        ∀ j, usedSlot (Sv_GetByAddr c r address addrlen true).2.servers j = true →
          usedSlot r.servers j = true) ∧
    (c.allow_loopback = true →
      ((Sv_GetByAddr c r address addrlen true).1 = none ↔
        (sweepIfFull c (Sv_GetByAddr_Internal c r address).2.2).nb_servers
          = c.max_nb_servers)) := by
  rw [← loopbackRefused_iff]
  rcases Sv_GetByAddr_cases c r address addrlen true with
    ⟨sv, hsv, _⟩ | ⟨_, hor, e⟩ | ⟨_, _, _, hl, hfull, e⟩ | ⟨_, _, _, hl, hfull, e⟩
  · rw [hnone] at hsv; cases hsv
  · have hl : loopbackRefused c address = true := by
      rcases hor with hf | hq2 | hl2
      · cases hf
      · rw [hq] at hq2; cases hq2
      · exact hl2
    refine ⟨?_, fun _ => ⟨e, ?_⟩, ?_⟩
    · rw [e]; exact ⟨fun _ => Or.inl hl, fun _ => rfl⟩
    · intro j hj
      rw [e] at hj
      exact (used_of_Shrinks (Shrinks_walkChain address (Sv_AddressHash c address)
        (r.chain address.isIPv6 (Sv_AddressHash c address)) r 0) j hj).2
    · intro hal
      rw [loopbackRefused_of_allowed c address hal] at hl; cases hl
  · refine ⟨?_, ?_, ?_⟩
    · rw [e]; exact ⟨fun _ => Or.inr hfull, fun _ => rfl⟩
    · intro hl2; rw [hl] at hl2; cases hl2
    · intro _; rw [e]; exact ⟨fun _ => hfull, fun _ => rfl⟩
  · refine ⟨?_, ?_, ?_⟩
    · rw [e]
      constructor
      · intro hcon; cases hcon
      · rintro (hl2 | hf)
        · rw [hl] at hl2; cases hl2
        · exact absurd hf hfull
    · intro hl2; rw [hl] at hl2; cases hl2
    · intro _; rw [e]
      constructor
      · intro hcon; cases hcon
      · intro hf; exact absurd hf hfull

theorem loopback_refusal_witness :
    (Sv_GetByAddr mappingConfig (Sv_Init mappingConfig) loopback27950 16 true).1 = none ∧
    (Sv_GetByAddr mappingConfig (Sv_Init mappingConfig)
      (Address.ipv6 0 0 0 0x01000000 0x2E6D 0) 28 true).1 = none ∧
    (Sv_GetByAddr loopbackMappingConfig (Sv_Init loopbackMappingConfig) loopback27950 16
      true).1 ≠ none ∧
    (Sv_GetByAddr baseConfig (Sv_Init baseConfig) loopback27950 16 true).1 ≠ none :=
  ⟨(loopback_refusal mappingConfig (Sv_Init mappingConfig) loopback27950 16 (by decide)
      (by decide)).1.mpr (Or.inl ⟨by decide, Or.inl ⟨0x0100007F, 0x2E6D, rfl, by decide,
        by decide⟩⟩),
    (loopback_refusal mappingConfig (Sv_Init mappingConfig)
      (Address.ipv6 0 0 0 0x01000000 0x2E6D 0) 28 (by decide) (by decide)).1.mpr
      (Or.inl ⟨by decide, Or.inr ⟨0x2E6D, 0, rfl⟩⟩),
    by decide,
    fun hn => absurd ((loopback_refusal baseConfig (Sv_Init baseConfig) loopback27950 16
      (by decide) (by decide)).2.2 (by decide) |>.mp hn) (by decide)⟩

/-! ## The lookup in the mapping list -/

theorem keyLe_of_keyLt {m1 m2 : Addrmap} (h : keyLt m1 m2) : keyLe m1 m2 := by
  unfold keyLt at h
  unfold keyLe
  omega

theorem sorted_le_of_lt {l : List Addrmap} (h : l.Pairwise keyLt) : l.Pairwise keyLe :=
  h.imp (fun hab => keyLe_of_keyLt hab)

/-- In a list without duplicate keys two entries with the same key are the same. -/
theorem eq_of_sameKey : ∀ (l : List Addrmap), l.Pairwise keyLt →
    ∀ m1 m2, m1 ∈ l → m2 ∈ l → sameKey m1 m2 → m1 = m2 := by
  intro l
  induction l with
  | nil => intro _ m1 _ h1; exact absurd h1 (List.not_mem_nil m1)
  | cons x t ih =>
    intro hs m1 m2 h1 h2 hk
    obtain ⟨hx, ht⟩ := List.pairwise_cons.mp hs
    unfold sameKey at hk
    rcases List.mem_cons.mp h1 with e1 | h1t
    · rcases List.mem_cons.mp h2 with e2 | h2t
      · rw [e1, e2]
      · have := hx m2 h2t
        unfold keyLt at this
        rw [e1] at hk
        omega
    · rcases List.mem_cons.mp h2 with e2 | h2t
      · have := hx m1 h1t
        unfold keyLt at this
        rw [e2] at hk
        omega
      · exact ih ht m1 m2 h1t h2t hk

/-- The loop of `Sv_GetAddrmap` on a sorted list: the exact entry when there is
one, else the entry with port 0 when there is one, else the value of `found`. -/
theorem getAddrmapLoop_spec (a p : Nat) :
    ∀ (l : List Addrmap) (found : Option Addrmap), l.Pairwise keyLe →
      ((∃ m, m ∈ l ∧ m.from_addr = a ∧ m.from_port = p) →
        ∃ m, m ∈ l ∧ m.from_addr = a ∧ m.from_port = p ∧
          getAddrmapLoop a p l found = some m) ∧
      ((∀ m, m ∈ l → ¬ (m.from_addr = a ∧ m.from_port = p)) →
        (∃ w, w ∈ l ∧ w.from_addr = a ∧ w.from_port = 0) →
        ∃ w, w ∈ l ∧ w.from_addr = a ∧ w.from_port = 0 ∧
          getAddrmapLoop a p l found = some w) ∧
      ((∀ m, m ∈ l → ¬ (m.from_addr = a ∧ m.from_port = p)) →
        (∀ w, w ∈ l → ¬ (w.from_addr = a ∧ w.from_port = 0)) →
        getAddrmapLoop a p l found = found) := by
  intro l
  induction l with
  | nil =>
    intro found _
    refine ⟨?_, ?_, ?_⟩
    · rintro ⟨m, hm, _⟩; exact absurd hm (List.not_mem_nil m)
    · rintro _ ⟨w, hw, _⟩; exact absurd hw (List.not_mem_nil w)
    · intro _ _; rfl
  | cons x t ih =>
    intro found hs
    obtain ⟨hx, ht⟩ := List.pairwise_cons.mp hs
    have hlater : ∀ y, y ∈ t → x.from_addr < y.from_addr ∨
        (x.from_addr = y.from_addr ∧ x.from_port ≤ y.from_port) := fun y hy => hx y hy
    by_cases h1 : x.from_addr ≤ a
    · by_cases h2 : x.from_addr = a
      · by_cases h3 : x.from_port > p
        · -- the exact mapping is not there
          have hval : getAddrmapLoop a p (x :: t) found = found := by
            rw [getAddrmapLoop, if_pos h1, if_pos h2, if_pos h3]
          have hnoex : ∀ m, m ∈ x :: t → ¬ (m.from_addr = a ∧ m.from_port = p) := by
            intro m hm hcon
            rcases List.mem_cons.mp hm with e | hmt
            · rw [e] at hcon; omega
            · have := hlater m hmt; omega
          have hnow : ∀ w, w ∈ x :: t → ¬ (w.from_addr = a ∧ w.from_port = 0) := by
            intro w hw hcon
            rcases List.mem_cons.mp hw with e | hwt
            · rw [e] at hcon; omega
            · have := hlater w hwt; omega
          refine ⟨?_, ?_, ?_⟩
          · rintro ⟨m, hm, ha, hp⟩; exact absurd ⟨ha, hp⟩ (hnoex m hm)
          · rintro _ ⟨w, hw, ha, hp⟩; exact absurd ⟨ha, hp⟩ (hnow w hw)
          · intro _ _; exact hval
        · by_cases h4 : x.from_port = p
          · have hval : getAddrmapLoop a p (x :: t) found = some x := by
              rw [getAddrmapLoop, if_pos h1, if_pos h2, if_neg h3, if_pos h4]
            refine ⟨?_, ?_, ?_⟩
            · intro _; exact ⟨x, List.mem_cons_self _ _, h2, h4, hval⟩
            · intro hno _; exact absurd ⟨h2, h4⟩ (hno x (List.mem_cons_self _ _))
            · intro hno _; exact absurd ⟨h2, h4⟩ (hno x (List.mem_cons_self _ _))
          · by_cases h5 : x.from_port = 0
            · have hval : getAddrmapLoop a p (x :: t) found =
                  getAddrmapLoop a p t (some x) := by
                rw [getAddrmapLoop, if_pos h1, if_pos h2, if_neg h3, if_neg h4, if_pos h5]
              obtain ⟨i1, i2, i3⟩ := ih (some x) ht
              rw [hval]
              refine ⟨?_, ?_, ?_⟩
              · rintro ⟨m, hm, ha, hp⟩
                rcases List.mem_cons.mp hm with e | hmt
                · rw [e] at hp; exact absurd hp h4
                · obtain ⟨m2, g1, g2, g3, g4⟩ := i1 ⟨m, hmt, ha, hp⟩
                  exact ⟨m2, List.mem_cons_of_mem _ g1, g2, g3, g4⟩
              · intro hno _
                have hnot : ∀ m, m ∈ t → ¬ (m.from_addr = a ∧ m.from_port = p) :=
                  fun m hm => hno m (List.mem_cons_of_mem _ hm)
                by_cases hwt : ∃ w, w ∈ t ∧ w.from_addr = a ∧ w.from_port = 0
                · obtain ⟨w2, g1, g2, g3, g4⟩ := i2 hnot hwt
                  exact ⟨w2, List.mem_cons_of_mem _ g1, g2, g3, g4⟩
                · have hnw : ∀ w, w ∈ t → ¬ (w.from_addr = a ∧ w.from_port = 0) := by
                    intro w hw hcon; exact hwt ⟨w, hw, hcon.1, hcon.2⟩
                  exact ⟨x, List.mem_cons_self _ _, h2, h5, i3 hnot hnw⟩
              · intro _ hnow
                exact absurd ⟨h2, h5⟩ (hnow x (List.mem_cons_self _ _))
            · have hval : getAddrmapLoop a p (x :: t) found = getAddrmapLoop a p t found := by
                rw [getAddrmapLoop, if_pos h1, if_pos h2, if_neg h3, if_neg h4, if_neg h5]
              obtain ⟨i1, i2, i3⟩ := ih found ht
              rw [hval]
              refine ⟨?_, ?_, ?_⟩
              · rintro ⟨m, hm, ha, hp⟩
                rcases List.mem_cons.mp hm with e | hmt
                · rw [e] at hp; exact absurd hp h4
                · obtain ⟨m2, g1, g2, g3, g4⟩ := i1 ⟨m, hmt, ha, hp⟩
                  exact ⟨m2, List.mem_cons_of_mem _ g1, g2, g3, g4⟩
              · rintro hno ⟨w, hw, ha, hp⟩
                have hnot : ∀ m, m ∈ t → ¬ (m.from_addr = a ∧ m.from_port = p) :=
                  fun m hm => hno m (List.mem_cons_of_mem _ hm)
                rcases List.mem_cons.mp hw with e | hwt
                · rw [e] at hp; exact absurd hp h5
                · obtain ⟨w2, g1, g2, g3, g4⟩ := i2 hnot ⟨w, hwt, ha, hp⟩
                  exact ⟨w2, List.mem_cons_of_mem _ g1, g2, g3, g4⟩
              · intro hno hnow
                exact i3 (fun m hm => hno m (List.mem_cons_of_mem _ hm))
                  (fun w hw => hnow w (List.mem_cons_of_mem _ hw))
      · have hval : getAddrmapLoop a p (x :: t) found = getAddrmapLoop a p t found := by
          rw [getAddrmapLoop, if_pos h1, if_neg h2]
        obtain ⟨i1, i2, i3⟩ := ih found ht
        rw [hval]
        refine ⟨?_, ?_, ?_⟩
        · rintro ⟨m, hm, ha, hp⟩
          rcases List.mem_cons.mp hm with e | hmt
          · rw [e] at ha; exact absurd ha h2
          · obtain ⟨m2, g1, g2, g3, g4⟩ := i1 ⟨m, hmt, ha, hp⟩
            exact ⟨m2, List.mem_cons_of_mem _ g1, g2, g3, g4⟩
        · rintro hno ⟨w, hw, ha, hp⟩
          have hnot : ∀ m, m ∈ t → ¬ (m.from_addr = a ∧ m.from_port = p) :=
            fun m hm => hno m (List.mem_cons_of_mem _ hm)
          rcases List.mem_cons.mp hw with e | hwt
          · rw [e] at ha; exact absurd ha h2
          · obtain ⟨w2, g1, g2, g3, g4⟩ := i2 hnot ⟨w, hwt, ha, hp⟩
            exact ⟨w2, List.mem_cons_of_mem _ g1, g2, g3, g4⟩
        · intro hno hnow
          exact i3 (fun m hm => hno m (List.mem_cons_of_mem _ hm))
            (fun w hw => hnow w (List.mem_cons_of_mem _ hw))
    · -- the addresses have become too high
      have hval : getAddrmapLoop a p (x :: t) found = found := by
        rw [getAddrmapLoop, if_neg h1]
      have hnone : ∀ m, m ∈ x :: t → ¬ (m.from_addr = a) := by
        intro m hm hcon
        rcases List.mem_cons.mp hm with e | hmt
        · rw [e] at hcon; omega
        · have := hlater m hmt; omega
      refine ⟨?_, ?_, ?_⟩
      · rintro ⟨m, hm, ha, _⟩; exact absurd ha (hnone m hm)
      · rintro _ ⟨w, hw, ha, _⟩; exact absurd ha (hnone w hw)
      · intro _ _; exact hval

/-- C17: for every mapping list sorted by (`from` address, `from` port) without
duplicate keys and every IPv4 endpoint `(a, p)`: `Sv_GetAddrmap` returns the
entry with `from = (a, p)` if there is one; otherwise the entry with
`from = (a, 0)` if there is one; otherwise `NULL`. -/
theorem Sv_GetAddrmap_exact_then_wildcard (l : List Addrmap) (a p : Nat)
    (hs : l.Pairwise keyLt) :
    (∀ m, m ∈ l → m.from_addr = a → m.from_port = p → Sv_GetAddrmap l a p = some m) ∧
    ((∀ m, m ∈ l → ¬ (m.from_addr = a ∧ m.from_port = p)) →
      ∀ w, w ∈ l → w.from_addr = a → w.from_port = 0 → Sv_GetAddrmap l a p = some w) ∧
    ((∀ m, m ∈ l → ¬ (m.from_addr = a ∧ m.from_port = p)) →
      (∀ w, w ∈ l → ¬ (w.from_addr = a ∧ w.from_port = 0)) → Sv_GetAddrmap l a p = none) := by
  obtain ⟨g1, g2, g3⟩ := getAddrmapLoop_spec a p l none (sorted_le_of_lt hs)
  refine ⟨?_, ?_, ?_⟩
  · intro m hm ha hp
    obtain ⟨m2, h1, h2, h3, h4⟩ := g1 ⟨m, hm, ha, hp⟩
    have : m2 = m := eq_of_sameKey l hs m2 m h1 hm ⟨h2.trans ha.symm, h3.trans hp.symm⟩
    rw [← this]; exact h4
  · intro hno w hw ha hp
    obtain ⟨w2, h1, h2, h3, h4⟩ := g2 hno ⟨w, hw, ha, hp⟩
    have : w2 = w := eq_of_sameKey l hs w2 w h1 hw ⟨h2.trans ha.symm, h3.trans hp.symm⟩
    rw [← this]; exact h4
  · intro hno hnow
    exact g3 hno hnow

theorem Sv_GetAddrmap_exact_then_wildcard_witness :
    [wildcardMapping, exactMapping].Pairwise keyLt ∧
    Sv_GetAddrmap [wildcardMapping, exactMapping] 0x04030201 0x2E6D = some exactMapping ∧
    Sv_GetAddrmap [wildcardMapping, exactMapping] 0x04030201 0x386D = some wildcardMapping ∧
    Sv_GetAddrmap [wildcardMapping, exactMapping] 0x05030201 0x2E6D = none :=
  ⟨by decide,
    (Sv_GetAddrmap_exact_then_wildcard [wildcardMapping, exactMapping] 0x04030201 0x2E6D
      (by decide)).1 exactMapping (by decide) (by decide) (by decide),
    (Sv_GetAddrmap_exact_then_wildcard [wildcardMapping, exactMapping] 0x04030201 0x386D
      (by decide)).2.1 (by decide) wildcardMapping (by decide) (by decide) (by decide),
    (Sv_GetAddrmap_exact_then_wildcard [wildcardMapping, exactMapping] 0x05030201 0x2E6D
      (by decide)).2.2 (by decide) (by decide)⟩

/-- C18 as stated fails: with the sorted table `1.2.3.4=...`, `1.2.3.4:100=...`
the lookup of 1.2.3.4:200 returns the entry with port 0, while the entry with
the largest key below (1.2.3.4, 200) among those of address 1.2.3.4 is the one
with port 100. -/
theorem largest_key_not_returned :
    [wildcardMapping, port100Mapping].Pairwise keyLt ∧
    Sv_GetAddrmap [wildcardMapping, port100Mapping] 0x04030201 0xC800 = some wildcardMapping ∧
    port100Mapping.from_addr = 0x04030201 ∧ port100Mapping.from_port ≤ 0xC800 ∧
    wildcardMapping.from_port < port100Mapping.from_port := by
  decide

/-- C18 (amended): for every sorted mapping table and every IPv4 endpoint
`(a, p)`, `Sv_GetAddrmap` returns the entry whose key is the largest one among
the entries with `from` address `a` and `from` port `p` or 0 (so the port-exact
entry before the port-zero entry), and `NULL` exactly when there is no such
entry; entries of address `a` with another port are never returned. -/
theorem Sv_GetAddrmap_largest_candidate (l : List Addrmap) (a p : Nat)
    (hs : l.Pairwise keyLe) :
    (Sv_GetAddrmap l a p = none ↔
      ∀ m, m ∈ l → m.from_addr = a → m.from_port ≠ p ∧ m.from_port ≠ 0) ∧
    (∀ m, Sv_GetAddrmap l a p = some m →
      m ∈ l ∧ m.from_addr = a ∧ (m.from_port = p ∨ m.from_port = 0) ∧
      ∀ x, x ∈ l → x.from_addr = a → (x.from_port = p ∨ x.from_port = 0) →
        x.from_port ≤ m.from_port) := by
  obtain ⟨g1, g2, g3⟩ := getAddrmapLoop_spec a p l none hs
  have hres : Sv_GetAddrmap l a p = getAddrmapLoop a p l none := rfl
  by_cases hex : ∃ m, m ∈ l ∧ m.from_addr = a ∧ m.from_port = p
  · obtain ⟨m2, h1, h2, h3, h4⟩ := g1 hex
    rw [hres, h4]
    refine ⟨⟨fun h => (by cases h), fun h => absurd h3 (h m2 h1 h2).1⟩, ?_⟩
    intro m hm
    have : m2 = m := by simpa using hm
    subst this
    refine ⟨h1, h2, Or.inl h3, ?_⟩
    intro x _ _ hx
    omega
  · have hno : ∀ m, m ∈ l → ¬ (m.from_addr = a ∧ m.from_port = p) := by
      intro m hm hcon; exact hex ⟨m, hm, hcon.1, hcon.2⟩
    by_cases hw : ∃ w, w ∈ l ∧ w.from_addr = a ∧ w.from_port = 0
    · obtain ⟨w2, h1, h2, h3, h4⟩ := g2 hno hw
      rw [hres, h4]
      refine ⟨⟨fun h => (by cases h), fun h => absurd h3 (h w2 h1 h2).2⟩, ?_⟩
      intro m hm
      have : w2 = m := by simpa using hm
      subst this
      refine ⟨h1, h2, Or.inr h3, ?_⟩
      intro x hx hxa hxp
      rcases hxp with e | e
      · exact absurd ⟨hxa, e⟩ (hno x hx)
      · omega
    · have hnow : ∀ w, w ∈ l → ¬ (w.from_addr = a ∧ w.from_port = 0) := by
        intro w hw2 hcon; exact hw ⟨w, hw2, hcon.1, hcon.2⟩
      rw [hres, g3 hno hnow]
      refine ⟨⟨fun _ m hm ha => ⟨fun e => hno m hm ⟨ha, e⟩, fun e => hnow m hm ⟨ha, e⟩⟩,
        fun _ => rfl⟩, ?_⟩
      intro m hm; cases hm

theorem Sv_GetAddrmap_largest_candidate_witness :
    [wildcardMapping, port100Mapping].Pairwise keyLe ∧
    Sv_GetAddrmap [wildcardMapping, port100Mapping] 0x04030201 0xC800 = some wildcardMapping ∧
    (wildcardMapping.from_port = 0xC800 ∨ wildcardMapping.from_port = 0) :=
  ⟨by decide, by decide,
    ((Sv_GetAddrmap_largest_candidate [wildcardMapping, port100Mapping] 0x04030201 0xC800
      (by decide)).2 wildcardMapping (by decide)).2.2.1⟩

/-! ## The sorted insertion into the mapping list -/

theorem keyLt_trans {m1 m2 m3 : Addrmap} (h1 : keyLt m1 m2) (h2 : keyLt m2 m3) :
    keyLt m1 m3 := by
  unfold keyLt at *
  omega

/-- The loop of `Sv_InsertAddrmapIntoList` on a strictly sorted list. -/
theorem insertAddrmapLoop_spec (new_map : Addrmap) :
    ∀ (l : List Addrmap), l.Pairwise keyLt →
      (insertAddrmapLoop new_map l = none ↔ ∃ x, x ∈ l ∧ sameKey x new_map) ∧
      ∀ res, insertAddrmapLoop new_map l = some res →
        res.Pairwise keyLt ∧ res.Perm (new_map :: l) := by
  intro l
  induction l with
  | nil =>
    intro _
    refine ⟨⟨fun h => (by cases h), ?_⟩, ?_⟩
    · rintro ⟨x, hx, _⟩; exact absurd hx (List.not_mem_nil x)
    · intro res hres
      have : [new_map] = res := by simpa [insertAddrmapLoop] using hres
      subst this
      exact ⟨List.pairwise_singleton _ _, List.Perm.refl _⟩
  | cons x t ih =>
    intro hs
    obtain ⟨hx, ht⟩ := List.pairwise_cons.mp hs
    have hlater : ∀ y, y ∈ t → x.from_addr < y.from_addr ∨
        (x.from_addr = y.from_addr ∧ x.from_port < y.from_port) := fun y hy => hx y hy
    obtain ⟨i1, i2⟩ := ih ht
    have hbefore : keyLt new_map x → 
        (¬ ∃ y, y ∈ x :: t ∧ sameKey y new_map) ∧
        (new_map :: x :: t).Pairwise keyLt := by
      intro hlt
      refine ⟨?_, ?_⟩
      · rintro ⟨y, hy, hk⟩
        unfold keyLt at hlt
        unfold sameKey at hk
        rcases List.mem_cons.mp hy with e | hyt
        · rw [e] at hk; omega
        · have := hlater y hyt; omega
      · refine List.pairwise_cons.mpr ⟨?_, hs⟩
        intro y hy
        rcases List.mem_cons.mp hy with e | hyt
        · rw [e]; exact hlt
        · exact keyLt_trans hlt (hx y hyt)
    by_cases h1 : x.from_addr ≤ new_map.from_addr
    · by_cases h2 : x.from_addr = new_map.from_addr ∧ x.from_port ≥ new_map.from_port
      · by_cases h3 : x.from_port = new_map.from_port
        · have hval : insertAddrmapLoop new_map (x :: t) = none := by
            rw [insertAddrmapLoop, if_pos h1, if_pos h2, if_pos h3]
          rw [hval]
          refine ⟨⟨fun _ => ⟨x, List.mem_cons_self _ _, h2.1, h3⟩, fun _ => rfl⟩, ?_⟩
          intro res hres; cases hres
        · have hval : insertAddrmapLoop new_map (x :: t) = some (new_map :: x :: t) := by
            rw [insertAddrmapLoop, if_pos h1, if_pos h2, if_neg h3]
          have hlt : keyLt new_map x := by unfold keyLt; omega
          obtain ⟨b1, b2⟩ := hbefore hlt
          rw [hval]
          refine ⟨⟨fun h => (by cases h), fun h => absurd h b1⟩, ?_⟩
          intro res hres
          have : new_map :: x :: t = res := by simpa using hres
          subst this
          exact ⟨b2, List.Perm.refl _⟩
      · have hval : insertAddrmapLoop new_map (x :: t) =
            (insertAddrmapLoop new_map t).map (fun l => x :: l) := by
          rw [insertAddrmapLoop, if_pos h1, if_neg h2]
        have hxlt : keyLt x new_map := by unfold keyLt; omega
        rw [hval]
        refine ⟨⟨?_, ?_⟩, ?_⟩
        · intro hnone
          have hn : insertAddrmapLoop new_map t = none := by
            cases hr : insertAddrmapLoop new_map t with
            | none => rfl
            | some v => rw [hr] at hnone; cases hnone
          obtain ⟨y, hy, hk⟩ := i1.mp hn
          exact ⟨y, List.mem_cons_of_mem _ hy, hk⟩
        · rintro ⟨y, hy, hk⟩
          rcases List.mem_cons.mp hy with e | hyt
          · unfold keyLt at hxlt
            unfold sameKey at hk
            rw [e] at hk; omega
          · rw [i1.mpr ⟨y, hyt, hk⟩]; rfl
        · intro res hres
          cases hr : insertAddrmapLoop new_map t with
          | none => rw [hr] at hres; cases hres
          | some v =>
            rw [hr] at hres
            have : x :: v = res := by simpa using hres
            subst this
            obtain ⟨s1, s2⟩ := i2 v hr
            refine ⟨List.pairwise_cons.mpr ⟨?_, s1⟩, ?_⟩
            · intro y hy
              rcases List.mem_cons.mp (s2.subset hy) with e | hyt
              · rw [e]; exact hxlt
              · exact hx y hyt
            · exact (List.Perm.cons x s2).trans (List.Perm.swap new_map x t)
    · have hval : insertAddrmapLoop new_map (x :: t) = some (new_map :: x :: t) := by
        rw [insertAddrmapLoop, if_neg h1]
      have hlt : keyLt new_map x := by unfold keyLt; omega
      obtain ⟨b1, b2⟩ := hbefore hlt
      rw [hval]
      refine ⟨⟨fun h => (by cases h), fun h => absurd h b1⟩, ?_⟩
      intro res hres
      have : new_map :: x :: t = res := by simpa using hres
      subst this
      exact ⟨b2, List.Perm.refl _⟩

/-- C19: for every mapping list strictly sorted by (`from` address, `from`
port) and every new mapping `m`: `Sv_InsertAddrmapIntoList` returns `false`, the
list being left as it was, if and only if an entry with the key of `m` is
already in the list; otherwise it returns `true` and the new list holds the old
entries and `m`, strictly sorted again, so that no two of its entries share a
key. -/
theorem Sv_InsertAddrmapIntoList_sorted (l : List Addrmap) (m : Addrmap)
    (hs : l.Pairwise keyLt) :
    ((Sv_InsertAddrmapIntoList m l).1 = false ↔ ∃ x, x ∈ l ∧ sameKey x m) ∧
    ((Sv_InsertAddrmapIntoList m l).1 = false → (Sv_InsertAddrmapIntoList m l).2 = l) ∧
    ((Sv_InsertAddrmapIntoList m l).1 = true →
      (Sv_InsertAddrmapIntoList m l).2.Pairwise keyLt ∧
      (Sv_InsertAddrmapIntoList m l).2.Perm (m :: l) ∧
      ∀ x y, x ∈ (Sv_InsertAddrmapIntoList m l).2 → y ∈ (Sv_InsertAddrmapIntoList m l).2 →
        sameKey x y → x = y) := by
  obtain ⟨g1, g2⟩ := insertAddrmapLoop_spec m l hs
  unfold Sv_InsertAddrmapIntoList
  cases hr : insertAddrmapLoop m l with
  | none =>
    refine ⟨⟨fun _ => g1.mp hr, fun _ => rfl⟩, fun _ => rfl, fun h => (by cases h)⟩
  | some v =>
    obtain ⟨s1, s2⟩ := g2 v hr
    refine ⟨⟨fun h => (by cases h), ?_⟩, fun h => (by cases h), ?_⟩
    · intro hex
      rw [g1.mpr hex] at hr; cases hr
    · intro _
      exact ⟨s1, s2, fun x y hx hy hk => eq_of_sameKey v s1 x y hx hy hk⟩

theorem Sv_InsertAddrmapIntoList_sorted_witness :
    Sv_InsertAddrmapIntoList exactMapping [wildcardMapping, otherMapping] =
      (true, [wildcardMapping, exactMapping, otherMapping]) ∧
    (Sv_InsertAddrmapIntoList exactMapping [wildcardMapping, otherMapping]).2.Pairwise keyLt ∧
    (Sv_InsertAddrmapIntoList wildcardMapping [wildcardMapping, otherMapping]).2 =
      [wildcardMapping, otherMapping] :=
  ⟨by decide,
    ((Sv_InsertAddrmapIntoList_sorted [wildcardMapping, otherMapping] exactMapping
      (by decide)).2.2 (by decide)).1,
    (Sv_InsertAddrmapIntoList_sorted [wildcardMapping, otherMapping] wildcardMapping
      (by decide)).2.1 (by decide)⟩

/-! ## Building the sorted list -/

theorem sameKey_symm {m1 m2 : Addrmap} (h : sameKey m1 m2) : sameKey m2 m1 :=
  ⟨h.1.symm, h.2.symm⟩

theorem distinctKeys_perm {l1 l2 : List Addrmap} (hp : l1.Perm l2) (hd : distinctKeys l1) :
    distinctKeys l2 :=
  (hp.pairwise_iff (fun {a b} (h : ¬ sameKey a b) hba => h (sameKey_symm hba))).mp hd

/-- The loop "build the sorted list" on mappings with distinct keys: it
succeeds and leaves the mappings strictly sorted. -/
theorem buildSortedList_spec :
    ∀ (pending addrmaps : List Addrmap), addrmaps.Pairwise keyLt →
      distinctKeys (pending ++ addrmaps) →
      (buildSortedList pending addrmaps).1 = true ∧
      (buildSortedList pending addrmaps).2.Pairwise keyLt ∧
      (buildSortedList pending addrmaps).2.Perm (pending ++ addrmaps) := by
  intro pending
  induction pending with
  | nil => intro addrmaps hs _; exact ⟨rfl, hs, List.Perm.refl _⟩
  | cons x rest ih =>
    intro addrmaps hs hd
    obtain ⟨g1, _, g3⟩ := Sv_InsertAddrmapIntoList_sorted addrmaps x hs
    have hxd : ∀ y, y ∈ rest ++ addrmaps → ¬ sameKey x y :=
      (List.pairwise_cons.mp hd).1
    have hok : (Sv_InsertAddrmapIntoList x addrmaps).1 = true := by
      cases hb : (Sv_InsertAddrmapIntoList x addrmaps).1 with
      | true => rfl
      | false =>
        obtain ⟨y, hy, hk⟩ := g1.mp hb
        exact absurd (sameKey_symm hk) (hxd y (List.mem_append_right _ hy))
    obtain ⟨s1, s2, _⟩ := g3 hok
    have hperm : (rest ++ (Sv_InsertAddrmapIntoList x addrmaps).2).Perm
        (x :: rest ++ addrmaps) :=
      (List.Perm.append_left rest s2).trans List.perm_middle
    have hd2 : distinctKeys (rest ++ (Sv_InsertAddrmapIntoList x addrmaps).2) :=
      distinctKeys_perm hperm.symm hd
    obtain ⟨r1, r2, r3⟩ := ih _ s1 hd2
    rw [buildSortedList, if_pos hok]
    exact ⟨r1, r2, r3.trans hperm⟩

/-- C20: for every list of mappings with pairwise distinct keys and every
permutation of it, building the sorted list by inserting the mappings with
`Sv_InsertAddrmapIntoList` in either order succeeds and gives the same list. -/
theorem buildSortedList_perm (l1 l2 : List Addrmap) (hp : l1.Perm l2)
    (hd : distinctKeys l1) :
    (buildSortedList l1 []).1 = true ∧ buildSortedList l1 [] = buildSortedList l2 [] := by
  obtain ⟨a1, a2, a3⟩ := buildSortedList_spec l1 [] List.Pairwise.nil
    (by rw [List.append_nil]; exact hd)
  obtain ⟨b1, b2, b3⟩ := buildSortedList_spec l2 [] List.Pairwise.nil
    (by rw [List.append_nil]; exact distinctKeys_perm hp hd)
  rw [List.append_nil] at a3 b3
  haveI : IsAntisymm Addrmap keyLt :=
    ⟨fun a b h1 h2 => by unfold keyLt at h1 h2; omega⟩
  have hlist : (buildSortedList l1 []).2 = (buildSortedList l2 []).2 :=
    List.eq_of_perm_of_sorted ((a3.trans hp).trans b3.symm) a2 b2
  exact ⟨a1, Prod.ext (a1.trans b1.symm) hlist⟩

theorem buildSortedList_perm_witness :
    buildSortedList [exactMapping, otherMapping, wildcardMapping] [] =
      (true, [wildcardMapping, exactMapping, otherMapping]) ∧
    buildSortedList [exactMapping, otherMapping, wildcardMapping] [] =
      buildSortedList [wildcardMapping, exactMapping, otherMapping] [] :=
  ⟨by decide,
    (buildSortedList_perm [exactMapping, otherMapping, wildcardMapping]
      [wildcardMapping, exactMapping, otherMapping]
      (by decide) (by unfold distinctKeys; decide)).2⟩

/-! ## Evictions only -/

theorem expired_iff (r : Registry) (i : Nat) :
    r.expired i = true ↔ usedSlot r.servers i = true ∧ (r.slot i).timeout < r.crt_time := by
  unfold Registry.expired
  rw [Bool.and_eq_true, decide_eq_true_iff]

theorem expired_false_iff (r : Registry) (i : Nat) :
    r.expired i = false ↔ (usedSlot r.servers i = true → r.crt_time ≤ (r.slot i).timeout) := by
  rw [← Bool.not_eq_true, expired_iff]
  constructor
  · intro h hu
    by_contra hlt
    exact h ⟨hu, by omega⟩
  · rintro h ⟨hu, hlt⟩
    have := h hu
    omega

theorem evicted_used (sv : Server) : sv.evicted.used = false := by
  unfold Server.used Server.evicted
  simp

theorem usedSlot_eq_slot (r : Registry) (j : Nat) : usedSlot r.servers j = (r.slot j).used := rfl

theorem EvictedSlots_refl (r : Registry) : EvictedSlots r r :=
  ⟨rfl, rfl, fun _ => Or.inl rfl⟩

theorem EvictedSlots_trans {r q p : Registry} (h1 : EvictedSlots r q) (h2 : EvictedSlots q p) :
    EvictedSlots r p := by
  obtain ⟨t1, l1, s1⟩ := h1
  obtain ⟨t2, l2, s2⟩ := h2
  refine ⟨t2.trans t1, l2.trans l1, fun j => ?_⟩
  rcases s1 j with e1 | ⟨x1, e1⟩
  · rcases s2 j with e2 | ⟨x2, e2⟩
    · exact Or.inl (e2.trans e1)
    · right
      rw [expired_iff, usedSlot_eq_slot, e1, t1] at x2
      exact ⟨(expired_iff r j).2 x2, by rw [e2, e1]⟩
  · right
    refine ⟨x1, ?_⟩
    rcases s2 j with e2 | ⟨_, e2⟩
    · rw [e2, e1]
    · rw [e2, e1]; rfl

theorem slot_Sv_Remove_self (r : Registry) (i : Nat) (h : i < r.servers.length) :
    (Sv_Remove r i).slot i = (r.slot i).evicted := by
  unfold Registry.slot
  rw [servers_Sv_Remove, getD_set_self _ _ _ h]
  rfl

theorem EvictedSlots_Sv_Remove (r : Registry) (i : Nat) (h : r.expired i = true) :
    EvictedSlots r (Sv_Remove r i) := by
  refine ⟨rfl, length_Sv_Remove r i, fun j => ?_⟩
  by_cases hj : j = i
  · subst hj
    exact Or.inr ⟨h, slot_Sv_Remove_self r j (usedSlot_lt _ _ ((expired_iff r j).1 h).1)⟩
  · exact Or.inl (slot_Sv_Remove_other r i j hj)

theorem EvictedSlots_Sv_IsActive (r : Registry) (i : Nat) :
    EvictedSlots r (Sv_IsActive r i).2 := by
  rcases Sv_IsActive_cases r i with ⟨_, h⟩ | ⟨hu, ht, h⟩ | ⟨_, _, h⟩
  · rw [h]; exact EvictedSlots_refl r
  · rw [h]; exact EvictedSlots_Sv_Remove r i ((expired_iff r i).2 ⟨hu, ht⟩)
  · rw [h]; exact EvictedSlots_refl r

theorem used_of_EvictedSlots {r q : Registry} (h : EvictedSlots r q) (j : Nat)
    (hu : usedSlot q.servers j = true) : q.slot j = r.slot j ∧ usedSlot r.servers j = true := by
  rcases h.2.2 j with e | ⟨_, e⟩
  · refine ⟨e, ?_⟩
    rw [usedSlot_eq_slot, ← e]; exact hu
  · rw [usedSlot_eq_slot, e, evicted_used] at hu
    cases hu

theorem expired_of_EvictedSlots {r q : Registry} (h : EvictedSlots r q) (j : Nat)
    (hx : q.expired j = true) : r.expired j = true := by
  obtain ⟨hu, ht⟩ := (expired_iff q j).1 hx
  obtain ⟨e, hur⟩ := used_of_EvictedSlots h j hu
  rw [e, h.1] at ht
  exact (expired_iff r j).2 ⟨hur, ht⟩

/-- With no timed-out record left in `q`, the evictions are those of all the
timed-out records. -/
theorem slot_of_EvictedSlots {r q : Registry} (h : EvictedSlots r q)
    (hq : ∀ j, q.expired j = false) (j : Nat) :
    q.slot j = if r.expired j = true then (r.slot j).evicted else r.slot j := by
  rcases h.2.2 j with e | ⟨x, e⟩
  · have hx : r.expired j = false := by
      have := hq j
      rw [expired_false_iff] at this ⊢
      rw [usedSlot_eq_slot, e, h.1] at this
      exact this
    rw [hx]; simpa using e
  · rw [if_pos x]; exact e

theorem EvictedOnly_refl (c : Config) (r : Registry) (h : Core c r) : EvictedOnly r r := by
  refine ⟨EvictedSlots_refl r, fun v6 hh => ?_⟩
  symm
  rw [List.filter_eq_self]
  intro j hj
  exact (h.2.2.2.2.1 v6 hh j hj).1

theorem EvictedOnly_trans {r q p : Registry} (h1 : EvictedOnly r q) (h2 : EvictedOnly q p) :
    EvictedOnly r p := by
  refine ⟨EvictedSlots_trans h1.1 h2.1, fun v6 hh => ?_⟩
  rw [h2.2 v6 hh, h1.2 v6 hh, List.filter_filter]
  apply List.filter_congr
  intro j _
  cases hp : usedSlot p.servers j with
  | false => rfl
  | true =>
      have := (used_of_EvictedSlots h2.1 j hp).2
      rw [this]; rfl

theorem EvictedOnly_Sv_Remove (c : Config) (r : Registry) (i : Nat) (h : Core c r)
    (hx : r.expired i = true) : EvictedOnly r (Sv_Remove r i) := by
  refine ⟨EvictedSlots_Sv_Remove r i hx, fun v6 hh => ?_⟩
  rw [chain_Sv_Remove]
  apply List.filter_congr
  intro j hj
  have hu := (h.2.2.2.2.1 v6 hh j hj).1
  by_cases hji : j = i
  · subst hji
    rw [usedSlot_Sv_Remove_self]; simp
  · rw [usedSlot_Sv_Remove_other r i j hji, hu]
    simpa using hji

theorem EvictedOnly_Sv_IsActive (c : Config) (r : Registry) (i : Nat) (h : Core c r) :
    EvictedOnly r (Sv_IsActive r i).2 := by
  rcases Sv_IsActive_cases r i with ⟨_, e⟩ | ⟨hu, ht, e⟩ | ⟨_, _, e⟩
  · rw [e]; exact EvictedOnly_refl c r h
  · rw [e]; exact EvictedOnly_Sv_Remove c r i h ((expired_iff r i).2 ⟨hu, ht⟩)
  · rw [e]; exact EvictedOnly_refl c r h

theorem EvictedOnly_checkLoop (c : Config) (hc : c.ok) :
    ∀ (fuel ind : Nat) (r : Registry), Core c r → EvictedOnly r (checkLoop fuel ind r) := by
  intro fuel
  induction fuel with
  | zero => intro ind r h; exact EvictedOnly_refl c r h
  | succ n ih =>
      intro ind r h
      unfold checkLoop
      split
      · exact EvictedOnly_trans (EvictedOnly_Sv_IsActive c r ind h)
          (ih (ind + 1) _ (Core_Sv_IsActive c r ind hc h))
      · exact EvictedOnly_refl c r h

theorem EvictedOnly_writeInfoLoop (c : Config) (hc : c.ok) :
    ∀ (fuel ind : Nat) (r : Registry), Core c r →
      EvictedOnly r (writeInfoLoop fuel ind r).2 := by
  intro fuel
  induction fuel with
  | zero => intro ind r h; exact EvictedOnly_refl c r h
  | succ n ih =>
      intro ind r h
      unfold writeInfoLoop
      split
      · have h2 := EvictedOnly_trans (EvictedOnly_Sv_IsActive c r ind h)
          (ih (ind + 1) _ (Core_Sv_IsActive c r ind hc h))
        dsimp only
        split
        · exact h2
        · exact h2
      · exact EvictedOnly_refl c r h

theorem EvictedSlots_scanFree (c : Config) :
    ∀ (fuel ind : Nat) (r : Registry), EvictedSlots r (scanFree c fuel ind r) := by
  intro fuel
  induction fuel with
  | zero => intro ind r; exact EvictedSlots_refl r
  | succ n ih =>
      intro ind r
      unfold scanFree
      split
      · dsimp only
        split
        · exact EvictedSlots_trans (EvictedSlots_Sv_IsActive r ind) (ih (ind + 1) _)
        · exact EvictedSlots_Sv_IsActive r ind
      · exact EvictedSlots_refl r

theorem last_used_slot_Sv_Remove_ne (r : Registry) (i : Nat) (h : r.last_used_slot ≠ (i : Int)) :
    (Sv_Remove r i).last_used_slot = r.last_used_slot := by
  unfold Sv_Remove
  simp only [Sv_RemoveFromHashTable]
  rw [if_neg h]

theorem last_used_slot_Sv_IsActive_cases (r : Registry) (i : Nat) :
    (Sv_IsActive r i).2.last_used_slot = r.last_used_slot ∨ r.last_used_slot = (i : Int) := by
  rcases Sv_IsActive_cases r i with ⟨_, e⟩ | ⟨_, _, e⟩ | ⟨_, _, e⟩
  · rw [e]; exact Or.inl rfl
  · rw [e]
    by_cases h : r.last_used_slot = (i : Int)
    · exact Or.inr h
    · exact Or.inl (last_used_slot_Sv_Remove_ne r i h)
  · rw [e]; exact Or.inl rfl

theorem LastSlotOK_of_fields (c : Config) (r q : Registry) (hs : q.servers = r.servers)
    (hl : q.last_used_slot = r.last_used_slot) (h : LastSlotOK c r) : LastSlotOK c q := by
  unfold LastSlotOK at h ⊢
  rw [hs, hl]; exact h

theorem LastSlotOK_Sv_Remove (c : Config) (hc : c.ok) (r : Registry) (i : Nat)
    (h : LastSlotOK c r) : LastSlotOK c (Sv_Remove r i) := by
  have hle := last_used_slot_Sv_Remove_le r i
  refine ⟨lt_of_le_of_lt hle h.1, fun hu => ?_⟩
  by_cases hi : c.max_nb_servers - 1 = i
  · rw [hi, usedSlot_Sv_Remove_self] at hu
    cases hu
  · rw [usedSlot_Sv_Remove_other r i _ hi] at hu
    have hL := h.2 hu
    have h0 := hc.1
    rw [last_used_slot_Sv_Remove_ne r i (by omega)]
    exact hL

theorem LastSlotOK_Sv_IsActive (c : Config) (hc : c.ok) (r : Registry) (i : Nat)
    (h : LastSlotOK c r) : LastSlotOK c (Sv_IsActive r i).2 := by
  rcases Sv_IsActive_cases r i with ⟨_, e⟩ | ⟨_, _, e⟩ | ⟨_, _, e⟩
  · rw [e]; exact h
  · rw [e]; exact LastSlotOK_Sv_Remove c hc r i h
  · rw [e]; exact h

theorem LastSlotOK_walkChain (c : Config) (hc : c.ok) (address : Address) (hash : Nat) :
    ∀ (l : List Nat) (r : Registry) (n : Nat), LastSlotOK c r →
      LastSlotOK c (walkChain address hash l r n).2.2 := by
  intro l
  induction l with
  | nil => intro r n h; exact h
  | cons i rest ih =>
      intro r n h
      rcases Sv_IsActive_cases r i with ⟨hu, _⟩ | ⟨hu, ht, _⟩ | ⟨hu, ht, _⟩
      · rw [walkChain_unused address hash i rest r n hu]
        exact ih r n h
      · rw [walkChain_expired address hash i rest r n hu ht]
        exact ih _ n (LastSlotOK_Sv_Remove c hc r i h)
      · rw [walkChain_active address hash i rest r n hu ht]
        split
        · obtain ⟨p1, _, _, _, p5⟩ := promote_fields r i hash address.isIPv6
          exact LastSlotOK_of_fields c r _ p1 p5 h
        · exact ih r _ h

theorem LastSlotOK_checkLoop (c : Config) (hc : c.ok) :
    ∀ (fuel ind : Nat) (r : Registry), LastSlotOK c r → LastSlotOK c (checkLoop fuel ind r) := by
  intro fuel
  induction fuel with
  | zero => intro ind r h; exact h
  | succ n ih =>
      intro ind r h
      unfold checkLoop
      split
      · exact ih (ind + 1) _ (LastSlotOK_Sv_IsActive c hc r ind h)
      · exact h

theorem LastSlotOK_writeInfoLoop (c : Config) (hc : c.ok) :
    ∀ (fuel ind : Nat) (r : Registry), LastSlotOK c r →
      LastSlotOK c (writeInfoLoop fuel ind r).2 := by
  intro fuel
  induction fuel with
  | zero => intro ind r h; exact h
  | succ n ih =>
      intro ind r h
      unfold writeInfoLoop
      split
      · have h2 := ih (ind + 1) _ (LastSlotOK_Sv_IsActive c hc r ind h)
        dsimp only
        split
        · exact h2
        · exact h2
      · exact h

theorem LastSlotOK_scanFree (c : Config) (hc : c.ok) :
    ∀ (fuel ind : Nat) (r : Registry), LastSlotOK c r → LastSlotOK c (scanFree c fuel ind r) := by
  intro fuel
  induction fuel with
  | zero => intro ind r h; exact h
  | succ n ih =>
      intro ind r h
      unfold scanFree
      split
      · dsimp only
        split
        · exact ih (ind + 1) _ (LastSlotOK_Sv_IsActive c hc r ind h)
        · exact LastSlotOK_of_fields c (Sv_IsActive r ind).2 _ rfl rfl
            (LastSlotOK_Sv_IsActive c hc r ind h)
      · exact h

theorem LastSlotOK_getNextLoop (c : Config) (hc : c.ok) :
    ∀ (fuel : Nat) (r : Registry) (p : Option Nat × Registry), LastSlotOK c r →
      getNextLoop fuel r = some p → LastSlotOK c p.2 := by
  intro fuel
  induction fuel with
  | zero =>
    intro r p h hp
    unfold getNextLoop at hp
    split at hp
    · cases hp
    · cases hp; exact h
  | succ f ih =>
    intro r p h hp
    unfold getNextLoop at hp
    split at hp
    · split at hp
      · cases hp
      · have h0 : LastSlotOK c
            { r with crt_server_ind := (r.crt_server_ind + 1) % (r.last_used_slot + 1) } :=
          LastSlotOK_of_fields c r _ rfl rfl h
        have h1 := LastSlotOK_Sv_IsActive c hc _
          ((r.crt_server_ind + 1) % (r.last_used_slot + 1)).toNat h0
        dsimp only at hp
        split at hp
        · cases hp; exact h1
        · exact ih _ p h1 hp
    · cases hp; exact h

theorem LastSlotOK_Sv_GetFirst (c : Config) (hc : c.ok) (r : Registry) (rnd : Nat)
    (p : Option Nat × Registry) (h : LastSlotOK c r) (hp : Sv_GetFirst c r rnd = some p) :
    LastSlotOK c p.2 := by
  unfold Sv_GetFirst at hp
  split at hp
  · cases hp; exact h
  · split at hp
    · cases hp
    · dsimp only at hp
      generalize (if (rnd : Int) % (r.last_used_slot + 1) = 0 then r.last_used_slot
          else (rnd : Int) % (r.last_used_slot + 1) - 1) = last at hp
      have h0 : LastSlotOK c
          { r with
            crt_server_ind := (rnd : Int) % (r.last_used_slot + 1), last_server_ind := last } :=
        LastSlotOK_of_fields c r _ rfl rfl h
      have h1 := LastSlotOK_Sv_IsActive c hc _ ((rnd : Int) % (r.last_used_slot + 1)).toNat h0
      split at hp
      · cases hp; exact h1
      · exact LastSlotOK_getNextLoop c hc _ _ p h1 hp

theorem allocServer_last_used_slot (c : Config) (r : Registry) (address : Address)
    (addrlen : Nat) (addrmap : Option Addrmap) :
    (allocServer c r address addrlen addrmap).2.last_used_slot =
      (scanFree c (c.max_nb_servers - (r.first_free_slot.toNat + 1))
        (r.first_free_slot.toNat + 1) (beforeScan r)).last_used_slot := by
  unfold allocServer
  dsimp only [finishServer, initStructure, Sv_AddToHashTable]
  split <;> rfl

theorem LastSlotOK_allocServer (c : Config) (hc : c.ok) (r : Registry) (address : Address)
    (addrlen : Nat) (addrmap : Option Addrmap) (h : Core c r)
    (hff : FirstFreeOK r.servers r.first_free_slot) (hfull : r.nb_servers ≠ c.max_nb_servers)
    (hj : LastSlotOK c r) : LastSlotOK c (allocServer c r address addrlen addrmap).2 := by
  obtain ⟨k, hk, hkmax, hkun, hbelow⟩ := not_full_first_free c r h hff hfull
  have htn : r.first_free_slot.toNat = k := by rw [hk]; rfl
  obtain ⟨b1, -, -, -, -⟩ := beforeScan_fields r
  have hLb : (beforeScan r).last_used_slot =
      if r.last_used_slot < r.first_free_slot then r.first_free_slot else r.last_used_slot := by
    unfold beforeScan
    split <;> rfl
  have hjb : LastSlotOK c (beforeScan r) := by
    refine ⟨?_, fun hu => ?_⟩
    · rw [hLb]
      have := hj.1
      split <;> omega
    · rw [b1] at hu
      have hL := hj.2 hu
      rw [hLb, if_neg (by omega)]
      exact hL
  have hq := LastSlotOK_scanFree c hc (c.max_nb_servers - (k + 1)) (k + 1) (beforeScan r) hjb
  have hlen : k < (scanFree c (c.max_nb_servers - (k + 1)) (k + 1)
      (beforeScan r)).servers.length := by
    rw [(EvictedSlots_scanFree c _ _ (beforeScan r)).2.1, b1, h.1]; exact hkmax
  obtain ⟨-, f2, -⟩ := allocServer_fields c r address addrlen addrmap k _ hk rfl hlen
  have hL := allocServer_last_used_slot c r address addrlen addrmap
  rw [htn] at hL
  refine ⟨by rw [hL]; exact hq.1, fun hu => ?_⟩
  rw [hL]
  by_cases hkl : c.max_nb_servers - 1 = k
  · have hz : c.max_nb_servers - (k + 1) = 0 := by omega
    rw [hz]
    unfold scanFree
    rw [hLb, hk]
    have := hj.1
    split <;> omega
  · rw [f2, usedSlot_set_other _ _ _ _ hkl] at hu
    exact hq.2 hu

theorem LastSlotOK_internal (c : Config) (hc : c.ok) (r : Registry) (address : Address)
    (h : LastSlotOK c r) : LastSlotOK c (Sv_GetByAddr_Internal c r address).2.2 :=
  LastSlotOK_walkChain c hc address _ _ r 0 h

theorem LastSlotOK_sweepIfFull (c : Config) (hc : c.ok) (r : Registry)
    (h : LastSlotOK c r) : LastSlotOK c (sweepIfFull c r) := by
  unfold sweepIfFull
  split
  · exact LastSlotOK_checkLoop c hc _ 0 r h
  · exact h

theorem LastSlotOK_Sv_GetByAddr (c : Config) (hc : c.ok) (r : Registry) (address : Address)
    (addrlen : Nat) (add_it : Bool) (h : Inv c r) (hj : LastSlotOK c r) :
    LastSlotOK c (Sv_GetByAddr c r address addrlen add_it).2 := by
  have hi := LastSlotOK_internal c hc r address hj
  rcases Sv_GetByAddr_cases c r address addrlen add_it with
    ⟨sv, _, e⟩ | ⟨_, _, e⟩ | ⟨_, _, _, _, _, e⟩ | ⟨_, _, _, _, hfull, e⟩
  · rw [e]; exact hi
  · rw [e]; exact hi
  · rw [e]; exact LastSlotOK_sweepIfFull c hc _ hi
  · rw [e]
    have hinv : Inv c (sweepIfFull c (Sv_GetByAddr_Internal c r address).2.2) :=
      Inv_of_Evolves (Inv_of_Evolves h (Evolves_internal c hc r address h.1))
        (Evolves_sweepIfFull c hc _ (Evolves_internal c hc r address h.1).1)
    exact LastSlotOK_allocServer c hc _ address addrlen _ hinv.1 hinv.2.1 hfull
      (LastSlotOK_sweepIfFull c hc _ hi)

theorem LastSlotOK_setTimeout (c : Config) (r : Registry) (i t : Nat) (h : LastSlotOK c r) :
    LastSlotOK c (setTimeout r i t) := by
  unfold setTimeout
  split
  · rename_i hu
    refine ⟨h.1, fun hu2 => h.2 ?_⟩
    by_cases hi : c.max_nb_servers - 1 = i
    · rw [hi]; exact hu
    · dsimp only at hu2
      rw [usedSlot_set_other _ _ _ _ hi] at hu2
      exact hu2
  · exact h

theorem LastSlotOK_step (c : Config) (hc : c.ok) (r q : Registry) (op : Op) (h : Inv c r)
    (hj : LastSlotOK c r) (hs : step c r op = some q) : LastSlotOK c q := by
  cases op with
  | getByAddr address addrlen add_it =>
    simp only [step, Option.some.injEq] at hs
    rw [← hs]; exact LastSlotOK_Sv_GetByAddr c hc r address addrlen add_it h hj
  | advanceClock dt =>
    simp only [step, Option.some.injEq] at hs
    rw [← hs]; exact LastSlotOK_of_fields c r _ rfl rfl hj
  | setTimeout i t =>
    simp only [step, Option.some.injEq] at hs
    rw [← hs]; exact LastSlotOK_setTimeout c r i t hj
  | getFirst rnd =>
    simp only [step, Option.map_eq_some'] at hs
    obtain ⟨p, hp, e⟩ := hs
    rw [← e]; exact LastSlotOK_Sv_GetFirst c hc r rnd p hj hp
  | getNext =>
    simp only [step, Option.map_eq_some'] at hs
    obtain ⟨p, hp, e⟩ := hs
    rw [← e]; exact LastSlotOK_getNextLoop c hc _ r p hj hp
  | writeInfo =>
    simp only [step, Option.some.injEq] at hs
    rw [← hs]; exact LastSlotOK_writeInfoLoop c hc _ 0 r hj

theorem LastSlotOK_run (c : Config) (hc : c.ok) :
    ∀ (ops : List Op) (r q : Registry), Inv c r → LastSlotOK c r → run c ops r = some q →
      LastSlotOK c q := by
  intro ops
  induction ops with
  | nil =>
    intro r q _ hj hr
    simp only [run, Option.some.injEq] at hr
    rw [← hr]; exact hj
  | cons op ops ih =>
    intro r q h hj hr
    simp only [run, Option.bind_eq_some] at hr
    obtain ⟨m, hm, hr2⟩ := hr
    exact ih m q (Inv_step c hc r m op h hm) (LastSlotOK_step c hc r m op h hj hm) hr2

theorem LastSlotOK_reachable (c : Config) (hc : c.ok) (ops : List Op) (r : Registry)
    (h : run c ops (Sv_Init c) = some r) : LastSlotOK c r := by
  refine LastSlotOK_run c hc ops (Sv_Init c) r (Inv_Sv_Init c hc) ⟨?_, fun hu => ?_⟩ h
  · show (-1 : Int) < (c.max_nb_servers : Int)
    omega
  · exfalso
    have : usedSlot (Sv_Init c).servers (c.max_nb_servers - 1) = false :=
      usedSlot_replicate _ _
    rw [this] at hu
    cases hu

/-! ## The activity check, lookups without add, the info file -/

theorem Sv_IsActive_of_not_expired (r : Registry) (i : Nat) (h : r.expired i = false) :
    Sv_IsActive r i = (r.active i, r) := by
  rcases Sv_IsActive_cases r i with ⟨hu, e⟩ | ⟨hu, ht, e⟩ | ⟨hu, ht, e⟩
  · rw [e]
    have : r.active i = false := by unfold Registry.active; rw [hu]; rfl
    rw [this]
  · rw [(expired_iff r i).2 ⟨hu, ht⟩] at h
    cases h
  · rw [e, (active_iff r i).2 ⟨hu, ht⟩]

theorem expired_Sv_IsActive_self (r : Registry) (i : Nat) :
    (Sv_IsActive r i).2.expired i = false := by
  rcases Sv_IsActive_cases r i with ⟨hu, e⟩ | ⟨hu, ht, e⟩ | ⟨hu, ht, e⟩
  · rw [e, expired_false_iff]
    intro hu2; rw [hu] at hu2; cases hu2
  · rw [e, expired_false_iff]
    intro hu2; rw [usedSlot_Sv_Remove_self] at hu2; cases hu2
  · rw [e, expired_false_iff]
    intro _; exact ht

theorem EvictedSlots_checkLoop :
    ∀ (fuel ind : Nat) (r : Registry), EvictedSlots r (checkLoop fuel ind r) := by
  intro fuel
  induction fuel with
  | zero => intro ind r; exact EvictedSlots_refl r
  | succ n ih =>
      intro ind r
      unfold checkLoop
      split
      · exact EvictedSlots_trans (EvictedSlots_Sv_IsActive r ind) (ih (ind + 1) _)
      · exact EvictedSlots_refl r

/-- The sweep leaves no timed-out record in the slots it goes through. -/
theorem checkLoop_no_expired :
    ∀ (fuel ind : Nat) (r : Registry), r.last_used_slot + 1 ≤ (ind : Int) + (fuel : Int) →
      ∀ j, ind ≤ j → (j : Int) ≤ r.last_used_slot → (checkLoop fuel ind r).expired j = false := by
  intro fuel
  induction fuel with
  | zero =>
      intro ind r hf j hj hjl
      exfalso
      omega
  | succ n ih =>
      intro ind r hf j hj hjl
      unfold checkLoop
      rw [if_pos (by omega)]
      have hle := last_used_slot_Sv_IsActive_le r ind
      by_cases hji : j = ind
      · subst hji
        have h1 := expired_Sv_IsActive_self r j
        cases hx : (checkLoop n (j + 1) (Sv_IsActive r j).2).expired j with
        | false => rfl
        | true =>
            rw [expired_of_EvictedSlots (EvictedSlots_checkLoop n (j + 1) _) j hx] at h1
            cases h1
      · refine ih (ind + 1) _ (by push_cast; omega) j (by omega) ?_
        rcases last_used_slot_Sv_IsActive_cases r ind with e | e
        · rw [e]; exact hjl
        · exfalso; omega

theorem checkLoop_of_no_expired :
    ∀ (fuel ind : Nat) (r : Registry),
      (∀ j : Nat, (j : Int) ≤ r.last_used_slot → r.expired j = false) → checkLoop fuel ind r = r := by
  intro fuel
  induction fuel with
  | zero => intro ind r _; rfl
  | succ n ih =>
      intro ind r h
      unfold checkLoop
      split
      · rename_i hle
        rw [Sv_IsActive_of_not_expired r ind (h ind hle)]
        exact ih (ind + 1) r h
      · rfl

theorem writeInfoLoop_of_no_expired :
    ∀ (fuel ind : Nat) (r : Registry),
      (∀ j : Nat, (j : Int) ≤ r.last_used_slot → r.expired j = false) →
      (writeInfoLoop fuel ind r).2 = r := by
  intro fuel
  induction fuel with
  | zero => intro ind r _; rfl
  | succ n ih =>
      intro ind r h
      unfold writeInfoLoop
      split
      · rename_i hle
        rw [Sv_IsActive_of_not_expired r ind (h ind hle)]
        dsimp only
        split
        · exact ih (ind + 1) r h
        · exact ih (ind + 1) r h
      · rfl

theorem countUsed_pos (s : List Server) (i : Nat) (h : usedSlot s i = true) :
    0 < countUsed s := by
  have hi := usedSlot_lt s i h
  unfold countUsed
  rw [List.countP_pos_iff]
  refine ⟨s.getD i Server.zero, ?_, h⟩
  rw [List.getD_eq_getElem _ _ hi]
  exact List.getElem_mem hi

/-- C12: in a state reached by registry operations, for every slot `i`:
`Sv_IsActive` on a used slot with `timeout >= crt_time` returns true and
leaves the state as it is; on a used slot with `timeout < crt_time` it returns
false, the record has the state `sv_state_unused_slot` (and is otherwise as it
was), the slot is in no chain any more (the other members of the chains stay,
in order), `nb_servers` is one less, and the other slots are untouched; on an
unused slot it returns false and leaves the state as it is. -/
theorem Sv_IsActive_contract (c : Config) (ops : List Op) (r : Registry) (i : Nat)
    (hc : c.ok) (h : run c ops (Sv_Init c) = some r) :
    (usedSlot r.servers i = true → r.crt_time ≤ (r.slot i).timeout →
      Sv_IsActive r i = (true, r)) ∧
    (usedSlot r.servers i = true → (r.slot i).timeout < r.crt_time →
      (Sv_IsActive r i).1 = false ∧
      ((Sv_IsActive r i).2.slot i).state = ServerState.sv_state_unused_slot ∧
      (∀ v6 hh, i ∉ (Sv_IsActive r i).2.chain v6 hh) ∧
      (Sv_IsActive r i).2.nb_servers + 1 = r.nb_servers ∧
      (Sv_IsActive r i).2.slot i = (r.slot i).evicted ∧
      (∀ j, j ≠ i → (Sv_IsActive r i).2.slot j = r.slot j) ∧
      (∀ v6 hh, (Sv_IsActive r i).2.chain v6 hh =
        (r.chain v6 hh).filter (fun j => j != i)) ∧
      (Sv_IsActive r i).2.crt_time = r.crt_time) ∧
    (usedSlot r.servers i = false → Sv_IsActive r i = (false, r)) := by
  have hinv := Inv_reachable c hc ops r h
  refine ⟨fun hu ht => ?_, fun hu ht => ?_, fun hu => ?_⟩
  · rcases Sv_IsActive_cases r i with ⟨hu2, _⟩ | ⟨_, ht2, _⟩ | ⟨_, _, e⟩
    · rw [hu] at hu2; cases hu2
    · omega
    · exact e
  · rcases Sv_IsActive_cases r i with ⟨hu2, _⟩ | ⟨_, _, e⟩ | ⟨_, ht2, _⟩
    · rw [hu] at hu2; cases hu2
    · rw [e]
      have hself := slot_Sv_Remove_self r i (usedSlot_lt _ _ hu)
      have hcore := Core_Sv_Remove c r i hc hinv.1 hu
      refine ⟨rfl, by rw [hself]; rfl, fun v6 hh hmem => ?_, ?_, hself,
        fun j hj => slot_Sv_Remove_other r i j hj, fun v6 hh => chain_Sv_Remove r i v6 hh, rfl⟩
      · rw [chain_Sv_Remove, List.mem_filter] at hmem
        simp at hmem
      · rw [hcore.2.1, hinv.1.2.1, servers_Sv_Remove]
        exact countUsed_remove r.servers i _ hu (evicted_used (r.slot i))
    · omega
  · rcases Sv_IsActive_cases r i with ⟨_, e⟩ | ⟨hu2, _, _⟩ | ⟨hu2, _, _⟩
    · exact e
    · rw [hu] at hu2; cases hu2
    · rw [hu] at hu2; cases hu2

theorem Sv_IsActive_contract_witness :
    run baseConfig oneExpiredOps (Sv_Init baseConfig) = some oneExpiredState ∧
    (oneExpiredState.slot 0).timeout < oneExpiredState.crt_time ∧
    oneExpiredState.nb_servers = 2 ∧
    (Sv_IsActive oneExpiredState 0).2.nb_servers + 1 = oneExpiredState.nb_servers ∧
    Sv_IsActive oneExpiredState 1 = (true, oneExpiredState) :=
  ⟨by decide, by decide, by decide,
    ((Sv_IsActive_contract baseConfig oneExpiredOps oneExpiredState 0 ⟨by decide, by decide⟩
      (by decide)).2.1 (by decide) (by decide)).2.2.2.1,
    by decide⟩

/-- C16, as stated, fails: a registered record has timed out (here the record of
slot 0), and `Sv_WriteInfo` evicts it: it is marked free, it leaves its chain,
`nb_servers` goes from 2 to 1 and `first_free_slot` from 2 to 0. -/
theorem Sv_WriteInfo_evicts :
    run baseConfig oneExpiredOps (Sv_Init baseConfig) = some oneExpiredState ∧
    oneExpiredState.nb_servers = 2 ∧ (Sv_WriteInfo oneExpiredState).2.nb_servers = 1 ∧
    usedSlot oneExpiredState.servers 0 = true ∧
    usedSlot (Sv_WriteInfo oneExpiredState).2.servers 0 = false ∧
    oneExpiredState.first_free_slot = 2 ∧ (Sv_WriteInfo oneExpiredState).2.first_free_slot = 0 ∧
    (Sv_WriteInfo oneExpiredState).2.hash_table_ipv4 ≠ oneExpiredState.hash_table_ipv4 := by
  decide

/-! ## The sweep of a full list -/

theorem filter_length_congr (P Q : Server → Bool) (s t : List Server)
    (hlen : t.length = s.length)
    (h : ∀ j, P (t.getD j Server.zero) = Q (s.getD j Server.zero)) :
    (t.filter P).length = (s.filter Q).length := by
  rw [filter_length_eq_index P t, filter_length_eq_index Q s, hlen]
  congr 1
  apply List.filter_congr
  intro j _
  exact h j

theorem all_used_of_full (c : Config) (r : Registry) (h : Core c r)
    (hfull : r.nb_servers = c.max_nb_servers) :
    ∀ j, j < c.max_nb_servers → usedSlot r.servers j = true := by
  intro j hj
  have h1 : countUsed r.servers = r.servers.length := by rw [← h.2.1, hfull, h.1]
  exact (countUsed_eq_length_iff r.servers).1 h1 j (by rw [h.1]; exact hj)

/-- The sweep of a full list in a state where the last slot is known to
`last_used_slot` goes through every slot: no timed-out record is left. -/
theorem Sv_CheckTimeouts_full (c : Config) (hc : c.ok) (r : Registry) (h : Core c r)
    (hj : LastSlotOK c r) (hfull : r.nb_servers = c.max_nb_servers) :
    ∀ j, (Sv_CheckTimeouts r).expired j = false := by
  intro j
  have hall := all_used_of_full c r h hfull
  have h0 := hc.1
  have hL : r.last_used_slot = (c.max_nb_servers : Int) - 1 :=
    hj.2 (hall _ (by omega))
  by_cases hjm : j < c.max_nb_servers
  · unfold Sv_CheckTimeouts
    refine checkLoop_no_expired _ 0 r ?_ j (Nat.zero_le j) (by omega)
    rw [hL]
    have : ((c.max_nb_servers : Int) - 1 + 1).toNat = c.max_nb_servers := by omega
    rw [this]
    omega
  · rw [expired_false_iff]
    intro hu
    have := usedSlot_lt _ _ hu
    unfold Sv_CheckTimeouts at this
    rw [(EvictedSlots_checkLoop _ 0 r).2.1, h.1] at this
    omega

theorem Sv_CheckTimeouts_of_no_expired (r : Registry) (h : ∀ j, r.expired j = false) :
    Sv_CheckTimeouts r = r :=
  checkLoop_of_no_expired _ 0 r (fun j _ => h j)

/-- C11: in a state reached by registry operations, let a call of `Sv_GetByAddr`
with `add_it = true` find no record, pass the quota test and the loopback block
and reach the allocation in the state `r1` with `nb_servers = max_nb_servers`.
It returns `NULL` if and only if no registered record of `r1` has
`timeout < crt_time`, and then leaves `r1` as it is.  Otherwise it returns the
lowest slot `k` holding a timed-out record: the new record is in slot `k`,
every other timed-out record is evicted, the records that have not timed out
are untouched, and `nb_servers` is their number plus one. -/
theorem full_list_sweep (c : Config) (ops : List Op) (r r1 : Registry) (address : Address)
    (addrlen : Nat) (hc : c.ok) (h : run c ops (Sv_Init c) = some r)
    (hr1 : r1 = (Sv_GetByAddr_Internal c r address).2.2)
    (hnone : (Sv_GetByAddr_Internal c r address).1 = none)
    (hq : quotaReached c (Sv_GetByAddr_Internal c r address).2.1 = false)
    (hl : loopbackRefused c address = false)
    (hfull : r1.nb_servers = c.max_nb_servers) :
    ((Sv_GetByAddr c r address addrlen true).1 = none ↔ ∀ j, r1.expired j = false) ∧
    ((Sv_GetByAddr c r address addrlen true).1 = none →
      (Sv_GetByAddr c r address addrlen true).2 = r1) ∧
    (∀ k, (Sv_GetByAddr c r address addrlen true).1 = some k →
      r1.expired k = true ∧ (∀ j, j < k → r1.expired j = false) ∧
      (Sv_GetByAddr c r address addrlen true).2.slot k =
        newServer address addrlen (addrmapLocal c address) r1.crt_time ∧
      (∀ j, j ≠ k → (Sv_GetByAddr c r address addrlen true).2.slot j =
        if r1.expired j = true then (r1.slot j).evicted else r1.slot j) ∧
      (Sv_GetByAddr c r address addrlen true).2.nb_servers =
        (r1.servers.filter
          (fun sv => sv.used && decide (r1.crt_time ≤ sv.timeout))).length + 1) := by
  have hinv := Inv_reachable c hc ops r h
  have hfin := Inv_Sv_GetByAddr c hc r address addrlen true hinv
  have hev1 := Evolves_internal c hc r address hinv.1
  have hinv1 : Inv c r1 := by rw [hr1]; exact Inv_of_Evolves hinv hev1
  have hj1 : LastSlotOK c r1 := by
    rw [hr1]; exact LastSlotOK_internal c hc r address (LastSlotOK_reachable c hc ops r h)
  have hall := all_used_of_full c r1 hinv1.1 hfull
  have hsw : sweepIfFull c r1 = Sv_CheckTimeouts r1 := by
    unfold sweepIfFull; rw [if_pos hfull]
  have hclean : ∀ j, (sweepIfFull c r1).expired j = false := by
    rw [hsw]; exact Sv_CheckTimeouts_full c hc r1 hinv1.1 hj1 hfull
  have he : EvictedSlots r1 (sweepIfFull c r1) := by
    rw [hsw]; exact EvictedSlots_checkLoop _ 0 r1
  have hslot := slot_of_EvictedSlots he hclean
  have hinv2 : Inv c (sweepIfFull c r1) :=
    Inv_of_Evolves hinv1 (Evolves_sweepIfFull c hc r1 hinv1.1)
  have hsame : (∀ j, r1.expired j = false) → sweepIfFull c r1 = r1 := fun hx => by
    rw [hsw]; exact Sv_CheckTimeouts_of_no_expired r1 hx
  rcases Sv_GetByAddr_cases c r address addrlen true with
    ⟨sv, hs, _⟩ | ⟨_, hor, _⟩ | ⟨_, _, _, _, hf2, e⟩ | ⟨_, _, _, _, hf2, e⟩
  · rw [hnone] at hs; cases hs
  · rcases hor with hb | hb | hb
    · cases hb
    · rw [hq] at hb; cases hb
    · rw [hl] at hb; cases hb
  · rw [← hr1] at hf2 e
    have hnox : ∀ j, r1.expired j = false := by
      intro j
      cases hx : r1.expired j with
      | false => rfl
      | true =>
          exfalso
          have hjl : j < c.max_nb_servers := by
            have := usedSlot_lt _ _ ((expired_iff r1 j).1 hx).1
            rw [hinv1.1.1] at this; exact this
          have hu := all_used_of_full c _ hinv2.1 hf2 j hjl
          rw [usedSlot_eq_slot, hslot j, if_pos hx, evicted_used] at hu
          cases hu
    rw [e]
    exact ⟨⟨fun _ => hnox, fun _ => rfl⟩, fun _ => hsame hnox, fun k hk => (by cases hk)⟩
  · rw [← hr1] at hf2 e
    have hsome : ¬ ∀ j, r1.expired j = false := fun hx => by
      rw [hsame hx] at hf2; exact hf2 hfull
    rw [e] at hfin ⊢
    refine ⟨⟨fun hk => (by cases hk), fun hx => absurd hx hsome⟩, fun hk => (by cases hk), ?_⟩
    intro k hk
    obtain ⟨k0, hk0, hkmax, hkun, hbelow⟩ :=
      not_full_first_free c _ hinv2.1 hinv2.2.1 hf2
    obtain ⟨b1, -, b3, -, -⟩ := beforeScan_fields (sweepIfFull c r1)
    have hes := EvictedSlots_scanFree c (c.max_nb_servers - (k0 + 1)) (k0 + 1)
      (beforeScan (sweepIfFull c r1))
    have hqslot : ∀ j, (scanFree c (c.max_nb_servers - (k0 + 1)) (k0 + 1)
        (beforeScan (sweepIfFull c r1))).slot j = (sweepIfFull c r1).slot j := by
      intro j
      rcases hes.2.2 j with e1 | ⟨x, _⟩
      · rw [e1]; unfold Registry.slot; rw [b1]
      · exfalso
        have hx2 : (sweepIfFull c r1).expired j = true := by
          rw [expired_iff] at x ⊢
          rw [b1, b3] at x
          unfold Registry.slot at x ⊢
          rw [b1] at x
          exact x
        rw [hclean j] at hx2
        cases hx2
    have hqlen : (scanFree c (c.max_nb_servers - (k0 + 1)) (k0 + 1)
        (beforeScan (sweepIfFull c r1))).servers.length = c.max_nb_servers := by
      rw [hes.2.1, b1, hinv2.1.1]
    have hqtime : (scanFree c (c.max_nb_servers - (k0 + 1)) (k0 + 1)
        (beforeScan (sweepIfFull c r1))).crt_time = r1.crt_time := by
      rw [hes.1, b3, he.1]
    obtain ⟨f1, f2, -⟩ := allocServer_fields c (sweepIfFull c r1) address addrlen
      (addrmapLocal c address) k0 _ hk0 rfl (by rw [hqlen]; exact hkmax)
    have hkk : k = k0 := by
      have : some (allocServer c (sweepIfFull c r1) address addrlen
          (addrmapLocal c address)).1 = some k := hk
      rw [f1] at this
      exact (Option.some.inj this).symm
    subst hkk
    have hxk : r1.expired k = true := by
      by_contra hx
      have e1 := hslot k
      rw [if_neg hx] at e1
      rw [usedSlot_eq_slot, e1, ← usedSlot_eq_slot, hall k hkmax] at hkun
      cases hkun
    have hlow : ∀ j, j < k → r1.expired j = false := by
      intro j hjk
      cases hx : r1.expired j with
      | false => rfl
      | true =>
          exfalso
          have hu := hbelow j hjk
          rw [usedSlot_eq_slot, hslot j, if_pos hx, evicted_used] at hu
          cases hu
    refine ⟨hxk, hlow, ?_, fun j hjk => ?_, ?_⟩
    · show (allocServer c (sweepIfFull c r1) address addrlen
        (addrmapLocal c address)).2.servers.getD k Server.zero = _
      rw [f2, getD_set_self _ _ _ (by rw [hqlen]; exact hkmax), hqtime]
    · show (allocServer c (sweepIfFull c r1) address addrlen
        (addrmapLocal c address)).2.servers.getD j Server.zero = _
      rw [f2, getD_set_other _ _ _ _ hjk]
      exact (hqslot j).trans (hslot j)
    · rw [hfin.1.2.1]
      show countUsed (allocServer c (sweepIfFull c r1) address addrlen
        (addrmapLocal c address)).2.servers = _
      rw [f2, countUsed_add _ k _ (by rw [hqlen]; exact hkmax)
        (by rw [usedSlot_eq_slot, hqslot k]; exact hkun) (newServer_used _ _ _ _)]
      congr 1
      unfold countUsed
      rw [List.countP_eq_length_filter]
      apply filter_length_congr
      · rw [hqlen, hinv1.1.1]
      · intro j
        have e1 : (scanFree c (c.max_nb_servers - (k + 1)) (k + 1)
            (beforeScan (sweepIfFull c r1))).servers.getD j Server.zero =
            if r1.expired j = true then (r1.slot j).evicted else r1.slot j :=
          (hqslot j).trans (hslot j)
        rw [e1]
        cases hx : r1.expired j with
        | true =>
            rw [if_pos rfl, evicted_used]
            have ht := ((expired_iff r1 j).1 hx).2
            have hd : decide (r1.crt_time ≤ (r1.slot j).timeout) = false := by
              rw [decide_eq_false_iff_not]; omega
            show false = ((r1.slot j).used && decide (r1.crt_time ≤ (r1.slot j).timeout))
            rw [hd, Bool.and_false]
        | false =>
            rw [if_neg (by simp)]
            show (r1.slot j).used =
              ((r1.slot j).used && decide (r1.crt_time ≤ (r1.slot j).timeout))
            cases hu : (r1.slot j).used with
            | false => rfl
            | true =>
                have := (expired_false_iff r1 j).1 hx hu
                rw [Bool.true_and, eq_comm, decide_eq_true_iff]
                exact this

theorem full_list_sweep_witness :
    run twoSlotConfig fullExpiredOps (Sv_Init twoSlotConfig) = some fullExpiredState ∧
    fullExpiredState.nb_servers = 2 ∧
    fullExpiredState.expired 0 = true ∧ fullExpiredState.expired 1 = true ∧
    (Sv_GetByAddr twoSlotConfig fullExpiredState hostC100 16 true).1 = some 0 ∧
    (Sv_GetByAddr twoSlotConfig fullExpiredState hostC100 16 true).2.nb_servers = 0 + 1 :=
  ⟨by decide, by decide, by decide, by decide, by decide,
    (full_list_sweep twoSlotConfig fullExpiredOps fullExpiredState
      (Sv_GetByAddr_Internal twoSlotConfig fullExpiredState hostC100).2.2 hostC100 16
      ⟨by decide, by decide⟩ (by decide) rfl (by decide) (by decide) (by decide)
      (by decide)).2.2 0 (by decide) |>.2.2.2.2⟩

/-! ## Iterations that miss records -/

/-- Only the draw modulo `last_used_slot + 1` matters to `Sv_GetFirst`. -/
theorem Sv_GetFirst_mod (c : Config) (r : Registry) (rnd m : Nat)
    (hL : r.last_used_slot + 1 = (m : Int)) :
    Sv_GetFirst c r rnd = Sv_GetFirst c r (rnd % m) := by
  have e : ((rnd % m : Nat) : Int) % (r.last_used_slot + 1) =
      (rnd : Int) % (r.last_used_slot + 1) := by
    rw [hL]
    push_cast
    exact Int.emod_emod_of_dvd _ (dvd_refl _)
  unfold Sv_GetFirst
  simp only [e]

theorem iterateAll_mod (c : Config) (r : Registry) (rnd m calls : Nat)
    (hL : r.last_used_slot + 1 = (m : Int)) :
    iterateAll c r rnd calls = iterateAll c r (rnd % m) calls := by
  unfold iterateAll
  rw [Sv_GetFirst_mod c r rnd m hL]

theorem iterateWith_mod (c : Config) (r : Registry) (rnd m : Nat) (acts : List IterAction)
    (hL : r.last_used_slot + 1 = (m : Int)) :
    iterateWith c r rnd acts = iterateWith c r (rnd % m) acts := by
  unfold iterateWith
  rw [Sv_GetFirst_mod c r rnd m hL]

/-- C14, as stated, fails: the state is reached by registry operations, two
records are registered (slots 0 and 1, `nb_servers = 2`) and none has timed
out, but `last_used_slot` is 0; for every draw `Sv_GetFirst` returns slot 0
and the first `Sv_GetNext` returns `NULL`: one record instead of two. -/
theorem iteration_misses_record :
    run baseConfig shortIterationOps (Sv_Init baseConfig) = some shortIterationState ∧
    shortIterationState.nb_servers = 2 ∧
    (∀ i, i < 4 → shortIterationState.expired i = false) ∧
    shortIterationState.active 1 = true ∧
    shortIterationState.last_used_slot = 0 ∧
    ∀ rnd, iterateAll baseConfig shortIterationState rnd 10 = some [0] := by
  refine ⟨by decide, by decide, by decide, by decide, by decide, fun rnd => ?_⟩
  have e := iterateAll_mod baseConfig shortIterationState rnd 1 10 (by decide)
  rw [Nat.mod_one] at e
  rw [e]
  decide

set_option maxRecDepth 100000

/-- C15, as stated, fails: the state is reached by registry operations, the
slots 0 to 9 hold ten active records (`nb_servers = 10`), but `last_used_slot`
is 8.  The caller removes the even slots after `Sv_GetFirst` and calls
`Sv_GetNext` twelve times: for every draw the iteration reaches `NULL` and
has not returned the record of the odd slot 9. -/
theorem odd_slot_never_returned :
    run elevenSlotConfig oddMissedOps (Sv_Init elevenSlotConfig) = some oddMissedState ∧
    (∀ i, i < 10 → oddMissedState.active i = true) ∧
    oddMissedState.nb_servers = 10 ∧
    oddMissedState.last_used_slot = 8 ∧
    ∀ rnd, ∃ l, iterateWith elevenSlotConfig oddMissedState rnd evenEvictions = some l ∧
      none ∈ l ∧ some 9 ∉ l := by
  refine ⟨by decide, by decide, by decide, by decide, fun rnd => ?_⟩
  have key : ∀ x, x < 9 →
      (match iterateWith elevenSlotConfig oddMissedState x evenEvictions with
        | some l => decide (none ∈ l ∧ some 9 ∉ l)
        | none => false) = true := by
    decide
  have e := iterateWith_mod elevenSlotConfig oddMissedState rnd 9 evenEvictions (by decide)
  have hk := key (rnd % 9) (Nat.mod_lt _ (by decide))
  rw [e]
  cases hres : iterateWith elevenSlotConfig oddMissedState (rnd % 9) evenEvictions with
  | none => rw [hres] at hk; cases hk
  | some l =>
      rw [hres] at hk
      exact ⟨l, rfl, of_decide_eq_true hk⟩

/-! ## Iterations over ten slots with evictions of even slots -/

theorem cursors_Sv_Remove_ne (r : Registry) (i : Nat) (h : r.last_used_slot ≠ (i : Int)) :
    (Sv_Remove r i).crt_server_ind =
      (if r.crt_server_ind > r.last_used_slot then r.last_used_slot else r.crt_server_ind) ∧
    (Sv_Remove r i).last_server_ind =
      (if r.last_server_ind > r.last_used_slot then r.last_used_slot
        else r.last_server_ind) := by
  unfold Sv_Remove
  simp only [Sv_RemoveFromHashTable]
  rw [if_neg h]
  exact ⟨rfl, rfl⟩

theorem expired_false_of_active (r : Registry) (i : Nat) (h : r.active i = true) :
    r.expired i = false := by
  rw [expired_false_iff]
  intro _
  exact ((active_iff r i).1 h).2

theorem IterInv_Sv_Remove (s p : Nat) (r : Registry) (e : Nat) (he : e % 2 = 0)
    (h : IterInv s p r) : IterInv s p (Sv_Remove r e) := by
  obtain ⟨hL, hcrt, hlast, hp, hs, hact, hexp⟩ := h
  have hne : r.last_used_slot ≠ (e : Int) := by rw [hL]; omega
  obtain ⟨c1, c2⟩ := cursors_Sv_Remove_ne r e hne
  refine ⟨by rw [last_used_slot_Sv_Remove_ne r e hne]; exact hL, ?_, ?_, hp, hs, ?_, ?_⟩
  · rw [c1, if_neg (by rw [hL, hcrt]; omega)]; exact hcrt
  · rw [c2, if_neg (by rw [hL, hlast]; omega)]; exact hlast
  · intro i hi ho
    have hie : i ≠ e := by omega
    have := hact i hi ho
    rw [active_iff] at this ⊢
    rw [usedSlot_Sv_Remove_other r e i hie, slot_Sv_Remove_other r e i hie, crt_time_Sv_Remove]
    exact this
  · intro i hi
    by_cases hie : i = e
    · subst hie
      rw [expired_false_iff]
      intro hu
      rw [usedSlot_Sv_Remove_self] at hu
      cases hu
    · have := hexp i hi
      rw [expired_false_iff] at this ⊢
      rw [usedSlot_Sv_Remove_other r e i hie, slot_Sv_Remove_other r e i hie,
        crt_time_Sv_Remove]
      exact this

/-- One round of the loop of `Sv_GetNext` on a slot that has not timed out. -/
theorem getNextLoop_step (n : Nat) (r : Registry) (x : Nat)
    (hne : r.crt_server_ind ≠ r.last_server_ind) (hL : r.last_used_slot + 1 ≠ 0)
    (hx : (r.crt_server_ind + 1) % (r.last_used_slot + 1) = (x : Int))
    (hexp : r.expired x = false) :
    getNextLoop (n + 1) r =
      if r.active x = true then some (some x, { r with crt_server_ind := (x : Int) })
      else getNextLoop n { r with crt_server_ind := (x : Int) } := by
  have hexp2 : Registry.expired { r with crt_server_ind := (x : Int) } x = false := hexp
  have hact := Sv_IsActive_of_not_expired { r with crt_server_ind := (x : Int) } x hexp2
  rw [getNextLoop, if_pos hne, if_neg hL]
  dsimp only
  rw [hx]
  simp only [Int.toNat_ofNat]
  rw [hact]
  dsimp only
  simp only [Int.toNat_ofNat]
  rfl

theorem getNextLoop_iter (s : Nat) :
    ∀ (fuel p : Nat) (r : Registry), IterInv s p r → 9 - p ≤ fuel →
      ∃ (p1 : Nat) (res : Option Nat) (q : Registry),
        getNextLoop fuel r = some (res, q) ∧ IterInv s p1 q ∧
        ((res = none ∧ p1 = 9 ∧ ∀ e, p < e → e ≤ 9 → ((s + e) % 10) % 2 = 0) ∨
          (res = some ((s + p1) % 10) ∧ p < p1 ∧
            ∀ e, p < e → e < p1 → ((s + e) % 10) % 2 = 0)) := by
  intro fuel
  induction fuel with
  | zero =>
      intro p r h hf
      have hp9 : p = 9 := by have := h.2.2.2.1; omega
      subst hp9
      refine ⟨9, none, r, ?_, h, Or.inl ⟨rfl, rfl, fun e h1 h2 => (by omega)⟩⟩
      unfold getNextLoop
      rw [if_neg (by rw [h.2.1, h.2.2.1]; simp)]
  | succ n ih =>
      intro p r h hf
      by_cases hp9 : p = 9
      · subst hp9
        refine ⟨9, none, r, ?_, h, Or.inl ⟨rfl, rfl, fun e h1 h2 => (by omega)⟩⟩
        unfold getNextLoop
        rw [if_neg (by rw [h.2.1, h.2.2.1]; simp)]
      · obtain ⟨hL, hcrt, hlast, hp, hs, hact, hexp⟩ := h
        have hne : r.crt_server_ind ≠ r.last_server_ind := by rw [hcrt, hlast]; omega
        have hx : (r.crt_server_ind + 1) % (r.last_used_slot + 1) =
            (((s + (p + 1)) % 10 : Nat) : Int) := by rw [hL, hcrt]; omega
        have hi10 : (s + (p + 1)) % 10 < 10 := Nat.mod_lt _ (by decide)
        have hinv1 : IterInv s (p + 1)
            { r with crt_server_ind := (((s + (p + 1)) % 10 : Nat) : Int) } :=
          ⟨hL, rfl, hlast, by omega, hs, hact, hexp⟩
        rw [getNextLoop_step n r _ hne (by rw [hL]; decide) hx (hexp _ hi10)]
        by_cases ha : r.active ((s + (p + 1)) % 10) = true
        · rw [if_pos ha]
          exact ⟨p + 1, _, _, rfl, hinv1,
            Or.inr ⟨rfl, by omega, fun e h1 h2 => (by omega)⟩⟩
        · rw [if_neg ha]
          have heven : ((s + (p + 1)) % 10) % 2 = 0 := by
            by_contra hodd
            exact ha (hact _ hi10 (by omega))
          obtain ⟨p1, res, q, e1, e2, e3⟩ := ih (p + 1) _ hinv1 (by omega)
          refine ⟨p1, res, q, e1, e2, ?_⟩
          rcases e3 with ⟨a1, a2, a3⟩ | ⟨a1, a2, a3⟩
          · refine Or.inl ⟨a1, a2, fun e h1 h2 => ?_⟩
            by_cases he : e = p + 1
            · rw [he]; exact heven
            · exact a3 e (by omega) h2
          · refine Or.inr ⟨a1, by omega, fun e h1 h2 => ?_⟩
            by_cases he : e = p + 1
            · rw [he]; exact heven
            · exact a3 e (by omega) h2

theorem Sv_GetFirst_iter (c : Config) (r : Registry) (rnd : Nat)
    (hact : ∀ i, i < 10 → r.active i = true) (hL : r.last_used_slot = 9)
    (hnb : r.nb_servers ≠ 0) :
    ∃ q, Sv_GetFirst c r rnd = some (some (rnd % 10), q) ∧ IterInv (rnd % 10) 0 q := by
  have h10 : rnd % 10 < 10 := Nat.mod_lt _ (by decide)
  have e1 : (rnd : Int) % (r.last_used_slot + 1) = ((rnd % 10 : Nat) : Int) := by
    rw [hL]; omega
  have e2 : (if ((rnd % 10 : Nat) : Int) = 0 then r.last_used_slot
      else ((rnd % 10 : Nat) : Int) - 1) = (((rnd % 10 + 9) % 10 : Nat) : Int) := by
    rw [hL]; split <;> omega
  have hexp : Registry.expired { r with
      crt_server_ind := ((rnd % 10 : Nat) : Int),
      last_server_ind := (((rnd % 10 + 9) % 10 : Nat) : Int) } (rnd % 10) = false :=
    expired_false_of_active r _ (hact _ h10)
  have hia := Sv_IsActive_of_not_expired _ _ hexp
  have ha : Registry.active { r with
      crt_server_ind := ((rnd % 10 : Nat) : Int),
      last_server_ind := (((rnd % 10 + 9) % 10 : Nat) : Int) } (rnd % 10) = true :=
    hact _ h10
  refine ⟨{ r with
      crt_server_ind := ((rnd % 10 : Nat) : Int),
      last_server_ind := (((rnd % 10 + 9) % 10 : Nat) : Int) }, ?_, ?_⟩
  · unfold Sv_GetFirst
    rw [if_neg hnb, if_neg (by rw [hL]; decide)]
    dsimp only
    rw [e1, e2]
    simp only [Int.toNat_ofNat]
    rw [hia, ha]
    rfl
  · refine ⟨hL, ?_, rfl, Nat.zero_le _, h10, fun i hi _ => hact i hi,
      fun i hi => expired_false_of_active r i (hact i hi)⟩
    show ((rnd % 10 : Nat) : Int) = (((rnd % 10 + 0) % 10 : Nat) : Int)
    congr 1
    omega

theorem count_singleton_eq (i x : Nat) : List.count i [x] = if x = i then 1 else 0 := by
  by_cases h : x = i
  · subst h
    simp
  · rw [if_neg h, List.count_eq_zero]
    intro hm
    exact h (List.mem_singleton.mp hm).symm

theorem OddOnce_start (s : Nat) (hs : s < 10) : OddOnce s 0 [s] := by
  intro i hi _
  rw [count_singleton_eq]
  split <;> split <;> omega

theorem OddOnce_snoc (s p p1 : Nat) (l : List Nat) (hs : s < 10) (hp1 : p1 ≤ 9) (hlt : p < p1)
    (h : OddOnce s p l) (hskip : ∀ e, p < e → e < p1 → ((s + e) % 10) % 2 = 0) :
    OddOnce s p1 (l ++ [(s + p1) % 10]) := by
  intro i hi ho
  rw [List.count_append, h i hi ho, count_singleton_eq]
  by_cases h1 : p < (i + 10 - s) % 10 ∧ (i + 10 - s) % 10 < p1
  · have := hskip _ h1.1 h1.2
    omega
  · split <;> split <;> split <;> omega

theorem OddOnce_end (s p : Nat) (l : List Nat) (h : OddOnce s p l)
    (hskip : ∀ e, p < e → e ≤ 9 → ((s + e) % 10) % 2 = 0) : OddOnce s 9 l := by
  intro i hi ho
  rw [h i hi ho]
  by_cases h1 : p < (i + 10 - s) % 10
  · have := hskip _ h1 (by omega)
    omega
  · rw [if_pos (by omega), if_pos (by omega)]

theorem countNext_next (rest : List IterAction) :
    countNext (IterAction.next :: rest) = countNext rest + 1 := by
  simp [countNext]

theorem countNext_remove (i : Nat) (rest : List IterAction) :
    countNext (IterAction.remove i :: rest) = countNext rest := by
  simp [countNext]

theorem iterCalls_iter (c : Config) (s : Nat) (hmax : 10 ≤ c.max_nb_servers) :
    ∀ (acts : List IterAction) (p : Nat) (r : Registry) (l : List Nat),
      IterInv s p r → OddOnce s p l → (∀ a ∈ acts, a.evictsEven = true) →
      ∃ (vals : List Nat) (k : Nat) (q : Registry) (p1 : Nat),
        iterCalls c acts r = some (vals.map some ++ List.replicate k none, q) ∧
        p ≤ p1 ∧ p1 ≤ 9 ∧ (vals ≠ [] → p < p1) ∧ OddOnce s p1 (l ++ vals) ∧
        (0 < k → p1 = 9) ∧ (9 - p < countNext acts → 0 < k) := by
  intro acts
  induction acts with
  | nil =>
      intro p r l h ho _
      refine ⟨[], 0, r, p, rfl, le_refl _, h.2.2.2.1, fun hne => absurd rfl hne, ?_,
        fun hk => absurd hk (lt_irrefl _), fun hk => ?_⟩
      · rw [List.append_nil]; exact ho
      · exfalso
        have : countNext [] = 0 := rfl
        omega
  | cons a rest ih =>
      intro p r l h ho hall
      have hrest : ∀ b ∈ rest, b.evictsEven = true :=
        fun b hb => hall b (List.mem_cons_of_mem _ hb)
      cases a with
      | remove e =>
          have he : e % 2 = 0 := by
            have := hall (IterAction.remove e) (List.mem_cons_self _ _)
            simp only [IterAction.evictsEven, decide_eq_true_eq] at this
            exact this.1
          obtain ⟨vals, k, q, p1, e1, e2, e3, e4, e5, e6, e7⟩ :=
            ih p (Sv_Remove r e) l (IterInv_Sv_Remove s p r e he h) ho hrest
          refine ⟨vals, k, q, p1, ?_, e2, e3, e4, e5, e6, ?_⟩
          · rw [iterCalls]; exact e1
          · rw [countNext_remove]; exact e7
      | next =>
          have hp := h.2.2.2.1
          obtain ⟨p1, res, q1, g1, g2, g3⟩ :=
            getNextLoop_iter s (c.max_nb_servers + 1) p r h (by omega)
          have hs := h.2.2.2.2.1
          have hp1 := g2.2.2.2.1
          rcases g3 with ⟨a1, a2, a3⟩ | ⟨a1, a2, a3⟩
          · subst a1
            subst a2
            obtain ⟨vals, k, q, p2, e1, e2, e3, e4, e5, e6, e7⟩ :=
              ih 9 q1 l g2 (OddOnce_end s p l ho a3) hrest
            have hvals : vals = [] := by
              by_contra hne
              have := e4 hne
              omega
            subst hvals
            have hp2 : p2 = 9 := by omega
            refine ⟨[], k + 1, q, p2, ?_, by omega, e3, fun hne => absurd rfl hne, e5,
              fun _ => hp2, fun _ => Nat.succ_pos _⟩
            rw [iterCalls, Sv_GetNext, g1]
            dsimp only
            rw [e1]
            rfl
          · subst a1
            have ho1 := OddOnce_snoc s p p1 l hs hp1 a2 ho a3
            obtain ⟨vals, k, q, p2, e1, e2, e3, e4, e5, e6, e7⟩ :=
              ih p1 q1 (l ++ [(s + p1) % 10]) g2 ho1 hrest
            refine ⟨(s + p1) % 10 :: vals, k, q, p2, ?_, by omega, e3, fun _ => (by omega),
              ?_, e6, fun hk => ?_⟩
            · rw [iterCalls, Sv_GetNext, g1]
              dsimp only
              rw [e1]
              rfl
            · rw [List.append_assoc] at e5
              exact e5
            · rw [countNext_next] at hk
              exact e7 (by omega)

/-- When `last_used_slot` is 9 (the slots `0 .. 9` all active, the capacity at
least 10): for every draw, `Sv_GetFirst` returns slot `rnd % 10`; whatever the
points at which the caller removes even slots between the calls, every call of
`Sv_GetNext` returns, the calls return slots until one returns `NULL` and
`NULL` from then on; no odd slot is returned twice, every odd slot has been
returned once when `NULL` is reached, and `NULL` is reached within ten calls
of `Sv_GetNext`. -/
theorem iteration_with_evictions (c : Config) (r : Registry) (rnd : Nat)
    (acts : List IterAction) (hmax : 10 ≤ c.max_nb_servers)
    (hact : ∀ i, i < 10 → r.active i = true) (hL : r.last_used_slot = 9)
    (hnb : r.nb_servers ≠ 0) (hacts : ∀ a ∈ acts, a.evictsEven = true) :
    ∃ (q : Registry) (vals : List Nat) (k : Nat) (q2 : Registry),
      Sv_GetFirst c r rnd = some (some (rnd % 10), q) ∧
      iterCalls c acts q = some (vals.map some ++ List.replicate k none, q2) ∧
      (∀ i, i < 10 → i % 2 = 1 → ((rnd % 10) :: vals).count i ≤ 1) ∧
      (0 < k → ∀ i, i < 10 → i % 2 = 1 → ((rnd % 10) :: vals).count i = 1) ∧
      (10 ≤ countNext acts → 0 < k) := by
  obtain ⟨q, hq, hinv⟩ := Sv_GetFirst_iter c r rnd hact hL hnb
  have h10 : rnd % 10 < 10 := Nat.mod_lt _ (by decide)
  obtain ⟨vals, k, q2, p1, e1, _, _, _, e5, e6, e7⟩ :=
    iterCalls_iter c (rnd % 10) hmax acts 0 q [rnd % 10] hinv (OddOnce_start _ h10) hacts
  refine ⟨q, vals, k, q2, hq, e1, fun i hi ho => ?_, fun hk i hi ho => ?_, fun hn => e7 (by omega)⟩
  · have := e5 i hi ho
    rw [List.singleton_append] at this
    rw [this]
    split <;> omega
  · have := e5 i hi ho
    rw [List.singleton_append, e6 hk] at this
    rw [this, if_pos (by omega)]

theorem iteration_with_evictions_example :
    run tenSlotConfig tenServersOps (Sv_Init tenSlotConfig) = some tenServersState ∧
    iterateWith tenSlotConfig tenServersState 13 evenEvictions =
      some [some 3, some 5, some 7, some 9, some 1, none, none, none, none, none, none,
        none, none] := by
  decide

/-! ## Address primitives -/

/-- C28: for every address and every `hash_size` and `hash_ports` setting,
`Sv_AddressHash` is the hash in the specification's words (`referenceHash`),
and it is below `2 ^ hash_size`, the number of chains of a table. -/
theorem Sv_AddressHash_reference (c : Config) (address : Address) :
    Sv_AddressHash c address = referenceHash c.hash_size c.hash_ports address ∧
    Sv_AddressHash c address < 2 ^ c.hash_size ∧
    (Sv_Init c).hash_table_ipv4.length = 2 ^ c.hash_size ∧
    (Sv_Init c).hash_table_ipv6.length = 2 ^ c.hash_size := by
  refine ⟨?_, Sv_AddressHash_lt c address, ?_, ?_⟩
  · cases address <;> cases hp : c.hash_ports <;>
      simp [Sv_AddressHash, referenceHash, referenceStart, Address.port, hp]
  · simp [Sv_Init, Nat.shiftLeft_eq]
  · simp [Sv_Init, Nat.shiftLeft_eq]

/-- C30: the comparison of two IPv4 addresses gives
`same_public = (a.addr = b.addr)` and `exact = same_public ∧ a.port = b.port`;
the comparison of two IPv6 addresses gives `same_public =` (the first two
words, that is the first 64 bits, are equal) and `exact = same_public ∧` (the
last two words are equal) `∧` (the scope ids are equal) `∧` (the ports are
equal); for every pair of addresses `exact` implies `same_public`. -/
theorem same_address_contract :
    (∀ a1 p1 a2 p2 : Nat,
      Sv_SameIPv4Addr (Address.ipv4 a1 p1) (Address.ipv4 a2 p2) =
        (decide (a1 = a2 ∧ p1 = p2), decide (a1 = a2))) ∧
    (∀ a0 a1 a2 a3 p1 s1 b0 b1 b2 b3 p2 s2 : Nat,
      Sv_SameIPv6Addr (Address.ipv6 a0 a1 a2 a3 p1 s1) (Address.ipv6 b0 b1 b2 b3 p2 s2) =
        (decide ((a0 = b0 ∧ a1 = b1) ∧ (a2 = b2 ∧ a3 = b3) ∧ s1 = s2 ∧ p1 = p2),
          decide (a0 = b0 ∧ a1 = b1))) ∧
    (∀ a b : Address, (IsSameAddress a b).1 = true → (IsSameAddress a b).2 = true) ∧
    (∀ a b : Address, b.isIPv6 = false → IsSameAddress a b = Sv_SameIPv4Addr a b) ∧
    (∀ a b : Address, b.isIPv6 = true → IsSameAddress a b = Sv_SameIPv6Addr a b) := by
  refine ⟨?_, ?_, ?_, ?_, ?_⟩
  · intro a1 p1 a2 p2
    simp only [Sv_SameIPv4Addr]
    by_cases e : a1 = a2
    · rw [if_pos e]; simp [e]
    · rw [if_neg e]; simp [e]
  · intro a0 a1 a2 a3 p1 s1 b0 b1 b2 b3 p2 s2
    simp only [Sv_SameIPv6Addr]
    by_cases e : a0 = b0 ∧ a1 = b1
    · rw [if_pos e]
      simp only [e, and_self, true_and, decide_True]
      congr 1
      apply decide_eq_decide.mpr
      constructor
      · rintro ⟨h1, h2, h3, h4⟩; exact ⟨⟨h3, h4⟩, h1, h2⟩
      · rintro ⟨⟨h3, h4⟩, h1, h2⟩; exact ⟨h1, h2, h3, h4⟩
    · rw [if_neg e]; simp [e]
  · intro a b h
    cases a <;> cases b <;>
      simp [IsSameAddress, Address.isIPv6, Sv_SameIPv4Addr, Sv_SameIPv6Addr] at h ⊢
    · split at h
      · next e => simp [e]
      · simp at h
    · split at h
      · next e => simp [e]
      · simp at h
  · intro a b hb
    unfold IsSameAddress
    rw [hb]; rfl
  · intro a b hb
    unfold IsSameAddress
    rw [hb]; rfl

/-! ## The order of game names and the binary search -/

theorem strcmp_eq_zero_iff : ∀ (a b : List Nat), strcmp a b = 0 ↔ a = b := by
  intro a
  induction a with
  | nil =>
      intro b
      cases b with
      | nil => simp [strcmp]
      | cons y t => simp [strcmp]
  | cons x s ih =>
      intro b
      cases b with
      | nil => simp [strcmp]
      | cons y t =>
          simp only [strcmp]
          by_cases e : x = y
          · rw [if_pos e, ih t]
            simp [e]
          · rw [if_neg e]
            constructor
            · intro h; exfalso; omega
            · intro h; exact absurd (List.cons.inj h).1 e

theorem strcmp_swap : ∀ (a b : List Nat), strcmp a b < 0 ↔ 0 < strcmp b a := by
  intro a
  induction a with
  | nil =>
      intro b
      cases b with
      | nil => simp [strcmp]
      | cons y t => simp [strcmp]
  | cons x s ih =>
      intro b
      cases b with
      | nil => simp [strcmp]
      | cons y t =>
          simp only [strcmp]
          by_cases e : x = y
          · rw [if_pos e, if_pos e.symm]; exact ih t
          · rw [if_neg e, if_neg (fun h => e h.symm)]
            omega

theorem strcmp_trans : ∀ (a b c : List Nat), strcmp a b < 0 → strcmp b c < 0 →
    strcmp a c < 0 := by
  intro a
  induction a with
  | nil =>
      intro b c h1 h2
      cases c with
      | nil =>
          cases b with
          | nil => exact h2
          | cons y t => simp [strcmp] at h2
      | cons z u => simp [strcmp]
  | cons x s ih =>
      intro b c h1 h2
      cases b with
      | nil => simp [strcmp] at h1
      | cons y t =>
          cases c with
          | nil => simp [strcmp] at h2
          | cons z u =>
              simp only [strcmp] at h1 h2 ⊢
              by_cases e1 : x = y
              · rw [if_pos e1] at h1
                by_cases e2 : y = z
                · rw [if_pos e2] at h2
                  rw [if_pos (e1.trans e2)]
                  exact ih t u h1 h2
                · rw [if_neg e2] at h2
                  rw [if_neg (by omega)]
                  omega
              · rw [if_neg e1] at h1
                by_cases e2 : y = z
                · rw [if_neg (by omega)]
                  omega
                · rw [if_neg e2] at h2
                  rw [if_neg (by omega)]
                  omega

theorem nameLt_irrefl (a : List Nat) : ¬ nameLt a a := by
  unfold nameLt
  rw [(strcmp_eq_zero_iff a a).2 rfl]
  omega

theorem nameLt_trans {a b c : List Nat} (h1 : nameLt a b) (h2 : nameLt b c) : nameLt a c :=
  strcmp_trans a b c h1 h2

theorem sorted_getD (names : List (List Nat)) (hs : names.Pairwise nameLt) (i j : Nat)
    (hij : i < j) (hj : j < names.length) :
    nameLt (names.getD i []) (names.getD j []) := by
  rw [List.getD_eq_getElem _ _ (by omega), List.getD_eq_getElem _ _ hj]
  exact List.pairwise_iff_getElem.mp hs i j (by omega) hj hij

theorem toInt_of_range (x : Int) (h1 : -2147483648 ≤ x) (h2 : x < 2147483648) :
    toInt x = x := by
  unfold toInt
  omega

theorem toUnsigned_of_nat (n : Nat) (h : n < 4294967296) : toUnsigned (n : Int) = n := by
  unfold toUnsigned
  omega

/-- The binary search on a strictly increasing array of at most `2 ^ 30`
names: it gives an answer; `true` comes with the index of the name, `false`
with the index before which the names are smaller and from which they are
larger. -/
theorem findLoop_spec (names : List (List Nat)) (g : List Nat)
    (hs : names.Pairwise nameLt) (hn : names.length ≤ 2 ^ 30) :
    ∀ (fuel : Nat) (left right : Int), 0 ≤ left → right < (names.length : Int) →
      left ≤ right + 1 → right + 1 - left ≤ (fuel : Int) →
      (∀ i : Nat, (i : Int) < left → strcmp (names.getD i []) g < 0) →
      (∀ i : Nat, right < (i : Int) → i < names.length → 0 < strcmp (names.getD i []) g) →
      ∃ (found : Bool) (idx : Nat), findLoop names g fuel left right = some (found, (idx : Int)) ∧
        idx ≤ names.length ∧
        (found = true → idx < names.length ∧ names.getD idx [] = g) ∧
        (found = false →
          (∀ i : Nat, i < idx → strcmp (names.getD i []) g < 0) ∧
          (∀ i : Nat, idx ≤ i → i < names.length → 0 < strcmp (names.getD i []) g)) := by
  have hn2 : (names.length : Int) ≤ 1073741824 := by
    have : (2 : Nat) ^ 30 = 1073741824 := by norm_num
    omega
  intro fuel
  induction fuel with
  | zero =>
      intro left right h0 hr hlr hf hlo hhi
      have hgt : ¬ left ≤ right := by omega
      refine ⟨false, left.toNat, ?_, by omega, fun h => (by cases h), fun _ => ⟨?_, ?_⟩⟩
      · unfold findLoop
        rw [if_neg hgt]
        congr 2
        omega
      · intro i hi; exact hlo i (by omega)
      · intro i hi hin; exact hhi i (by omega) hin
  | succ n ih =>
      intro left right h0 hr hlr hf hlo hhi
      by_cases hle : left ≤ right
      · have hsum : toInt (left + right) = left + right := toInt_of_range _ (by omega) (by omega)
        have hmid : Int.tdiv (toInt (left + right)) 2 = (left + right) / 2 := by
          rw [hsum]; exact Int.tdiv_eq_ediv (by omega) (by omega)
        obtain ⟨m, hm⟩ : ∃ m : Nat, (left + right) / 2 = (m : Int) :=
          ⟨((left + right) / 2).toNat, by omega⟩
        have hml : left ≤ (m : Int) := by omega
        have hmr : (m : Int) ≤ right := by omega
        have hmn : m < names.length := by omega
        rw [findLoop, if_pos hle]
        dsimp only
        rw [hmid, hm, Int.toNat_ofNat]
        by_cases hd0 : strcmp (names.getD m []) g = 0
        · rw [if_pos hd0]
          exact ⟨true, m, rfl, by omega, fun _ => ⟨hmn, (strcmp_eq_zero_iff _ _).1 hd0⟩,
            fun h => (by cases h)⟩
        · rw [if_neg hd0]
          by_cases hdp : strcmp (names.getD m []) g > 0
          · rw [if_pos hdp, toInt_of_range _ (by omega) (by omega)]
            refine ih left ((m : Int) - 1) h0 (by omega) (by omega) (by omega) hlo ?_
            intro i hi hin
            by_cases him : i = m
            · rw [him]; exact hdp
            · have h1 : nameLt (names.getD m []) (names.getD i []) :=
                sorted_getD names hs m i (by omega) hin
              have h2 : strcmp g (names.getD m []) < 0 := (strcmp_swap _ _).2 hdp
              exact (strcmp_swap _ _).1 (strcmp_trans _ _ _ h2 h1)
          · rw [if_neg hdp, toInt_of_range _ (by omega) (by omega)]
            have hneg : strcmp (names.getD m []) g < 0 := by omega
            refine ih ((m : Int) + 1) right (by omega) hr (by omega) (by omega) ?_ hhi
            intro i hi
            by_cases him : i = m
            · rw [him]; exact hneg
            · have h1 : nameLt (names.getD i []) (names.getD m []) :=
                sorted_getD names hs i m (by omega) hmn
              exact strcmp_trans _ _ _ h1 hneg
      · refine ⟨false, left.toNat, ?_, by omega, fun h => (by cases h), fun _ => ⟨?_, ?_⟩⟩
        · rw [findLoop, if_neg hle]
          congr 2
          omega
        · intro i hi; exact hlo i (by omega)
        · intro i hi hin; exact hhi i (by omega) hin

/-- The answer of `Game_Find` in a state with a strictly increasing array of at
most `2 ^ 30` names. -/
theorem Game_Find_spec (s : Games) (g : List Nat) (hs : s.names.Pairwise nameLt)
    (hn : s.names.length ≤ 2 ^ 30) :
    ∃ idx : Nat, Game_Find s g = some (decide (g ∈ s.names), idx) ∧ idx ≤ s.names.length ∧
      (g ∉ s.names →
        (∀ x ∈ s.names.take idx, nameLt x g) ∧ (∀ x ∈ s.names.drop idx, nameLt g x)) := by
  have hn2 : (s.names.length : Int) ≤ 1073741824 := by
    have : (2 : Nat) ^ 30 = 1073741824 := by norm_num
    omega
  cases hgn : s.game_names with
  | none =>
      have hnames : s.names = [] := by unfold Games.names; rw [hgn]; rfl
      refine ⟨0, ?_, Nat.zero_le _, fun _ => ?_⟩
      · unfold Game_Find
        rw [hgn, hnames]
        simp
      · rw [hnames]; simp
  | some names =>
      have hnames : s.names = names := by unfold Games.names; rw [hgn]; rfl
      rw [hnames] at hs hn hn2 ⊢
      have hright : toInt (toUnsigned ((names.length : Int) - 1)) = (names.length : Int) - 1 := by
        unfold toInt toUnsigned
        omega
      obtain ⟨found, idx, e1, e2, e3, e4⟩ := findLoop_spec names g hs hn names.length 0
        ((names.length : Int) - 1) (le_refl _) (by omega) (by omega) (by omega)
        (fun i hi => (by omega)) (fun i hi hin => (by omega))
      have hmem : found = decide (g ∈ names) := by
        cases found with
        | true =>
            obtain ⟨h1, h2⟩ := e3 rfl
            have : g ∈ names := by
              rw [← h2, List.getD_eq_getElem _ _ h1]
              exact List.getElem_mem h1
            simp [this]
        | false =>
            obtain ⟨h1, h2⟩ := e4 rfl
            have : g ∉ names := by
              intro hg
              obtain ⟨i, hi, hgi⟩ := List.mem_iff_getElem.mp hg
              have hgd : names.getD i [] = g := by rw [List.getD_eq_getElem _ _ hi]; exact hgi
              have hz : strcmp (names.getD i []) g = 0 := (strcmp_eq_zero_iff _ _).2 hgd
              by_cases hlt : i < idx
              · have := h1 i hlt; omega
              · have := h2 i (by omega) hi; omega
            simp [this]
      refine ⟨idx, ?_, e2, fun hg => ?_⟩
      · unfold Game_Find
        rw [hgn]
        dsimp only
        rw [hright, e1, hmem]
        simp only [Option.map_some']
        rw [toUnsigned_of_nat idx (by omega)]
      · have hf : found = false := by rw [hmem]; simp [hg]
        obtain ⟨h1, h2⟩ := e4 hf
        constructor
        · intro x hx
          obtain ⟨i, hi, hxi⟩ := List.mem_take_iff_getElem.mp hx
          have hi2 : i < idx ∧ i < names.length := by
            rw [Nat.lt_min] at hi; exact hi
          have := h1 i hi2.1
          rw [List.getD_eq_getElem _ _ hi2.2, hxi] at this
          exact this
        · intro x hx
          obtain ⟨i, hi, hxi⟩ := List.mem_iff_getElem.mp hx
          rw [List.length_drop] at hi
          rw [List.getElem_drop] at hxi
          have := h2 (idx + i) (by omega) (by omega)
          rw [List.getD_eq_getElem _ _ (by omega), hxi] at this
          exact (strcmp_swap _ _).2 this

/-! ## Declarations of game names -/

theorem insert_sorted (names : List (List Nat)) (g : List Nat) (idx : Nat)
    (hs : names.Pairwise nameLt) (h1 : ∀ x ∈ names.take idx, nameLt x g)
    (h2 : ∀ x ∈ names.drop idx, nameLt g x) :
    (names.take idx ++ g :: names.drop idx).Pairwise nameLt := by
  rw [List.pairwise_append]
  refine ⟨List.Pairwise.sublist (List.take_sublist idx names) hs, ?_, ?_⟩
  · rw [List.pairwise_cons]
    exact ⟨h2, List.Pairwise.sublist (List.drop_sublist idx names) hs⟩
  · intro a ha b hb
    rcases List.mem_cons.mp hb with e | hb2
    · rw [e]; exact h1 a ha
    · exact nameLt_trans (h1 a ha) (h2 b hb2)

theorem mem_insert (names : List (List Nat)) (g : List Nat) (idx : Nat) (x : List Nat) :
    x ∈ names.take idx ++ g :: names.drop idx ↔ x = g ∨ x ∈ names := by
  rw [List.mem_append, List.mem_cons]
  constructor
  · rintro (h | h | h)
    · exact Or.inr (List.mem_of_mem_take h)
    · exact Or.inl h
    · exact Or.inr (List.mem_of_mem_drop h)
  · rintro (h | h)
    · exact Or.inr (Or.inl h)
    · rw [← List.take_append_drop idx names, List.mem_append] at h
      rcases h with h | h
      · exact Or.inl h
      · exact Or.inr (Or.inr h)

theorem length_insert (names : List (List Nat)) (g : List Nat) (idx : Nat) :
    (names.take idx ++ g :: names.drop idx).length = names.length + 1 := by
  have := congrArg List.length (List.take_append_drop idx names)
  rw [List.length_append] at this
  rw [List.length_append, List.length_cons]
  omega

theorem names_of_some (s : Games) (l : List (List Nat)) :
    Games.names { s with game_names := some l } = l := rfl

theorem names_nil_iff (s : Games) (h : GamesOK s) : s.names = [] ↔ s.game_names = none := by
  constructor
  · intro hn
    cases hg : s.game_names with
    | none => rfl
    | some l =>
        exfalso
        have : s.names = l := by unfold Games.names; rw [hg]; rfl
        rw [this] at hn
        rw [hn] at hg
        exact h.2 hg
  · intro hg
    unfold Games.names
    rw [hg]; rfl

/-- The loop of `Game_DeclarePolicy`: it ends, with `CMDLINE_STATUS_OK` or
`CMDLINE_STATUS_NOT_ENOUGH_MEMORY`; the array stays strictly increasing, the
names stored are names stored before or names of the call, and all of them
when the loop goes to its end. -/
theorem insertLoop_spec (mem : Nat → Bool) :
    ∀ (games : List (List Nat)) (i : Nat) (s : Games), GamesOK s →
      s.names.length + games.length ≤ 2 ^ 30 →
      ∃ (st : cmdline_status_t) (q : Games), insertLoop mem i games s = some (st, q) ∧
        GamesOK q ∧ q.reject_when_known = s.reject_when_known ∧
        q.names.length ≤ s.names.length + games.length ∧
        (∀ g, g ∈ q.names → g ∈ s.names ∨ g ∈ games) ∧
        (∀ g, g ∈ s.names → g ∈ q.names) ∧
        (st = cmdline_status_t.CMDLINE_STATUS_OK ∨
          st = cmdline_status_t.CMDLINE_STATUS_NOT_ENOUGH_MEMORY) ∧
        (st = cmdline_status_t.CMDLINE_STATUS_OK → ∀ g ∈ games, g ∈ q.names) ∧
        ((∀ j, mem j = true) → st = cmdline_status_t.CMDLINE_STATUS_OK) := by
  intro games
  induction games with
  | nil =>
      intro i s h _
      exact ⟨_, s, rfl, h, rfl, by omega, fun g hg => Or.inl hg, fun g hg => hg, Or.inl rfl,
        fun _ g hg => absurd hg (List.not_mem_nil g), fun _ => rfl⟩
  | cons game rest ih =>
      intro i s h hb
      rw [List.length_cons] at hb
      obtain ⟨idx, hfind, hidx, hpos⟩ := Game_Find_spec s game h.1 (by omega)
      by_cases hin : game ∈ s.names
      · obtain ⟨st, q, e1, e2, e3, e4, e5, e6, e7, e8, e9⟩ := ih (i + 1) s h (by omega)
        refine ⟨st, q, ?_, e2, e3, by rw [List.length_cons]; omega, ?_, e6, e7, ?_, e9⟩
        · rw [insertLoop, hfind]
          simp only [hin, decide_True]
          exact e1
        · intro g hg
          rcases e5 g hg with h1 | h1
          · exact Or.inl h1
          · exact Or.inr (List.mem_cons_of_mem _ h1)
        · intro hst g hg
          rcases List.mem_cons.mp hg with e | hg2
          · rw [e]; exact e6 game hin
          · exact e8 hst g hg2
      · obtain ⟨hp1, hp2⟩ := hpos hin
        by_cases hm : mem i = true
        · have hok : GamesOK
              { s with game_names := some (s.names.take idx ++ game :: s.names.drop idx) } := by
            refine ⟨?_, ?_⟩
            · rw [names_of_some]; exact insert_sorted s.names game idx h.1 hp1 hp2
            · intro hc
              have := congrArg (fun o => (o.getD []).length) hc
              simp at this
          obtain ⟨st, q, e1, e2, e3, e4, e5, e6, e7, e8, e9⟩ := ih (i + 1) _ hok
            (by rw [names_of_some, length_insert]; omega)
          rw [names_of_some] at e4 e5 e6
          rw [length_insert] at e4
          refine ⟨st, q, ?_, e2, e3, by rw [List.length_cons]; omega, ?_, ?_, e7, ?_, e9⟩
          · rw [insertLoop, hfind]
            simp only [hin, decide_False]
            rw [if_pos hm]
            exact e1
          · intro g hg
            rcases e5 g hg with h1 | h1
            · rcases (mem_insert s.names game idx g).1 h1 with e | h2
              · rw [e]; exact Or.inr (List.mem_cons_self _ _)
              · exact Or.inl h2
            · exact Or.inr (List.mem_cons_of_mem _ h1)
          · intro g hg
            exact e6 g ((mem_insert s.names game idx g).2 (Or.inr hg))
          · intro hst g hg
            rcases List.mem_cons.mp hg with e | hg2
            · rw [e]; exact e6 game ((mem_insert s.names game idx game).2 (Or.inl rfl))
            · exact e8 hst g hg2
        · refine ⟨cmdline_status_t.CMDLINE_STATUS_NOT_ENOUGH_MEMORY, s, ?_, h, rfl,
            by omega, fun g hg => Or.inl hg, fun g hg => hg, Or.inr rfl,
            fun hst => (by cases hst), fun hall => absurd (hall i) hm⟩
          rw [insertLoop, hfind]
          simp only [hin, decide_False]
          rw [if_neg hm]

theorem wordMode_cases (policy : List Nat) :
    (strcmp policy acceptWord = 0 ∧ wordMode policy = some false) ∨
    (strcmp policy acceptWord ≠ 0 ∧ strcmp policy rejectWord = 0 ∧
      wordMode policy = some true) ∨
    (strcmp policy acceptWord ≠ 0 ∧ strcmp policy rejectWord ≠ 0 ∧ wordMode policy = none) := by
  unfold wordMode
  by_cases h1 : strcmp policy acceptWord = 0
  · left; rw [if_pos h1]; exact ⟨h1, rfl⟩
  · by_cases h2 : strcmp policy rejectWord = 0
    · right; left; rw [if_neg h1, if_pos h2]; exact ⟨h1, h2, rfl⟩
    · right; right; rw [if_neg h1, if_neg h2]; exact ⟨h1, h2, rfl⟩

theorem Game_DeclarePolicy_eq (s : Games) (policy : List Nat) (games : List (List Nat))
    (mem : Nat → Bool) :
    Game_DeclarePolicy s policy games mem =
      match wordMode policy with
      | some m => declareWith s m games mem
      | none => some (cmdline_status_t.CMDLINE_STATUS_INVALID_OPT_PARAMS, s) := by
  unfold Game_DeclarePolicy
  rcases wordMode_cases policy with ⟨h1, e⟩ | ⟨h1, h2, e⟩ | ⟨h1, h2, e⟩
  · rw [e, if_pos h1]
  · rw [e, if_neg h1, if_pos h2]
  · rw [e, if_neg h1, if_neg h2]

/-- A call of `Game_DeclarePolicy` in a state that satisfies the invariant. -/
theorem Game_DeclarePolicy_spec (s : Games) (policy : List Nat) (games : List (List Nat))
    (mem : Nat → Bool) (h : GamesOK s) (hb : s.names.length + games.length ≤ 2 ^ 30) :
    ∃ (st : cmdline_status_t) (q : Games),
      Game_DeclarePolicy s policy games mem = some (st, q) ∧ GamesOK q ∧
      q.names.length ≤ s.names.length + games.length ∧
      (∀ g, g ∈ q.names → g ∈ s.names ∨ g ∈ games) ∧
      (∀ g, g ∈ s.names → g ∈ q.names) ∧
      (st = cmdline_status_t.CMDLINE_STATUS_OK → ∀ g ∈ games, g ∈ q.names) ∧
      (st = cmdline_status_t.CMDLINE_STATUS_INVALID_OPT_PARAMS ↔
        wordMode policy = none ∨
          (s.game_names ≠ none ∧ wordMode policy ≠ some s.reject_when_known)) ∧
      (st = cmdline_status_t.CMDLINE_STATUS_INVALID_OPT_PARAMS → q = s) ∧
      ((∀ j, mem j = true) → st ≠ cmdline_status_t.CMDLINE_STATUS_NOT_ENOUGH_MEMORY) ∧
      q.reject_when_known =
        (match wordMode policy with
          | some m => if s.game_names = none then m else s.reject_when_known
          | none => s.reject_when_known) := by
  rw [Game_DeclarePolicy_eq]
  cases hw : wordMode policy with
  | none =>
      refine ⟨_, s, rfl, h, by omega, fun g hg => Or.inl hg, fun g hg => hg,
        fun hst => (by cases hst), ⟨fun _ => Or.inl rfl, fun _ => rfl⟩, fun _ => rfl,
        fun _ hst => (by cases hst), rfl⟩
  | some m =>
      dsimp only
      cases hg : s.game_names with
      | none =>
          have hok : GamesOK { s with reject_when_known := m } := h
          have hlen : Games.names { s with reject_when_known := m } = s.names := rfl
          obtain ⟨st, q, e1, e2, e3, e4, e5, e6, e7, e8, e9⟩ :=
            insertLoop_spec mem games 0 { s with reject_when_known := m } hok hb
          rw [hlen] at e4 e5 e6
          refine ⟨st, q, ?_, e2, e4, e5, e6, e8, ⟨fun hst => ?_, fun hor => ?_⟩, fun hst => ?_,
            fun hall hst => ?_, ?_⟩
          · unfold declareWith
            rw [hg]
            rw [hg] at e1
            exact e1
          · exfalso
            rcases e7 with e | e <;> rw [e] at hst <;> cases hst
          · exfalso
            rcases hor with e | ⟨e, _⟩
            · cases e
            · exact e rfl
          · exfalso
            rcases e7 with e | e <;> rw [e] at hst <;> cases hst
          · rw [e9 hall] at hst
            cases hst
          · rw [e3]; simp
      | some l =>
          by_cases hm : m = s.reject_when_known
          · obtain ⟨st, q, e1, e2, e3, e4, e5, e6, e7, e8, e9⟩ :=
              insertLoop_spec mem games 0 s h hb
            refine ⟨st, q, ?_, e2, e4, e5, e6, e8, ⟨fun hst => ?_, fun hor => ?_⟩,
              fun hst => ?_, fun hall hst => ?_, ?_⟩
            · unfold declareWith
              rw [hg]
              dsimp only
              rw [if_neg (by simpa using hm)]
              exact e1
            · exfalso
              rcases e7 with e | e <;> rw [e] at hst <;> cases hst
            · exfalso
              rcases hor with e | ⟨_, e⟩
              · cases e
              · exact e (by rw [hm])
            · exfalso
              rcases e7 with e | e <;> rw [e] at hst <;> cases hst
            · rw [e9 hall] at hst
              cases hst
            · rw [e3]; simp
          · refine ⟨cmdline_status_t.CMDLINE_STATUS_INVALID_OPT_PARAMS, s, ?_, h, by omega,
              fun g hg => Or.inl hg, fun g hg => hg, fun hst => (by cases hst),
              ⟨fun _ => Or.inr ⟨by simp, fun e => hm (Option.some.inj e)⟩, fun _ => rfl⟩,
              fun _ => rfl, fun _ hst => (by cases hst), by simp⟩
            unfold declareWith
            rw [hg]
            dsimp only
            rw [if_pos (by simpa using hm)]

theorem totalGames_cons (call : DeclareCall) (rest : List DeclareCall) :
    totalGames (call :: rest) = call.games.length + totalGames rest := by
  simp [totalGames]

/-- A sequence of calls from a state that satisfies the invariant: every call
returns, and the invariant holds at the end. -/
theorem declareRun_spec :
    ∀ (calls : List DeclareCall) (s : Games), GamesOK s →
      s.names.length + totalGames calls ≤ 2 ^ 30 →
      ∃ (sts : List cmdline_status_t) (q : Games), declareRun calls s = some (sts, q) ∧
        GamesOK q ∧ q.names.length ≤ s.names.length + totalGames calls ∧
        (∀ g, g ∈ s.names → g ∈ q.names) ∧
        (q.names = [] → q.reject_when_known = lastWord s.reject_when_known calls) := by
  intro calls
  induction calls with
  | nil =>
      intro s h _
      exact ⟨[], s, rfl, h, by omega, fun g hg => hg, fun _ => rfl⟩
  | cons call rest ih =>
      intro s h hb
      rw [totalGames_cons] at hb
      obtain ⟨st, q1, e1, e2, e3, _, e5, _, _, _, _, e10⟩ :=
        Game_DeclarePolicy_spec s call.policy call.games call.mem h (by omega)
      obtain ⟨sts, q, f1, f2, f3, f4, f5⟩ := ih q1 e2 (by omega)
      refine ⟨st :: sts, q, ?_, f2, by rw [totalGames_cons]; omega,
        fun g hg => f4 g (e5 g hg), fun hnil => ?_⟩
      · rw [declareRun, e1]
        dsimp only
        rw [f1]
        rfl
      · rw [f5 hnil, lastWord]
        congr 1
        have hs1 : q1.names = [] := by
          cases hq : q1.names with
          | nil => rfl
          | cons x t =>
              exfalso
              have := f4 x (by rw [hq]; exact List.mem_cons_self _ _)
              rw [hnil] at this
              exact absurd this (List.not_mem_nil x)
        have hs0 : s.names = [] := by
          cases hq : s.names with
          | nil => rfl
          | cons x t =>
              exfalso
              have := e5 x (by rw [hq]; exact List.mem_cons_self _ _)
              rw [hs1] at this
              exact absurd this (List.not_mem_nil x)
        have hnone := (names_nil_iff s h).1 hs0
        rw [e10]
        rcases wordMode_cases call.policy with ⟨h1, e⟩ | ⟨h1, h2, e⟩ | ⟨h1, h2, e⟩
        · rw [e, if_pos h1]; simp [hnone]
        · rw [e, if_neg h1, if_pos h2]; simp [hnone]
        · rw [e, if_neg h1, if_neg h2]

theorem GamesOK_initial : GamesOK Games.initial :=
  ⟨List.Pairwise.nil, fun h => (by cases h)⟩

/-! ## The game policy -/

theorem Game_IsAccepted_spec (s : Games) (g : List Nat) (h : GamesOK s)
    (hn : s.names.length ≤ 2 ^ 30) :
    Game_IsAccepted s g = some (xor (decide (g ∈ s.names)) s.reject_when_known) := by
  obtain ⟨idx, hfind, _, _⟩ := Game_Find_spec s g h.1 hn
  unfold Game_IsAccepted
  rw [hfind]
  rfl

theorem insertLoop_status (mem : Nat → Bool) :
    ∀ (games : List (List Nat)) (i : Nat) (s : Games) (st : cmdline_status_t) (q : Games),
      insertLoop mem i games s = some (st, q) →
      st ≠ cmdline_status_t.CMDLINE_STATUS_INVALID_OPT_PARAMS := by
  intro games
  induction games with
  | nil =>
      intro i s st q h
      rw [insertLoop] at h
      cases h
      intro hc; cases hc
  | cons game rest ih =>
      intro i s st q h
      rw [insertLoop] at h
      cases hf : Game_Find s game with
      | none => rw [hf] at h; cases h
      | some res =>
          obtain ⟨found, index⟩ := res
          rw [hf] at h
          cases found with
          | true => exact ih _ _ _ _ h
          | false =>
              dsimp only at h
              by_cases hm : mem i = true
              · rw [if_pos hm] at h
                exact ih _ _ _ _ h
              · rw [if_neg hm] at h
                cases h
                intro hc; cases hc

theorem declareWith_invalid (s : Games) (m : Bool) (games : List (List Nat))
    (mem : Nat → Bool) (q : Games)
    (h : declareWith s m games mem =
      some (cmdline_status_t.CMDLINE_STATUS_INVALID_OPT_PARAMS, q)) : q = s := by
  unfold declareWith at h
  cases hg : s.game_names with
  | none =>
      rw [hg] at h
      exact absurd rfl (insertLoop_status mem games 0 _ _ q h)
  | some l =>
      rw [hg] at h
      dsimp only at h
      by_cases hm : m ≠ s.reject_when_known
      · rw [if_pos hm] at h
        cases h
        rfl
      · rw [if_neg hm] at h
        exact absurd rfl (insertLoop_status mem games 0 _ _ q h)

/-- C22: after any sequence of `Game_DeclarePolicy` calls (carrying at most
`2 ^ 30` names) and for every name `g`: `Game_IsAccepted (g)` returns
(`g` is in the array of game names) XOR `reject_when_known`; so with the flag
unset (`accept`) exactly the names stored are accepted, and with the flag set
(`reject`) exactly the names not stored. -/
theorem Game_IsAccepted_xor (calls : List DeclareCall) (hb : totalGames calls ≤ 2 ^ 30) :
    ∃ (sts : List cmdline_status_t) (s : Games),
      declareRun calls Games.initial = some (sts, s) ∧
      ∀ g, Game_IsAccepted s g = some (xor (decide (g ∈ s.names)) s.reject_when_known) ∧
        (s.reject_when_known = false → (Game_IsAccepted s g = some true ↔ g ∈ s.names)) ∧
        (s.reject_when_known = true → (Game_IsAccepted s g = some true ↔ g ∉ s.names)) := by
  obtain ⟨sts, s, e1, e2, e3, _, _⟩ := declareRun_spec calls Games.initial GamesOK_initial
    (by show 0 + totalGames calls ≤ 2 ^ 30; omega)
  have hlen : s.names.length ≤ 2 ^ 30 := by
    have : Games.initial.names.length = 0 := rfl
    omega
  refine ⟨sts, s, e1, fun g => ?_⟩
  have hacc := Game_IsAccepted_spec s g e2 hlen
  refine ⟨hacc, fun hf => ?_, fun ht => ?_⟩
  · rw [hacc, hf]
    by_cases hg : g ∈ s.names <;> simp [hg]
  · rw [hacc, ht]
    by_cases hg : g ∈ s.names <;> simp [hg]

theorem Game_IsAccepted_xor_witness :
    totalGames [acceptCall [quake3, doom], acceptCall [quake]] ≤ 2 ^ 30 ∧
    declareRun [acceptCall [quake3, doom], acceptCall [quake]] Games.initial =
      some ([cmdline_status_t.CMDLINE_STATUS_OK, cmdline_status_t.CMDLINE_STATUS_OK],
        { game_names := some [doom, quake, quake3], reject_when_known := false }) ∧
    ∃ (sts : List cmdline_status_t) (s : Games),
      declareRun [acceptCall [quake3, doom], acceptCall [quake]] Games.initial =
        some (sts, s) ∧
      ∀ g, Game_IsAccepted s g = some (xor (decide (g ∈ s.names)) s.reject_when_known) ∧
        (s.reject_when_known = false → (Game_IsAccepted s g = some true ↔ g ∈ s.names)) ∧
        (s.reject_when_known = true → (Game_IsAccepted s g = some true ↔ g ∉ s.names)) :=
  ⟨by decide, by decide,
    Game_IsAccepted_xor [acceptCall [quake3, doom], acceptCall [quake]] (by decide)⟩

/-- C23, as stated, fails: after the successful declaration `accept` without
names the array of game names is empty, and `Game_IsAccepted` returns false
(here for `quake3`). -/
theorem accept_without_names_rejects_all :
    declareRun [acceptCall []] Games.initial =
      some ([cmdline_status_t.CMDLINE_STATUS_OK], acceptNothingState) ∧
    acceptNothingState.names = [] ∧
    Game_IsAccepted acceptNothingState quake3 = some false := by
  decide

/-- C24, as stated, fails: the first declaration, `accept` without names, is
valid and sets the mode; the second one, `reject doom`, has another mode, and
returns `CMDLINE_STATUS_OK` (the allocation succeeding): the flag is
overwritten and `doom` is stored. -/
theorem mode_change_after_empty_declaration :
    Game_DeclarePolicy Games.initial acceptWord [] memOK =
      some (cmdline_status_t.CMDLINE_STATUS_OK, acceptNothingState) ∧
    Game_DeclarePolicy acceptNothingState rejectWord [doom] memOK =
      some (cmdline_status_t.CMDLINE_STATUS_OK,
        { game_names := some [doom], reject_when_known := true }) ∧
    declareRun [acceptCall [], rejectCall [doom]] Games.initial =
      some ([cmdline_status_t.CMDLINE_STATUS_OK, cmdline_status_t.CMDLINE_STATUS_OK],
        { game_names := some [doom], reject_when_known := true }) := by
  decide

/-- C25: whenever a call of `Game_DeclarePolicy` returns
`CMDLINE_STATUS_INVALID_OPT_PARAMS`, the state (the array of game names and
the flag `reject_when_known`) is the same after the call as before it. -/
theorem invalid_declaration_changes_nothing (s : Games) (policy : List Nat)
    (games : List (List Nat)) (mem : Nat → Bool) (q : Games)
    (h : Game_DeclarePolicy s policy games mem =
      some (cmdline_status_t.CMDLINE_STATUS_INVALID_OPT_PARAMS, q)) :
    q = s ∧ q.names = s.names ∧ q.reject_when_known = s.reject_when_known := by
  have hq : q = s := by
    rw [Game_DeclarePolicy_eq] at h
    cases hw : wordMode policy with
    | none =>
        rw [hw] at h
        cases h
        rfl
    | some m =>
        rw [hw] at h
        exact declareWith_invalid s m games mem q h
  rw [hq]
  exact ⟨rfl, rfl, rfl⟩

theorem invalid_declaration_changes_nothing_witness :
    declareRun [acceptCall [quake3]] Games.initial =
      some ([cmdline_status_t.CMDLINE_STATUS_OK], quakeOnlyState) ∧
    Game_DeclarePolicy quakeOnlyState rejectWord [doom] memOK =
      some (cmdline_status_t.CMDLINE_STATUS_INVALID_OPT_PARAMS, quakeOnlyState) ∧
    quakeOnlyState.names = [quake3] ∧
    (quakeOnlyState = quakeOnlyState ∧ quakeOnlyState.names = quakeOnlyState.names ∧
      quakeOnlyState.reject_when_known = quakeOnlyState.reject_when_known) :=
  ⟨by decide, by decide, by decide,
    invalid_declaration_changes_nothing quakeOnlyState rejectWord [doom] memOK quakeOnlyState
      (by decide)⟩

/-- C26: after any sequence of `Game_DeclarePolicy` calls (carrying at most
`2 ^ 30` names, in any order and with any repetitions, the allocations
succeeding or not), the array of game names is strictly increasing for
`strcmp`, and so without duplicates. -/
theorem game_names_strictly_increasing (calls : List DeclareCall)
    (hb : totalGames calls ≤ 2 ^ 30) :
    ∃ (sts : List cmdline_status_t) (s : Games),
      declareRun calls Games.initial = some (sts, s) ∧
      s.names.Pairwise (fun a b => strcmp a b < 0) ∧ s.names.Nodup := by
  obtain ⟨sts, s, e1, e2, _, _, _⟩ := declareRun_spec calls Games.initial GamesOK_initial
    (by show 0 + totalGames calls ≤ 2 ^ 30; omega)
  refine ⟨sts, s, e1, e2.1, ?_⟩
  refine List.Pairwise.imp ?_ e2.1
  intro a b hab e
  rw [e] at hab
  exact nameLt_irrefl b hab

theorem game_names_strictly_increasing_witness :
    totalGames [rejectCall [quake3, doom, quake3], rejectCall [quake, doom]] ≤ 2 ^ 30 ∧
    declareRun [rejectCall [quake3, doom, quake3], rejectCall [quake, doom]] Games.initial =
      some ([cmdline_status_t.CMDLINE_STATUS_OK, cmdline_status_t.CMDLINE_STATUS_OK],
        { game_names := some [doom, quake, quake3], reject_when_known := true }) ∧
    ∃ (sts : List cmdline_status_t) (s : Games),
      declareRun [rejectCall [quake3, doom, quake3], rejectCall [quake, doom]] Games.initial =
        some (sts, s) ∧
      s.names.Pairwise (fun a b => strcmp a b < 0) ∧ s.names.Nodup :=
  ⟨by decide, by decide,
    game_names_strictly_increasing
      [rejectCall [quake3, doom, quake3], rejectCall [quake, doom]] (by decide)⟩

/-- C27: in a state reached by `Game_DeclarePolicy` calls, a further call
`Game_DeclarePolicy (policy, games)` returns (the calls carrying at most
`2 ^ 30` names in all), and when it returns `CMDLINE_STATUS_OK`, a name is in
the array of game names after the call if and only if it was in it before the
call or it is one of `games`. -/
theorem declared_names_inserted (calls : List DeclareCall) (sts : List cmdline_status_t)
    (s : Games) (policy : List Nat) (games : List (List Nat)) (mem : Nat → Bool)
    (hrun : declareRun calls Games.initial = some (sts, s))
    (hb : totalGames calls + games.length ≤ 2 ^ 30) :
    ∃ (st : cmdline_status_t) (q : Games),
      Game_DeclarePolicy s policy games mem = some (st, q) ∧
      (st = cmdline_status_t.CMDLINE_STATUS_OK →
        ∀ g, g ∈ q.names ↔ g ∈ s.names ∨ g ∈ games) := by
  obtain ⟨sts2, s2, e1, e2, e3, _, _⟩ := declareRun_spec calls Games.initial GamesOK_initial
    (by show 0 + totalGames calls ≤ 2 ^ 30; omega)
  rw [hrun] at e1
  have hs : s2 = s := by
    have := Option.some.inj e1
    exact (congrArg Prod.snd this).symm
  subst hs
  have hlen : s2.names.length ≤ totalGames calls := by
    have : Games.initial.names.length = 0 := rfl
    omega
  obtain ⟨st, q, f1, _, _, f4, f5, f6, _⟩ :=
    Game_DeclarePolicy_spec s2 policy games mem e2 (by omega)
  refine ⟨st, q, f1, fun hst g => ⟨f4 g, fun hor => ?_⟩⟩
  rcases hor with h1 | h1
  · exact f5 g h1
  · exact f6 hst g h1

theorem declared_names_inserted_witness :
    declareRun [acceptCall [quake3]] Games.initial =
      some ([cmdline_status_t.CMDLINE_STATUS_OK], quakeOnlyState) ∧
    totalGames [acceptCall [quake3]] + [doom, quake3].length ≤ 2 ^ 30 ∧
    Game_DeclarePolicy quakeOnlyState acceptWord [doom, quake3] memOK =
      some (cmdline_status_t.CMDLINE_STATUS_OK,
        { game_names := some [doom, quake3], reject_when_known := false }) ∧
    ∃ (st : cmdline_status_t) (q : Games),
      Game_DeclarePolicy quakeOnlyState acceptWord [doom, quake3] memOK = some (st, q) ∧
      (st = cmdline_status_t.CMDLINE_STATUS_OK →
        ∀ g, g ∈ q.names ↔ g ∈ quakeOnlyState.names ∨ g ∈ [doom, quake3]) :=
  ⟨by decide, by decide, by decide,
    declared_names_inserted [acceptCall [quake3]] [cmdline_status_t.CMDLINE_STATUS_OK]
      quakeOnlyState acceptWord [doom, quake3] memOK (by decide) (by decide)⟩

/-! ## The resolution of the address mappings -/

/-- When `Sv_ResolveAddrmap` returns true, both strings were resolved and the
addresses stored passed the two checks. -/
theorem Sv_ResolveAddrmap_true (lib : Resolver) (n : AddrmapNode)
    (h : (Sv_ResolveAddrmap lib n).1 = true) :
    (Sv_ResolveIPv4Addr lib n.from_string (n.addrmap.from_addr, n.addrmap.from_port)).1 = true ∧
    (Sv_ResolveIPv4Addr lib n.to_string (n.addrmap.to_addr, n.addrmap.to_port)).1 = true ∧
    (Sv_ResolveAddrmap lib n).2.addrmap.from_addr =
      (Sv_ResolveIPv4Addr lib n.from_string
        (n.addrmap.from_addr, n.addrmap.from_port)).2.1 ∧
    (Sv_ResolveAddrmap lib n).2.addrmap.to_addr =
      (Sv_ResolveIPv4Addr lib n.to_string (n.addrmap.to_addr, n.addrmap.to_port)).2.1 ∧
    (Sv_ResolveAddrmap lib n).2.addrmap.from_addr ≠ 0 ∧
    (Sv_ResolveAddrmap lib n).2.addrmap.to_addr ≠ 0 ∧
    ntohl (Sv_ResolveAddrmap lib n).2.addrmap.to_addr >>> 24 ≠ 127 := by
  unfold Sv_ResolveAddrmap at h ⊢
  dsimp only at h ⊢
  generalize Sv_ResolveIPv4Addr lib n.from_string
    (n.addrmap.from_addr, n.addrmap.from_port) = r1 at h ⊢
  generalize Sv_ResolveIPv4Addr lib n.to_string (n.addrmap.to_addr, n.addrmap.to_port) = r2
    at h ⊢
  cases h1 : r1.1 with
  | false => rw [h1] at h; simp at h
  | true =>
      rw [h1] at h
      simp only [Bool.not_true, Bool.false_eq_true, if_false]  at h ⊢
      cases h2 : r2.1 with
      | false => rw [h2] at h; simp at h
      | true =>
          rw [h2] at h
          simp only [Bool.not_true, Bool.false_eq_true, if_false] at h ⊢
          by_cases hz : r1.2.1 = 0 ∨ r2.2.1 = 0
          · rw [if_pos hz] at h; cases h
          · rw [if_neg hz] at h ⊢
            by_cases hl : ntohl r2.2.1 >>> 24 = 127
            · rw [if_pos hl] at h; cases h
            · rw [if_neg hl]
              exact ⟨trivial, trivial, rfl, rfl, fun e => hz (Or.inl e), fun e => hz (Or.inr e), hl⟩

theorem resolveLoop_true (lib : Resolver) :
    ∀ (l : List AddrmapNode), (resolveLoop lib l).1 = true →
      (resolveLoop lib l).2 = l.map (fun n => (Sv_ResolveAddrmap lib n).2) ∧
      ∀ n ∈ l, (Sv_ResolveAddrmap lib n).1 = true := by
  intro l
  induction l with
  | nil => intro _; exact ⟨rfl, fun n hn => absurd hn (List.not_mem_nil n)⟩
  | cons x rest ih =>
      intro h
      rw [resolveLoop] at h ⊢
      by_cases hx : (Sv_ResolveAddrmap lib x).1 = true
      · rw [if_pos hx] at h ⊢
        obtain ⟨a, b⟩ := ih h
        refine ⟨?_, fun n hn => ?_⟩
        · show (Sv_ResolveAddrmap lib x).2 :: (resolveLoop lib rest).2 = _
          rw [a]; rfl
        · rcases List.mem_cons.mp hn with e | hn2
          · rw [e]; exact hx
          · exact b n hn2
      · rw [if_neg hx] at h
        cases h

theorem buildSortedList_true :
    ∀ (pending addrmaps : List Addrmap), addrmaps.Pairwise keyLt →
      (buildSortedList pending addrmaps).1 = true →
      (buildSortedList pending addrmaps).2.Pairwise keyLt ∧
      (buildSortedList pending addrmaps).2.Perm (pending ++ addrmaps) := by
  intro pending
  induction pending with
  | nil => intro addrmaps hs _; exact ⟨hs, List.Perm.refl _⟩
  | cons x rest ih =>
      intro addrmaps hs h
      rw [buildSortedList] at h ⊢
      by_cases hok : (Sv_InsertAddrmapIntoList x addrmaps).1 = true
      · rw [if_pos hok] at h ⊢
        have hins : ∃ v, insertAddrmapLoop x addrmaps = some v ∧
            (Sv_InsertAddrmapIntoList x addrmaps).2 = v := by
          unfold Sv_InsertAddrmapIntoList at hok ⊢
          cases hr : insertAddrmapLoop x addrmaps with
          | none => rw [hr] at hok; cases hok
          | some v => exact ⟨v, rfl, rfl⟩
        obtain ⟨v, hv, hv2⟩ := hins
        obtain ⟨s1, s2⟩ := (insertAddrmapLoop_spec x addrmaps hs).2 v hv
        rw [hv2] at h ⊢
        obtain ⟨r1, r2⟩ := ih v s1 h
        refine ⟨r1, r2.trans ?_⟩
        exact (List.Perm.append_left rest s2).trans List.perm_middle
      · rw [if_neg hok] at h
        cases h

/-- C21: whenever `Sv_ResolveAddressMappings` returns true, the list it leaves
holds one mapping for each mapping declared, sorted strictly by key, and every
mapping of the list has `from.sin_addr.s_addr != 0`, `to.sin_addr.s_addr != 0`
and a first octet of `to` (`ntohl (s_addr) >> 24`) other than 127; and when
a declared mapping has two strings that resolve, to addresses that break one
of the three conditions, `Sv_ResolveAddressMappings` returns false. -/
theorem resolved_mappings_valid (lib : Resolver) (addrmaps : List AddrmapNode) :
    ((Sv_ResolveAddressMappings lib addrmaps).1 = true →
      (Sv_ResolveAddressMappings lib addrmaps).2.length = addrmaps.length ∧
      (Sv_ResolveAddressMappings lib addrmaps).2.Pairwise keyLt ∧
      ∀ m ∈ (Sv_ResolveAddressMappings lib addrmaps).2,
        m.from_addr ≠ 0 ∧ m.to_addr ≠ 0 ∧ ntohl m.to_addr >>> 24 ≠ 127) ∧
    (∀ n ∈ addrmaps,
      (Sv_ResolveIPv4Addr lib n.from_string
        (n.addrmap.from_addr, n.addrmap.from_port)).1 = true →
      (Sv_ResolveIPv4Addr lib n.to_string (n.addrmap.to_addr, n.addrmap.to_port)).1 = true →
      ((Sv_ResolveIPv4Addr lib n.from_string
          (n.addrmap.from_addr, n.addrmap.from_port)).2.1 = 0 ∨
        (Sv_ResolveIPv4Addr lib n.to_string
          (n.addrmap.to_addr, n.addrmap.to_port)).2.1 = 0 ∨
        ntohl (Sv_ResolveIPv4Addr lib n.to_string
          (n.addrmap.to_addr, n.addrmap.to_port)).2.1 >>> 24 = 127) →
      (Sv_ResolveAddressMappings lib addrmaps).1 = false) := by
  have hloop : (Sv_ResolveAddressMappings lib addrmaps).1 = true →
      (resolveLoop lib addrmaps).1 = true := by
    intro h
    unfold Sv_ResolveAddressMappings at h
    by_cases hr : (resolveLoop lib addrmaps).1 = true
    · exact hr
    · rw [if_neg hr] at h; cases h
  constructor
  · intro h
    have hr := hloop h
    obtain ⟨a, b⟩ := resolveLoop_true lib addrmaps hr
    unfold Sv_ResolveAddressMappings at h ⊢
    rw [if_pos hr] at h ⊢
    obtain ⟨s1, s2⟩ := buildSortedList_true _ [] List.Pairwise.nil h
    rw [List.append_nil] at s2
    refine ⟨?_, s1, fun m hm => ?_⟩
    · rw [s2.length_eq, List.length_map, a, List.length_map]
    · have hm2 := s2.mem_iff.mp hm
      rw [a, List.map_map] at hm2
      obtain ⟨n, hn, e⟩ := List.mem_map.mp hm2
      obtain ⟨_, _, _, _, c1, c2, c3⟩ := Sv_ResolveAddrmap_true lib n (b n hn)
      rw [← e]
      exact ⟨c1, c2, c3⟩
  · intro n hn _ _ hbad
    cases hres : (Sv_ResolveAddressMappings lib addrmaps).1 with
    | false => rfl
    | true =>
        exfalso
        obtain ⟨_, b⟩ := resolveLoop_true lib addrmaps (hloop hres)
        obtain ⟨_, _, e1, e2, c1, c2, c3⟩ := Sv_ResolveAddrmap_true lib n (b n hn)
        rw [e1] at c1
        rw [e2] at c2 c3
        rcases hbad with h1 | h1 | h1
        · exact c1 h1
        · exact c2 h1
        · exact c3 h1

/-- Examples of resolutions: two valid mappings; a mapping to the loopback
address; a mapping from 0.0.0.0; a mapping to 0.0.0.0. -/
theorem Sv_ResolveAddressMappings_examples :
    Sv_ResolveAddressMappings sampleResolver
        (addAll [cstr ("gate:27950=inner:8000"), cstr ("gate=inner")]) =
      (true,
        [{ from_addr := 0x04030201, from_port := 0, to_addr := 0x0500000A, to_port := 0 },
          { from_addr := 0x04030201, from_port := 0x2E6D, to_addr := 0x0500000A,
            to_port := 0x401F }]) ∧
    (Sv_ResolveAddressMappings sampleResolver (addAll [cstr ("gate:27950=self:8000")])).1 =
      false ∧
    (Sv_ResolveAddressMappings sampleResolver (addAll [cstr ("any=inner")])).1 = false ∧
    (Sv_ResolveAddressMappings sampleResolver (addAll [cstr ("gate=any")])).1 = false := by
  decide

/-! ## The console title -/

/-- C36: `remove_colors` leaves colour codes behind.  After `erase (i, 2)` the
`continue` still runs `++i`, so the character that moved to index `i` is never
looked at: from `^1^2` the string `^2` is left, from `^^11` the string `^1`,
a `^` with a digit right after it in both. -/
theorem remove_colors_leaves_code :
    remove_colors (cstr ("^1^2")) = some (cstr ("^2")) ∧
    hasColorCode (cstr ("^2")) = true ∧
    remove_colors (cstr ("^^11")) = some (cstr ("^1")) ∧
    hasColorCode (cstr ("^1")) = true ∧
    remove_colors (cstr ("^1red ^2green")) = some (cstr ("red green")) := by
  refine ⟨by decide, by decide, by decide, by decide, by decide⟩

/-! ## The settings -/

theorem Sv_SetMaxNbServers_late (s : Startup) (nb : Nat) (h : s.servers ≠ none) :
    Sv_SetMaxNbServers s nb = (false, s) := by
  unfold Sv_SetMaxNbServers
  rw [if_pos (Or.inl h)]

theorem Sv_SetMaxNbServersPerAddress_late (s : Startup) (nb : Nat) (h : s.servers ≠ none) :
    Sv_SetMaxNbServersPerAddress s nb = (false, s) := by
  unfold Sv_SetMaxNbServersPerAddress
  rw [if_pos h]

theorem Sv_SetHashSize_late (s : Startup) (size : Nat)
    (h : s.hash_table_ipv4 ≠ none ∨ s.hash_table_ipv6 ≠ none) :
    Sv_SetHashSize s size = (false, s) := by
  unfold Sv_SetHashSize
  rw [if_pos]
  rcases h with h | h
  · exact Or.inl h
  · exact Or.inr (Or.inl h)

theorem Sv_AllocateHashTable_true (n : Nat) : Sv_AllocateHashTable n true ≠ none := by
  simp [Sv_AllocateHashTable]

theorem Sv_AllocateHashTable_ne_none (n : Nat) (b : Bool)
    (h : Sv_AllocateHashTable n b ≠ none) : b = true := by
  cases b
  · simp [Sv_AllocateHashTable] at h
  · rfl

/-- A call of `Sv_Init` that returns true has allocated the array of servers
and the hash table of each address family listened on. -/
theorem Sv_Init_true (s : Startup) (env : InitEnv) (h : (s.Sv_Init env).1 = true) :
    (s.Sv_Init env).2.servers ≠ none ∧
    (env.listen_ipv4 = true → (s.Sv_Init env).2.hash_table_ipv4 ≠ none) ∧
    (env.listen_ipv6 = true → (s.Sv_Init env).2.hash_table_ipv6 ≠ none) := by
  obtain ⟨m, l4, l6, m4, m6⟩ := env
  cases m <;> cases l4 <;> cases l6 <;> cases m4 <;> cases m6 <;>
    simp [Startup.Sv_Init, Sv_AllocateHashTable] at h ⊢

/-- When `malloc` gives the array of servers, `Sv_Init` leaves it allocated. -/
theorem Sv_Init_servers (s : Startup) (env : InitEnv) (h : env.malloc_servers = true) :
    (s.Sv_Init env).2.servers ≠ none := by
  obtain ⟨m, l4, l6, m4, m6⟩ := env
  cases m <;> cases l4 <;> cases l6 <;> cases m4 <;> cases m6 <;>
    simp [Startup.Sv_Init, Sv_AllocateHashTable] at h ⊢

/-- C31, as stated, fails: with no address family listened on, `Sv_Init`
allocates the array of servers and returns true, and `Sv_SetHashSize (3)` still
returns true and changes `hash_size` from 4 to 3; the same happens when IPv4 is
listened on and the allocation of its hash table fails (`Sv_Init` returns
false, the array being allocated). -/
theorem Sv_SetHashSize_after_init :
    (Startup.initial.Sv_Init noFamilyEnv).1 = true ∧
    (Startup.initial.Sv_Init noFamilyEnv).2.servers ≠ none ∧
    (Startup.initial.Sv_Init noFamilyEnv).2.hash_size = 4 ∧
    (Sv_SetHashSize (Startup.initial.Sv_Init noFamilyEnv).2 3).1 = true ∧
    (Sv_SetHashSize (Startup.initial.Sv_Init noFamilyEnv).2 3).2.hash_size = 3 ∧
    (Startup.initial.Sv_Init noTableEnv).1 = false ∧
    (Startup.initial.Sv_Init noTableEnv).2.servers ≠ none ∧
    (Sv_SetHashSize (Startup.initial.Sv_Init noTableEnv).2 3).1 = true ∧
    (Sv_SetHashSize (Startup.initial.Sv_Init noTableEnv).2 3).2.hash_size = 3 := by
  exact ⟨rfl, Sv_Init_servers _ _ rfl, rfl, rfl, rfl, rfl, Sv_Init_servers _ _ rfl, rfl, rfl⟩

/-- C31, amended: once `Sv_Init` has allocated the array of servers, every
call of `Sv_SetMaxNbServers` and `Sv_SetMaxNbServersPerAddress` returns false
and leaves the settings as they are, for every argument and whichever address
families are listened on; every call of `Sv_SetHashSize` does so once a hash
table is allocated, which is the case when `Sv_Init` returned true with an
address family listened on. -/
theorem setters_refused_after_init (s : Startup) (env : InitEnv)
    (h : (s.Sv_Init env).2.servers ≠ none) :
    (∀ nb, Sv_SetMaxNbServers (s.Sv_Init env).2 nb = (false, (s.Sv_Init env).2)) ∧
    (∀ nb, Sv_SetMaxNbServersPerAddress (s.Sv_Init env).2 nb = (false, (s.Sv_Init env).2)) ∧
    ((s.Sv_Init env).2.hash_table_ipv4 ≠ none ∨ (s.Sv_Init env).2.hash_table_ipv6 ≠ none →
      ∀ size, Sv_SetHashSize (s.Sv_Init env).2 size = (false, (s.Sv_Init env).2)) ∧
    ((s.Sv_Init env).1 = true → env.listen_ipv4 = true ∨ env.listen_ipv6 = true →
      ∀ calls : List SetterCall,
        (∀ call ∈ calls, (call.apply (s.Sv_Init env).2).1 = false) ∧
        applySetters calls (s.Sv_Init env).2 = (s.Sv_Init env).2) := by
  refine ⟨fun nb => Sv_SetMaxNbServers_late _ nb h,
    fun nb => Sv_SetMaxNbServersPerAddress_late _ nb h,
    fun hh size => Sv_SetHashSize_late _ size hh, fun ht hl calls => ?_⟩
  obtain ⟨-, t4, t6⟩ := Sv_Init_true s env ht
  have hh : (s.Sv_Init env).2.hash_table_ipv4 ≠ none ∨
      (s.Sv_Init env).2.hash_table_ipv6 ≠ none := by
    rcases hl with hl | hl
    · exact Or.inl (t4 hl)
    · exact Or.inr (t6 hl)
  have hcall : ∀ call : SetterCall,
      call.apply (s.Sv_Init env).2 = (false, (s.Sv_Init env).2) := by
    intro call
    cases call with
    | setHashSize size => exact Sv_SetHashSize_late _ size hh
    | setMaxNbServers nb => exact Sv_SetMaxNbServers_late _ nb h
    | setMaxNbServersPerAddress nb => exact Sv_SetMaxNbServersPerAddress_late _ nb h
  refine ⟨fun call _ => by rw [hcall call], ?_⟩
  induction calls with
  | nil => rfl
  | cons call rest ih =>
    show applySetters rest (call.apply (s.Sv_Init env).2).2 = _
    rw [hcall call]
    exact ih

theorem setters_refused_after_init_witness :
    (Startup.initial.Sv_Init bothFamiliesEnv).2.servers ≠ none ∧
    (∀ nb, Sv_SetMaxNbServers (Startup.initial.Sv_Init bothFamiliesEnv).2 nb =
      (false, (Startup.initial.Sv_Init bothFamiliesEnv).2)) :=
  ⟨Sv_Init_servers _ _ rfl,
    (setters_refused_after_init Startup.initial bothFamiliesEnv (Sv_Init_servers _ _ rfl)).1⟩

/-- Whatever the calls of `Sv_SetHashSize`, `hash_size` stays at most
`MAX_HASH_SIZE`. -/
theorem hash_size_le_max (calls : List SetterCall) :
    ∀ s : Startup, s.hash_size ≤ MAX_HASH_SIZE →
      (applySetters calls s).hash_size ≤ MAX_HASH_SIZE := by
  induction calls with
  | nil => intro s h; exact h
  | cons call rest ih =>
    intro s h
    refine ih _ ?_
    cases call with
    | setHashSize size =>
      show (Sv_SetHashSize s size).2.hash_size ≤ MAX_HASH_SIZE
      unfold Sv_SetHashSize
      split
      · exact h
      · rename_i hn
        simp only [not_or, not_lt] at hn
        exact hn.2.2
    | setMaxNbServers nb =>
      show (Sv_SetMaxNbServers s nb).2.hash_size ≤ MAX_HASH_SIZE
      unfold Sv_SetMaxNbServers
      split <;> exact h
    | setMaxNbServersPerAddress nb =>
      show (Sv_SetMaxNbServersPerAddress s nb).2.hash_size ≤ MAX_HASH_SIZE
      unfold Sv_SetMaxNbServersPerAddress
      split <;> exact h

/-- C32: before `Sv_Init`, the call `Sv_SetHashSize (0)` returns true and sets
`hash_size` to 0, below the least value 1 (only `size > MAX_HASH_SIZE` is
refused; `Sv_SetMaxNbServers (0)` is refused). -/
theorem Sv_SetHashSize_accepts_zero :
    Startup.initial.servers = none ∧
    (Sv_SetHashSize Startup.initial 0).1 = true ∧
    (applySetters [SetterCall.setHashSize 0] Startup.initial).hash_size = 0 ∧
    ¬ (1 ≤ (applySetters [SetterCall.setHashSize 0] Startup.initial).hash_size) ∧
    (Sv_SetMaxNbServers Startup.initial 0).1 = false ∧
    (Sv_SetHashSize Startup.initial 13).1 = false := by
  refine ⟨rfl, rfl, rfl, by decide, rfl, rfl⟩

/-! ## The draw of `Sv_GetFirst` -/

/-- C34: after `lostSlotOps` one server is registered (`nb_servers = 1`) and
`last_used_slot` is -1: `Sv_GetFirst` goes past the test of `nb_servers` and
draws `rand () % 0`, whatever the value drawn. -/
theorem Sv_GetFirst_zero_modulus :
    run baseConfig lostSlotOps (Sv_Init baseConfig) = some lostSlotState ∧
    0 < lostSlotState.nb_servers ∧
    ¬ (0 ≤ lostSlotState.last_used_slot) ∧
    lostSlotState.last_used_slot + 1 = 0 ∧
    ∀ rnd, Sv_GetFirst baseConfig lostSlotState rnd = none := by
  refine ⟨by decide, by decide, by decide, by decide, fun rnd => ?_⟩
  unfold Sv_GetFirst
  rw [if_neg (by decide), if_pos (by decide)]

/-! ## The count of a complete walk -/

/-- C35: with `hash_ports = false`, two addresses with the same public host
(they are of one family then) fall in the same bucket, whatever `hash_size`;
and when the walk of `Sv_GetByAddr_Internal` goes through the whole bucket (it
returns `NULL`), the count it leaves is the number of registered records with
that public host that have not timed out. -/
theorem same_public_count_complete (c : Config) (hc : c.ok) (hp : c.hash_ports = false) :
    (∀ x a : Address, (IsSameAddress x a).2 = true →
      x.isIPv6 = a.isIPv6 ∧ Sv_AddressHash c x = Sv_AddressHash c a) ∧
    (∀ (ops : List Op) (r : Registry) (address : Address),
      run c ops (Sv_Init c) = some r → (Sv_GetByAddr_Internal c r address).1 = none →
      (Sv_GetByAddr_Internal c r address).2.1 =
        (samePublicRecords r.servers r.crt_time true address).length) := by
  refine ⟨fun x a h => ⟨samePublic_family x a h, samePublic_hash c x a hp h⟩, ?_⟩
  intro ops r address hr hnone
  obtain ⟨-, -, g3, g4⟩ := internal_none c r address (Inv_reachable c hc ops r hr).1 hnone
  exact le_antisymm g4 (g3 hp)

theorem same_public_count_complete_witness :
    run baseConfig oneExpiredOps (Sv_Init baseConfig) = some oneExpiredState ∧
    (Sv_GetByAddr_Internal baseConfig oneExpiredState hostA300).1 = none ∧
    (samePublicRecords oneExpiredState.servers oneExpiredState.crt_time true hostA300).length
      = 1 ∧
    (Sv_GetByAddr_Internal baseConfig oneExpiredState hostA300).2.1 =
      (samePublicRecords oneExpiredState.servers oneExpiredState.crt_time true
        hostA300).length :=
  ⟨by decide, by decide, by decide,
    (same_public_count_complete baseConfig ⟨by decide, by decide⟩ rfl).2 oneExpiredOps
      oneExpiredState hostA300 (by decide) (by decide)⟩

/-! ## The cursors stay within `last_used_slot` -/

theorem prevUsedSlot_ge (s : List Server) (n : Nat) : -1 ≤ prevUsedSlot s n := by
  induction n with
  | zero => simp [prevUsedSlot]
  | succ k ih =>
    unfold prevUsedSlot
    split
    · omega
    · exact ih

theorem last_used_slot_Sv_Remove_ge (r : Registry) (i : Nat) (h : -1 ≤ r.last_used_slot) :
    -1 ≤ (Sv_Remove r i).last_used_slot := by
  have hlu : (Sv_Remove r i).last_used_slot =
      if r.last_used_slot = (i : Int) then
        prevUsedSlot (Sv_Remove r i).servers i else r.last_used_slot := rfl
  rw [hlu]
  split
  · exact prevUsedSlot_ge _ _
  · exact h

theorem last_used_slot_Sv_Remove_lt (r : Registry) (i : Nat) (h : r.last_used_slot = (i : Int)) :
    (Sv_Remove r i).last_used_slot < (i : Int) := by
  have hlu : (Sv_Remove r i).last_used_slot =
      if r.last_used_slot = (i : Int) then
        prevUsedSlot (Sv_Remove r i).servers i else r.last_used_slot := rfl
  rw [hlu, if_pos h]
  exact prevUsedSlot_lt _ _

/-- The clamping of the two cursors at the end of `Sv_Remove`. -/
theorem cursors_Sv_Remove (r : Registry) (i : Nat) :
    (Sv_Remove r i).crt_server_ind =
      (if r.crt_server_ind > (Sv_Remove r i).last_used_slot then (Sv_Remove r i).last_used_slot
        else r.crt_server_ind) ∧
    (Sv_Remove r i).last_server_ind =
      (if r.last_server_ind > (Sv_Remove r i).last_used_slot then (Sv_Remove r i).last_used_slot
        else r.last_server_ind) :=
  ⟨rfl, rfl⟩

theorem CursorOK_of_fields (r q : Registry) (hl : q.last_used_slot = r.last_used_slot)
    (hc : q.crt_server_ind = r.crt_server_ind) (hs : q.last_server_ind = r.last_server_ind)
    (h : CursorOK r) : CursorOK q := by
  unfold CursorOK at h ⊢
  rw [hl, hc, hs]; exact h

theorem CursorOK_Sv_Remove (r : Registry) (i : Nat) (h : CursorOK r) :
    CursorOK (Sv_Remove r i) := by
  obtain ⟨h1, ⟨h2, h3⟩, ⟨h4, h5⟩, h6⟩ := h
  have g1 := last_used_slot_Sv_Remove_ge r i h1
  have g2 := last_used_slot_Sv_Remove_le r i
  obtain ⟨e1, e2⟩ := cursors_Sv_Remove r i
  unfold CursorOK
  rw [e1, e2]
  generalize (Sv_Remove r i).last_used_slot = L1 at g1 g2
  refine ⟨g1, ?_, ?_, ?_⟩
  · split <;> omega
  · split <;> omega
  · constructor
    · intro h
      split at h <;> split <;> omega
    · intro h
      split at h <;> split <;> omega

theorem CursorOK_Sv_IsActive (r : Registry) (i : Nat) (h : CursorOK r) :
    CursorOK (Sv_IsActive r i).2 := by
  rcases Sv_IsActive_cases r i with ⟨_, e⟩ | ⟨_, _, e⟩ | ⟨_, _, e⟩
  · rw [e]; exact h
  · rw [e]; exact CursorOK_Sv_Remove r i h
  · rw [e]; exact h

theorem CursorOK_promote (r : Registry) (i hash : Nat) (v6 : Bool) (h : CursorOK r) :
    CursorOK (Sv_AddToHashTable (Sv_RemoveFromHashTable r i) i hash v6) := by
  refine CursorOK_of_fields r _ ?_ ?_ ?_ h <;>
    cases v6 <;> simp [Sv_AddToHashTable, Sv_RemoveFromHashTable]

theorem CursorOK_walkChain (address : Address) (hash : Nat) :
    ∀ (l : List Nat) (r : Registry) (n : Nat), CursorOK r →
      CursorOK (walkChain address hash l r n).2.2 := by
  intro l
  induction l with
  | nil => intro r n h; exact h
  | cons i rest ih =>
      intro r n h
      rcases Sv_IsActive_cases r i with ⟨hu, _⟩ | ⟨hu, ht, _⟩ | ⟨hu, ht, _⟩
      · rw [walkChain_unused address hash i rest r n hu]
        exact ih r n h
      · rw [walkChain_expired address hash i rest r n hu ht]
        exact ih _ n (CursorOK_Sv_Remove r i h)
      · rw [walkChain_active address hash i rest r n hu ht]
        split
        · exact CursorOK_promote r i hash address.isIPv6 h
        · exact ih r _ h

theorem CursorOK_checkLoop :
    ∀ (fuel ind : Nat) (r : Registry), CursorOK r → CursorOK (checkLoop fuel ind r) := by
  intro fuel
  induction fuel with
  | zero => intro ind r h; exact h
  | succ n ih =>
      intro ind r h
      unfold checkLoop
      split
      · exact ih (ind + 1) _ (CursorOK_Sv_IsActive r ind h)
      · exact h

theorem CursorOK_writeInfoLoop :
    ∀ (fuel ind : Nat) (r : Registry), CursorOK r → CursorOK (writeInfoLoop fuel ind r).2 := by
  intro fuel
  induction fuel with
  | zero => intro ind r h; exact h
  | succ n ih =>
      intro ind r h
      unfold writeInfoLoop
      split
      · have h2 := ih (ind + 1) _ (CursorOK_Sv_IsActive r ind h)
        dsimp only
        split
        · exact h2
        · exact h2
      · exact h

theorem CursorOK_scanFree (c : Config) :
    ∀ (fuel ind : Nat) (r : Registry), CursorOK r → CursorOK (scanFree c fuel ind r) := by
  intro fuel
  induction fuel with
  | zero => intro ind r h; exact h
  | succ n ih =>
      intro ind r h
      unfold scanFree
      split
      · dsimp only
        split
        · exact ih (ind + 1) _ (CursorOK_Sv_IsActive r ind h)
        · exact CursorOK_of_fields (Sv_IsActive r ind).2 _ rfl rfl rfl
            (CursorOK_Sv_IsActive r ind h)
      · exact h

theorem CursorOK_beforeScan (r : Registry) (h : CursorOK r) : CursorOK (beforeScan r) := by
  obtain ⟨h1, ⟨h2, h3⟩, ⟨h4, h5⟩, h6⟩ := h
  unfold beforeScan
  split
  · exact ⟨by show (-1 : Int) ≤ r.first_free_slot; omega,
      ⟨h2, by show r.crt_server_ind ≤ r.first_free_slot; omega⟩,
      ⟨h4, by show r.last_server_ind ≤ r.first_free_slot; omega⟩, h6⟩
  · exact ⟨h1, ⟨h2, h3⟩, ⟨h4, h5⟩, h6⟩

theorem CursorOK_allocServer (c : Config) (r : Registry) (address : Address)
    (addrlen : Nat) (addrmap : Option Addrmap) (h : CursorOK r) :
    CursorOK (allocServer c r address addrlen addrmap).2 := by
  have hq := CursorOK_scanFree c (c.max_nb_servers - (r.first_free_slot.toNat + 1))
    (r.first_free_slot.toNat + 1) (beforeScan r) (CursorOK_beforeScan r h)
  refine CursorOK_of_fields _ _ ?_ ?_ ?_ hq <;>
  · unfold allocServer
    dsimp only [finishServer, initStructure, Sv_AddToHashTable]
    split <;> rfl

theorem CursorOK_sweepIfFull (c : Config) (r : Registry) (h : CursorOK r) :
    CursorOK (sweepIfFull c r) := by
  unfold sweepIfFull
  split
  · exact CursorOK_checkLoop _ 0 r h
  · exact h

theorem CursorOK_Sv_GetByAddr (c : Config) (r : Registry) (address : Address)
    (addrlen : Nat) (add_it : Bool) (h : CursorOK r) :
    CursorOK (Sv_GetByAddr c r address addrlen add_it).2 := by
  have hi : CursorOK (Sv_GetByAddr_Internal c r address).2.2 :=
    CursorOK_walkChain address _ _ r 0 h
  rcases Sv_GetByAddr_cases c r address addrlen add_it with
    ⟨sv, _, e⟩ | ⟨_, _, e⟩ | ⟨_, _, _, _, _, e⟩ | ⟨_, _, _, _, _, e⟩
  · rw [e]; exact hi
  · rw [e]; exact hi
  · rw [e]; exact CursorOK_sweepIfFull c _ hi
  · rw [e]; exact CursorOK_allocServer c _ address addrlen _ (CursorOK_sweepIfFull c _ hi)

/-- The step `crt_server_ind = (crt_server_ind + 1) % (last_used_slot + 1)` of
`Sv_GetNext`, taken when the cursors differ: the modulus is not zero, the new
index is within `0 .. last_used_slot`, and one round less is left. -/
theorem next_cursor (r : Registry) (h : CursorOK r)
    (hne : r.crt_server_ind ≠ r.last_server_ind) :
    r.last_used_slot + 1 ≠ 0 ∧
    0 ≤ (r.crt_server_ind + 1) % (r.last_used_slot + 1) ∧
    (r.crt_server_ind + 1) % (r.last_used_slot + 1) ≤ r.last_used_slot ∧
    CursorOK { r with crt_server_ind := (r.crt_server_ind + 1) % (r.last_used_slot + 1) } ∧
    cursorDist { r with crt_server_ind := (r.crt_server_ind + 1) % (r.last_used_slot + 1) } + 1
      = cursorDist r := by
  obtain ⟨h1, ⟨h2, h3⟩, ⟨h4, h5⟩, h6⟩ := h
  have hm : (r.crt_server_ind + 1) % (r.last_used_slot + 1) =
      if r.crt_server_ind = r.last_used_slot then 0 else r.crt_server_ind + 1 := by
    split
    · next e => rw [e]; exact Int.emod_self
    · next e => exact Int.emod_eq_of_lt (by omega) (by omega)
  have hc0 : r.crt_server_ind ≠ -1 := fun e => hne (by rw [e, h6.1 e])
  have hl0 : r.last_server_ind ≠ -1 := fun e => hc0 (h6.2 e)
  unfold CursorOK cursorDist
  dsimp only
  rw [hm]
  refine ⟨by omega, ?_, ?_, ⟨h1, ⟨?_, ?_⟩, ⟨h4, h5⟩, ?_⟩, ?_⟩
  · split <;> omega
  · split <;> omega
  · split <;> omega
  · split <;> omega
  · constructor
    · intro e; split at e <;> omega
    · intro e; omega
  · split <;> split <;> split <;> omega

/-- The check of the slot `crt_server_ind` leaves no more rounds than there
were, also when it evicts the slot `last_used_slot`. -/
theorem cursorDist_Sv_IsActive (r : Registry) (h : CursorOK r) (h0 : 0 ≤ r.crt_server_ind) :
    cursorDist (Sv_IsActive r r.crt_server_ind.toNat).2 ≤ cursorDist r := by
  rcases Sv_IsActive_cases r r.crt_server_ind.toNat with ⟨_, e⟩ | ⟨_, _, e⟩ | ⟨_, _, e⟩
  · rw [e]
  · rw [e]
    obtain ⟨h1, ⟨h2, h3⟩, ⟨h4, h5⟩, h6⟩ := h
    have hi : ((r.crt_server_ind.toNat : Nat) : Int) = r.crt_server_ind :=
      Int.toNat_of_nonneg h0
    obtain ⟨e1, e2⟩ := cursors_Sv_Remove r r.crt_server_ind.toNat
    have g1 := last_used_slot_Sv_Remove_ge r r.crt_server_ind.toNat h1
    by_cases hL : r.last_used_slot = ((r.crt_server_ind.toNat : Nat) : Int)
    · have g2 := last_used_slot_Sv_Remove_lt r _ hL
      unfold cursorDist
      rw [e1, e2]
      generalize (Sv_Remove r r.crt_server_ind.toNat).last_used_slot = L1 at g1 g2
      have hl0 : r.last_server_ind ≠ -1 := fun e => by have := h6.2 e; omega
      split_ifs <;> omega
    · have g2 := last_used_slot_Sv_Remove_ne r _ hL
      unfold cursorDist
      rw [e1, e2, g2]
      split_ifs <;> omega
  · rw [e]

theorem cursorDist_nonneg (r : Registry) (h : CursorOK r) :
    0 ≤ cursorDist r ∧ cursorDist r ≤ r.last_used_slot + 1 := by
  obtain ⟨h1, ⟨h2, h3⟩, ⟨h4, h5⟩, h6⟩ := h
  unfold cursorDist
  split
  · omega
  · have : r.last_server_ind ≠ -1 := fun e => by have := h6.2 e; omega
    omega

theorem cursorDist_zero (r : Registry) (h : CursorOK r) (hd : cursorDist r ≤ 0) :
    r.crt_server_ind = r.last_server_ind := by
  obtain ⟨h1, ⟨h2, h3⟩, ⟨h4, h5⟩, h6⟩ := h
  unfold cursorDist at hd
  split at hd
  · omega
  · have : r.last_server_ind ≠ -1 := fun e => by have := h6.2 e; omega
    omega

theorem CursorOK_getNextLoop :
    ∀ (fuel : Nat) (r : Registry) (p : Option Nat × Registry), CursorOK r →
      getNextLoop fuel r = some p → CursorOK p.2 := by
  intro fuel
  induction fuel with
  | zero =>
    intro r p h hp
    unfold getNextLoop at hp
    split at hp
    · cases hp
    · cases hp; exact h
  | succ f ih =>
    intro r p h hp
    unfold getNextLoop at hp
    split at hp
    · next hne =>
      split at hp
      · cases hp
      · have h1 := CursorOK_Sv_IsActive _
          ((r.crt_server_ind + 1) % (r.last_used_slot + 1)).toNat (next_cursor r h hne).2.2.2.1
        dsimp only at hp
        split at hp
        · cases hp; exact h1
        · exact ih _ p h1 hp
    · cases hp; exact h

/-- The loop of `Sv_GetNext` ends, without a zero modulus, within the rounds
`cursorDist` counts. -/
theorem getNextLoop_total :
    ∀ (fuel : Nat) (r : Registry), CursorOK r → cursorDist r ≤ (fuel : Int) →
      ∃ p, getNextLoop fuel r = some p := by
  intro fuel
  induction fuel with
  | zero =>
    intro r h hd
    unfold getNextLoop
    rw [if_neg (not_not.2 (cursorDist_zero r h (by simpa using hd)))]
    exact ⟨_, rfl⟩
  | succ f ih =>
    intro r h hd
    unfold getNextLoop
    split
    · next hne =>
      obtain ⟨n1, n2, n3, n4, n5⟩ := next_cursor r h hne
      rw [if_neg n1]
      dsimp only
      split
      · exact ⟨_, rfl⟩
      · have hle := cursorDist_Sv_IsActive _ n4 n2
        dsimp only at hle
        refine ih _ (CursorOK_Sv_IsActive _ _ n4) ?_
        push_cast at hd
        omega
    · exact ⟨_, rfl⟩

/-- In each round of `Sv_GetNext` the modulus is not zero and the index
checked is within `0 .. last_used_slot`. -/
theorem getNextRounds_ok :
    ∀ (fuel : Nat) (r : Registry), CursorOK r →
      ∀ p ∈ getNextRounds fuel r,
        p.1 + 1 ≠ 0 ∧ ∃ i, p.2 = some i ∧ 0 ≤ i ∧ i ≤ p.1 := by
  intro fuel
  induction fuel with
  | zero => intro r _ p hp; simp [getNextRounds] at hp
  | succ f ih =>
    intro r h p hp
    unfold getNextRounds at hp
    split at hp
    · next hne =>
      obtain ⟨n1, n2, n3, n4, -⟩ := next_cursor r h hne
      rw [if_neg n1] at hp
      dsimp only at hp
      rcases List.mem_cons.1 hp with e | hp2
      · rw [e]
        exact ⟨n1, _, rfl, n2, n3⟩
      · split at hp2
        · cases hp2
        · exact ih _ (CursorOK_Sv_IsActive _ _ n4) p hp2
    · cases hp

/-- The state in which `Sv_GetFirst` runs its check. -/
theorem first_cursor (r : Registry) (rnd : Nat) (h : CursorOK r)
    (hL : r.last_used_slot + 1 ≠ 0) (last : Int)
    (hlast : last = if (rnd : Int) % (r.last_used_slot + 1) = 0 then r.last_used_slot
      else (rnd : Int) % (r.last_used_slot + 1) - 1) :
    0 ≤ (rnd : Int) % (r.last_used_slot + 1) ∧
    (rnd : Int) % (r.last_used_slot + 1) ≤ r.last_used_slot ∧
    CursorOK { r with
      crt_server_ind := (rnd : Int) % (r.last_used_slot + 1), last_server_ind := last } := by
  have h1 := h.1
  have g1 := Int.emod_nonneg (rnd : Int) hL
  have g2 := Int.emod_lt_of_pos (rnd : Int) (by omega : 0 < r.last_used_slot + 1)
  generalize (rnd : Int) % (r.last_used_slot + 1) = crt at hlast g1 g2
  unfold CursorOK
  dsimp only
  rw [hlast]
  refine ⟨g1, by omega, h1, ⟨by omega, by omega⟩, ?_, ?_⟩
  · split <;> omega
  · constructor
    · intro e; omega
    · intro e; split at e <;> omega

theorem CursorOK_Sv_GetFirst (c : Config) (r : Registry) (rnd : Nat)
    (p : Option Nat × Registry) (h : CursorOK r) (hp : Sv_GetFirst c r rnd = some p) :
    CursorOK p.2 := by
  unfold Sv_GetFirst at hp
  split at hp
  · cases hp; exact h
  · split at hp
    · cases hp
    · next hL =>
      dsimp only at hp
      obtain ⟨-, -, h0⟩ := first_cursor r rnd h hL _ rfl
      generalize (if (rnd : Int) % (r.last_used_slot + 1) = 0 then r.last_used_slot
          else (rnd : Int) % (r.last_used_slot + 1) - 1) = last at hp h0
      have h1 := CursorOK_Sv_IsActive _ ((rnd : Int) % (r.last_used_slot + 1)).toNat h0
      split at hp
      · cases hp; exact h1
      · exact CursorOK_getNextLoop _ _ p h1 hp

theorem CursorOK_setTimeout (r : Registry) (i t : Nat) (h : CursorOK r) :
    CursorOK (setTimeout r i t) := by
  unfold setTimeout
  split
  · exact CursorOK_of_fields r _ rfl rfl rfl h
  · exact h

theorem CursorOK_step (c : Config) (r q : Registry) (op : Op) (h : CursorOK r)
    (hs : step c r op = some q) : CursorOK q := by
  cases op with
  | getByAddr address addrlen add_it =>
    simp only [step, Option.some.injEq] at hs
    rw [← hs]; exact CursorOK_Sv_GetByAddr c r address addrlen add_it h
  | advanceClock dt =>
    simp only [step, Option.some.injEq] at hs
    rw [← hs]; exact CursorOK_of_fields r _ rfl rfl rfl h
  | setTimeout i t =>
    simp only [step, Option.some.injEq] at hs
    rw [← hs]; exact CursorOK_setTimeout r i t h
  | getFirst rnd =>
    simp only [step, Option.map_eq_some'] at hs
    obtain ⟨p, hp, e⟩ := hs
    rw [← e]; exact CursorOK_Sv_GetFirst c r rnd p h hp
  | getNext =>
    simp only [step, Option.map_eq_some'] at hs
    obtain ⟨p, hp, e⟩ := hs
    rw [← e]; exact CursorOK_getNextLoop _ r p h hp
  | writeInfo =>
    simp only [step, Option.some.injEq] at hs
    rw [← hs]; exact CursorOK_writeInfoLoop _ 0 r h

theorem CursorOK_run (c : Config) :
    ∀ (ops : List Op) (r q : Registry), CursorOK r → run c ops r = some q → CursorOK q := by
  intro ops
  induction ops with
  | nil =>
    intro r q h hr
    simp only [run, Option.some.injEq] at hr
    rw [← hr]; exact h
  | cons op ops ih =>
    intro r q h hr
    simp only [run, Option.bind_eq_some] at hr
    obtain ⟨m, hm, hr2⟩ := hr
    exact ih m q (CursorOK_step c r m op h hm) hr2

theorem CursorOK_Sv_Init (c : Config) : CursorOK (Sv_Init c) := by
  unfold CursorOK Sv_Init
  simp

theorem CursorOK_reachable (c : Config) (ops : List Op) (r : Registry)
    (h : run c ops (Sv_Init c) = some r) : CursorOK r :=
  CursorOK_run c ops (Sv_Init c) r (CursorOK_Sv_Init c) h

/-- A call of `Sv_GetNext` returns: no zero modulus, and the rounds allowed are
enough. -/
theorem Sv_GetNext_total (c : Config) (r : Registry) (h : CursorOK r) (hj : LastSlotOK c r) :
    ∃ p, Sv_GetNext c r = some p := by
  refine getNextLoop_total _ r h ?_
  have h1 := (cursorDist_nonneg r h).2
  have h2 := hj.1
  push_cast
  omega

/-- The draw of `Sv_GetFirst` and the rounds that follow it: each index checked
is within `0 .. last_used_slot`, and after the draw no modulus is zero. -/
theorem getFirstRounds_ok (c : Config) (r : Registry) (rnd : Nat) (h : CursorOK r) :
    (∀ p ∈ getFirstRounds c r rnd, ∀ i, p.2 = some i → 0 ≤ i ∧ i ≤ p.1) ∧
    (∀ p ∈ (getFirstRounds c r rnd).tail, p.1 + 1 ≠ 0) := by
  unfold getFirstRounds
  split
  · exact ⟨fun p hp => (by cases hp), fun p hp => (by cases hp)⟩
  · split
    · refine ⟨fun p hp i hi => ?_, fun p hp => (by cases hp)⟩
      rw [List.mem_singleton] at hp
      rw [hp] at hi
      cases hi
    · next hL =>
      dsimp only
      obtain ⟨f1, f2, h0⟩ := first_cursor r rnd h hL _ rfl
      generalize (if (rnd : Int) % (r.last_used_slot + 1) = 0 then r.last_used_slot
          else (rnd : Int) % (r.last_used_slot + 1) - 1) = last at h0
      have h1 := CursorOK_Sv_IsActive _ ((rnd : Int) % (r.last_used_slot + 1)).toNat h0
      have hn := getNextRounds_ok (c.max_nb_servers + 1) _ h1
      refine ⟨fun p hp i hi => ?_, fun p hp => ?_⟩
      · rcases List.mem_cons.1 hp with e | hp2
        · rw [e] at hi ⊢
          cases hi
          exact ⟨f1, f2⟩
        · split at hp2
          · cases hp2
          · obtain ⟨-, j, e1, e2, e3⟩ := hn p hp2
            rw [e1] at hi
            cases hi
            exact ⟨e2, e3⟩
      · rw [List.tail_cons] at hp
        split at hp
        · cases hp
        · exact (hn p hp).1

/-- A call of `Sv_GetFirst` whose draw has a modulus that is not zero returns. -/
theorem Sv_GetFirst_total (c : Config) (hc : c.ok) (r : Registry) (rnd : Nat) (h : CursorOK r)
    (hj : LastSlotOK c r) (hL : r.nb_servers = 0 ∨ r.last_used_slot + 1 ≠ 0) :
    ∃ p, Sv_GetFirst c r rnd = some p := by
  unfold Sv_GetFirst
  split
  · exact ⟨_, rfl⟩
  · next hnb =>
    have hL : r.last_used_slot + 1 ≠ 0 := hL.resolve_left hnb
    rw [if_neg hL]
    dsimp only
    obtain ⟨-, -, h0⟩ := first_cursor r rnd h hL _ rfl
    generalize (if (rnd : Int) % (r.last_used_slot + 1) = 0 then r.last_used_slot
        else (rnd : Int) % (r.last_used_slot + 1) - 1) = last at h0
    have j0 : LastSlotOK c
        { r with
          crt_server_ind := (rnd : Int) % (r.last_used_slot + 1), last_server_ind := last } :=
      LastSlotOK_of_fields c r _ rfl rfl hj
    split
    · exact ⟨_, rfl⟩
    · exact Sv_GetNext_total c _ (CursorOK_Sv_IsActive _ _ h0)
        (LastSlotOK_Sv_IsActive c hc _ _ j0)

/-- C33: in every state reached by registry operations `crt_server_ind` and
`last_server_ind` are at most `last_used_slot`, and stay so through `Sv_Remove`,
which clamps both; every index `Sv_GetNext` or `Sv_GetFirst` gives to the
activity check lies in `0 .. last_used_slot`; the modulus `last_used_slot + 1`
of `Sv_GetNext` is never zero (also in the rounds run from `Sv_GetFirst`), and
`Sv_GetNext` returns within the rounds allowed, as `Sv_GetFirst` does when its
own draw has a modulus that is not zero. -/
theorem cursors_within_last_used_slot (c : Config) (ops : List Op) (r : Registry) (hc : c.ok)
    (h : run c ops (Sv_Init c) = some r) :
    (r.crt_server_ind ≤ r.last_used_slot ∧ r.last_server_ind ≤ r.last_used_slot) ∧
    (∀ i, (Sv_Remove r i).crt_server_ind ≤ (Sv_Remove r i).last_used_slot ∧
      (Sv_Remove r i).last_server_ind ≤ (Sv_Remove r i).last_used_slot) ∧
    (∀ p ∈ getNextRounds (c.max_nb_servers + 1) r,
      p.1 + 1 ≠ 0 ∧ ∃ i, p.2 = some i ∧ 0 ≤ i ∧ i ≤ p.1) ∧
    (∃ res, Sv_GetNext c r = some res) ∧
    (∀ rnd,
      (∀ p ∈ getFirstRounds c r rnd, ∀ i, p.2 = some i → 0 ≤ i ∧ i ≤ p.1) ∧
      (∀ p ∈ (getFirstRounds c r rnd).tail, p.1 + 1 ≠ 0) ∧
      (r.nb_servers = 0 ∨ r.last_used_slot + 1 ≠ 0 → ∃ res, Sv_GetFirst c r rnd = some res)) := by
  have hk := CursorOK_reachable c ops r h
  have hj := LastSlotOK_reachable c hc ops r h
  have hrm := fun i => CursorOK_Sv_Remove r i hk
  refine ⟨⟨hk.2.1.2, hk.2.2.1.2⟩, fun i => ⟨(hrm i).2.1.2, (hrm i).2.2.1.2⟩,
    getNextRounds_ok _ r hk, Sv_GetNext_total c r hk hj, fun rnd => ?_⟩
  exact ⟨(getFirstRounds_ok c r rnd hk).1, (getFirstRounds_ok c r rnd hk).2,
    Sv_GetFirst_total c hc r rnd hk hj⟩

theorem cursors_within_last_used_slot_witness :
    run baseConfig cursorOps (Sv_Init baseConfig) = some cursorState ∧
    (cursorState.crt_server_ind, cursorState.last_server_ind, cursorState.last_used_slot)
      = (1, 0, 2) ∧
    getNextRounds (baseConfig.max_nb_servers + 1) cursorState = [(2, some 2)] ∧
    (cursorState.crt_server_ind ≤ cursorState.last_used_slot ∧
      cursorState.last_server_ind ≤ cursorState.last_used_slot) ∧
    (∀ p ∈ getNextRounds (baseConfig.max_nb_servers + 1) cursorState,
      p.1 + 1 ≠ 0 ∧ ∃ i, p.2 = some i ∧ 0 ≤ i ∧ i ≤ p.1) :=
  ⟨by decide, by decide, by decide,
    (cursors_within_last_used_slot baseConfig cursorOps cursorState ⟨by decide, by decide⟩
      (by decide)).1,
    (cursors_within_last_used_slot baseConfig cursorOps cursorState ⟨by decide, by decide⟩
      (by decide)).2.2.1⟩

/-- The loop of `remove_colors` ends within the rounds allowed, `len` being the
length of the string all along. -/
theorem removeColorsLoop_total :
    ∀ (fuel i : Nat) (str : List Nat), str.length < 4294967296 → str.length ≤ i + fuel →
      ∃ out, removeColorsLoop fuel i str.length str = some out := by
  intro fuel
  induction fuel with
  | zero =>
    intro i str _ hf
    unfold removeColorsLoop
    rw [if_neg (by omega)]
    exact ⟨_, rfl⟩
  | succ f ih =>
    intro i str hlen hf
    unfold removeColorsLoop
    split
    · next hi =>
      have hi1 : (i + 1) % 4294967296 = i + 1 := Nat.mod_eq_of_lt (by omega)
      rw [hi1]
      split
      · next hcode =>
        have h1 : i + 1 < str.length := by
          by_contra hge
          have : str.getD (i + 1) 0 = 0 := by
            rw [List.getD_eq_getElem?_getD, List.getElem?_eq_none (by omega)]
            rfl
          omega
        have hl : (str.take i ++ str.drop (i + 2)).length = str.length - 2 := by
          rw [List.length_append, List.length_take, List.length_drop]
          omega
        have hm : (str.length + 4294967294) % 4294967296 = str.length - 2 := by omega
        rw [hm, ← hl]
        exact ih (i + 1) _ (by omega) (by omega)
      · exact ih (i + 1) str hlen (by omega)
    · exact ⟨_, rfl⟩

/-- The function `remove_colors` returns. -/
theorem remove_colors_total (str : List Nat) (hlen : str.length < 4294967296) :
    ∃ out, remove_colors str = some out := by
  unfold remove_colors
  rw [Nat.mod_eq_of_lt hlen]
  exact removeColorsLoop_total _ 0 str hlen (by omega)

/-! ## Stored addresses -/

/-- The hash of a stored address is the hash of the fields the registry works
with. -/
theorem Sockaddr_hash_address (c : Config) (a : Sockaddr) :
    Sockaddr.Sv_AddressHash c a = Sv_AddressHash c a.address := by
  cases a <;> rfl

/-- The comparison of two stored addresses is the comparison of the fields the
registry works with. -/
theorem Sockaddr_same_address (a b : Sockaddr) :
    Sockaddr.IsSameAddress a b = IsSameAddress a.address b.address := by
  cases a <;> cases b <;> rfl

/-- C29: for every two stored addresses of the same family and every
`hash_size` and `hash_ports` setting: when the comparison of the two answers
that they are the same, they have the same hash, whatever the fields the
comparison does not look at (`sin_zero`, `sin6_flowinfo`, the bytes after the
structure). -/
theorem exact_match_same_hash (c : Config) (a b : Sockaddr) (hfam : a.isIPv6 = b.isIPv6)
    (h : (Sockaddr.IsSameAddress a b).1 = true) :
    Sockaddr.Sv_AddressHash c a = Sockaddr.Sv_AddressHash c b := by
  cases a <;> cases b <;>
    simp [Sockaddr.IsSameAddress, Sockaddr.isIPv6, Sockaddr.Sv_SameIPv4Addr,
      Sockaddr.Sv_SameIPv6Addr] at h hfam ⊢
  · split at h
    · next e => simp at h; simp [Sockaddr.Sv_AddressHash, e, h]
    · simp at h
  · split at h
    · next e => simp at h; simp [Sockaddr.Sv_AddressHash, e.1, e.2, h.2.1]
    · simp at h

theorem exact_match_same_hash_witness :
    storedV6 ≠ storedV6Flow ∧
    (Sockaddr.IsSameAddress storedV6 storedV6Flow).1 = true ∧
    Sockaddr.Sv_AddressHash portsConfig storedV6 =
      Sockaddr.Sv_AddressHash portsConfig storedV6Flow ∧
    storedV4 ≠ storedV4Dirty ∧
    Sockaddr.Sv_AddressHash baseConfig storedV4 =
      Sockaddr.Sv_AddressHash baseConfig storedV4Dirty :=
  ⟨by decide, by decide,
    exact_match_same_hash portsConfig storedV6 storedV6Flow rfl (by decide), by decide,
    exact_match_same_hash baseConfig storedV4 storedV4Dirty rfl (by decide)⟩

/-! ## The empty set of games -/

/-- When every call carries a policy word of the mode `mode`, the mode of the
last valid word is `mode` (`start` when there is no call). -/
theorem lastWord_same_mode (mode : Bool) :
    ∀ (calls : List DeclareCall) (start : Bool),
      (∀ call ∈ calls, wordMode call.policy = some mode) →
      lastWord start calls = if calls.isEmpty then start else mode := by
  intro calls
  induction calls with
  | nil => intro start _; rfl
  | cons call rest ih =>
    intro start h
    have hc := h call (List.mem_cons_self _ _)
    have hin : (if strcmp call.policy acceptWord = 0 then false
        else if strcmp call.policy rejectWord = 0 then true else start) = mode := by
      unfold wordMode at hc
      split at hc
      · next e => rw [if_pos e]; exact Option.some.inj hc
      · next e =>
        rw [if_neg e]
        split at hc
        · next e2 => rw [if_pos e2]; exact Option.some.inj hc
        · cases hc
    rw [lastWord, hin, ih mode (fun x hx => h x (List.mem_cons_of_mem _ hx))]
    cases rest <;> rfl

/-- C23, amended: in the initial state `Game_IsAccepted (g)` is true for every
name `g`; after any sequence of `Game_DeclarePolicy` calls (carrying at most
`2 ^ 30` names) that all have the same valid policy word and leave the array of
game names empty, `Game_IsAccepted (g)` is, for every name `g`, true when the
word is `reject` and false when the word is `accept`. -/
theorem empty_set_follows_mode (calls : List DeclareCall) (mode : Bool)
    (hb : totalGames calls ≤ 2 ^ 30)
    (hmode : ∀ call ∈ calls, wordMode call.policy = some mode) :
    (∀ g, Game_IsAccepted Games.initial g = some true) ∧
    ∃ (sts : List cmdline_status_t) (s : Games),
      declareRun calls Games.initial = some (sts, s) ∧
      (s.names = [] → ∀ g, Game_IsAccepted s g = some (calls.isEmpty || mode)) := by
  obtain ⟨sts, s, e1, e2, e3, _, e5⟩ := declareRun_spec calls Games.initial GamesOK_initial
    (by show 0 + totalGames calls ≤ 2 ^ 30; omega)
  have hlen : s.names.length ≤ 2 ^ 30 := by
    have : Games.initial.names.length = 0 := rfl
    omega
  refine ⟨fun g => rfl, sts, s, e1, fun hnil g => ?_⟩
  have hflag : s.reject_when_known = (calls.isEmpty || mode) := by
    rw [e5 hnil, lastWord_same_mode mode calls _ hmode]
    cases calls <;> rfl
  rw [Game_IsAccepted_spec s g e2 hlen, hnil, hflag]
  simp

theorem empty_set_follows_mode_witness :
    totalGames [rejectCall [], rejectCall []] ≤ 2 ^ 30 ∧
    (∀ call ∈ [rejectCall [], rejectCall []], wordMode call.policy = some true) ∧
    (declareRun [rejectCall [], rejectCall []] Games.initial).map (fun p => p.2.names)
      = some [] ∧
    ((∀ g, Game_IsAccepted Games.initial g = some true) ∧
      ∃ (sts : List cmdline_status_t) (s : Games),
        declareRun [rejectCall [], rejectCall []] Games.initial = some (sts, s) ∧
        (s.names = [] →
          ∀ g, Game_IsAccepted s g =
            some ([rejectCall [], rejectCall []].isEmpty || true))) :=
  ⟨by decide, by decide, by decide,
    empty_set_follows_mode [rejectCall [], rejectCall []] true (by decide) (by decide)⟩

/-! ## The info file: what `Sv_WriteInfo` leaves -/

theorem expired_Sv_Remove_other (r : Registry) (i j : Nat) (h : j ≠ i) :
    (Sv_Remove r i).expired j = r.expired j := by
  unfold Registry.expired
  rw [usedSlot_Sv_Remove_other r i j h, slot_Sv_Remove_other r i j h, crt_time_Sv_Remove]

/-- The loop of `Sv_WriteInfo` from slot `ind` on leaves the state that the
calls of `Sv_Remove` on the timed-out records of the slots `ind ..
last_used_slot`, in increasing order, leave. -/
theorem writeInfoLoop_fold :
    ∀ (fuel ind : Nat) (r : Registry), (r.last_used_slot + 1 - (ind : Int)).toNat ≤ fuel →
      (writeInfoLoop fuel ind r).2 =
        ((List.range' ind (r.last_used_slot + 1 - (ind : Int)).toNat).filter r.expired).foldl
          Sv_Remove r := by
  intro fuel
  induction fuel with
  | zero =>
    intro ind r h
    have h0 : (r.last_used_slot + 1 - (ind : Int)).toNat = 0 := by omega
    rw [h0]
    rfl
  | succ f ih =>
    intro ind r h
    unfold writeInfoLoop
    split
    · next hle =>
      have hn : (r.last_used_slot + 1 - (ind : Int)).toNat =
          (r.last_used_slot + 1 - ((ind + 1 : Nat) : Int)).toNat + 1 := by
        push_cast; omega
      have hres : ∀ q : Registry, Sv_IsActive r ind = (false, q) ∨ Sv_IsActive r ind = (true, q) →
          (let act := Sv_IsActive r ind
            let tl := writeInfoLoop f (ind + 1) act.2
            if act.1 = true then (ind :: tl.1, tl.2) else tl).2 =
          (writeInfoLoop f (ind + 1) q).2 := by
        intro q hq
        rcases hq with e | e <;> rw [e] <;> rfl
      rw [hn, List.range'_succ, List.filter_cons]
      rcases Sv_IsActive_cases r ind with ⟨hu, e⟩ | ⟨hu, ht, e⟩ | ⟨hu, ht, e⟩
      · have hx : r.expired ind = false := by
          rw [expired_false_iff]; intro hu2; rw [hu] at hu2; cases hu2
        rw [hres r (Or.inl e), hx, ih (ind + 1) r (by omega)]
        rfl
      · have hx : r.expired ind = true := (expired_iff r ind).2 ⟨hu, ht⟩
        rw [hres _ (Or.inl e), hx, if_pos rfl, List.foldl_cons]
        by_cases hL : r.last_used_slot = (ind : Int)
        · have hlt := last_used_slot_Sv_Remove_lt r ind hL
          have z1 : (r.last_used_slot + 1 - ((ind + 1 : Nat) : Int)).toNat = 0 := by
            push_cast; omega
          have z2 : ((Sv_Remove r ind).last_used_slot + 1 - ((ind + 1 : Nat) : Int)).toNat
              = 0 := by
            push_cast; omega
          rw [ih (ind + 1) _ (by omega), z1, z2]
          rfl
        · have hsame := last_used_slot_Sv_Remove_ne r ind hL
          rw [ih (ind + 1) _ (by rw [hsame]; omega), hsame]
          congr 1
          refine List.filter_congr (fun j hj => ?_)
          have := (List.mem_range'_1.1 hj).1
          exact expired_Sv_Remove_other r ind j (by omega)
      · have hx : r.expired ind = false := by
          rw [expired_false_iff]; intro _; exact ht
        rw [hres r (Or.inr e), hx, ih (ind + 1) r (by omega)]
        rfl
    · next hle =>
      have h0 : (r.last_used_slot + 1 - (ind : Int)).toNat = 0 := by omega
      rw [h0]
      rfl

/-- The state `Sv_WriteInfo` leaves is the one left by `Sv_Remove` called on
each timed-out record of the slots `0 .. last_used_slot`, in increasing order. -/
theorem Sv_WriteInfo_fold (r : Registry) :
    (Sv_WriteInfo r).2 = (expiredSlots r).foldl Sv_Remove r := by
  unfold Sv_WriteInfo expiredSlots
  rw [writeInfoLoop_fold _ 0 r (by simp), List.range_eq_range']
  simp

/-- Through calls of `Sv_Remove`, `last_used_slot` does not grow and the two
cursors are clamped to its last value. -/
theorem fold_Sv_Remove_cursors :
    ∀ (l : List Nat) (r : Registry), CursorOK r →
      CursorOK (l.foldl Sv_Remove r) ∧
      (l.foldl Sv_Remove r).last_used_slot ≤ r.last_used_slot ∧
      (l.foldl Sv_Remove r).crt_server_ind =
        (if r.crt_server_ind > (l.foldl Sv_Remove r).last_used_slot then
          (l.foldl Sv_Remove r).last_used_slot else r.crt_server_ind) ∧
      (l.foldl Sv_Remove r).last_server_ind =
        (if r.last_server_ind > (l.foldl Sv_Remove r).last_used_slot then
          (l.foldl Sv_Remove r).last_used_slot else r.last_server_ind) := by
  intro l
  induction l with
  | nil =>
    intro r h
    obtain ⟨h1, ⟨h2, h3⟩, ⟨h4, h5⟩, h6⟩ := h
    refine ⟨⟨h1, ⟨h2, h3⟩, ⟨h4, h5⟩, h6⟩, le_refl _, ?_, ?_⟩
    · show r.crt_server_ind = _
      rw [if_neg (by show ¬ r.crt_server_ind > r.last_used_slot; omega)]
    · show r.last_server_ind = _
      rw [if_neg (by show ¬ r.last_server_ind > r.last_used_slot; omega)]
  | cons i rest ih =>
    intro r h
    obtain ⟨k1, k2, k3, k4⟩ := ih (Sv_Remove r i) (CursorOK_Sv_Remove r i h)
    obtain ⟨e1, e2⟩ := cursors_Sv_Remove r i
    have hle := last_used_slot_Sv_Remove_le r i
    rw [List.foldl_cons]
    refine ⟨k1, le_trans k2 hle, ?_, ?_⟩
    · rw [k3, e1]
      split_ifs <;> omega
    · rw [k4, e2]
      split_ifs <;> omega

/-- Calls of `Sv_Remove` on slots other than `last_used_slot` leave it as it
is. -/
theorem fold_Sv_Remove_last_same :
    ∀ (l : List Nat) (r : Registry), (∀ i ∈ l, r.last_used_slot ≠ (i : Int)) →
      (l.foldl Sv_Remove r).last_used_slot = r.last_used_slot := by
  intro l
  induction l with
  | nil => intro r _; rfl
  | cons i rest ih =>
    intro r h
    have hs := last_used_slot_Sv_Remove_ne r i (h i (List.mem_cons_self _ _))
    rw [List.foldl_cons, ih _ (fun j hj => by
      rw [hs]; exact h j (List.mem_cons_of_mem _ hj)), hs]

theorem fold_Sv_Remove_last_le :
    ∀ (l : List Nat) (r : Registry),
      (l.foldl Sv_Remove r).last_used_slot ≤ r.last_used_slot := by
  intro l
  induction l with
  | nil => intro r; exact le_refl _
  | cons i rest ih =>
    intro r
    rw [List.foldl_cons]
    exact le_trans (ih _) (last_used_slot_Sv_Remove_le r i)

/-- A call of `Sv_Remove` on the slot `last_used_slot` among the calls makes
`last_used_slot` smaller. -/
theorem fold_Sv_Remove_last_lt :
    ∀ (l : List Nat) (r : Registry), (∃ i ∈ l, r.last_used_slot = (i : Int)) →
      (l.foldl Sv_Remove r).last_used_slot < r.last_used_slot := by
  intro l
  induction l with
  | nil => intro r h; obtain ⟨i, hi, _⟩ := h; cases hi
  | cons i rest ih =>
    intro r h
    rw [List.foldl_cons]
    by_cases hL : r.last_used_slot = (i : Int)
    · have h1 := last_used_slot_Sv_Remove_lt r i hL
      have h2 := fold_Sv_Remove_last_le rest (Sv_Remove r i)
      omega
    · obtain ⟨j, hj, ej⟩ := h
      have hs := last_used_slot_Sv_Remove_ne r i hL
      rcases List.mem_cons.1 hj with e | hj2
      · rw [e] at ej; exact absurd ej hL
      · have := ih (Sv_Remove r i) ⟨j, hj2, by rw [hs]; exact ej⟩
        rw [hs] at this
        exact this

theorem mem_expiredSlots (r : Registry) (i : Nat) :
    i ∈ expiredSlots r ↔ (i : Int) ≤ r.last_used_slot ∧ r.expired i = true := by
  unfold expiredSlots
  rw [List.mem_filter, List.mem_range]
  constructor
  · rintro ⟨h1, h2⟩; exact ⟨by omega, h2⟩
  · rintro ⟨h1, h2⟩; exact ⟨by omega, h2⟩

/-- C16, amended: in a state reached by registry operations, `Sv_WriteInfo`
leaves the state as it is when no record in the slots `0 .. last_used_slot` has
timed out; otherwise its only changes to the records and the chains are
evictions of timed-out records, each one as by `Sv_Remove`: the state left is
the one left by `Sv_Remove` called on each timed-out record of the slots
`0 .. last_used_slot` in increasing order.  So `nb_servers` stays the number of
used slots and `first_free_slot` the lowest unused slot; `last_used_slot` is
unchanged unless the record of that slot is evicted, and is smaller then; and
each cursor is unchanged when it is at most the new `last_used_slot`, and equal
to it otherwise. -/
theorem Sv_WriteInfo_only_evicts (c : Config) (ops : List Op) (r : Registry) (hc : c.ok)
    (h : run c ops (Sv_Init c) = some r) :
    ((∀ j : Nat, (j : Int) ≤ r.last_used_slot → r.expired j = false) → (Sv_WriteInfo r).2 = r) ∧
    EvictedOnly r (Sv_WriteInfo r).2 ∧
    (Sv_WriteInfo r).2.nb_servers = countUsed (Sv_WriteInfo r).2.servers ∧
    FirstFreeOK (Sv_WriteInfo r).2.servers (Sv_WriteInfo r).2.first_free_slot ∧
    (Sv_WriteInfo r).2 = (expiredSlots r).foldl Sv_Remove r ∧
    ((∀ i : Nat, (i : Int) = r.last_used_slot → r.expired i = false) →
      (Sv_WriteInfo r).2.last_used_slot = r.last_used_slot) ∧
    ((∃ i : Nat, (i : Int) = r.last_used_slot ∧ r.expired i = true) →
      -1 ≤ (Sv_WriteInfo r).2.last_used_slot ∧
      (Sv_WriteInfo r).2.last_used_slot < r.last_used_slot) ∧
    (Sv_WriteInfo r).2.crt_server_ind =
      (if r.crt_server_ind > (Sv_WriteInfo r).2.last_used_slot then
        (Sv_WriteInfo r).2.last_used_slot else r.crt_server_ind) ∧
    (Sv_WriteInfo r).2.last_server_ind =
      (if r.last_server_ind > (Sv_WriteInfo r).2.last_used_slot then
        (Sv_WriteInfo r).2.last_used_slot else r.last_server_ind) := by
  have hinv := Inv_reachable c hc ops r h
  have he := Evolves_Sv_WriteInfo c hc r hinv.1
  have hk := CursorOK_reachable c ops r h
  have hf := Sv_WriteInfo_fold r
  obtain ⟨k1, -, k3, k4⟩ := fold_Sv_Remove_cursors (expiredSlots r) r hk
  rw [← hf] at k1 k3 k4
  refine ⟨fun hx => writeInfoLoop_of_no_expired _ 0 r hx,
    EvictedOnly_writeInfoLoop c hc _ 0 r hinv.1, he.1.2.1, he.2.2 hinv.2.1, hf, ?_, ?_, k3, k4⟩
  · intro hx
    rw [hf]
    refine fold_Sv_Remove_last_same _ r (fun i hi e => ?_)
    have h2 := ((mem_expiredSlots r i).1 hi).2
    rw [hx i e.symm] at h2
    cases h2
  · rintro ⟨i, e, hx⟩
    refine ⟨k1.1, ?_⟩
    rw [hf]
    exact fold_Sv_Remove_last_lt _ r ⟨i, (mem_expiredSlots r i).2 ⟨by omega, hx⟩, e.symm⟩

theorem Sv_WriteInfo_only_evicts_witness :
    run baseConfig bothExpiredOps (Sv_Init baseConfig) = some bothExpiredState ∧
    expiredSlots bothExpiredState = [0, 1] ∧
    (bothExpiredState.crt_server_ind, bothExpiredState.last_server_ind,
      bothExpiredState.last_used_slot) = (1, 0, 1) ∧
    ((Sv_WriteInfo bothExpiredState).2.crt_server_ind,
      (Sv_WriteInfo bothExpiredState).2.last_server_ind,
      (Sv_WriteInfo bothExpiredState).2.last_used_slot) = (-1, -1, -1) ∧
    (Sv_WriteInfo bothExpiredState).2 =
      (expiredSlots bothExpiredState).foldl Sv_Remove bothExpiredState :=
  ⟨by decide, by decide, by decide, by decide,
    (Sv_WriteInfo_only_evicts baseConfig bothExpiredOps bothExpiredState
      ⟨by decide, by decide⟩ (by decide)).2.2.2.2.1⟩

end Dpmaster
